import Mathlib

/-!
# Yield-curve bootstrapping: a shallow embedding

The C++ sources under `yield_curve_bootstrapping/` are embedded as Lean functions in the
namespace `yield_curve`; the pricing functions of `implied_volatility_solver/` that the
put-call parity check uses are embedded in the namespace `implied_vol`.

Modelling conventions.

* `double` is modelled by an arbitrary linearly ordered field `α` with a floor function
  (`ℚ` for evaluation, `ℝ` for statements about `exp` and `log`).  Arithmetic is exact:
  there is no rounding, no infinity and no NaN.  `x / 0` is `0` as in every Mathlib field,
  where IEEE arithmetic gives an infinity or a NaN.  `1.0 / payment_frequency` is guarded
  explicitly for `payment_frequency = 0`.  Other divisors vanish only on degenerate
  data (two equal knot times, a power that is zero); a theorem whose result depends on
  such a quotient carries a hypothesis that excludes it.
* Where an overflow of `std::pow` or `std::exp` decides what the code returns, the code is
  embedded a second time, in the namespace `yield_curve.ieee`, on the type `Double α`: the
  numbers of `α` together with `+∞`, `-∞` and NaN.  An operation whose exact result lies
  beyond `DBL_MAX` returns an infinity, and the infinities and NaN propagate as in
  IEEE 754; rounding, underflow and the sign of zero are not modelled.
* `int` is modelled by `Int`; where the 32-bit range matters it is a hypothesis.
* `std::exp`, `std::log` and `std::pow` are the fields of a `Libm α` record that every
  function using them receives as an argument.
* `std::vector<double>` is `List α`.  An out-of-range access (`v[i]`, `front()`, `back()`)
  is undefined behaviour in C++; the embedding reports it as `Exn.undefined_behavior`.
* A C++ exception is the `Except.error` outcome, tagged with the exception class and
  its message.  A loop that never exits is reported as `Exn.diverges`.
* A mutator whose outcome and effect on the object are both of interest (`CubicSpline::fit`,
  `YieldCurve::add_point`, `YieldCurve::apply_cubic_spline_smoothing`) returns the pair of
  its outcome and the object afterwards, so that a store made before a `throw` is visible.
  `size_t` arithmetic wraps modulo `2^64`; theorems about index computations assume fewer
  than `2^64` elements.
* `std::sort` is modelled by insertion sort on `maturity ≤ maturity`, one of the
  orders `std::sort` may produce; `std::lower_bound` by the length of the longest
  run of leading elements below the searched value.
-/

namespace yield_curve

/-- The four compounding conventions of `bond_types.hpp`. -/
inductive CompoundingType
  | CONTINUOUS
  | ANNUAL
  | SEMI_ANNUAL
  | QUARTERLY
  deriving DecidableEq, Repr

/-- The three interpolation strategies of `interpolation.hpp`. -/
inductive InterpolationType
  | LINEAR
  | LOG_LINEAR
  | FLAT_FORWARD
  deriving DecidableEq, Repr

/-- Abnormal outcomes: the two exception classes thrown by the sources (with their
message), undefined behaviour of the C++ abstract machine, and divergence. -/
inductive Exn
  | invalid_argument (what : String)
  | runtime_error (what : String)
  | undefined_behavior
  | diverges
  deriving DecidableEq, Repr

/-- The `<cmath>` functions used by the sources. -/
structure Libm (α : Type) where
  exp : α → α
  log : α → α
  pow : α → α → α

/-- The record `struct BondData` of `bond_types.hpp`. -/
structure BondData (α : Type) where
  maturity : α
  coupon_rate : α
  payment_frequency : Int
  market_price : α
  face_value : α

section vectors

variable {α : Type}

/-- Element access `v[i]` on a `std::vector`: undefined behaviour when `i` is out of range. -/
def vec_at (v : List α) (i : Nat) : Except Exn α :=
  match v[i]? with
  | some x => Except.ok x
  | none => Except.error Exn.undefined_behavior

/-- First element `v.front()`: undefined behaviour on an empty vector. -/
def vec_front (v : List α) : Except Exn α :=
  match v.head? with
  | some x => Except.ok x
  | none => Except.error Exn.undefined_behavior

/-- Last element `v.back()`: undefined behaviour on an empty vector. -/
def vec_back (v : List α) : Except Exn α :=
  match v.getLast? with
  | some x => Except.ok x
  | none => Except.error Exn.undefined_behavior

end vectors

section bond

variable {α : Type} [LinearOrderedField α] [FloorRing α]

/-- The loop of `BondData::get_payment_times`:
`for (double t = dt; t <= maturity + 1e-10; t += dt) times.push_back(t);`
run for at most `fuel` tests of the loop condition; `none` when the fuel is used up
before the condition fails. -/
def get_payment_times_loop (maturity dt : α) : Nat → α → List α → Option (List α)
  | 0, _, _ => none
  | fuel + 1, t, times =>
    if t ≤ maturity + 1e-10 then
      get_payment_times_loop maturity dt fuel (t + dt) (times ++ [t])
    else
      some times

/-- A bound on the number of loop tests `get_payment_times` makes when
`payment_frequency > 0`. -/
def payment_fuel (b : BondData α) : Nat :=
  ⌊(b.maturity + 1e-10) * (b.payment_frequency : α)⌋₊ + 1

/-- Embedding of `BondData::get_payment_times`.  `none` means that the loop never exits
(`payment_frequency < 0` with a maturity at or above `dt`).  For `payment_frequency = 0`
the C++ `dt` is `+inf` and the loop body never runs. -/
def BondData.get_payment_times (b : BondData α) : Option (List α) :=
  if b.payment_frequency = 0 then some []
  else
    let dt : α := 1 / (b.payment_frequency : α)
    get_payment_times_loop b.maturity dt (payment_fuel b) dt []

/-- Embedding of `BondData::get_cash_flows`. -/
def BondData.get_cash_flows (b : BondData α) : Option (List α) :=
  match b.get_payment_times with
  | none => none
  | some times =>
    let coupon_payment : α := b.coupon_rate * b.face_value / (b.payment_frequency : α)
    some ((List.range times.length).map (fun i =>
      if i = times.length - 1 then coupon_payment + b.face_value else coupon_payment))

end bond


section discount_factor

variable {α : Type} [LinearOrderedField α]

/-- Embedding of `DiscountFactor::MIN_DF`. -/
def DiscountFactor.MIN_DF : α := 1e-10

/-- Embedding of `DiscountFactor::MAX_DF`. -/
def DiscountFactor.MAX_DF : α := 1

/-- Embedding of `DiscountFactor::from_zero_rate`. -/
def DiscountFactor.from_zero_rate (m : Libm α) (time zero_rate : α) (type : CompoundingType) :
    Except Exn α :=
  if time < 0 then
    Except.error (Exn.invalid_argument "Time must be non-negative")
  else if time < 1e-10 then
    Except.ok 1
  else
    match type with
    | CompoundingType.CONTINUOUS => Except.ok (m.exp (-zero_rate * time))
    | CompoundingType.ANNUAL => Except.ok (1 / m.pow (1 + zero_rate) time)
    | CompoundingType.SEMI_ANNUAL => Except.ok (1 / m.pow (1 + zero_rate / 2) (2 * time))
    | CompoundingType.QUARTERLY => Except.ok (1 / m.pow (1 + zero_rate / 4) (4 * time))

/-- Embedding of `DiscountFactor::to_zero_rate`. -/
def DiscountFactor.to_zero_rate (m : Libm α) (time discount_factor : α) (type : CompoundingType) :
    Except Exn α :=
  if time < 1e-10 then
    Except.error (Exn.invalid_argument "Time too small for rate calculation")
  else if discount_factor ≤ 0 ∨ discount_factor > 1 then
    Except.error (Exn.invalid_argument "Invalid discount factor")
  else
    match type with
    | CompoundingType.CONTINUOUS => Except.ok (-m.log discount_factor / time)
    | CompoundingType.ANNUAL => Except.ok (m.pow discount_factor (-1 / time) - 1)
    | CompoundingType.SEMI_ANNUAL =>
      Except.ok (2 * (m.pow discount_factor (-1 / (2 * time)) - 1))
    | CompoundingType.QUARTERLY =>
      Except.ok (4 * (m.pow discount_factor (-1 / (4 * time)) - 1))

/-- Embedding of `DiscountFactor::is_valid`. -/
def DiscountFactor.is_valid (discount_factor : α) : Bool :=
  decide (discount_factor > (DiscountFactor.MIN_DF : α)) &&
    decide (discount_factor ≤ (DiscountFactor.MAX_DF : α))

end discount_factor

section interpolation

variable {α : Type} [LinearOrderedField α]

/-- Index `std::lower_bound(v.begin(), v.end(), t) - v.begin()`: the number of leading
elements that are `< t`. -/
def lower_bound (v : List α) (t : α) : Nat :=
  (v.takeWhile (fun x => decide (x < t))).length

/-- Embedding of `Interpolator::find_interval`; `times.size() - 2` is computed in `size_t`. -/
def Interpolator.find_interval (t : α) (times : List α) : Except Exn Nat :=
  if times.isEmpty then
    Except.error (Exn.runtime_error "Empty times vector")
  else do
    let front ← vec_front times
    if t ≤ front then
      pure 0
    else do
      let back ← vec_back times
      if t ≥ back then
        pure ((times.length + 2 ^ 64 - 2) % 2 ^ 64)
      else
        let idx := lower_bound times t
        if idx > 0 then pure (idx - 1) else pure idx

/-- Embedding of `LinearInterpolator::interpolate`. -/
def LinearInterpolator.interpolate (t : α) (times discount_factors : List α) : Except Exn α :=
  if times.length ≠ discount_factors.length then
    Except.error (Exn.invalid_argument "Times and discount factors size mismatch")
  else if times.length = 1 then
    vec_at discount_factors 0
  else do
    let front ← vec_front times
    if t ≤ front then
      vec_front discount_factors
    else do
      let back ← vec_back times
      if t ≥ back then
        vec_back discount_factors
      else do
        let i ← Interpolator.find_interval t times
        let t1 ← vec_at times i
        let t2 ← vec_at times (i + 1)
        let df1 ← vec_at discount_factors i
        let df2 ← vec_at discount_factors (i + 1)
        let weight := (t - t1) / (t2 - t1)
        pure (df1 + weight * (df2 - df1))

/-- Embedding of `LogLinearInterpolator::interpolate`. -/
def LogLinearInterpolator.interpolate (m : Libm α) (t : α) (times discount_factors : List α) :
    Except Exn α :=
  if times.length ≠ discount_factors.length then
    Except.error (Exn.invalid_argument "Times and discount factors size mismatch")
  else if times.length = 1 then
    vec_at discount_factors 0
  else do
    let front ← vec_front times
    if t ≤ front then
      vec_front discount_factors
    else do
      let back ← vec_back times
      if t ≥ back then
        vec_back discount_factors
      else do
        let i ← Interpolator.find_interval t times
        let t1 ← vec_at times i
        let t2 ← vec_at times (i + 1)
        let df1 ← vec_at discount_factors i
        let df2 ← vec_at discount_factors (i + 1)
        let log_df1 := m.log df1
        let log_df2 := m.log df2
        let weight := (t - t1) / (t2 - t1)
        let log_df := log_df1 + weight * (log_df2 - log_df1)
        pure (m.exp log_df)

/-- Embedding of `FlatForwardInterpolator::interpolate`. -/
def FlatForwardInterpolator.interpolate (m : Libm α) (t : α) (times discount_factors : List α) :
    Except Exn α :=
  if times.length ≠ discount_factors.length then
    Except.error (Exn.invalid_argument "Times and discount factors size mismatch")
  else if times.length = 1 then
    vec_at discount_factors 0
  else do
    let front ← vec_front times
    if t ≤ front then
      vec_front discount_factors
    else do
      let back ← vec_back times
      if t ≥ back then do
        let n := times.length
        let t1 ← vec_at times (n - 2)
        let t2 ← vec_at times (n - 1)
        let df1 ← vec_at discount_factors (n - 2)
        let df2 ← vec_at discount_factors (n - 1)
        let forward_rate := -m.log (df2 / df1) / (t2 - t1)
        pure (df2 * m.exp (-forward_rate * (t - t2)))
      else do
        let i ← Interpolator.find_interval t times
        let t1 ← vec_at times i
        let t2 ← vec_at times (i + 1)
        let df1 ← vec_at discount_factors i
        let df2 ← vec_at discount_factors (i + 1)
        let forward_rate := -m.log (df2 / df1) / (t2 - t1)
        pure (df1 * m.exp (-forward_rate * (t - t1)))

/-- Virtual dispatch on the interpolator built by `create_interpolator`. -/
def Interpolator.interpolate (m : Libm α) (type : InterpolationType) (t : α)
    (times discount_factors : List α) : Except Exn α :=
  match type with
  | InterpolationType.LINEAR => LinearInterpolator.interpolate t times discount_factors
  | InterpolationType.LOG_LINEAR => LogLinearInterpolator.interpolate m t times discount_factors
  | InterpolationType.FLAT_FORWARD =>
    FlatForwardInterpolator.interpolate m t times discount_factors

end interpolation

section cubic_spline

variable {α : Type} [LinearOrderedField α]

/-- The data members of `class CubicSpline`. -/
structure CubicSpline (α : Type) where
  x_ : List α
  y_ : List α
  a_ : List α
  b_ : List α
  c_ : List α
  d_ : List α
  fitted_ : Bool

/-- Embedding of `CubicSpline::is_fitted`. -/
def CubicSpline.is_fitted (s : CubicSpline α) : Bool := s.fitted_

/-- Embedding of `CubicSpline::find_interval`; `x_.size() - 1` and `x_.size() - 2` are computed in
`size_t`. -/
def CubicSpline.find_interval (s : CubicSpline α) (x : α) : Nat :=
  let idx := lower_bound s.x_ x
  let idx := if idx > 0 then idx - 1 else idx
  if idx ≥ (s.x_.length + 2 ^ 64 - 1) % 2 ^ 64 then (s.x_.length + 2 ^ 64 - 2) % 2 ^ 64
  else idx

/-- Embedding of `CubicSpline::evaluate`. -/
def CubicSpline.evaluate (s : CubicSpline α) (x : α) : Except Exn α :=
  if !s.fitted_ then
    Except.error (Exn.runtime_error "Spline not fitted")
  else do
    let front ← vec_front s.x_
    if x ≤ front then
      vec_front s.y_
    else do
      let back ← vec_back s.x_
      if x ≥ back then
        vec_back s.y_
      else do
        let i := s.find_interval x
        let xi ← vec_at s.x_ i
        let dx := x - xi
        let a ← vec_at s.a_ i
        let b ← vec_at s.b_ i
        let c ← vec_at s.c_ i
        let d ← vec_at s.d_ i
        pure (a + b * dx + c * dx * dx + d * dx * dx * dx)

end cubic_spline

section cubic_spline_fit

variable {α : Type} [LinearOrderedField α]

/-- Resizing `v.resize(k)` of a `std::vector<double>`: the first `k` elements are kept and
the vector is padded with `0.0`. -/
def vec_resize (v : List α) (k : Nat) : List α :=
  v.take k ++ List.replicate (k - v.length) 0

/-- Element `v[i]` at an index that the size checks of the caller keep in range. -/
def vec_get (v : List α) (i : Nat) : α := v.getD i 0

/-- The first loop of `CubicSpline::fit`: `h[i] = x[i + 1] - x[i]` for `i < n`. -/
def CubicSpline.fit_h (x : List α) (n : Nat) : List α :=
  (List.range n).map (fun i => vec_get x (i + 1) - vec_get x i)

/-- The second loop of `CubicSpline::fit`: `alpha[i]` for `1 ≤ i < n`; `alpha[0]` keeps
the `0.0` the vector was created with. -/
def CubicSpline.fit_alpha (y h : List α) (n : Nat) : List α :=
  (List.range n).map (fun i =>
    if 1 ≤ i then
      3 * ((vec_get y (i + 1) - vec_get y i) / vec_get h i -
        (vec_get y i - vec_get y (i - 1)) / vec_get h (i - 1))
    else 0)

/-- The body of the forward sweep of `CubicSpline::fit` on the vectors `l`, `mu`, `z`. -/
def CubicSpline.fit_forward_step (x h alpha : List α) (st : List α × List α × List α)
    (i : Nat) : List α × List α × List α :=
  let l := st.1.set i (2 * (vec_get x (i + 1) - vec_get x (i - 1)) -
    vec_get h (i - 1) * vec_get st.2.1 (i - 1))
  let mu := st.2.1.set i (vec_get h i / vec_get l i)
  let z := st.2.2.set i ((vec_get alpha i - vec_get h (i - 1) * vec_get st.2.2 (i - 1)) /
    vec_get l i)
  (l, mu, z)

/-- The forward sweep of `CubicSpline::fit`: `l`, `mu`, `z` are created with `n + 1`
zeros, `l[0] = 1`, and the body runs for `i = 1, ..., n - 1`. -/
def CubicSpline.fit_forward (x h alpha : List α) (n : Nat) : List α × List α × List α :=
  (List.range' 1 (n - 1)).foldl (CubicSpline.fit_forward_step x h alpha)
    ((List.replicate (n + 1) 0).set 0 1, List.replicate (n + 1) 0, List.replicate (n + 1) 0)

/-- The body of the backward loop of `CubicSpline::fit` on the members `c_`, `b_`, `d_`. -/
def CubicSpline.fit_backward_step (y h mu z : List α) (st : List α × List α × List α)
    (j : Nat) : List α × List α × List α :=
  let c := st.1.set j (vec_get z j - vec_get mu j * vec_get st.1 (j + 1))
  let b := st.2.1.set j ((vec_get y (j + 1) - vec_get y j) / vec_get h j -
    vec_get h j * (vec_get c (j + 1) + 2 * vec_get c j) / 3)
  let d := st.2.2.set j ((vec_get c (j + 1) - vec_get c j) / (3 * vec_get h j))
  (c, b, d)

/-- Embedding of `CubicSpline::fit`: the outcome and the state of the object afterwards
(the members `x_` and `y_` are assigned before the check of the step sizes; the store
`l[n] = 1.0` into the local `l`, which is not read afterwards, is left out; the loop counter
`int j` runs over `n - 1, ..., 0`). -/
def CubicSpline.fit (s : CubicSpline α) (x y : List α) : Except Exn Unit × CubicSpline α :=
  if x.length ≠ y.length then
    (Except.error (Exn.invalid_argument "x and y must have same size"), s)
  else if x.length < 2 then
    (Except.error (Exn.invalid_argument "Need at least 2 points for spline"), s)
  else
    let n := x.length - 1
    let s1 := { s with x_ := x, y_ := y }
    let h := CubicSpline.fit_h x n
    if h.any (fun hi => decide (hi ≤ 0)) then
      (Except.error (Exn.invalid_argument "x values must be strictly increasing"), s1)
    else
      let alpha := CubicSpline.fit_alpha y h n
      let fwd := CubicSpline.fit_forward x h alpha n
      let mu := fwd.2.1
      let z := fwd.2.2.set n 0
      let c0 := (vec_resize s1.c_ (n + 1)).set n 0
      let b0 := vec_resize s1.b_ n
      let d0 := vec_resize s1.d_ n
      let bwd := (List.range n).reverse.foldl (CubicSpline.fit_backward_step y h mu z)
        (c0, b0, d0)
      (Except.ok (), { x_ := x, y_ := y, a_ := y, b_ := bwd.2.1, c_ := bwd.1, d_ := bwd.2.2,
                       fitted_ := true })

/-- The default constructor `CubicSpline() = default`: empty vectors, `fitted_ = false`. -/
def CubicSpline.init : CubicSpline α :=
  { x_ := [], y_ := [], a_ := [], b_ := [], c_ := [], d_ := [], fitted_ := false }

/-- Embedding of `CubicSpline::derivative`; the second operand of `||` is evaluated only
when the first is false. -/
def CubicSpline.derivative (s : CubicSpline α) (x : α) : Except Exn α :=
  if !s.fitted_ then
    Except.error (Exn.runtime_error "Spline not fitted")
  else do
    let front ← vec_front s.x_
    if x ≤ front then
      pure 0
    else do
      let back ← vec_back s.x_
      if x ≥ back then
        pure 0
      else do
        let i := s.find_interval x
        let xi ← vec_at s.x_ i
        let dx := x - xi
        let b ← vec_at s.b_ i
        let c ← vec_at s.c_ i
        let d ← vec_at s.d_ i
        pure (b + 2 * c * dx + 3 * d * dx * dx)

end cubic_spline_fit

section curve

variable {α : Type} [LinearOrderedField α]

/-- The data members of `class YieldCurve`; `interpolator_` is the tag of the
interpolator object, `spline_` is `none` for a null pointer. -/
structure YieldCurve (α : Type) where
  times_ : List α
  discount_factors_ : List α
  compounding_type_ : CompoundingType
  interpolator_ : InterpolationType
  spline_ : Option (CubicSpline α)
  use_spline_ : Bool

/-- The constructor `YieldCurve::YieldCurve(type, interp_type)`. -/
def YieldCurve.init (type : CompoundingType) (interp_type : InterpolationType) : YieldCurve α :=
  { times_ := [], discount_factors_ := [], compounding_type_ := type,
    interpolator_ := interp_type, spline_ := none, use_spline_ := false }

/-- Embedding of `YieldCurve::size`. -/
def YieldCurve.size (c : YieldCurve α) : Nat := c.times_.length

/-- Embedding of `YieldCurve::add_point`. -/
def YieldCurve.add_point (c : YieldCurve α) (time discount_factor : α) :
    Except Exn (YieldCurve α) :=
  if time < 0 then
    Except.error (Exn.invalid_argument "Time must be non-negative")
  else if !DiscountFactor.is_valid discount_factor then
    Except.error (Exn.invalid_argument "Invalid discount factor")
  else
    Except.ok { c with
      times_ := c.times_ ++ [time],
      discount_factors_ := c.discount_factors_ ++ [discount_factor],
      use_spline_ := false }

/-- The loop of `get_discount_factor` that fills the local vector `zero_rates`. -/
def YieldCurve.zero_rates (m : Libm α) (c : YieldCurve α) : Except Exn (List α) :=
  (List.range c.times_.length).mapM (fun i => do
    let t ← vec_at c.times_ i
    let df ← vec_at c.discount_factors_ i
    DiscountFactor.to_zero_rate m t df c.compounding_type_)

/-- Embedding of `YieldCurve::get_discount_factor`. -/
def YieldCurve.get_discount_factor (m : Libm α) (c : YieldCurve α) (time : α) : Except Exn α :=
  if c.times_.isEmpty then
    Except.error (Exn.runtime_error "Curve has no points")
  else if time < 0 then
    Except.error (Exn.invalid_argument "Time must be non-negative")
  else if time < 1e-10 then
    Except.ok 1
  else
    match c.use_spline_, c.spline_ with
    | true, some spline =>
      if spline.is_fitted then do
        let _ ← c.zero_rates m
        let rate ← spline.evaluate time
        DiscountFactor.from_zero_rate m time rate c.compounding_type_
      else
        Interpolator.interpolate m c.interpolator_ time c.times_ c.discount_factors_
    | _, _ => Interpolator.interpolate m c.interpolator_ time c.times_ c.discount_factors_

/-- Embedding of `YieldCurve::get_zero_rate`. -/
def YieldCurve.get_zero_rate (m : Libm α) (c : YieldCurve α) (time : α) : Except Exn α := do
  let df ← c.get_discount_factor m time
  DiscountFactor.to_zero_rate m time df c.compounding_type_

/-- Embedding of `YieldCurve::get_forward_rate`. -/
def YieldCurve.get_forward_rate (m : Libm α) (c : YieldCurve α) (t1 t2 : α) : Except Exn α :=
  if t1 ≥ t2 then
    Except.error (Exn.invalid_argument "t1 must be less than t2")
  else do
    let df1 ← c.get_discount_factor m t1
    let df2 ← c.get_discount_factor m t2
    pure (-m.log (df2 / df1) / (t2 - t1))

/-- Embedding of `YieldCurve::get_instantaneous_forward`. -/
def YieldCurve.get_instantaneous_forward (m : Libm α) (c : YieldCurve α) (t dt : α) :
    Except Exn α :=
  if dt ≤ 0 then
    Except.error (Exn.invalid_argument "dt must be positive")
  else
    c.get_forward_rate m t (t + dt)

/-- The loop body of `YieldCurve::has_arbitrage`, run over the remaining indices. -/
def YieldCurve.has_arbitrage_loop (m : Libm α) (c : YieldCurve α) : List Nat → Except Exn Bool
  | [] => Except.ok false
  | i :: rest => do
    let t1 ← vec_at c.times_ i
    let t2 ← vec_at c.times_ (i + 1)
    let fwd ← c.get_forward_rate m t1 t2
    if fwd < -1e-6 then pure true else YieldCurve.has_arbitrage_loop m c rest

/-- Embedding of `YieldCurve::has_arbitrage`.  On an empty curve the bound `times_.size() - 1` wraps
around in `size_t` and the first iteration reads `times_[0]` out of range. -/
def YieldCurve.has_arbitrage (m : Libm α) (c : YieldCurve α) : Except Exn Bool :=
  if c.times_.isEmpty then
    Except.error Exn.undefined_behavior
  else
    c.has_arbitrage_loop m (List.range (c.times_.length - 1))

/-- The call `YieldCurve::add_point` as a transition of the object: the outcome and the
object afterwards (both `throw`s precede the first store). -/
def YieldCurve.add_point_state (c : YieldCurve α) (time discount_factor : α) :
    Except Exn Unit × YieldCurve α :=
  if time < 0 then
    (Except.error (Exn.invalid_argument "Time must be non-negative"), c)
  else if !DiscountFactor.is_valid discount_factor then
    (Except.error (Exn.invalid_argument "Invalid discount factor"), c)
  else
    (Except.ok (), { c with
      times_ := c.times_ ++ [time],
      discount_factors_ := c.discount_factors_ ++ [discount_factor],
      use_spline_ := false })

/-- Embedding of `YieldCurve::apply_cubic_spline_smoothing`: the outcome and the object
afterwards.  A `throw` of `to_zero_rate` precedes every store; a `throw` of `fit` comes
after `spline_` was replaced by the new spline object and before `use_spline_ = true`. -/
def YieldCurve.apply_cubic_spline_smoothing (m : Libm α) (c : YieldCurve α) :
    Except Exn Unit × YieldCurve α :=
  if c.times_.length < 2 then
    (Except.error (Exn.runtime_error "Need at least 2 points for spline smoothing"), c)
  else
    match c.zero_rates m with
    | Except.error e => (Except.error e, c)
    | Except.ok zero_rates =>
      let r := (CubicSpline.init : CubicSpline α).fit c.times_ zero_rates
      match r.1 with
      | Except.error e => (Except.error e, { c with spline_ := some r.2 })
      | Except.ok _ => (Except.ok (), { c with spline_ := some r.2, use_spline_ := true })

end curve

section bootstrapper

variable {α : Type} [LinearOrderedField α] [FloorRing α]

/-- The data members of `class Bootstrapper`. -/
structure Bootstrapper where
  compounding_type_ : CompoundingType
  interpolation_type_ : InterpolationType

/-- The body of the loop of `solve_for_discount_factor`: one more known payment is
discounted on the partial curve and added to `pv_known`. -/
def Bootstrapper.pv_known_step (m : Libm α) (payment_times cash_flows : List α)
    (curve : YieldCurve α) (pv_known : α) (i : Nat) : Except Exn α := do
  let t ← vec_at payment_times i
  let df ← curve.get_discount_factor m t
  let cf ← vec_at cash_flows i
  pure (pv_known + cf * df)

/-- The loop of `solve_for_discount_factor` that accumulates `pv_known` over the
indices `0 .. payment_times.size() - 2`. -/
def Bootstrapper.pv_known (m : Libm α) (payment_times cash_flows : List α)
    (curve : YieldCurve α) : Except Exn α :=
  (List.range (payment_times.length - 1)).foldlM
    (Bootstrapper.pv_known_step m payment_times cash_flows curve) 0

/-- Lines 39-50 of `Bootstrapper::solve_for_discount_factor`: the value of the local
`df_final`.  With an empty payment schedule the bound `payment_times.size() - 1` wraps
around in `size_t` and the first iteration reads `payment_times[0]` out of range. -/
def Bootstrapper.df_final (m : Libm α) (bond : BondData α) (curve : YieldCurve α) :
    Except Exn α :=
  match bond.get_payment_times, bond.get_cash_flows with
  | some payment_times, some cash_flows =>
    if payment_times.isEmpty then
      Except.error Exn.undefined_behavior
    else do
      let pv_known ← Bootstrapper.pv_known m payment_times cash_flows curve
      let final_cash_flow ← vec_back cash_flows
      pure ((bond.market_price - pv_known) / final_cash_flow)
  | _, _ => Except.error Exn.diverges

/-- Embedding of `Bootstrapper::solve_for_discount_factor`: `df_final` followed by the range check of
lines 52-56. -/
def Bootstrapper.solve_for_discount_factor (m : Libm α) (bond : BondData α)
    (curve : YieldCurve α) : Except Exn α := do
  let df_final ← Bootstrapper.df_final m bond curve
  if df_final ≤ 0 ∨ df_final > 1 then
    Except.error (Exn.runtime_error
      "Calculated discount factor out of valid range - possible arbitrage")
  else
    pure df_final

/-- The loop of `Bootstrapper::validate_bonds`. -/
def Bootstrapper.validate_bonds_loop : List (BondData α) → Bool
  | [] => true
  | bond :: rest =>
    if bond.maturity ≤ 0 then false
    else if bond.coupon_rate < 0 then false
    else if bond.payment_frequency ≤ 0 then false
    else if bond.market_price ≤ 0 then false
    else if bond.face_value ≤ 0 then false
    else
      let intrinsic := bond.face_value
      if bond.market_price > intrinsic * 2 then false
      else Bootstrapper.validate_bonds_loop rest

/-- Embedding of `Bootstrapper::validate_bonds`. -/
def Bootstrapper.validate_bonds (bonds : List (BondData α)) : Bool :=
  if bonds.isEmpty then false else Bootstrapper.validate_bonds_loop bonds

/-- Embedding of `Bootstrapper::sort_bonds_by_maturity`. -/
def Bootstrapper.sort_bonds_by_maturity (bonds : List (BondData α)) : List (BondData α) :=
  bonds.insertionSort (fun a b => a.maturity ≤ b.maturity)

/-- The body of the loop of `Bootstrapper::bootstrap`. -/
def Bootstrapper.bootstrap_step (m : Libm α) (curve : YieldCurve α) (bond : BondData α) :
    Except Exn (YieldCurve α) := do
  let df ← Bootstrapper.solve_for_discount_factor m bond curve
  curve.add_point bond.maturity df

/-- Embedding of `Bootstrapper::bootstrap`. -/
def Bootstrapper.bootstrap (self : Bootstrapper) (m : Libm α) (bonds : List (BondData α)) :
    Except Exn (YieldCurve α) :=
  if !Bootstrapper.validate_bonds bonds then
    Except.error (Exn.invalid_argument "Invalid bond data")
  else
    (Bootstrapper.sort_bonds_by_maturity bonds).foldlM (Bootstrapper.bootstrap_step m)
      (YieldCurve.init self.compounding_type_ self.interpolation_type_)

/-- Embedding of `Bootstrapper::bootstrap_with_spline`. -/
def Bootstrapper.bootstrap_with_spline (self : Bootstrapper) (m : Libm α)
    (bonds : List (BondData α)) : Except Exn (YieldCurve α) := do
  let curve ← self.bootstrap m bonds
  match curve.apply_cubic_spline_smoothing m with
  | (Except.error e, _) => Except.error e
  | (Except.ok _, curve) => pure curve

end bootstrapper

section forward_curve

variable {α : Type} [LinearOrderedField α]

/-- The data member of `class ForwardCurve`: the curve it refers to. -/
structure ForwardCurve (α : Type) where
  yield_curve_ : YieldCurve α

/-- Embedding of `ForwardCurve::get_forward_rate`. -/
def ForwardCurve.get_forward_rate (m : Libm α) (fc : ForwardCurve α) (t1 t2 : α) :
    Except Exn α :=
  fc.yield_curve_.get_forward_rate m t1 t2

/-- Embedding of `ForwardCurve::get_instantaneous_forward`; the callee's default argument
`dt = 1e-6` is filled in. -/
def ForwardCurve.get_instantaneous_forward (m : Libm α) (fc : ForwardCurve α) (t : α) :
    Except Exn α :=
  fc.yield_curve_.get_instantaneous_forward m t 1e-6

/-- Embedding of `ForwardCurve::get_forward_curve`.  On an empty list the bound
`tenors.size() - 1` wraps around in `size_t` and the first iteration reads `tenors[0]` out
of range. -/
def ForwardCurve.get_forward_curve (m : Libm α) (fc : ForwardCurve α) (tenors : List α) :
    Except Exn (List α) :=
  if tenors.isEmpty then
    Except.error Exn.undefined_behavior
  else
    (List.range (tenors.length - 1)).mapM (fun i => do
      let t1 ← vec_at tenors i
      let t2 ← vec_at tenors (i + 1)
      fc.get_forward_rate m t1 t2)

end forward_curve

/-! ## A second embedding with the special values of `double`

The embedding above keeps every number exact.  The definitions of this part run the
converters, the interpolators, the spline and the curve on a type `Double α` that also
has the two infinities and NaN, so that an overflow of `std::pow` or `std::exp` and what
the code does with the infinity are visible.  The model is still free of rounding: a
finite result is kept exact (underflow and signed zeros are not modelled), and a result
beyond `DBL_MAX` becomes an infinity. -/

section ieee_double

variable {α : Type} [LinearOrderedField α] [FloorRing α]

/-- A value of the C++ type `double`: a number, an infinity (`inf true` is `-∞`,
`inf false` is `+∞`) or a NaN. -/
inductive Double (α : Type)
  | num (x : α)
  | inf (negative : Bool)
  | nan
  deriving DecidableEq

/-- The constant `DBL_MAX`, the largest finite `double`: `(2 - 2^-52) * 2^1023`. -/
def Double.DBL_MAX : α := 2 ^ 1024 - 2 ^ 971

/-- The `double` that an operation delivers when its exact result is `x`: an infinity
when `x` lies beyond `DBL_MAX`, otherwise `x` itself (no rounding, no underflow). -/
def Double.of_exact (x : α) : Double α :=
  if (Double.DBL_MAX : α) < x then Double.inf false
  else if x < -(Double.DBL_MAX : α) then Double.inf true
  else Double.num x

/-- Unary minus on `double`. -/
def Double.neg : Double α → Double α
  | Double.num x => Double.num (-x)
  | Double.inf s => Double.inf (!s)
  | Double.nan => Double.nan

/-- Addition on `double`: `∞ + (-∞)` is NaN. -/
def Double.add : Double α → Double α → Double α
  | Double.num x, Double.num y => Double.of_exact (x + y)
  | Double.num _, Double.inf s => Double.inf s
  | Double.inf s, Double.num _ => Double.inf s
  | Double.inf s, Double.inf r => if s = r then Double.inf s else Double.nan
  | _, _ => Double.nan

/-- Multiplication on `double`: `0 * ±∞` is NaN. -/
def Double.mul : Double α → Double α → Double α
  | Double.num x, Double.num y => Double.of_exact (x * y)
  | Double.num x, Double.inf s =>
    if x = 0 then Double.nan else Double.inf (xor (decide (x < 0)) s)
  | Double.inf s, Double.num y =>
    if y = 0 then Double.nan else Double.inf (xor s (decide (y < 0)))
  | Double.inf s, Double.inf r => Double.inf (xor s r)
  | _, _ => Double.nan

/-- Division on `double`: `x / 0` is an infinity for `x ≠ 0` and NaN for `x = 0`, a number
divided by an infinity is `0`, `∞ / ∞` is NaN. -/
def Double.div : Double α → Double α → Double α
  | Double.num x, Double.num y =>
    if y = 0 then (if x = 0 then Double.nan else Double.inf (decide (x < 0)))
    else Double.of_exact (x / y)
  | Double.num _, Double.inf _ => Double.num 0
  | Double.inf s, Double.num y => Double.inf (xor s (decide (y < 0)))
  | _, _ => Double.nan

/-- The comparison `<` on `double`: false as soon as an operand is NaN. -/
def Double.lt : Double α → Double α → Bool
  | Double.num x, Double.num y => decide (x < y)
  | Double.num _, Double.inf s => !s
  | Double.inf s, Double.num _ => s
  | Double.inf s, Double.inf r => s && !r
  | _, _ => false

/-- The comparison `<=` on `double`: false as soon as an operand is NaN. -/
def Double.le : Double α → Double α → Bool
  | Double.num x, Double.num y => decide (x ≤ y)
  | Double.num _, Double.inf s => !s
  | Double.inf s, Double.num _ => s
  | Double.inf s, Double.inf r => s || !r
  | _, _ => false

instance : Neg (Double α) := ⟨Double.neg⟩

instance : Add (Double α) := ⟨Double.add⟩

instance : Sub (Double α) := ⟨fun x y => Double.add x (Double.neg y)⟩

instance : Mul (Double α) := ⟨Double.mul⟩

instance : Div (Double α) := ⟨Double.div⟩

instance : LT (Double α) := ⟨fun x y => Double.lt x y = true⟩

instance : LE (Double α) := ⟨fun x y => Double.le x y = true⟩

instance (x y : Double α) : Decidable (x < y) :=
  inferInstanceAs (Decidable (Double.lt x y = true))

instance (x y : Double α) : Decidable (x ≤ y) :=
  inferInstanceAs (Decidable (Double.le x y = true))

instance : OfNat (Double α) 0 := ⟨Double.num 0⟩

instance : OfNat (Double α) 1 := ⟨Double.num 1⟩

instance : OfNat (Double α) 2 := ⟨Double.num 2⟩

instance : OfNat (Double α) 3 := ⟨Double.num 3⟩

instance : OfNat (Double α) 4 := ⟨Double.num 4⟩

instance : OfScientific (Double α) :=
  ⟨fun mantissa s e => Double.num (OfScientific.ofScientific mantissa s e)⟩

/-- The function `std::exp` on `double`, from the exact exponential `m.exp`. -/
def Double.exp (m : Libm α) : Double α → Double α
  | Double.num x => Double.of_exact (m.exp x)
  | Double.inf s => if s then Double.num 0 else Double.inf false
  | Double.nan => Double.nan

/-- The function `std::log` on `double`, from the exact logarithm `m.log`: `log(0)` is
`-∞`, the logarithm of a negative number is NaN. -/
def Double.log (m : Libm α) : Double α → Double α
  | Double.num x =>
    if x < 0 then Double.nan
    else if x = 0 then Double.inf true
    else Double.of_exact (m.log x)
  | Double.inf s => if s then Double.nan else Double.inf false
  | Double.nan => Double.nan

/-- The function `std::pow` on `double`, from the exact power `m.pow` of a positive base,
with the special cases of Annex F of the C standard: `pow(x, 0)` and `pow(1, y)` are `1`
for every operand; a negative base with a non-integral exponent gives NaN; `pow(+∞, y)`
is `+∞` for `y > 0` and `0` for `y < 0`. -/
def Double.pow (m : Libm α) (x y : Double α) : Double α :=
  if y = Double.num 0 then Double.num 1
  else if x = Double.num 1 then Double.num 1
  else
    match x, y with
    | Double.nan, _ => Double.nan
    | _, Double.nan => Double.nan
    | Double.num a, Double.num b =>
      if 0 < a then Double.of_exact (m.pow a b)
      else if a = 0 then (if 0 < b then Double.num 0 else Double.inf false)
      else if Int.fract b ≠ 0 then Double.nan
      else if Int.floor b % 2 = 0 then Double.of_exact (m.pow (-a) b)
      else Double.of_exact (-m.pow (-a) b)
    | Double.num a, Double.inf s =>
      if |a| = 1 then Double.num 1
      else if decide (|a| < 1) = s then Double.inf false
      else Double.num 0
    | Double.inf s, Double.num b =>
      if b < 0 then Double.num 0
      else Double.inf (s && decide (Int.fract b = 0 ∧ Int.floor b % 2 = 1))
    | Double.inf _, Double.inf s => if s then Double.num 0 else Double.inf false

/-- The `<cmath>` functions on `double` that belong to exact functions `m`. -/
def Double.libm (m : Libm α) : Libm (Double α) :=
  { exp := Double.exp m, log := Double.log m, pow := Double.pow m }

end ieee_double

section ieee_code

variable {α : Type} [LinearOrderedField α] [FloorRing α]

/-- Embedding of `DiscountFactor::MIN_DF` on `Double`. -/
def ieee.DiscountFactor.MIN_DF : Double α := 1e-10

/-- Embedding of `DiscountFactor::MAX_DF` on `Double`. -/
def ieee.DiscountFactor.MAX_DF : Double α := 1

/-- Embedding of `DiscountFactor::from_zero_rate` on `Double`. -/
def ieee.DiscountFactor.from_zero_rate (m : Libm (Double α)) (time zero_rate : Double α)
    (type : CompoundingType) : Except Exn (Double α) :=
  if time < 0 then
    Except.error (Exn.invalid_argument "Time must be non-negative")
  else if time < 1e-10 then
    Except.ok 1
  else
    match type with
    | CompoundingType.CONTINUOUS => Except.ok (m.exp (-zero_rate * time))
    | CompoundingType.ANNUAL => Except.ok (1 / m.pow (1 + zero_rate) time)
    | CompoundingType.SEMI_ANNUAL => Except.ok (1 / m.pow (1 + zero_rate / 2) (2 * time))
    | CompoundingType.QUARTERLY => Except.ok (1 / m.pow (1 + zero_rate / 4) (4 * time))

/-- Embedding of `DiscountFactor::to_zero_rate` on `Double`. -/
def ieee.DiscountFactor.to_zero_rate (m : Libm (Double α)) (time discount_factor : Double α)
    (type : CompoundingType) : Except Exn (Double α) :=
  if time < 1e-10 then
    Except.error (Exn.invalid_argument "Time too small for rate calculation")
  else if discount_factor ≤ 0 ∨ discount_factor > 1 then
    Except.error (Exn.invalid_argument "Invalid discount factor")
  else
    match type with
    | CompoundingType.CONTINUOUS => Except.ok (-m.log discount_factor / time)
    | CompoundingType.ANNUAL => Except.ok (m.pow discount_factor (-1 / time) - 1)
    | CompoundingType.SEMI_ANNUAL =>
      Except.ok (2 * (m.pow discount_factor (-1 / (2 * time)) - 1))
    | CompoundingType.QUARTERLY =>
      Except.ok (4 * (m.pow discount_factor (-1 / (4 * time)) - 1))

/-- Embedding of `DiscountFactor::is_valid` on `Double`. -/
def ieee.DiscountFactor.is_valid (discount_factor : Double α) : Bool :=
  decide (discount_factor > (ieee.DiscountFactor.MIN_DF : Double α)) &&
    decide (discount_factor ≤ (ieee.DiscountFactor.MAX_DF : Double α))

/-- Index `std::lower_bound(v.begin(), v.end(), t) - v.begin()` on `Double`: the number of
leading elements that are `< t`. -/
def ieee.lower_bound (v : List (Double α)) (t : Double α) : Nat :=
  (v.takeWhile (fun x => decide (x < t))).length

/-- Embedding of `Interpolator::find_interval` on `Double`; `times.size() - 2` is computed
in `size_t`. -/
def ieee.Interpolator.find_interval (t : Double α) (times : List (Double α)) :
    Except Exn Nat :=
  if times.isEmpty then
    Except.error (Exn.runtime_error "Empty times vector")
  else do
    let front ← vec_front times
    if t ≤ front then
      pure 0
    else do
      let back ← vec_back times
      if t ≥ back then
        pure ((times.length + 2 ^ 64 - 2) % 2 ^ 64)
      else
        let idx := ieee.lower_bound times t
        if idx > 0 then pure (idx - 1) else pure idx

/-- Embedding of `LinearInterpolator::interpolate` on `Double`. -/
def ieee.LinearInterpolator.interpolate (t : Double α)
    (times discount_factors : List (Double α)) : Except Exn (Double α) :=
  if times.length ≠ discount_factors.length then
    Except.error (Exn.invalid_argument "Times and discount factors size mismatch")
  else if times.length = 1 then
    vec_at discount_factors 0
  else do
    let front ← vec_front times
    if t ≤ front then
      vec_front discount_factors
    else do
      let back ← vec_back times
      if t ≥ back then
        vec_back discount_factors
      else do
        let i ← ieee.Interpolator.find_interval t times
        let t1 ← vec_at times i
        let t2 ← vec_at times (i + 1)
        let df1 ← vec_at discount_factors i
        let df2 ← vec_at discount_factors (i + 1)
        let weight := (t - t1) / (t2 - t1)
        pure (df1 + weight * (df2 - df1))

/-- Embedding of `LogLinearInterpolator::interpolate` on `Double`. -/
def ieee.LogLinearInterpolator.interpolate (m : Libm (Double α)) (t : Double α)
    (times discount_factors : List (Double α)) : Except Exn (Double α) :=
  if times.length ≠ discount_factors.length then
    Except.error (Exn.invalid_argument "Times and discount factors size mismatch")
  else if times.length = 1 then
    vec_at discount_factors 0
  else do
    let front ← vec_front times
    if t ≤ front then
      vec_front discount_factors
    else do
      let back ← vec_back times
      if t ≥ back then
        vec_back discount_factors
      else do
        let i ← ieee.Interpolator.find_interval t times
        let t1 ← vec_at times i
        let t2 ← vec_at times (i + 1)
        let df1 ← vec_at discount_factors i
        let df2 ← vec_at discount_factors (i + 1)
        let log_df1 := m.log df1
        let log_df2 := m.log df2
        let weight := (t - t1) / (t2 - t1)
        let log_df := log_df1 + weight * (log_df2 - log_df1)
        pure (m.exp log_df)

/-- Embedding of `FlatForwardInterpolator::interpolate` on `Double`. -/
def ieee.FlatForwardInterpolator.interpolate (m : Libm (Double α)) (t : Double α)
    (times discount_factors : List (Double α)) : Except Exn (Double α) :=
  if times.length ≠ discount_factors.length then
    Except.error (Exn.invalid_argument "Times and discount factors size mismatch")
  else if times.length = 1 then
    vec_at discount_factors 0
  else do
    let front ← vec_front times
    if t ≤ front then
      vec_front discount_factors
    else do
      let back ← vec_back times
      if t ≥ back then do
        let n := times.length
        let t1 ← vec_at times (n - 2)
        let t2 ← vec_at times (n - 1)
        let df1 ← vec_at discount_factors (n - 2)
        let df2 ← vec_at discount_factors (n - 1)
        let forward_rate := -m.log (df2 / df1) / (t2 - t1)
        pure (df2 * m.exp (-forward_rate * (t - t2)))
      else do
        let i ← ieee.Interpolator.find_interval t times
        let t1 ← vec_at times i
        let t2 ← vec_at times (i + 1)
        let df1 ← vec_at discount_factors i
        let df2 ← vec_at discount_factors (i + 1)
        let forward_rate := -m.log (df2 / df1) / (t2 - t1)
        pure (df1 * m.exp (-forward_rate * (t - t1)))

/-- Virtual dispatch on the interpolator built by `create_interpolator`, on `Double`. -/
def ieee.Interpolator.interpolate (m : Libm (Double α)) (type : InterpolationType)
    (t : Double α) (times discount_factors : List (Double α)) : Except Exn (Double α) :=
  match type with
  | InterpolationType.LINEAR => ieee.LinearInterpolator.interpolate t times discount_factors
  | InterpolationType.LOG_LINEAR =>
    ieee.LogLinearInterpolator.interpolate m t times discount_factors
  | InterpolationType.FLAT_FORWARD =>
    ieee.FlatForwardInterpolator.interpolate m t times discount_factors

/-- Embedding of `CubicSpline::find_interval` on `Double`; `x_.size() - 1` and
`x_.size() - 2` are computed in `size_t`. -/
def ieee.CubicSpline.find_interval (s : CubicSpline (Double α)) (x : Double α) : Nat :=
  let idx := ieee.lower_bound s.x_ x
  let idx := if idx > 0 then idx - 1 else idx
  if idx ≥ (s.x_.length + 2 ^ 64 - 1) % 2 ^ 64 then (s.x_.length + 2 ^ 64 - 2) % 2 ^ 64
  else idx

/-- Embedding of `CubicSpline::evaluate` on `Double`. -/
def ieee.CubicSpline.evaluate (s : CubicSpline (Double α)) (x : Double α) :
    Except Exn (Double α) :=
  if !s.fitted_ then
    Except.error (Exn.runtime_error "Spline not fitted")
  else do
    let front ← vec_front s.x_
    if x ≤ front then
      vec_front s.y_
    else do
      let back ← vec_back s.x_
      if x ≥ back then
        vec_back s.y_
      else do
        let i := ieee.CubicSpline.find_interval s x
        let xi ← vec_at s.x_ i
        let dx := x - xi
        let a ← vec_at s.a_ i
        let b ← vec_at s.b_ i
        let c ← vec_at s.c_ i
        let d ← vec_at s.d_ i
        pure (a + b * dx + c * dx * dx + d * dx * dx * dx)

/-- Resizing `v.resize(k)` of a `std::vector<double>`, on `Double`. -/
def ieee.vec_resize (v : List (Double α)) (k : Nat) : List (Double α) :=
  v.take k ++ List.replicate (k - v.length) 0

/-- Element `v[i]` at an index that the size checks of the caller keep in range, on
`Double`. -/
def ieee.vec_get (v : List (Double α)) (i : Nat) : Double α := v.getD i 0

/-- The first loop of `CubicSpline::fit` on `Double`: `h[i] = x[i + 1] - x[i]` for `i < n`. -/
def ieee.CubicSpline.fit_h (x : List (Double α)) (n : Nat) : List (Double α) :=
  (List.range n).map (fun i => ieee.vec_get x (i + 1) - ieee.vec_get x i)

/-- The second loop of `CubicSpline::fit` on `Double`: `alpha[i]` for `1 ≤ i < n`;
`alpha[0]` keeps the `0.0` the vector was created with. -/
def ieee.CubicSpline.fit_alpha (y h : List (Double α)) (n : Nat) : List (Double α) :=
  (List.range n).map (fun i =>
    if 1 ≤ i then
      3 * ((ieee.vec_get y (i + 1) - ieee.vec_get y i) / ieee.vec_get h i -
        (ieee.vec_get y i - ieee.vec_get y (i - 1)) / ieee.vec_get h (i - 1))
    else 0)

/-- The body of the forward sweep of `CubicSpline::fit` on `Double`. -/
def ieee.CubicSpline.fit_forward_step (x h alpha : List (Double α))
    (st : List (Double α) × List (Double α) × List (Double α)) (i : Nat) :
    List (Double α) × List (Double α) × List (Double α) :=
  let l := st.1.set i (2 * (ieee.vec_get x (i + 1) - ieee.vec_get x (i - 1)) -
    ieee.vec_get h (i - 1) * ieee.vec_get st.2.1 (i - 1))
  let mu := st.2.1.set i (ieee.vec_get h i / ieee.vec_get l i)
  let z := st.2.2.set i
    ((ieee.vec_get alpha i - ieee.vec_get h (i - 1) * ieee.vec_get st.2.2 (i - 1)) /
      ieee.vec_get l i)
  (l, mu, z)

/-- The forward sweep of `CubicSpline::fit` on `Double`: `l`, `mu`, `z` are created with
`n + 1` zeros, `l[0] = 1`, and the body runs for `i = 1, ..., n - 1`. -/
def ieee.CubicSpline.fit_forward (x h alpha : List (Double α)) (n : Nat) :
    List (Double α) × List (Double α) × List (Double α) :=
  (List.range' 1 (n - 1)).foldl (ieee.CubicSpline.fit_forward_step x h alpha)
    ((List.replicate (n + 1) 0).set 0 1, List.replicate (n + 1) 0, List.replicate (n + 1) 0)

/-- The body of the backward loop of `CubicSpline::fit` on `Double`. -/
def ieee.CubicSpline.fit_backward_step (y h mu z : List (Double α))
    (st : List (Double α) × List (Double α) × List (Double α)) (j : Nat) :
    List (Double α) × List (Double α) × List (Double α) :=
  let c := st.1.set j (ieee.vec_get z j - ieee.vec_get mu j * ieee.vec_get st.1 (j + 1))
  let b := st.2.1.set j ((ieee.vec_get y (j + 1) - ieee.vec_get y j) / ieee.vec_get h j -
    ieee.vec_get h j * (ieee.vec_get c (j + 1) + 2 * ieee.vec_get c j) / 3)
  let d := st.2.2.set j ((ieee.vec_get c (j + 1) - ieee.vec_get c j) / (3 * ieee.vec_get h j))
  (c, b, d)

/-- Embedding of `CubicSpline::fit` on `Double`: the outcome and the state of the object
afterwards, as in `CubicSpline.fit`. -/
def ieee.CubicSpline.fit (s : CubicSpline (Double α)) (x y : List (Double α)) :
    Except Exn Unit × CubicSpline (Double α) :=
  if x.length ≠ y.length then
    (Except.error (Exn.invalid_argument "x and y must have same size"), s)
  else if x.length < 2 then
    (Except.error (Exn.invalid_argument "Need at least 2 points for spline"), s)
  else
    let n := x.length - 1
    let s1 := { s with x_ := x, y_ := y }
    let h := ieee.CubicSpline.fit_h x n
    if h.any (fun hi => decide (hi ≤ 0)) then
      (Except.error (Exn.invalid_argument "x values must be strictly increasing"), s1)
    else
      let alpha := ieee.CubicSpline.fit_alpha y h n
      let fwd := ieee.CubicSpline.fit_forward x h alpha n
      let mu := fwd.2.1
      let z := fwd.2.2.set n 0
      let c0 := (ieee.vec_resize s1.c_ (n + 1)).set n 0
      let b0 := ieee.vec_resize s1.b_ n
      let d0 := ieee.vec_resize s1.d_ n
      let bwd := (List.range n).reverse.foldl (ieee.CubicSpline.fit_backward_step y h mu z)
        (c0, b0, d0)
      (Except.ok (), { x_ := x, y_ := y, a_ := y, b_ := bwd.2.1, c_ := bwd.1, d_ := bwd.2.2,
                       fitted_ := true })

/-- The loop of `get_discount_factor` that fills the local vector `zero_rates`, on
`Double`. -/
def ieee.YieldCurve.zero_rates (m : Libm (Double α)) (c : YieldCurve (Double α)) :
    Except Exn (List (Double α)) :=
  (List.range c.times_.length).mapM (fun i => do
    let t ← vec_at c.times_ i
    let df ← vec_at c.discount_factors_ i
    ieee.DiscountFactor.to_zero_rate m t df c.compounding_type_)

/-- Embedding of `YieldCurve::get_discount_factor` on `Double`. -/
def ieee.YieldCurve.get_discount_factor (m : Libm (Double α)) (c : YieldCurve (Double α))
    (time : Double α) : Except Exn (Double α) :=
  if c.times_.isEmpty then
    Except.error (Exn.runtime_error "Curve has no points")
  else if time < 0 then
    Except.error (Exn.invalid_argument "Time must be non-negative")
  else if time < 1e-10 then
    Except.ok 1
  else
    match c.use_spline_, c.spline_ with
    | true, some spline =>
      if spline.is_fitted then do
        let _ ← ieee.YieldCurve.zero_rates m c
        let rate ← ieee.CubicSpline.evaluate spline time
        ieee.DiscountFactor.from_zero_rate m time rate c.compounding_type_
      else
        ieee.Interpolator.interpolate m c.interpolator_ time c.times_ c.discount_factors_
    | _, _ => ieee.Interpolator.interpolate m c.interpolator_ time c.times_ c.discount_factors_

/-- The call `YieldCurve::add_point` on `Double` as a transition of the object: the
outcome and the object afterwards. -/
def ieee.YieldCurve.add_point_state (c : YieldCurve (Double α))
    (time discount_factor : Double α) : Except Exn Unit × YieldCurve (Double α) :=
  if time < 0 then
    (Except.error (Exn.invalid_argument "Time must be non-negative"), c)
  else if !ieee.DiscountFactor.is_valid discount_factor then
    (Except.error (Exn.invalid_argument "Invalid discount factor"), c)
  else
    (Except.ok (), { c with
      times_ := c.times_ ++ [time],
      discount_factors_ := c.discount_factors_ ++ [discount_factor],
      use_spline_ := false })

/-- Embedding of `YieldCurve::apply_cubic_spline_smoothing` on `Double`: the outcome and
the object afterwards, as in `YieldCurve.apply_cubic_spline_smoothing`. -/
def ieee.YieldCurve.apply_cubic_spline_smoothing (m : Libm (Double α))
    (c : YieldCurve (Double α)) : Except Exn Unit × YieldCurve (Double α) :=
  if c.times_.length < 2 then
    (Except.error (Exn.runtime_error "Need at least 2 points for spline smoothing"), c)
  else
    match ieee.YieldCurve.zero_rates m c with
    | Except.error e => (Except.error e, c)
    | Except.ok zero_rates =>
      let r := ieee.CubicSpline.fit (CubicSpline.init : CubicSpline (Double α)) c.times_
        zero_rates
      match r.1 with
      | Except.error e => (Except.error e, { c with spline_ := some r.2 })
      | Except.ok _ => (Except.ok (), { c with spline_ := some r.2, use_spline_ := true })

end ieee_code

end yield_curve

/-! ## The Black-Scholes engine of the implied-volatility solver -/

namespace implied_vol

/-- The two option types of `option_types.hpp`. -/
inductive OptionType
  | CALL
  | PUT
  deriving DecidableEq, Repr

/-- The `<cmath>` functions used by `black_scholes.cpp` and `normal_distribution.cpp`
(`std::abs` is the absolute value of the field). -/
structure Cmath (α : Type) where
  exp : α → α
  log : α → α
  sqrt : α → α

/-- Embedding of `struct OptionSpec`. -/
structure OptionSpec (α : Type) where
  spot : α
  strike : α
  time_to_expiry : α
  risk_free_rate : α
  type : OptionType

section black_scholes

variable {α : Type} [LinearOrderedField α]

/-- Embedding of `NormalDistribution::SQRT_2`. -/
def NormalDistribution.SQRT_2 : α := 1.4142135623730951

/-- Embedding of `NormalDistribution::INV_SQRT_2PI`. -/
def NormalDistribution.INV_SQRT_2PI : α := 0.3989422804014327

/-- Embedding of `NormalDistribution::erf_approx`. -/
def NormalDistribution.erf_approx (m : Cmath α) (x : α) : α :=
  let a1 : α := 0.254829592
  let a2 : α := -0.284496736
  let a3 : α := 1.421413741
  let a4 : α := -1.453152027
  let a5 : α := 1.061405429
  let p : α := 0.3275911
  let sign : α := if x ≥ 0 then 1 else -1
  let x := |x|
  let t := 1 / (1 + p * x)
  let y := 1 - (((((a5 * t + a4) * t) + a3) * t + a2) * t + a1) * t * m.exp (-x * x)
  sign * y

/-- Embedding of `NormalDistribution::cdf`; the literal `0.5` is written `1 / 2`. -/
def NormalDistribution.cdf (m : Cmath α) (x : α) : α :=
  (1 / 2) * (1 + NormalDistribution.erf_approx m (x / NormalDistribution.SQRT_2))

/-- Embedding of `NormalDistribution::pdf`; the literal `0.5` is written `1 / 2`. -/
def NormalDistribution.pdf (m : Cmath α) (x : α) : α :=
  NormalDistribution.INV_SQRT_2PI * m.exp (-(1 / 2) * x * x)

/-- Embedding of `BlackScholesEngine::calculate_d1_d2`: the pair `(d1, d2)`; the literal
`0.5` is written `1 / 2`. -/
def BlackScholesEngine.calculate_d1_d2 (m : Cmath α) (spec : OptionSpec α) (volatility : α) :
    α × α :=
  let sqrt_T := m.sqrt spec.time_to_expiry
  let vol_sqrt_T := volatility * sqrt_T
  let d1 := (m.log (spec.spot / spec.strike) +
    (spec.risk_free_rate + (1 / 2) * volatility * volatility) * spec.time_to_expiry) /
      vol_sqrt_T
  let d2 := d1 - vol_sqrt_T
  (d1, d2)

/-- Embedding of `BlackScholesEngine::price`. -/
def BlackScholesEngine.price (m : Cmath α) (spec : OptionSpec α) (volatility : α) : α :=
  let d := BlackScholesEngine.calculate_d1_d2 m spec volatility
  let discount_factor := m.exp (-spec.risk_free_rate * spec.time_to_expiry)
  if spec.type = OptionType.CALL then
    spec.spot * NormalDistribution.cdf m d.1 -
      spec.strike * discount_factor * NormalDistribution.cdf m d.2
  else
    spec.strike * discount_factor * NormalDistribution.cdf m (-d.2) -
      spec.spot * NormalDistribution.cdf m (-d.1)

/-- Embedding of `BlackScholesEngine::verify_put_call_parity`. -/
def BlackScholesEngine.verify_put_call_parity (m : Cmath α) (call_price put_price : α)
    (spec : OptionSpec α) (tolerance : α) : Bool :=
  let lhs := call_price - put_price
  let rhs := spec.spot - spec.strike * m.exp (-spec.risk_free_rate * spec.time_to_expiry)
  decide (|lhs - rhs| < tolerance)

end black_scholes

end implied_vol

namespace yield_curve

/-! ## Specification-side definitions -/

section spec_defs

variable {α : Type} [LinearOrderedField α] [FloorRing α]

/-- The number of payment dates of a bond: the largest `N` with
`N * dt ≤ maturity + 1e-10`. -/
def payment_count (b : BondData α) : Nat :=
  ⌊(b.maturity + 1e-10) * (b.payment_frequency : α)⌋₊

/-- The schedule `dt, 2*dt, ..., N*dt` in the words of the specification. -/
def payment_schedule (b : BondData α) : List α :=
  (List.range (payment_count b)).map (fun (k : Nat) => ((k : α) + 1) * (1 / (b.payment_frequency : α)))

/-- The defects that make a bond set invalid, in the words of the specification. -/
def bond_defect (b : BondData α) : Prop :=
  b.maturity ≤ 0 ∨ b.coupon_rate < 0 ∨ b.payment_frequency ≤ 0 ∨ b.market_price ≤ 0 ∨
    b.market_price > 2 * b.face_value ∨ b.face_value ≤ 0

/-- The value `D(t)` of `get_discount_factor` on a curve (`0` where the call fails). -/
def YieldCurve.D (m : Libm α) (c : YieldCurve α) (t : α) : α :=
  match c.get_discount_factor m t with
  | Except.ok v => v
  | Except.error _ => 0

/-- The curve holding only the first `k` knots of `c`. -/
def YieldCurve.first_knots (c : YieldCurve α) (k : Nat) : YieldCurve α :=
  { c with times_ := c.times_.take k, discount_factors_ := c.discount_factors_.take k }

/-- The total present value of a payment schedule on a curve:
the sum of `cash_flow_i * get_discount_factor(payment_time_i)`. -/
def present_value (m : Libm α) (c : YieldCurve α) (pts cfs : List α) : α :=
  ∑ i ∈ Finset.range pts.length, cfs.getD i 0 * c.D m (pts.getD i 0)

/-- The laws of `exp` and `log` that interpolation through a knot relies on. -/
def Libm.exp_log_laws (m : Libm α) : Prop :=
  m.exp 0 = 1 ∧ ∀ x : α, 0 < x → m.exp (m.log x) = x

/-- The forward rate of an interval in the words of the specification:
`f = -ln(DF_{i+1}/DF_i)/(t_{i+1} - t_i)`. -/
def interval_forward_rate (m : Libm α) (ti ti1 di di1 : α) : α :=
  -m.log (di1 / di) / (ti1 - ti)

/-- The value of each strategy on the interval `[t_i, t_{i+1}]` in the words of the
specification (§4.2). -/
def interval_value (m : Libm α) (type : InterpolationType) (ti ti1 di di1 t : α) : α :=
  match type with
  | InterpolationType.LINEAR => di + (t - ti) / (ti1 - ti) * (di1 - di)
  | InterpolationType.LOG_LINEAR =>
    m.exp (m.log di + (t - ti) / (ti1 - ti) * (m.log di1 - m.log di))
  | InterpolationType.FLAT_FORWARD =>
    di * m.exp (-interval_forward_rate m ti ti1 di di1 * (t - ti))

/-- The curves a program can hold: the constructor's result and whatever the two
mutators `add_point` and `apply_cubic_spline_smoothing` leave behind, whether they
return or throw. -/
inductive YieldCurve.Reachable (m : Libm α) : YieldCurve α → Prop
  | init (type : CompoundingType) (interp_type : InterpolationType) :
    YieldCurve.Reachable m (YieldCurve.init type interp_type)
  | add_point (c : YieldCurve α) (time discount_factor : α) :
    YieldCurve.Reachable m c →
    YieldCurve.Reachable m (c.add_point_state time discount_factor).2
  | smoothing (c : YieldCurve α) :
    YieldCurve.Reachable m c →
    YieldCurve.Reachable m (c.apply_cubic_spline_smoothing m).2

/-- The class invariant of `YieldCurve`: as many times as discount factors, every time
non-negative, every discount factor valid, and, while `use_spline_` is set, `spline_`
is the spline fitted to the zero rates of the current knots. -/
def YieldCurve.invariant (m : Libm α) (c : YieldCurve α) : Prop :=
  c.times_.length = c.discount_factors_.length ∧
  (∀ t ∈ c.times_, 0 ≤ t) ∧
  (∀ d ∈ c.discount_factors_, 1e-10 < d ∧ d ≤ 1) ∧
  (c.use_spline_ = true → ∃ zero_rates, c.zero_rates m = Except.ok zero_rates ∧
    ((CubicSpline.init : CubicSpline α).fit c.times_ zero_rates).1 = Except.ok () ∧
    c.spline_ = some ((CubicSpline.init : CubicSpline α).fit c.times_ zero_rates).2)

/-- A `Libm ℚ` for evaluating code paths that never call `exp`, `log` or `pow`
(bootstrapping and discount-factor queries under linear interpolation). -/
def libm_unused : Libm ℚ :=
  { exp := fun _ => 0, log := fun _ => 0, pow := fun _ _ => 0 }

end spec_defs

/-! ## Payment schedule and cash flows -/

section bond_lemmas

variable {α : Type} [LinearOrderedField α] [FloorRing α]

omit [FloorRing α] in
theorem eps_pos : (0 : α) < 1e-10 := by norm_num

omit [FloorRing α] in
theorem get_payment_times_loop_eq (maturity dt : α) (n : Nat) :
    ∀ (fuel : Nat) (t : α) (acc : List α),
      (∀ k : Nat, k < n → t + (k : α) * dt ≤ maturity + 1e-10) →
      ¬ (t + (n : α) * dt ≤ maturity + 1e-10) → n < fuel →
      get_payment_times_loop maturity dt fuel t acc
        = some (acc ++ (List.range n).map (fun (k : Nat) => t + (k : α) * dt)) := by
  induction n with
  | zero =>
    intro fuel t acc _ hstop hfuel
    obtain ⟨f, rfl⟩ : ∃ f, fuel = f + 1 := ⟨fuel - 1, by omega⟩
    have hstop' : ¬ (t ≤ maturity + 1e-10) := by simpa using hstop
    simp [get_payment_times_loop, hstop']
  | succ n ih =>
    intro fuel t acc hgo hstop hfuel
    obtain ⟨f, rfl⟩ : ∃ f, fuel = f + 1 := ⟨fuel - 1, by omega⟩
    have h0 : t ≤ maturity + 1e-10 := by simpa using hgo 0 (Nat.succ_pos n)
    have hgo' : ∀ k : Nat, k < n → (t + dt) + (k : α) * dt ≤ maturity + 1e-10 := by
      intro k hk
      have := hgo (k + 1) (by omega)
      push_cast at this
      linarith
    have hstop' : ¬ ((t + dt) + (n : α) * dt ≤ maturity + 1e-10) := by
      intro h
      apply hstop
      push_cast
      linarith
    rw [get_payment_times_loop, if_pos h0, ih f (t + dt) (acc ++ [t]) hgo' hstop' (by omega)]
    rw [List.range_succ_eq_map, List.map_cons, List.map_map, List.append_assoc]
    congr 2
    simp only [List.singleton_append, List.cons.injEq]
    refine ⟨by simp, ?_⟩
    apply List.map_congr_left
    intro k _
    simp only [Function.comp_apply, Nat.cast_succ]
    ring

theorem payment_count_spec (b : BondData α) (hf : 0 < b.payment_frequency) (k : Nat) :
    k + 1 ≤ payment_count b ↔
      ((k : α) + 1) * (1 / (b.payment_frequency : α)) ≤ b.maturity + 1e-10 := by
  have hfa : (0 : α) < (b.payment_frequency : α) := by exact_mod_cast hf
  rw [mul_one_div, div_le_iff₀ hfa]
  by_cases hneg : 0 ≤ (b.maturity + 1e-10) * (b.payment_frequency : α)
  · have := Nat.le_floor_iff (n := k + 1) hneg
    rw [Nat.cast_succ] at this
    exact this
  · have hlt : (b.maturity + 1e-10) * (b.payment_frequency : α) < 0 := not_le.mp hneg
    have h0 : payment_count b = 0 := by
      unfold payment_count
      exact Nat.floor_of_nonpos hlt.le
    rw [h0]
    constructor
    · intro hk
      omega
    · intro hk
      have : (0 : α) ≤ (k : α) := Nat.cast_nonneg k
      linarith

theorem get_payment_times_eq (b : BondData α) (hf : 0 < b.payment_frequency) :
    b.get_payment_times = some (payment_schedule b) := by
  have hne : b.payment_frequency ≠ 0 := ne_of_gt hf
  have key := get_payment_times_loop_eq b.maturity (1 / (b.payment_frequency : α))
    (payment_count b) (payment_fuel b) (1 / (b.payment_frequency : α)) []
    (by
      intro k hk
      have := (payment_count_spec b hf k).mp hk
      linarith)
    (by
      intro h
      have h2 : ((payment_count b : α) + 1) * (1 / (b.payment_frequency : α))
          ≤ b.maturity + 1e-10 := by linarith
      have := (payment_count_spec b hf (payment_count b)).mpr h2
      omega)
    (by unfold payment_fuel payment_count; omega)
  unfold BondData.get_payment_times
  rw [if_neg hne]
  simp only [key, payment_schedule, List.nil_append, Option.some.injEq]
  apply List.map_congr_left
  intro k _
  ring

theorem get_cash_flows_eq (b : BondData α) (hf : 0 < b.payment_frequency) :
    b.get_cash_flows = some ((List.range (payment_count b)).map (fun i =>
      if i = payment_count b - 1
      then b.coupon_rate * b.face_value / (b.payment_frequency : α) + b.face_value
      else b.coupon_rate * b.face_value / (b.payment_frequency : α))) := by
  unfold BondData.get_cash_flows
  rw [get_payment_times_eq b hf]
  simp [payment_schedule]

theorem payment_schedule_length (b : BondData α) :
    (payment_schedule b).length = payment_count b := by
  simp [payment_schedule]

theorem payment_schedule_getElem? (b : BondData α) (k : Nat) (hk : k < payment_count b) :
    (payment_schedule b)[k]? = some (((k : α) + 1) * (1 / (b.payment_frequency : α))) := by
  simp [payment_schedule, List.getElem?_map, List.getElem?_range hk]

theorem payment_schedule_sorted (b : BondData α) (hf : 0 < b.payment_frequency) :
    (payment_schedule b).Sorted (· < ·) := by
  have hfa : (0 : α) < (b.payment_frequency : α) := by exact_mod_cast hf
  have hdt : (0 : α) < 1 / (b.payment_frequency : α) := one_div_pos.mpr hfa
  unfold payment_schedule List.Sorted
  refine List.Pairwise.map _ ?_ (List.pairwise_lt_range _)
  intro i j hij
  have : (i : α) < (j : α) := by exact_mod_cast hij
  exact mul_lt_mul_of_pos_right (by linarith) hdt

theorem payment_count_on_grid (b : BondData α) (hf : 0 < b.payment_frequency)
    (hint : b.payment_frequency < 2 ^ 31) (k : Nat)
    (hgrid : b.maturity = (k : α) * (1 / (b.payment_frequency : α))) :
    payment_count b = k := by
  have hfa : (0 : α) < (b.payment_frequency : α) := by exact_mod_cast hf
  have hfb : (b.payment_frequency : α) < 2 ^ 31 := by exact_mod_cast hint
  have hprod : (b.maturity + 1e-10) * (b.payment_frequency : α)
      = (k : α) + 1e-10 * (b.payment_frequency : α) := by
    rw [hgrid]
    field_simp
  have hk0 : (0 : α) ≤ (k : α) := Nat.cast_nonneg k
  have hsmall : (1e-10 : α) * (b.payment_frequency : α) < 1 := by
    have : (1e-10 : α) * (b.payment_frequency : α) < 1e-10 * 2 ^ 31 :=
      mul_lt_mul_of_pos_left hfb eps_pos
    have h2 : (1e-10 : α) * 2 ^ 31 < 1 := by norm_num
    linarith
  have hpos : (0 : α) ≤ 1e-10 * (b.payment_frequency : α) :=
    mul_nonneg eps_pos.le hfa.le
  unfold payment_count
  rw [hprod, Nat.floor_eq_iff (by linarith)]
  constructor <;> linarith

end bond_lemmas

/-! ## Claims about the payment schedule and the cash flows -/

section bond_claims

variable {α : Type} [LinearOrderedField α] [FloorRing α]

/-- C10: for every bond with `payment_frequency > 0`, `get_cash_flows` returns a
sequence of the same length as `get_payment_times`, every entry but the last is the
coupon `coupon_rate * face_value / payment_frequency`, and the last entry is that
coupon plus `face_value`. -/
theorem C10_cash_flows (b : BondData α) (hf : 0 < b.payment_frequency) :
    ∃ times cash_flows : List α,
      b.get_payment_times = some times ∧ b.get_cash_flows = some cash_flows ∧
      cash_flows.length = times.length ∧
      (∀ i : Nat, i + 1 < cash_flows.length →
        cash_flows[i]? = some (b.coupon_rate * b.face_value / (b.payment_frequency : α))) ∧
      (cash_flows ≠ [] →
        cash_flows.getLast? =
          some (b.coupon_rate * b.face_value / (b.payment_frequency : α) + b.face_value)) := by
  refine ⟨_, _, get_payment_times_eq b hf, get_cash_flows_eq b hf, ?_, ?_, ?_⟩
  · simp [payment_schedule_length]
  · intro i hi
    simp only [List.length_map, List.length_range] at hi
    rw [List.getElem?_map, List.getElem?_range (by omega)]
    simp only [Option.map_some']
    rw [if_neg (by omega)]
  · intro hne
    have hpos : 0 < payment_count b := by
      rw [← List.length_pos] at hne
      simpa using hne
    rw [List.getLast?_eq_getElem?]
    simp only [List.length_map, List.length_range]
    rw [List.getElem?_map, List.getElem?_range (by omega)]
    simp

/-- C10 witness: the one-year bond paying twice a year. -/
theorem C10_cash_flows_witness :
    ∃ times cash_flows : List ℚ,
      (BondData.mk (1 : ℚ) (2 / 100) 2 99 100).get_payment_times = some times ∧
      (BondData.mk (1 : ℚ) (2 / 100) 2 99 100).get_cash_flows = some cash_flows ∧
      cash_flows.length = times.length := by
  obtain ⟨t, c, h1, h2, h3, _⟩ :=
    C10_cash_flows (BondData.mk (1 : ℚ) (2 / 100) 2 99 100) (by decide)
  exact ⟨t, c, h1, h2, h3⟩

end bond_claims


/-! ## Validation and sorting -/

section validation

variable {α : Type} [LinearOrderedField α] [FloorRing α]

omit [FloorRing α] in
theorem validate_bonds_loop_iff (bonds : List (BondData α)) :
    Bootstrapper.validate_bonds_loop bonds = true ↔ ∀ b ∈ bonds, ¬ bond_defect b := by
  induction bonds with
  | nil => simp [Bootstrapper.validate_bonds_loop]
  | cons b rest ih =>
    simp only [Bootstrapper.validate_bonds_loop, List.mem_cons, forall_eq_or_imp, bond_defect]
    by_cases h1 : b.maturity ≤ 0
    · simp [h1]
    by_cases h2 : b.coupon_rate < 0
    · simp [h2]
    by_cases h3 : b.payment_frequency ≤ 0
    · simp [h3]
    by_cases h4 : b.market_price ≤ 0
    · simp [h4]
    by_cases h5 : b.face_value ≤ 0
    · simp [h5]
    by_cases h6 : b.market_price > b.face_value * 2
    · have h6' : b.market_price > 2 * b.face_value := by linarith
      simp [h1, h2, h3, h4, h5, h6, h6']
    · have h6' : ¬ b.market_price > 2 * b.face_value := by
        intro h
        apply h6
        linarith
      simp only [h1, h2, h3, h4, h5, h6, h6', if_false, or_self, not_false_eq_true, true_and]
      exact ih

omit [FloorRing α] in
theorem validate_bonds_iff (bonds : List (BondData α)) :
    Bootstrapper.validate_bonds bonds = true ↔ bonds ≠ [] ∧ ∀ b ∈ bonds, ¬ bond_defect b := by
  unfold Bootstrapper.validate_bonds
  cases bonds with
  | nil => simp
  | cons b rest =>
    simp only [List.isEmpty_cons, Bool.false_eq_true, if_false, ne_eq, reduceCtorEq,
      not_false_eq_true, true_and]
    exact validate_bonds_loop_iff (b :: rest)

omit [FloorRing α] in
theorem validate_bonds_perm {l₁ l₂ : List (BondData α)} (h : l₁.Perm l₂) :
    Bootstrapper.validate_bonds l₁ = Bootstrapper.validate_bonds l₂ := by
  have key : Bootstrapper.validate_bonds l₁ = true ↔ Bootstrapper.validate_bonds l₂ = true := by
    rw [validate_bonds_iff, validate_bonds_iff]
    constructor
    · rintro ⟨hne, hall⟩
      refine ⟨fun h0 => hne ?_, fun b hb => hall b (h.mem_iff.mpr hb)⟩
      subst h0
      exact List.Perm.eq_nil h
    · rintro ⟨hne, hall⟩
      refine ⟨fun h0 => hne ?_, fun b hb => hall b (h.mem_iff.mp hb)⟩
      subst h0
      exact List.Perm.eq_nil h.symm
  cases h1 : Bootstrapper.validate_bonds l₁ <;> cases h2 : Bootstrapper.validate_bonds l₂ <;>
    simp_all

omit [FloorRing α] in
theorem sort_bonds_perm (bonds : List (BondData α)) :
    (Bootstrapper.sort_bonds_by_maturity bonds).Perm bonds :=
  List.perm_insertionSort _ bonds

omit [FloorRing α] in
theorem sort_bonds_sorted (bonds : List (BondData α)) :
    (Bootstrapper.sort_bonds_by_maturity bonds).Sorted (fun a b => a.maturity ≤ b.maturity) := by
  haveI : IsTotal (BondData α) (fun a b => a.maturity ≤ b.maturity) :=
    ⟨fun a b => le_total a.maturity b.maturity⟩
  haveI : IsTrans (BondData α) (fun a b => a.maturity ≤ b.maturity) :=
    ⟨fun _ _ _ h1 h2 => le_trans h1 h2⟩
  exact List.sorted_insertionSort _ bonds

omit [FloorRing α] in
theorem sort_bonds_strict (bonds : List (BondData α))
    (hd : bonds.Pairwise (fun a b => a.maturity ≠ b.maturity)) :
    (Bootstrapper.sort_bonds_by_maturity bonds).Sorted (fun a b => a.maturity < b.maturity) := by
  have hd' : (Bootstrapper.sort_bonds_by_maturity bonds).Pairwise
      (fun a b => a.maturity ≠ b.maturity) :=
    ((sort_bonds_perm bonds).pairwise_iff (fun {a b} (h : a.maturity ≠ b.maturity) => h.symm)).mpr hd
  exact List.Pairwise.imp₂ (fun a b h1 h2 => lt_of_le_of_ne h1 h2) (sort_bonds_sorted bonds) hd'

omit [FloorRing α] in
theorem sort_bonds_perm_eq {l₁ l₂ : List (BondData α)} (h : l₁.Perm l₂)
    (hd : l₁.Pairwise (fun a b => a.maturity ≠ b.maturity)) :
    Bootstrapper.sort_bonds_by_maturity l₂ = Bootstrapper.sort_bonds_by_maturity l₁ := by
  have hd2 : l₂.Pairwise (fun a b => a.maturity ≠ b.maturity) :=
    (h.pairwise_iff (fun {a b} (h : a.maturity ≠ b.maturity) => h.symm)).mp hd
  haveI : IsAntisymm (BondData α) (fun a b => a.maturity < b.maturity) :=
    ⟨fun a b h1 h2 => absurd h1 (not_lt.mpr h2.le)⟩
  exact List.eq_of_perm_of_sorted
    (((sort_bonds_perm l₂).trans h.symm).trans (sort_bonds_perm l₁).symm)
    (sort_bonds_strict l₂ hd2) (sort_bonds_strict l₁ hd)

end validation

/-! ## Vectors and interpolation -/

section interpolation_lemmas

variable {α : Type}

theorem vec_at_eq_ok {v : List α} {i : Nat} {x : α} :
    vec_at v i = Except.ok x ↔ v[i]? = some x := by
  unfold vec_at
  cases h : v[i]? <;> simp

theorem vec_at_of_getElem? {v : List α} {i : Nat} {x : α} (h : v[i]? = some x) :
    vec_at v i = Except.ok x :=
  vec_at_eq_ok.mpr h

theorem vec_at_of_lt {v : List α} {i : Nat} (h : i < v.length) :
    vec_at v i = Except.ok (v.get ⟨i, h⟩) :=
  vec_at_eq_ok.mpr (by simp [List.getElem?_eq_getElem h])

theorem vec_front_eq_ok {v : List α} {x : α} :
    vec_front v = Except.ok x ↔ v.head? = some x := by
  unfold vec_front
  cases h : v.head? <;> simp

theorem vec_back_eq_ok {v : List α} {x : α} :
    vec_back v = Except.ok x ↔ v.getLast? = some x := by
  unfold vec_back
  cases h : v.getLast? <;> simp

theorem vec_front_cons (a : α) (v : List α) : vec_front (a :: v) = Except.ok a := by
  simp [vec_front]

theorem vec_back_of_ne_nil {v : List α} (h : v ≠ []) :
    vec_back v = Except.ok (v.getLast h) := by
  simp [vec_back, List.getLast?_eq_getLast v h]

variable [LinearOrderedField α]

theorem lower_bound_pos {a t : α} (rest : List α) (h : a < t) :
    0 < lower_bound (a :: rest) t := by
  simp [lower_bound, List.takeWhile_cons, h]

theorem lower_bound_lt_length {t : α} :
    ∀ (v : List α) (hne : v ≠ []), ¬ (v.getLast hne < t) → lower_bound v t < v.length := by
  intro v
  induction v with
  | nil => intro hne; exact absurd rfl hne
  | cons a rest ih =>
    intro hne hlast
    by_cases ha : a < t
    · cases rest with
      | nil => exact absurd ha (by simpa using hlast)
      | cons b rest' =>
        have := ih (by simp) (by simpa [List.getLast_cons] using hlast)
        simp only [lower_bound, List.takeWhile_cons, ha, decide_True, if_true,
          List.length_cons] at this ⊢
        omega
    · simp [lower_bound, List.takeWhile_cons, ha]

theorem find_interval_interior {t a b : α} {times : List α}
    (hfront : times.head? = some a) (hback : times.getLast? = some b)
    (h1 : ¬ t ≤ a) (h2 : ¬ t ≥ b) :
    Interpolator.find_interval t times = Except.ok (lower_bound times t - 1) ∧
      0 < lower_bound times t ∧ lower_bound times t < times.length := by
  cases times with
  | nil => simp at hfront
  | cons a' rest =>
    have ha : a' = a := by simpa using hfront
    subst ha
    have hpos : 0 < lower_bound (a' :: rest) t := lower_bound_pos rest (not_le.mp h1)
    have hb : (a' :: rest).getLast (by simp) = b := by
      rw [List.getLast?_eq_getLast _ (by simp)] at hback
      exact Option.some.inj hback
    have hlt : lower_bound (a' :: rest) t < (a' :: rest).length :=
      lower_bound_lt_length _ (by simp) (by rw [hb]; exact fun h => h2 h.le)
    refine ⟨?_, hpos, hlt⟩
    simp only [Interpolator.find_interval, List.isEmpty_cons, Bool.false_eq_true, if_false,
      vec_front_cons, vec_back_eq_ok.mpr hback, bind, Except.bind, h1, h2, pure, Except.pure,
      hpos, if_true]

theorem interpolate_total (m : Libm α) (type : InterpolationType) (t : α)
    (times discount_factors : List α) (hne : times ≠ [])
    (hlen : times.length = discount_factors.length) :
    ∃ v, Interpolator.interpolate m type t times discount_factors = Except.ok v := by
  have hne' : discount_factors ≠ [] := by
    intro h
    apply hne
    rw [h] at hlen
    exact List.length_eq_zero.mp hlen
  have hpos : 0 < times.length := List.length_pos.mpr hne
  have hfront : times.head? = some (times.head hne) := List.head?_eq_head hne
  have hback : times.getLast? = some (times.getLast hne) := List.getLast?_eq_getLast _ hne
  have hdfront : vec_front discount_factors = Except.ok (discount_factors.head hne') :=
    vec_front_eq_ok.mpr (List.head?_eq_head hne')
  have hdback := vec_back_of_ne_nil hne'
  have h0 : (0 : Nat) < discount_factors.length := by omega
  by_cases hone : times.length = 1
  · have hone' : discount_factors.length = 1 := by omega
    cases type <;>
      simp [Interpolator.interpolate, LinearInterpolator.interpolate,
        LogLinearInterpolator.interpolate, FlatForwardInterpolator.interpolate, hlen, hone, hone',
        vec_at_of_lt h0]
  have hone' : ¬ discount_factors.length = 1 := by omega
  by_cases h1 : t ≤ times.head hne
  · cases type <;>
      simp [Interpolator.interpolate, LinearInterpolator.interpolate,
        LogLinearInterpolator.interpolate, FlatForwardInterpolator.interpolate, hlen, hone, hone',
        vec_front_eq_ok.mpr hfront, bind, Except.bind, h1, hdfront]
  by_cases h2 : t ≥ times.getLast hne
  · have i1 : discount_factors.length - 2 < times.length := by omega
    have i2 : discount_factors.length - 1 < times.length := by omega
    have i3 : discount_factors.length - 2 < discount_factors.length := by omega
    have i4 : discount_factors.length - 1 < discount_factors.length := by omega
    cases type <;>
      simp [Interpolator.interpolate, LinearInterpolator.interpolate,
        LogLinearInterpolator.interpolate, FlatForwardInterpolator.interpolate, hlen, hone, hone',
        vec_front_eq_ok.mpr hfront, vec_back_eq_ok.mpr hback, bind, Except.bind, h1, h2,
        hdback, vec_at_of_lt i1, vec_at_of_lt i2, vec_at_of_lt i3, vec_at_of_lt i4, pure,
        Except.pure]
  · obtain ⟨hfi, hlb0, hlb1⟩ := find_interval_interior hfront hback h1 h2
    have i1 : lower_bound times t - 1 < times.length := by omega
    have i2 : lower_bound times t - 1 + 1 < times.length := by omega
    have i3 : lower_bound times t - 1 < discount_factors.length := by omega
    have i4 : lower_bound times t - 1 + 1 < discount_factors.length := by omega
    cases type <;>
      simp [Interpolator.interpolate, LinearInterpolator.interpolate,
        LogLinearInterpolator.interpolate, FlatForwardInterpolator.interpolate, hlen, hone, hone',
        vec_front_eq_ok.mpr hfront, vec_back_eq_ok.mpr hback, bind, Except.bind, h1, h2,
        hfi, vec_at_of_lt i1, vec_at_of_lt i2, vec_at_of_lt i3, vec_at_of_lt i4, pure,
        Except.pure]

theorem sorted_getElem?_lt {v : List α} (hs : v.Sorted (· < ·)) {i j : Nat} {x y : α}
    (hi : v[i]? = some x) (hj : v[j]? = some y) (hij : i < j) : x < y := by
  obtain ⟨h1, rfl⟩ := List.getElem?_eq_some.mp hi
  obtain ⟨h2, rfl⟩ := List.getElem?_eq_some.mp hj
  exact List.pairwise_iff_getElem.mp hs i j h1 h2 hij

theorem sorted_getElem?_inj {v : List α} (hs : v.Sorted (· < ·)) {i j : Nat} {x : α}
    (hi : v[i]? = some x) (hj : v[j]? = some x) : i = j := by
  rcases Nat.lt_trichotomy i j with h | h | h
  · exact absurd (sorted_getElem?_lt hs hi hj h) (lt_irrefl x)
  · exact h
  · exact absurd (sorted_getElem?_lt hs hj hi h) (lt_irrefl x)

theorem lower_bound_knot :
    ∀ (v : List α) (j : Nat) (x : α), v.Sorted (· < ·) → v[j]? = some x →
      lower_bound v x = j := by
  intro v
  induction v with
  | nil => intro j x _ h; simp at h
  | cons a rest ih =>
    intro j x hs hj
    obtain ⟨hall, hrest⟩ := List.sorted_cons.mp hs
    cases j with
    | zero =>
      have hx : a = x := by simpa using hj
      subst hx
      simp [lower_bound, List.takeWhile_cons]
    | succ j' =>
      have hj' : rest[j']? = some x := by simpa using hj
      have hax : a < x := hall x (List.getElem?_mem hj')
      have := ih j' x hrest hj'
      simp only [lower_bound] at this ⊢
      simp [List.takeWhile_cons, hax, this]

theorem flat_forward_algebra (L x : α) (hx : x ≠ 0) : -(-L / x) * x = L := by
  field_simp

theorem ratio_algebra (d e : α) (he : e ≠ 0) : e * (d / e) = d := by
  field_simp

theorem interpolate_at_knot (m : Libm α) (type : InterpolationType) (times dfs : List α)
    (hs : times.Sorted (· < ·)) (hlen : times.length = dfs.length)
    (hpos : ∀ d ∈ dfs, 0 < d)
    (hm : type = InterpolationType.LINEAR ∨ m.exp_log_laws)
    (j : Nat) (t d : α) (ht : times[j]? = some t) (hd : dfs[j]? = some d) :
    Interpolator.interpolate m type t times dfs = Except.ok d := by
  obtain ⟨hj, _⟩ := List.getElem?_eq_some.mp ht
  have hne : times ≠ [] := by
    intro h
    rw [h] at hj
    simp at hj
  have hne' : dfs ≠ [] := by
    intro h
    rw [h] at hlen
    exact hne (List.length_eq_zero.mp hlen)
  have hfront : times.head? = some (times.head hne) := List.head?_eq_head hne
  have hback : times.getLast? = some (times.getLast hne) := List.getLast?_eq_getLast _ hne
  have hfront0 : times[0]? = some (times.head hne) := by rw [← List.head?_eq_getElem?, hfront]
  have hbackn : times[dfs.length - 1]? = some (times.getLast hne) := by
    rw [← hlen, ← List.getLast?_eq_getElem?, hback]
  by_cases hone : times.length = 1
  · have hone' : dfs.length = 1 := by omega
    have hj0 : j = 0 := by omega
    subst hj0
    cases type <;>
      simp [Interpolator.interpolate, LinearInterpolator.interpolate,
        LogLinearInterpolator.interpolate, FlatForwardInterpolator.interpolate, hlen, hone',
        vec_at_of_getElem? hd]
  have hone' : ¬ dfs.length = 1 := by omega
  by_cases h1 : t ≤ times.head hne
  · have hj0 : j = 0 := by
      by_contra hj0
      exact absurd (sorted_getElem?_lt hs hfront0 ht (by omega)) (not_lt.mpr h1)
    subst hj0
    have hdf : vec_front dfs = Except.ok d := by
      rw [vec_front_eq_ok, List.head?_eq_getElem?]
      exact hd
    cases type <;>
      simp [Interpolator.interpolate, LinearInterpolator.interpolate,
        LogLinearInterpolator.interpolate, FlatForwardInterpolator.interpolate, hlen, hone',
        vec_front_eq_ok.mpr hfront, bind, Except.bind, h1, hdf]
  by_cases h2 : t ≥ times.getLast hne
  · have hjn : j = dfs.length - 1 := by
      by_contra hjn
      exact absurd (sorted_getElem?_lt hs ht hbackn (by omega)) (not_lt.mpr h2)
    subst hjn
    have hdb : vec_back dfs = Except.ok d := by
      rw [vec_back_eq_ok, List.getLast?_eq_getElem?]
      exact hd
    have i1 : dfs.length - 2 < times.length := by omega
    have i3 : dfs.length - 2 < dfs.length := by omega
    rcases hm with hlin | ⟨hexp0, _⟩
    · subst hlin
      simp [Interpolator.interpolate, LinearInterpolator.interpolate, hlen, hone',
        vec_front_eq_ok.mpr hfront, vec_back_eq_ok.mpr hback, bind, Except.bind, h1, h2, hdb]
    · cases type <;>
        simp [Interpolator.interpolate, LinearInterpolator.interpolate,
          LogLinearInterpolator.interpolate, FlatForwardInterpolator.interpolate, hlen, hone',
          vec_front_eq_ok.mpr hfront, vec_back_eq_ok.mpr hback, bind, Except.bind, h1, h2,
          hdb, vec_at_of_lt i1, vec_at_of_lt i3, vec_at_of_getElem? ht, vec_at_of_getElem? hd,
          pure, Except.pure, hexp0]
  · obtain ⟨hfi, hlb0, hlb1⟩ := find_interval_interior hfront hback h1 h2
    have hlb : lower_bound times t = j := lower_bound_knot times j t hs ht
    rw [hlb] at hfi hlb0
    have i1 : j - 1 < times.length := by omega
    have i3 : j - 1 < dfs.length := by omega
    have e1 : j - 1 + 1 = j := by omega
    have ht1 : times[j - 1]? = some (times.get ⟨j - 1, i1⟩) := by
      simp [List.getElem?_eq_getElem i1]
    have hd1 : dfs[j - 1]? = some (dfs.get ⟨j - 1, i3⟩) := by
      simp [List.getElem?_eq_getElem i3]
    have hlt : times.get ⟨j - 1, i1⟩ < t := sorted_getElem?_lt hs ht1 ht (by omega)
    have hdpos : 0 < dfs.get ⟨j - 1, i3⟩ := hpos _ (List.get_mem dfs (j - 1) i3)
    have hd0 : 0 < d := hpos d (List.getElem?_mem hd)
    have hsub : t - times.get ⟨j - 1, i1⟩ ≠ 0 := by
      have : 0 < t - times.get ⟨j - 1, i1⟩ := sub_pos.mpr hlt
      exact ne_of_gt this
    rcases hm with hlin | ⟨_, hexplog⟩
    · subst hlin
      simp only [Interpolator.interpolate, LinearInterpolator.interpolate, hlen, hone',
        vec_front_eq_ok.mpr hfront, vec_back_eq_ok.mpr hback, bind, Except.bind, h1, h2, hfi,
        e1, vec_at_of_getElem? ht1, vec_at_of_getElem? hd1, vec_at_of_getElem? ht,
        vec_at_of_getElem? hd, pure, Except.pure, ne_eq, not_true_eq_false, if_false,
        Except.ok.injEq]
      rw [div_self hsub]
      ring
    · cases type
      · simp only [Interpolator.interpolate, LinearInterpolator.interpolate, hlen, hone',
          vec_front_eq_ok.mpr hfront, vec_back_eq_ok.mpr hback, bind, Except.bind, h1, h2, hfi,
          e1, vec_at_of_getElem? ht1, vec_at_of_getElem? hd1, vec_at_of_getElem? ht,
          vec_at_of_getElem? hd, pure, Except.pure, ne_eq, not_true_eq_false, if_false,
          Except.ok.injEq]
        rw [div_self hsub]
        ring
      · simp only [Interpolator.interpolate, LogLinearInterpolator.interpolate, hlen, hone',
          vec_front_eq_ok.mpr hfront, vec_back_eq_ok.mpr hback, bind, Except.bind, h1, h2, hfi,
          e1, vec_at_of_getElem? ht1, vec_at_of_getElem? hd1, vec_at_of_getElem? ht,
          vec_at_of_getElem? hd, pure, Except.pure, ne_eq, not_true_eq_false, if_false,
          Except.ok.injEq]
        rw [div_self hsub]
        have : m.log (dfs.get ⟨j - 1, i3⟩) + 1 * (m.log d - m.log (dfs.get ⟨j - 1, i3⟩))
            = m.log d := by ring
        rw [this, hexplog d hd0]
      · simp only [Interpolator.interpolate, FlatForwardInterpolator.interpolate, hlen, hone',
          vec_front_eq_ok.mpr hfront, vec_back_eq_ok.mpr hback, bind, Except.bind, h1, h2, hfi,
          e1, vec_at_of_getElem? ht1, vec_at_of_getElem? hd1, vec_at_of_getElem? ht,
          vec_at_of_getElem? hd, pure, Except.pure, ne_eq, not_true_eq_false, if_false,
          Except.ok.injEq]
        rw [flat_forward_algebra _ _ hsub, hexplog _ (div_pos hd0 hdpos)]
        exact ratio_algebra _ _ (ne_of_gt hdpos)

end interpolation_lemmas

/-! ## The bootstrap loop -/

section bootstrap_lemmas

variable {α : Type} [LinearOrderedField α]

theorem get_discount_factor_total (m : Libm α) (c : YieldCurve α) (hne : c.times_ ≠ [])
    (hlen : c.times_.length = c.discount_factors_.length) (hsp : c.use_spline_ = false)
    (t : α) (ht : 0 ≤ t) : ∃ v, c.get_discount_factor m t = Except.ok v := by
  unfold YieldCurve.get_discount_factor
  have he : c.times_.isEmpty = false := by
    cases h : c.times_ with
    | nil => exact absurd h hne
    | cons a l => rfl
  rw [he, hsp]
  simp only [Bool.false_eq_true, if_false, not_lt.mpr ht]
  by_cases hsmall : t < 1e-10
  · exact ⟨1, by simp [hsmall]⟩
  · simp only [hsmall, if_false]
    exact interpolate_total m c.interpolator_ t c.times_ c.discount_factors_ hne hlen

theorem D_of_ok {m : Libm α} {c : YieldCurve α} {t v : α}
    (h : c.get_discount_factor m t = Except.ok v) : c.D m t = v := by
  simp [YieldCurve.D, h]

theorem pv_fold_spec (m : Libm α) (pts cfs : List α) (c : YieldCurve α) (k : Nat) (pv : α) :
    (List.range k).foldlM (Bootstrapper.pv_known_step m pts cfs c) 0 = Except.ok pv ↔
      (∀ i, i < k → ∃ t cf d, pts[i]? = some t ∧ cfs[i]? = some cf ∧
        c.get_discount_factor m t = Except.ok d) ∧
      pv = ∑ i ∈ Finset.range k, cfs.getD i 0 * c.D m (pts.getD i 0) := by
  induction k generalizing pv with
  | zero => simp [pure, Except.pure, eq_comm]
  | succ k ih =>
    rw [List.range_succ, List.foldlM_append]
    cases hk : (List.range k).foldlM (Bootstrapper.pv_known_step m pts cfs c) 0 with
    | error e =>
      simp only [bind, Except.bind, reduceCtorEq, false_iff, not_and]
      intro hall
      exfalso
      have h1 := (ih (∑ i ∈ Finset.range k, cfs.getD i 0 * c.D m (pts.getD i 0))).mpr
        ⟨fun i hi => hall i (by omega), rfl⟩
      rw [hk] at h1
      cases h1
    | ok pv0 =>
      obtain ⟨hall0, hpv0⟩ := (ih pv0).mp hk
      simp only [bind, Except.bind, List.foldlM_cons, List.foldlM_nil, pure, Except.pure]
      constructor
      · intro hstep
        unfold Bootstrapper.pv_known_step at hstep
        cases ht : vec_at pts k with
        | error e => simp [ht, bind, Except.bind] at hstep
        | ok t =>
          cases hd : c.get_discount_factor m t with
          | error e => simp [ht, hd, bind, Except.bind] at hstep
          | ok d =>
            cases hc : vec_at cfs k with
            | error e => simp [ht, hd, hc, bind, Except.bind] at hstep
            | ok cf =>
              simp only [ht, hd, hc, bind, Except.bind, pure, Except.pure,
                Except.ok.injEq] at hstep
              have hpt := vec_at_eq_ok.mp ht
              have hcf := vec_at_eq_ok.mp hc
              refine ⟨?_, ?_⟩
              · intro i hi
                by_cases hik : i = k
                · subst hik
                  exact ⟨t, cf, d, hpt, hcf, hd⟩
                · exact hall0 i (by omega)
              · rw [Finset.sum_range_succ, ← hpv0, ← hstep]
                simp [List.getD, hpt, hcf, D_of_ok hd]
      · rintro ⟨hall, hpv⟩
        obtain ⟨t, cf, d, hpt, hcf, hd⟩ := hall k (by omega)
        unfold Bootstrapper.pv_known_step
        simp only [vec_at_of_getElem? hpt, vec_at_of_getElem? hcf, hd, bind, Except.bind,
          pure, Except.pure, Except.ok.injEq]
        rw [hpv, Finset.sum_range_succ, ← hpv0]
        simp [List.getD, hpt, hcf, D_of_ok hd]

end bootstrap_lemmas

section bootstrap_loop

variable {α : Type} [LinearOrderedField α] [FloorRing α]

theorem df_final_ok_iff (m : Libm α) (b : BondData α) (c : YieldCurve α) (df : α) :
    Bootstrapper.df_final m b c = Except.ok df ↔
      ∃ pts cfs last, b.get_payment_times = some pts ∧ b.get_cash_flows = some cfs ∧
        pts ≠ [] ∧ cfs.getLast? = some last ∧
        (∀ i, i < pts.length - 1 → ∃ t cf d, pts[i]? = some t ∧ cfs[i]? = some cf ∧
          c.get_discount_factor m t = Except.ok d) ∧
        df = (b.market_price -
          ∑ i ∈ Finset.range (pts.length - 1), cfs.getD i 0 * c.D m (pts.getD i 0)) / last := by
  unfold Bootstrapper.df_final
  cases hp : b.get_payment_times with
  | none => simp
  | some pts =>
    cases hc : b.get_cash_flows with
    | none => simp
    | some cfs =>
      simp only [Option.some.injEq, exists_and_left, exists_eq_left']
      cases pts with
      | nil => simp
      | cons p ps =>
        simp only [List.isEmpty_cons, Bool.false_eq_true, if_false, ne_eq, reduceCtorEq,
          not_false_eq_true, true_and]
        unfold Bootstrapper.pv_known
        cases hpv : (List.range ((p :: ps).length - 1)).foldlM
            (Bootstrapper.pv_known_step m (p :: ps) cfs c) 0 with
        | error e =>
          simp only [bind, Except.bind, reduceCtorEq, false_iff, not_exists, not_and]
          intro last _ hall
          exfalso
          have := (pv_fold_spec m (p :: ps) cfs c ((p :: ps).length - 1) _).mpr
            ⟨fun i hi => by
              obtain ⟨t, h1, cf, h2, d, h3⟩ := hall i hi
              exact ⟨t, cf, d, h1, h2, h3⟩, rfl⟩
          rw [hpv] at this
          cases this
        | ok pv =>
          obtain ⟨hall, hsum⟩ := (pv_fold_spec m (p :: ps) cfs c _ pv).mp hpv
          simp only [bind, Except.bind]
          cases hl : vec_back cfs with
          | error e =>
            simp only [reduceCtorEq, false_iff, not_exists, not_and]
            intro last hlast
            rw [vec_back_eq_ok.mpr hlast] at hl
            cases hl
          | ok last =>
            have hlast := vec_back_eq_ok.mp hl
            simp only [hlast, Option.some.injEq, exists_eq_left', ← hsum, pure, Except.pure,
              Except.ok.injEq]
            constructor
            · intro h
              subst h
              refine ⟨fun i hi => ?_, rfl⟩
              obtain ⟨t, cf, d, h1, h2, h3⟩ := hall i hi
              exact ⟨t, h1, cf, h2, d, h3⟩
            · rintro ⟨_, h⟩
              exact h.symm

theorem solve_eq_of_df_final (m : Libm α) (b : BondData α) (c : YieldCurve α) (dff : α)
    (h : Bootstrapper.df_final m b c = Except.ok dff) :
    Bootstrapper.solve_for_discount_factor m b c =
      if dff ≤ 0 ∨ dff > 1 then
        Except.error (Exn.runtime_error
          "Calculated discount factor out of valid range - possible arbitrage")
      else Except.ok dff := by
  simp [Bootstrapper.solve_for_discount_factor, h, bind, Except.bind, pure, Except.pure]

theorem solve_ok_iff (m : Libm α) (b : BondData α) (c : YieldCurve α) (df : α) :
    Bootstrapper.solve_for_discount_factor m b c = Except.ok df ↔
      Bootstrapper.df_final m b c = Except.ok df ∧ 0 < df ∧ df ≤ 1 := by
  cases h : Bootstrapper.df_final m b c with
  | error e => simp [Bootstrapper.solve_for_discount_factor, h, bind, Except.bind]
  | ok dff =>
    rw [solve_eq_of_df_final m b c dff h]
    by_cases hr : dff ≤ 0 ∨ dff > 1
    · simp only [hr, if_true, reduceCtorEq, Except.ok.injEq, false_iff, not_and, not_le]
      intro he h0
      subst he
      rcases hr with hr | hr
      · exact absurd h0 (not_lt.mpr hr)
      · exact hr
    · simp only [hr, if_false, Except.ok.injEq]
      push_neg at hr
      constructor
      · intro he
        subst he
        exact ⟨rfl, hr.1, hr.2⟩
      · exact fun h => h.1

theorem bootstrap_step_ok_iff (m : Libm α) (c c' : YieldCurve α) (b : BondData α) :
    Bootstrapper.bootstrap_step m c b = Except.ok c' ↔
      ∃ df, Bootstrapper.solve_for_discount_factor m b c = Except.ok df ∧
        ¬ b.maturity < 0 ∧ DiscountFactor.is_valid df = true ∧
        c' = { c with
          times_ := c.times_ ++ [b.maturity],
          discount_factors_ := c.discount_factors_ ++ [df],
          use_spline_ := false } := by
  unfold Bootstrapper.bootstrap_step
  cases hs : Bootstrapper.solve_for_discount_factor m b c with
  | error e => simp [bind, Except.bind]
  | ok df =>
    simp only [bind, Except.bind, YieldCurve.add_point, Except.ok.injEq, exists_eq_left']
    by_cases h1 : b.maturity < 0
    · simp [h1]
    · by_cases h2 : DiscountFactor.is_valid df = true
      · simp [h1, h2, eq_comm]
      · simp [h1, h2]

omit [LinearOrderedField α] in
theorem first_knots_snoc (c : YieldCurve α) (t d : α) (k : Nat)
    (hk : k ≤ c.times_.length) (hlen : c.discount_factors_.length = c.times_.length)
    (hsp : c.use_spline_ = false) :
    YieldCurve.first_knots { c with
        times_ := c.times_ ++ [t],
        discount_factors_ := c.discount_factors_ ++ [d],
        use_spline_ := false } k = c.first_knots k := by
  unfold YieldCurve.first_knots
  simp only [List.take_append_of_le_length hk,
    List.take_append_of_le_length (hlen ▸ hk : k ≤ c.discount_factors_.length), hsp]

omit [LinearOrderedField α] in
theorem first_knots_length (c : YieldCurve α)
    (hlen : c.discount_factors_.length = c.times_.length) :
    c.first_knots c.times_.length = c := by
  unfold YieldCurve.first_knots
  cases c with
  | mk ts ds ct it sp us =>
    simp only at hlen
    have h2 : List.take ts.length ds = ds := by
      rw [← hlen]
      exact List.take_length ds
    simp only [List.take_length, h2]

theorem bootstrap_loop_spec (m : Libm α) (ct : CompoundingType) (it : InterpolationType)
    (l : List (BondData α)) :
    ∀ c : YieldCurve α,
      l.foldlM (Bootstrapper.bootstrap_step m) (YieldCurve.init ct it) = Except.ok c →
      c.times_ = l.map (fun b => b.maturity) ∧ c.discount_factors_.length = l.length ∧
      c.compounding_type_ = ct ∧ c.interpolator_ = it ∧ c.spline_ = none ∧
      c.use_spline_ = false ∧
      ∀ k b, l[k]? = some b →
        ∃ df, Bootstrapper.solve_for_discount_factor m b (c.first_knots k) = Except.ok df ∧
          DiscountFactor.is_valid df = true ∧ c.discount_factors_[k]? = some df := by
  induction l using List.reverseRecOn with
  | nil =>
    intro c h
    simp only [List.foldlM_nil, pure, Except.pure, Except.ok.injEq] at h
    subst h
    simp [YieldCurve.init]
  | append_singleton l' b ih =>
    intro c h
    rw [List.foldlM_append] at h
    cases h1 : l'.foldlM (Bootstrapper.bootstrap_step m) (YieldCurve.init ct it) with
    | error e => simp [h1, bind, Except.bind] at h
    | ok c1 =>
      obtain ⟨ht, hl, hct, hit, hsp, hus, hk⟩ := ih c1 h1
      simp only [h1, bind, Except.bind, List.foldlM_cons, List.foldlM_nil, pure,
        Except.pure] at h
      have h' : Bootstrapper.bootstrap_step m c1 b = Except.ok c := by
        cases h2 : Bootstrapper.bootstrap_step m c1 b with
        | error e => simp [h2] at h
        | ok c2 => simpa [h2] using h
      obtain ⟨df, hsolve, _, hvalid, hc⟩ := (bootstrap_step_ok_iff m c1 c b).mp h'
      have hlen1 : c1.discount_factors_.length = c1.times_.length := by
        rw [hl, ht, List.length_map]
      have htl : c1.times_.length = l'.length := by rw [ht, List.length_map]
      subst hc
      refine ⟨by simp [ht], by simp [hl], hct, hit, hsp, rfl, ?_⟩
      intro k b' hkb
      by_cases hlt : k < l'.length
      · rw [List.getElem?_append_left hlt] at hkb
        obtain ⟨df', hs', hv', hd'⟩ := hk k b' hkb
        refine ⟨df', ?_, hv', ?_⟩
        · rw [first_knots_snoc c1 _ _ k (by omega) hlen1 hus]
          exact hs'
        · simp only
          rw [List.getElem?_append_left (by omega)]
          exact hd'
      · have hlen : k < (l' ++ [b]).length := by
          by_contra hcon
          rw [List.getElem?_eq_none (by omega)] at hkb
          cases hkb
        have hke : k = l'.length := by
          simp only [List.length_append, List.length_singleton] at hlen
          omega
        subst hke
        simp only [List.getElem?_concat_length, Option.some.injEq] at hkb
        rw [← hkb]
        refine ⟨df, ?_, hvalid, ?_⟩
        · have := first_knots_snoc c1 b.maturity df l'.length (by omega) hlen1 hus
          rw [this, ← htl, first_knots_length c1 hlen1]
          exact hsolve
        · simp only
          rw [← hl, List.getElem?_concat_length]

end bootstrap_loop


/-! ## Claims about the bootstrap -/

section bootstrap_claims

variable {α : Type} [LinearOrderedField α] [FloorRing α]

theorem bootstrap_ok (self : Bootstrapper) (m : Libm α) (bonds : List (BondData α))
    (c : YieldCurve α) (h : self.bootstrap m bonds = Except.ok c) :
    Bootstrapper.validate_bonds bonds = true ∧
      (Bootstrapper.sort_bonds_by_maturity bonds).foldlM (Bootstrapper.bootstrap_step m)
        (YieldCurve.init self.compounding_type_ self.interpolation_type_) = Except.ok c := by
  unfold Bootstrapper.bootstrap at h
  cases hv : Bootstrapper.validate_bonds bonds with
  | false => simp [hv] at h
  | true => simpa [hv] using h

theorem cash_flows_last (b : BondData α) (hf : 0 < b.payment_frequency) (cfs : List α)
    (last : α) (hc : b.get_cash_flows = some cfs) (hl : cfs.getLast? = some last) :
    last = b.coupon_rate * b.face_value / (b.payment_frequency : α) + b.face_value := by
  rw [get_cash_flows_eq b hf] at hc
  have hc' := Option.some.inj hc
  subst hc'
  have hpos : 0 < payment_count b := by
    by_contra h0
    have : payment_count b = 0 := by omega
    simp [this] at hl
  rw [List.getLast?_eq_getElem?] at hl
  simp only [List.length_map, List.length_range] at hl
  rw [List.getElem?_map, List.getElem?_range (by omega)] at hl
  simpa using hl.symm

omit [FloorRing α] in
theorem last_cash_flow_pos (b : BondData α) (hb : ¬ bond_defect b) :
    0 < b.coupon_rate * b.face_value / (b.payment_frequency : α) + b.face_value := by
  unfold bond_defect at hb
  push_neg at hb
  obtain ⟨_, h2, h3, _, _, h6⟩ := hb
  have hfa : (0 : α) < (b.payment_frequency : α) := by exact_mod_cast h3
  have : 0 ≤ b.coupon_rate * b.face_value / (b.payment_frequency : α) :=
    div_nonneg (mul_nonneg h2 h6.le) hfa.le
  linarith

theorem payment_count_eval (b : BondData α) (n : Nat)
    (h1 : (n : α) ≤ (b.maturity + 1e-10) * (b.payment_frequency : α))
    (h2 : (b.maturity + 1e-10) * (b.payment_frequency : α) < (n : α) + 1) :
    payment_count b = n := by
  unfold payment_count
  rw [Nat.floor_eq_iff (le_trans (Nat.cast_nonneg n) h1)]
  exact ⟨h1, h2⟩

theorem demo_payment_times_1 :
    (BondData.mk (1 / 2 : α) 0 2 (197 / 2) 100).get_payment_times = some [1 / 2] := by
  have c1 : payment_count (BondData.mk (1 / 2 : α) 0 2 (197 / 2) 100) = 1 :=
    payment_count_eval _ 1 (by norm_num) (by norm_num)
  rw [get_payment_times_eq _ (by norm_num)]
  norm_num [payment_schedule, c1, List.range_succ]

theorem demo_cash_flows_1 :
    (BondData.mk (1 / 2 : α) 0 2 (197 / 2) 100).get_cash_flows = some [100] := by
  have c1 : payment_count (BondData.mk (1 / 2 : α) 0 2 (197 / 2) 100) = 1 :=
    payment_count_eval _ 1 (by norm_num) (by norm_num)
  rw [get_cash_flows_eq _ (by norm_num)]
  norm_num [c1, List.range_succ]

theorem demo_payment_times_2 :
    (BondData.mk (1 : α) (1 / 50) 2 99 100).get_payment_times = some [1 / 2, 1] := by
  have c1 : payment_count (BondData.mk (1 : α) (1 / 50) 2 99 100) = 2 :=
    payment_count_eval _ 2 (by norm_num) (by norm_num)
  rw [get_payment_times_eq _ (by norm_num)]
  norm_num [payment_schedule, c1, List.range_succ]

theorem demo_cash_flows_2 :
    (BondData.mk (1 : α) (1 / 50) 2 99 100).get_cash_flows = some [1, 101] := by
  have c1 : payment_count (BondData.mk (1 : α) (1 / 50) 2 99 100) = 2 :=
    payment_count_eval _ 2 (by norm_num) (by norm_num)
  rw [get_cash_flows_eq _ (by norm_num)]
  norm_num [c1, List.range_succ]

theorem bootstrap_step_eval (m : Libm α) (c : YieldCurve α) (b : BondData α) (dff : α)
    (hfin : Bootstrapper.df_final m b c = Except.ok dff) (hlo : 1e-10 < dff) (hhi : dff ≤ 1)
    (hmat : 0 ≤ b.maturity) :
    Bootstrapper.bootstrap_step m c b = Except.ok { c with
      times_ := c.times_ ++ [b.maturity],
      discount_factors_ := c.discount_factors_ ++ [dff],
      use_spline_ := false } := by
  have h0 : 0 < dff := lt_trans eps_pos hlo
  rw [bootstrap_step_ok_iff]
  refine ⟨dff, (solve_ok_iff m b c dff).mpr ⟨hfin, h0, hhi⟩, not_lt.mpr hmat, ?_, rfl⟩
  simp [DiscountFactor.is_valid, DiscountFactor.MIN_DF, DiscountFactor.MAX_DF, hlo, hhi]

theorem demo_df_final_1 (ct : CompoundingType) (it : InterpolationType) (m : Libm α) :
    Bootstrapper.df_final m (BondData.mk (1 / 2 : α) 0 2 (197 / 2) 100) (YieldCurve.init ct it)
    = Except.ok (197 / 200) := by
  unfold Bootstrapper.df_final
  rw [demo_payment_times_1, demo_cash_flows_1]
  simp [Bootstrapper.pv_known, vec_back, bind, Except.bind, pure, Except.pure]
  norm_num

theorem demo_df_final_2 (ct : CompoundingType) (it : InterpolationType) (m : Libm α) :
    Bootstrapper.df_final m (BondData.mk (1 : α) (1 / 50) 2 99 100)
      { times_ := [1 / 2], discount_factors_ := [197 / 200],
        compounding_type_ := ct, interpolator_ := it, spline_ := none, use_spline_ := false }
    = Except.ok (19603 / 20200) := by
  have hgdf : YieldCurve.get_discount_factor m
      { times_ := [1 / 2], discount_factors_ := [197 / 200],
        compounding_type_ := ct, interpolator_ := it, spline_ := none, use_spline_ := false }
      (1 / 2 : α) = Except.ok (197 / 200) := by
    have h1 : ¬ ((1 / 2 : α) < 0) := by norm_num
    have h2 : ¬ ((1 / 2 : α) < 1e-10) := by norm_num
    cases it <;>
      simp only [YieldCurve.get_discount_factor, Interpolator.interpolate,
        LinearInterpolator.interpolate, LogLinearInterpolator.interpolate,
        FlatForwardInterpolator.interpolate, vec_at, h1, h2, List.isEmpty_cons,
        Bool.false_eq_true, if_false, List.length_singleton, ne_eq, not_true_eq_false,
        if_true, List.getElem?_cons_zero]
  unfold Bootstrapper.df_final
  rw [demo_payment_times_2, demo_cash_flows_2]
  simp only [Bootstrapper.pv_known, List.length_cons, List.length_singleton, List.length_nil,
    Nat.add_one_sub_one, zero_add, List.range_succ, List.range_zero, List.nil_append,
    List.foldlM_cons, List.foldlM_nil, Bootstrapper.pv_known_step, vec_at,
    List.getElem?_cons_zero, bind, Except.bind, hgdf, pure, Except.pure, vec_back,
    List.isEmpty_cons, Bool.false_eq_true, if_false]
  norm_num

theorem demo_step_1 (ct : CompoundingType) (it : InterpolationType) (m : Libm α) :
    Bootstrapper.bootstrap_step m (YieldCurve.init ct it)
      (BondData.mk (1 / 2 : α) 0 2 (197 / 2) 100)
    = Except.ok { times_ := [1 / 2], discount_factors_ := [197 / 200],
                  compounding_type_ := ct, interpolator_ := it,
                  spline_ := none, use_spline_ := false } := by
  rw [bootstrap_step_eval m _ _ _ (demo_df_final_1 ct it m) (by norm_num) (by norm_num)
    (by norm_num)]
  rfl

theorem demo_step_2 (ct : CompoundingType) (it : InterpolationType) (m : Libm α) :
    Bootstrapper.bootstrap_step m
      { times_ := [1 / 2], discount_factors_ := [197 / 200],
        compounding_type_ := ct, interpolator_ := it, spline_ := none, use_spline_ := false }
      (BondData.mk (1 : α) (1 / 50) 2 99 100)
    = Except.ok { times_ := [1 / 2, 1], discount_factors_ := [197 / 200, 19603 / 20200],
                  compounding_type_ := ct, interpolator_ := it,
                  spline_ := none, use_spline_ := false } := by
  rw [bootstrap_step_eval m _ _ _ (demo_df_final_2 ct it m) (by norm_num) (by norm_num)
    (by norm_num)]
  rfl

omit [FloorRing α] in
theorem demo_sort :
    Bootstrapper.sort_bonds_by_maturity
      [BondData.mk (1 / 2 : α) 0 2 (197 / 2) 100, BondData.mk (1 : α) (1 / 50) 2 99 100]
    = [BondData.mk (1 / 2 : α) 0 2 (197 / 2) 100, BondData.mk (1 : α) (1 / 50) 2 99 100] := by
  have h : (1 / 2 : α) ≤ 1 := by norm_num
  simp only [Bootstrapper.sort_bonds_by_maturity, List.insertionSort, List.orderedInsert, h,
    if_true]

omit [FloorRing α] in
theorem demo_validate :
    Bootstrapper.validate_bonds
      [BondData.mk (1 / 2 : α) 0 2 (197 / 2) 100, BondData.mk (1 : α) (1 / 50) 2 99 100]
    = true := by
  rw [validate_bonds_iff]
  refine ⟨by simp, ?_⟩
  intro b hb
  simp only [List.mem_cons, List.mem_singleton, List.not_mem_nil, or_false] at hb
  rcases hb with rfl | rfl <;> norm_num [bond_defect]

theorem demo_bootstrap (ct : CompoundingType) (it : InterpolationType) (m : Libm α) :
    (Bootstrapper.mk ct it).bootstrap m
      [BondData.mk (1 / 2 : α) 0 2 (197 / 2) 100, BondData.mk (1 : α) (1 / 50) 2 99 100]
    = Except.ok { times_ := [1 / 2, 1], discount_factors_ := [197 / 200, 19603 / 20200],
                  compounding_type_ := ct, interpolator_ := it,
                  spline_ := none, use_spline_ := false } := by
  unfold Bootstrapper.bootstrap
  rw [demo_validate, demo_sort]
  simp only [Bool.not_true, Bool.false_eq_true, if_false, List.foldlM_cons, List.foldlM_nil,
    demo_step_1, bind, Except.bind, demo_step_2, pure, Except.pure]

theorem df_final_zero_coupon (m : Libm α) (b : BondData α) (c : YieldCurve α)
    (hf : 0 < b.payment_frequency) (hz : b.coupon_rate = 0) (hN : 1 ≤ payment_count b)
    (hc : payment_count b = 1 ∨ (c.times_ ≠ [] ∧
      c.times_.length = c.discount_factors_.length ∧ c.use_spline_ = false)) :
    Bootstrapper.df_final m b c = Except.ok (b.market_price / b.face_value) := by
  rw [df_final_ok_iff]
  have hfa : (0 : α) < (b.payment_frequency : α) := by exact_mod_cast hf
  have hdt : (0 : α) < 1 / (b.payment_frequency : α) := one_div_pos.mpr hfa
  refine ⟨_, _, b.face_value, get_payment_times_eq b hf, get_cash_flows_eq b hf, ?_, ?_, ?_, ?_⟩
  · rw [← List.length_pos, payment_schedule_length]
    omega
  · rw [List.getLast?_eq_getElem?]
    simp only [List.length_map, List.length_range]
    rw [List.getElem?_map, List.getElem?_range (by omega)]
    simp [hz]
  · intro i hi
    rw [payment_schedule_length] at hi
    have hne1 : payment_count b ≠ 1 := by omega
    obtain ⟨hne, hlen, hsp⟩ := hc.resolve_left hne1
    have hpos : (0 : α) ≤ ((i : α) + 1) * (1 / (b.payment_frequency : α)) :=
      mul_nonneg (by positivity) hdt.le
    obtain ⟨d, hd⟩ := get_discount_factor_total m c hne hlen hsp _ hpos
    refine ⟨_, b.coupon_rate * b.face_value / (b.payment_frequency : α), d,
      payment_schedule_getElem? b i (by omega), ?_, hd⟩
    rw [List.getElem?_map, List.getElem?_range (by omega)]
    simp only [Option.map_some']
    rw [if_neg (by omega)]
  · have hsum : ∑ i ∈ Finset.range ((payment_schedule b).length - 1),
        ((List.range (payment_count b)).map (fun i =>
          if i = payment_count b - 1
          then b.coupon_rate * b.face_value / (b.payment_frequency : α) + b.face_value
          else b.coupon_rate * b.face_value / (b.payment_frequency : α))).getD i 0 *
          c.D m ((payment_schedule b).getD i 0) = 0 := by
      apply Finset.sum_eq_zero
      intro i hi
      rw [Finset.mem_range, payment_schedule_length] at hi
      have : ((List.range (payment_count b)).map (fun i =>
          if i = payment_count b - 1
          then b.coupon_rate * b.face_value / (b.payment_frequency : α) + b.face_value
          else b.coupon_rate * b.face_value / (b.payment_frequency : α))).getD i 0 = 0 := by
        rw [List.getD_eq_getElem?_getD, List.getElem?_map, List.getElem?_range (by omega)]
        simp only [Option.map_some', Option.getD_some]
        rw [if_neg (by omega), hz]
        simp
      rw [this, zero_mul]
    rw [hsum, sub_zero]

theorem zero_coupon_loop (m : Libm α) :
    ∀ (l : List (BondData α)) (c : YieldCurve α),
      (∀ b ∈ l, ¬ bond_defect b ∧ b.coupon_rate = 0 ∧ b.market_price ≤ b.face_value ∧
        1e-10 * b.face_value < b.market_price ∧ 1 ≤ payment_count b) →
      c.times_.length = c.discount_factors_.length → c.use_spline_ = false →
      (c.times_ ≠ [] ∨ ∀ b, l.head? = some b → payment_count b = 1) →
      l.foldlM (Bootstrapper.bootstrap_step m) c = Except.ok { c with
        times_ := c.times_ ++ l.map (fun b => b.maturity),
        discount_factors_ := c.discount_factors_ ++
          l.map (fun b => b.market_price / b.face_value),
        use_spline_ := false } := by
  intro l
  induction l with
  | nil =>
    intro c _ _ hsp _
    cases c
    simp only at hsp
    simp [pure, Except.pure, hsp]
  | cons b rest ih =>
    intro c hall hlen hsp hfirst
    obtain ⟨hnd, hz, hle, hlo, hN⟩ := hall b (List.mem_cons_self b rest)
    have hnd' := hnd
    unfold bond_defect at hnd'
    push_neg at hnd'
    obtain ⟨hmat, _, hf, _, _, hF⟩ := hnd'
    have hfin := df_final_zero_coupon m b c hf hz hN (by
      rcases hfirst with hne | hone
      · exact Or.inr ⟨hne, hlen, hsp⟩
      · exact Or.inl (hone b rfl))
    have hstep := bootstrap_step_eval m c b _ hfin
      (by rw [lt_div_iff₀ hF]; exact hlo)
      (by rw [div_le_one hF]; exact hle) hmat.le
    rw [List.foldlM_cons, hstep]
    simp only [bind, Except.bind]
    rw [ih _ (fun b' hb' => hall b' (List.mem_cons_of_mem b hb')) (by simp [hlen]) rfl
      (Or.inl (by simp))]
    simp

/-- C5: `validate_bonds` accepts a bond list exactly when it is non-empty and no bond
has one of the listed defects (maturity ≤ 0, coupon < 0, frequency ≤ 0, price ≤ 0,
price > 2 * face value, face value ≤ 0); and on an empty list or a list holding a
defective bond `bootstrap` returns the invalid-argument error "Invalid bond data",
which it does before any curve exists. -/
theorem C5_validation (self : Bootstrapper) (m : Libm α) (bonds : List (BondData α)) :
    (Bootstrapper.validate_bonds bonds = true ↔ bonds ≠ [] ∧ ∀ b ∈ bonds, ¬ bond_defect b) ∧
    ((bonds = [] ∨ ∃ b ∈ bonds, bond_defect b) →
      self.bootstrap m bonds = Except.error (Exn.invalid_argument "Invalid bond data")) := by
  refine ⟨validate_bonds_iff bonds, ?_⟩
  intro hbad
  have hv : Bootstrapper.validate_bonds bonds = false := by
    cases h : Bootstrapper.validate_bonds bonds with
    | false => rfl
    | true =>
      obtain ⟨hne, hall⟩ := (validate_bonds_iff bonds).mp h
      rcases hbad with h0 | ⟨b, hb, hd⟩
      · exact absurd h0 hne
      · exact absurd hd (hall b hb)
  simp [Bootstrapper.bootstrap, hv]

/-- C5 witness: a single bond with market price 0. -/
theorem C5_validation_witness :
    (Bootstrapper.mk CompoundingType.CONTINUOUS InterpolationType.LINEAR).bootstrap libm_unused
      [BondData.mk (1 : ℚ) 0 1 0 100]
      = Except.error (Exn.invalid_argument "Invalid bond data") :=
  (C5_validation (Bootstrapper.mk CompoundingType.CONTINUOUS InterpolationType.LINEAR)
    libm_unused [BondData.mk (1 : ℚ) 0 1 0 100]).2
    (Or.inr ⟨BondData.mk (1 : ℚ) 0 1 0 100, List.mem_singleton.mpr rfl,
      Or.inr (Or.inr (Or.inr (Or.inl (le_refl (0 : ℚ)))))⟩)

/-- C1: when `bootstrap` succeeds, with `B_1..B_n` the bonds in the ascending-maturity
order used by `bootstrap` (a permutation of the input sorted by maturity), the returned
curve has exactly `n` knots, its `k`-th knot time is the maturity of `B_k`, every
earlier payment time of `B_k` has a discount factor on the curve holding only the
first `k-1` knots, and the `k`-th discount factor is
`(market_price_k - Σ_{i < last} cash_flow_i * D_{k-1}(payment_time_i)) / last cash flow`. -/
theorem C1_bootstrap_recursion (self : Bootstrapper) (m : Libm α) (bonds : List (BondData α))
    (c : YieldCurve α) (h : self.bootstrap m bonds = Except.ok c) :
    (Bootstrapper.sort_bonds_by_maturity bonds).Perm bonds ∧
    (Bootstrapper.sort_bonds_by_maturity bonds).Sorted (fun a b => a.maturity ≤ b.maturity) ∧
    c.times_.length = bonds.length ∧ c.discount_factors_.length = bonds.length ∧
    ∀ k b, (Bootstrapper.sort_bonds_by_maturity bonds)[k]? = some b →
      c.times_[k]? = some b.maturity ∧
      ∃ pts cfs last, b.get_payment_times = some pts ∧ b.get_cash_flows = some cfs ∧
        pts ≠ [] ∧ cfs.getLast? = some last ∧
        (∀ i, i < pts.length - 1 → ∃ t d, pts[i]? = some t ∧
          (c.first_knots k).get_discount_factor m t = Except.ok d) ∧
        c.discount_factors_[k]? = some ((b.market_price -
          ∑ i ∈ Finset.range (pts.length - 1),
            cfs.getD i 0 * (c.first_knots k).D m (pts.getD i 0)) / last) := by
  obtain ⟨_, hloop⟩ := bootstrap_ok self m bonds c h
  obtain ⟨ht, hl, _, _, _, _, hk⟩ := bootstrap_loop_spec m _ _ _ c hloop
  have hlen := (sort_bonds_perm bonds).length_eq
  refine ⟨sort_bonds_perm bonds, sort_bonds_sorted bonds, ?_, ?_, ?_⟩
  · rw [ht, List.length_map, hlen]
  · rw [hl, hlen]
  · intro k b hb
    obtain ⟨df, hsolve, _, hdf⟩ := hk k b hb
    obtain ⟨hfin, _, _⟩ := (solve_ok_iff m b _ df).mp hsolve
    obtain ⟨pts, cfs, last, hp, hc, hne, hlast, hall, hval⟩ :=
      (df_final_ok_iff m b _ df).mp hfin
    refine ⟨by rw [ht, List.getElem?_map, hb]; rfl, pts, cfs, last, hp, hc, hne, hlast, ?_, ?_⟩
    · intro i hi
      obtain ⟨t, _, d, h1, _, h3⟩ := hall i hi
      exact ⟨t, d, h1, h3⟩
    · rw [hdf, hval]

theorem bootstrap_times (self : Bootstrapper) (m : Libm α) (bonds : List (BondData α))
    (c : YieldCurve α) (h : self.bootstrap m bonds = Except.ok c) :
    c.times_ = (Bootstrapper.sort_bonds_by_maturity bonds).map (fun b => b.maturity) := by
  obtain ⟨_, hloop⟩ := bootstrap_ok self m bonds c h
  exact (bootstrap_loop_spec m _ _ _ c hloop).1

theorem bootstrap_perm (self : Bootstrapper) (m : Libm α) {bonds bonds' : List (BondData α)}
    (hperm : bonds'.Perm bonds)
    (hd : bonds.Pairwise (fun a b => a.maturity ≠ b.maturity)) :
    self.bootstrap m bonds' = self.bootstrap m bonds := by
  unfold Bootstrapper.bootstrap
  rw [validate_bonds_perm hperm, sort_bonds_perm_eq hperm.symm hd]

/-- C7: for a bond list with pairwise distinct maturities, `bootstrap` gives the same
outcome (the same failure or the same curve) on every permutation of the list, and
the knot times of a returned curve are the bonds' maturities in strictly ascending
order. -/
theorem C7_order_independence (self : Bootstrapper) (m : Libm α)
    (bonds bonds' : List (BondData α)) (hperm : bonds'.Perm bonds)
    (hd : bonds.Pairwise (fun a b => a.maturity ≠ b.maturity)) :
    self.bootstrap m bonds' = self.bootstrap m bonds ∧
    ∀ c, self.bootstrap m bonds = Except.ok c →
      c.times_.Perm (bonds.map (fun b => b.maturity)) ∧ c.times_.Sorted (· < ·) := by
  refine ⟨bootstrap_perm self m hperm hd, ?_⟩
  intro c hc
  rw [bootstrap_times self m bonds c hc]
  refine ⟨(sort_bonds_perm bonds).map _, ?_⟩
  exact List.pairwise_map.mpr (sort_bonds_strict bonds hd)

/-- C7 witness: the two demonstration bonds in both orders. -/
theorem C7_order_independence_witness :
    (Bootstrapper.mk CompoundingType.CONTINUOUS InterpolationType.LINEAR).bootstrap libm_unused
      [BondData.mk (1 : ℚ) (1 / 50) 2 99 100, BondData.mk (1 / 2 : ℚ) 0 2 (197 / 2) 100]
    = (Bootstrapper.mk CompoundingType.CONTINUOUS InterpolationType.LINEAR).bootstrap libm_unused
      [BondData.mk (1 / 2 : ℚ) 0 2 (197 / 2) 100, BondData.mk (1 : ℚ) (1 / 50) 2 99 100] :=
  (C7_order_independence (Bootstrapper.mk CompoundingType.CONTINUOUS InterpolationType.LINEAR)
    libm_unused
    [BondData.mk (1 / 2 : ℚ) 0 2 (197 / 2) 100, BondData.mk (1 : ℚ) (1 / 50) 2 99 100]
    [BondData.mk (1 : ℚ) (1 / 50) 2 99 100, BondData.mk (1 / 2 : ℚ) 0 2 (197 / 2) 100]
    (List.Perm.swap _ _ [])
    (by simp)).1

/-- C8 (amended): when `bootstrap` succeeds, the knot times of the returned curve are
the bonds' maturities in non-decreasing order; they are strictly increasing (at most
one knot per time value) exactly when the bonds' maturities are pairwise distinct. -/
theorem C8_knot_times (self : Bootstrapper) (m : Libm α) (bonds : List (BondData α))
    (c : YieldCurve α) (h : self.bootstrap m bonds = Except.ok c) :
    c.times_.Perm (bonds.map (fun b => b.maturity)) ∧ c.times_.Sorted (· ≤ ·) ∧
    (c.times_.Sorted (· < ·) ↔ bonds.Pairwise (fun a b => a.maturity ≠ b.maturity)) := by
  rw [bootstrap_times self m bonds c h]
  refine ⟨(sort_bonds_perm bonds).map _, List.pairwise_map.mpr (sort_bonds_sorted bonds), ?_⟩
  constructor
  · intro hs
    have h1 : (Bootstrapper.sort_bonds_by_maturity bonds).Pairwise
        (fun a b => a.maturity ≠ b.maturity) :=
      List.Pairwise.imp (fun hab => ne_of_lt hab) (List.pairwise_map.mp hs)
    exact ((sort_bonds_perm bonds).pairwise_iff
      (fun {a b} (h : a.maturity ≠ b.maturity) => h.symm)).mp h1
  · intro hd
    exact List.pairwise_map.mpr (sort_bonds_strict bonds hd)

/-- C8 witness: the two demonstration bonds. -/
theorem C8_knot_times_witness :
    (Bootstrapper.mk CompoundingType.CONTINUOUS InterpolationType.LINEAR).bootstrap libm_unused
      [BondData.mk (1 / 2 : ℚ) 0 2 (197 / 2) 100, BondData.mk (1 : ℚ) (1 / 50) 2 99 100]
    = Except.ok { times_ := [1 / 2, 1], discount_factors_ := [197 / 200, 19603 / 20200],
                  compounding_type_ := CompoundingType.CONTINUOUS,
                  interpolator_ := InterpolationType.LINEAR,
                  spline_ := none, use_spline_ := false } ∧
    ([1 / 2, 1] : List ℚ).Sorted (· ≤ ·) :=
  ⟨demo_bootstrap _ _ _, (C8_knot_times (Bootstrapper.mk CompoundingType.CONTINUOUS InterpolationType.LINEAR)
    libm_unused
    [BondData.mk (1 / 2 : ℚ) 0 2 (197 / 2) 100, BondData.mk (1 : ℚ) (1 / 50) 2 99 100]
    _ (demo_bootstrap _ _ _)).2.1⟩

/-- C1 witness: the two demonstration bonds; the curve has two knots. -/
theorem C1_bootstrap_recursion_witness :
    (Bootstrapper.mk CompoundingType.CONTINUOUS InterpolationType.LINEAR).bootstrap libm_unused
      [BondData.mk (1 / 2 : ℚ) 0 2 (197 / 2) 100, BondData.mk (1 : ℚ) (1 / 50) 2 99 100]
    = Except.ok { times_ := [1 / 2, 1], discount_factors_ := [197 / 200, 19603 / 20200],
                  compounding_type_ := CompoundingType.CONTINUOUS,
                  interpolator_ := InterpolationType.LINEAR,
                  spline_ := none, use_spline_ := false } ∧
    ([1 / 2, 1] : List ℚ).length
      = [BondData.mk (1 / 2 : ℚ) 0 2 (197 / 2) 100, BondData.mk (1 : ℚ) (1 / 50) 2 99 100].length :=
  ⟨demo_bootstrap _ _ _, (C1_bootstrap_recursion (Bootstrapper.mk CompoundingType.CONTINUOUS InterpolationType.LINEAR)
    libm_unused
    [BondData.mk (1 / 2 : ℚ) 0 2 (197 / 2) 100, BondData.mk (1 : ℚ) (1 / 50) 2 99 100]
    _ (demo_bootstrap _ _ _)).2.2.1⟩

omit [FloorRing α] in
theorem get_discount_factor_at_knot (m : Libm α) (c : YieldCurve α)
    (hs : c.times_.Sorted (· < ·)) (hlen : c.times_.length = c.discount_factors_.length)
    (hpos : ∀ d ∈ c.discount_factors_, 0 < d) (hsp : c.use_spline_ = false)
    (hm : c.interpolator_ = InterpolationType.LINEAR ∨ m.exp_log_laws)
    (j : Nat) (t d : α) (ht : c.times_[j]? = some t) (hd : c.discount_factors_[j]? = some d)
    (hge : 1e-10 ≤ t) : c.get_discount_factor m t = Except.ok d := by
  have hne : c.times_.isEmpty = false := by
    cases h : c.times_ with
    | nil => rw [h] at ht; simp at ht
    | cons a l => rfl
  have h0 : ¬ t < 0 := not_lt.mpr (le_trans eps_pos.le hge)
  unfold YieldCurve.get_discount_factor
  rw [hne, hsp]
  simp only [Bool.false_eq_true, if_false, h0, not_lt.mpr hge]
  exact interpolate_at_knot m _ _ _ hs hlen hpos hm j t d ht hd

theorem maturity_ge_eps (b : BondData α) (hf : 0 < b.payment_frequency)
    (hint : b.payment_frequency < 2 ^ 31) (hN : 1 ≤ payment_count b) :
    1e-10 ≤ b.maturity := by
  have hfa : (0 : α) < (b.payment_frequency : α) := by exact_mod_cast hf
  have hfb : (b.payment_frequency : α) < 2 ^ 31 := by exact_mod_cast hint
  have h1 := (payment_count_spec b hf 0).mp hN
  simp only [Nat.cast_zero, zero_add, one_mul] at h1
  have h2 : (1 : α) / 2 ^ 31 < 1 / (b.payment_frequency : α) :=
    one_div_lt_one_div_of_lt hfa hfb
  have h3 : (2e-10 : α) ≤ 1 / 2 ^ 31 := by norm_num
  have h4 : (2e-10 : α) = 1e-10 + 1e-10 := by norm_num
  linarith

/-- C2 (as stated, refuted): the single zero-coupon bond (maturity 2, one payment a
year, price 95, face 100) passes validation and is priced below its face value, yet
`bootstrap` fails with "Curve has no points": its first payment date, year 1, is
looked up on the still empty curve. -/
theorem C2_counterexample :
    Bootstrapper.validate_bonds [BondData.mk (2 : ℚ) 0 1 95 100] = true ∧
    (BondData.mk (2 : ℚ) 0 1 95 100).coupon_rate = 0 ∧
    (BondData.mk (2 : ℚ) 0 1 95 100).market_price ≤ (BondData.mk (2 : ℚ) 0 1 95 100).face_value ∧
    (Bootstrapper.mk CompoundingType.CONTINUOUS InterpolationType.LINEAR).bootstrap libm_unused
      [BondData.mk (2 : ℚ) 0 1 95 100]
      = Except.error (Exn.runtime_error "Curve has no points") := by
  have hv : Bootstrapper.validate_bonds [BondData.mk (2 : ℚ) 0 1 95 100] = true := by
    rw [validate_bonds_iff]
    refine ⟨by simp, ?_⟩
    intro b hb
    rw [List.mem_singleton] at hb
    subst hb
    norm_num [bond_defect]
  have hc : payment_count (BondData.mk (2 : ℚ) 0 1 95 100) = 2 :=
    payment_count_eval _ 2 (by norm_num) (by norm_num)
  have hp : (BondData.mk (2 : ℚ) 0 1 95 100).get_payment_times = some [1, 2] := by
    rw [get_payment_times_eq _ (by norm_num)]
    norm_num [payment_schedule, hc, List.range_succ]
  have hcf : (BondData.mk (2 : ℚ) 0 1 95 100).get_cash_flows = some [0, 100] := by
    rw [get_cash_flows_eq _ (by norm_num)]
    norm_num [hc, List.range_succ]
  refine ⟨hv, rfl, by norm_num, ?_⟩
  unfold Bootstrapper.bootstrap
  rw [hv]
  simp only [Bool.not_true, Bool.false_eq_true, if_false, Bootstrapper.sort_bonds_by_maturity,
    List.insertionSort, List.orderedInsert, List.foldlM_cons, List.foldlM_nil,
    Bootstrapper.bootstrap_step, Bootstrapper.solve_for_discount_factor]
  unfold Bootstrapper.df_final
  rw [hp, hcf]
  simp only [List.isEmpty_cons, Bool.false_eq_true, if_false, Bootstrapper.pv_known,
    List.length_cons, List.length_singleton, List.length_nil, Nat.add_one_sub_one, zero_add,
    List.range_succ, List.range_zero, List.nil_append, List.foldlM_cons, List.foldlM_nil,
    Bootstrapper.pv_known_step, vec_at, List.getElem?_cons_zero, bind, Except.bind,
    YieldCurve.get_discount_factor, YieldCurve.init, List.isEmpty_nil, if_true]

/-- C2 (amended): for a bond set that passes validation and consists of zero-coupon
bonds with pairwise distinct maturities, each priced at `P ≤ F` with `P/F > 1e-10` and
having at least one payment date, whose shortest-maturity bond has exactly one payment
date, and whose ratios `P/F` do not increase with the maturity when the interpolation is
flat-forward, `bootstrap` returns a curve with one knot per bond, the knot of the bond of
maturity `T` being `(T, P/F)` (so that under flat-forward interpolation the knot discount
factors do not increase and no forward rate of the curve is negative); and (frequencies
being 32-bit `int`s, and `exp`, `log` obeying `exp 0 = 1`, `exp (log x) = x` unless
interpolation is linear) `get_discount_factor(T) = P/F`. -/
theorem C2_zero_coupon_exactness (self : Bootstrapper) (m : Libm α)
    (bonds : List (BondData α))
    (hv : Bootstrapper.validate_bonds bonds = true)
    (hz : ∀ b ∈ bonds, b.coupon_rate = 0)
    (hd : bonds.Pairwise (fun a b => a.maturity ≠ b.maturity))
    (hle : ∀ b ∈ bonds, b.market_price ≤ b.face_value)
    (hlo : ∀ b ∈ bonds, 1e-10 * b.face_value < b.market_price)
    (hpay : ∀ b ∈ bonds, 1 ≤ payment_count b)
    (hfirst : ∀ b, (Bootstrapper.sort_bonds_by_maturity bonds).head? = some b →
      payment_count b = 1)
    (hff : self.interpolation_type_ = InterpolationType.FLAT_FORWARD →
      ((Bootstrapper.sort_bonds_by_maturity bonds).map
        (fun b => b.market_price / b.face_value)).Sorted (· ≥ ·)) :
    ∃ c, self.bootstrap m bonds = Except.ok c ∧
      c.times_ = (Bootstrapper.sort_bonds_by_maturity bonds).map (fun b => b.maturity) ∧
      c.discount_factors_ = (Bootstrapper.sort_bonds_by_maturity bonds).map
        (fun b => b.market_price / b.face_value) ∧
      (self.interpolation_type_ = InterpolationType.FLAT_FORWARD →
        c.discount_factors_.Sorted (· ≥ ·)) ∧
      ((∀ b ∈ bonds, b.payment_frequency < 2 ^ 31) →
        (self.interpolation_type_ = InterpolationType.LINEAR ∨ m.exp_log_laws) →
        ∀ b ∈ bonds,
          c.get_discount_factor m b.maturity = Except.ok (b.market_price / b.face_value)) := by
  obtain ⟨_, hnd⟩ := (validate_bonds_iff bonds).mp hv
  have hmem : ∀ b, b ∈ Bootstrapper.sort_bonds_by_maturity bonds ↔ b ∈ bonds :=
    fun b => (sort_bonds_perm bonds).mem_iff
  have hloop := zero_coupon_loop m (Bootstrapper.sort_bonds_by_maturity bonds)
    (YieldCurve.init self.compounding_type_ self.interpolation_type_)
    (fun b hb => ⟨hnd b ((hmem b).mp hb), hz b ((hmem b).mp hb), hle b ((hmem b).mp hb),
      hlo b ((hmem b).mp hb), hpay b ((hmem b).mp hb)⟩)
    rfl rfl (Or.inr hfirst)
  have hboot : self.bootstrap m bonds =
      (Bootstrapper.sort_bonds_by_maturity bonds).foldlM (Bootstrapper.bootstrap_step m)
        (YieldCurve.init self.compounding_type_ self.interpolation_type_) := by
    unfold Bootstrapper.bootstrap
    rw [hv]
    simp only [Bool.not_true, Bool.false_eq_true, if_false]
  rw [hloop] at hboot
  refine ⟨_, hboot, ?_, ?_, ?_, ?_⟩
  · simp [YieldCurve.init]
  · simp [YieldCurve.init]
  · intro hflat
    simpa [YieldCurve.init] using hff hflat
  · intro hint hm b hb
    obtain ⟨j, hj⟩ := List.mem_iff_getElem?.mp ((hmem b).mpr hb)
    have hb' := hnd b hb
    unfold bond_defect at hb'
    push_neg at hb'
    apply get_discount_factor_at_knot m _ _ _ _ rfl hm j
    · simp [YieldCurve.init, List.getElem?_map, hj]
    · simp [YieldCurve.init, List.getElem?_map, hj]
    · exact maturity_ge_eps b hb'.2.2.1 (hint b hb) (hpay b hb)
    · simp only [YieldCurve.init, List.nil_append]
      exact List.pairwise_map.mpr (sort_bonds_strict bonds hd)
    · simp [YieldCurve.init]
    · intro d hdm
      simp only [YieldCurve.init, List.nil_append, List.mem_map] at hdm
      obtain ⟨b2, hb2, rfl⟩ := hdm
      have h2 := hnd b2 ((hmem b2).mp hb2)
      unfold bond_defect at h2
      push_neg at h2
      exact div_pos h2.2.2.2.1 h2.2.2.2.2.2

/-- C2 witness: the two zero-coupon bonds of the test `BootstrapperTest.SimpleBonds`, with
flat-forward interpolation. -/
theorem C2_zero_coupon_exactness_witness :
    ∃ c, (Bootstrapper.mk CompoundingType.CONTINUOUS InterpolationType.FLAT_FORWARD).bootstrap
        libm_unused [BondData.mk (1 : ℚ) 0 1 95 100, BondData.mk (2 : ℚ) 0 1 90 100]
        = Except.ok c ∧
      c.discount_factors_ = (Bootstrapper.sort_bonds_by_maturity
        [BondData.mk (1 : ℚ) 0 1 95 100, BondData.mk (2 : ℚ) 0 1 90 100]).map
          (fun b => b.market_price / b.face_value) := by
  have hc1 : payment_count (BondData.mk (1 : ℚ) 0 1 95 100) = 1 :=
    payment_count_eval _ 1 (by norm_num) (by norm_num)
  have hc2 : payment_count (BondData.mk (2 : ℚ) 0 1 90 100) = 2 :=
    payment_count_eval _ 2 (by norm_num) (by norm_num)
  have hsort : Bootstrapper.sort_bonds_by_maturity
      [BondData.mk (1 : ℚ) 0 1 95 100, BondData.mk (2 : ℚ) 0 1 90 100]
      = [BondData.mk (1 : ℚ) 0 1 95 100, BondData.mk (2 : ℚ) 0 1 90 100] := by
    have h : (1 : ℚ) ≤ 2 := by norm_num
    simp only [Bootstrapper.sort_bonds_by_maturity, List.insertionSort, List.orderedInsert, h,
      if_true]
  obtain ⟨c, h1, _, h3, _⟩ := C2_zero_coupon_exactness
    (Bootstrapper.mk CompoundingType.CONTINUOUS InterpolationType.FLAT_FORWARD) libm_unused
    [BondData.mk (1 : ℚ) 0 1 95 100, BondData.mk (2 : ℚ) 0 1 90 100]
    (by
      rw [validate_bonds_iff]
      refine ⟨by simp, ?_⟩
      intro b hb
      simp only [List.mem_cons, List.mem_singleton, List.not_mem_nil, or_false] at hb
      rcases hb with rfl | rfl <;> norm_num [bond_defect])
    (by
      intro b hb
      simp only [List.mem_cons, List.mem_singleton, List.not_mem_nil, or_false] at hb
      rcases hb with rfl | rfl <;> rfl)
    (by simp)
    (by
      intro b hb
      simp only [List.mem_cons, List.mem_singleton, List.not_mem_nil, or_false] at hb
      rcases hb with rfl | rfl <;> norm_num)
    (by
      intro b hb
      simp only [List.mem_cons, List.mem_singleton, List.not_mem_nil, or_false] at hb
      rcases hb with rfl | rfl <;> norm_num)
    (by
      intro b hb
      simp only [List.mem_cons, List.mem_singleton, List.not_mem_nil, or_false] at hb
      rcases hb with rfl | rfl
      · rw [hc1]
      · rw [hc2]
        omega)
    (by
      intro b hb
      rw [hsort] at hb
      simp only [List.head?_cons, Option.some.injEq] at hb
      rw [← hb, hc1])
    (by
      intro _
      rw [hsort]
      norm_num [List.Sorted])
  exact ⟨c, h1, h3⟩

/-- C8 (as stated, refuted): two zero-coupon bonds with the same maturity 1 (prices 95
and 90) pass validation and bootstrap succeeds, returning a curve with two knots at
time 1: the knot times are not strictly increasing. -/
theorem C8_counterexample :
    (Bootstrapper.mk CompoundingType.CONTINUOUS InterpolationType.LINEAR).bootstrap libm_unused
      [BondData.mk (1 : ℚ) 0 1 95 100, BondData.mk (1 : ℚ) 0 1 90 100]
    = Except.ok { times_ := [1, 1], discount_factors_ := [95 / 100, 90 / 100],
                  compounding_type_ := CompoundingType.CONTINUOUS,
                  interpolator_ := InterpolationType.LINEAR,
                  spline_ := none, use_spline_ := false } ∧
    ¬ ([1, 1] : List ℚ).Sorted (· < ·) := by
  have hc1 : payment_count (BondData.mk (1 : ℚ) 0 1 95 100) = 1 :=
    payment_count_eval _ 1 (by norm_num) (by norm_num)
  have hc2 : payment_count (BondData.mk (1 : ℚ) 0 1 90 100) = 1 :=
    payment_count_eval _ 1 (by norm_num) (by norm_num)
  have hv : Bootstrapper.validate_bonds
      [BondData.mk (1 : ℚ) 0 1 95 100, BondData.mk (1 : ℚ) 0 1 90 100] = true := by
    rw [validate_bonds_iff]
    refine ⟨by simp, ?_⟩
    intro b hb
    simp only [List.mem_cons, List.mem_singleton, List.not_mem_nil, or_false] at hb
    rcases hb with rfl | rfl <;> norm_num [bond_defect]
  have hsort : Bootstrapper.sort_bonds_by_maturity
      [BondData.mk (1 : ℚ) 0 1 95 100, BondData.mk (1 : ℚ) 0 1 90 100]
      = [BondData.mk (1 : ℚ) 0 1 95 100, BondData.mk (1 : ℚ) 0 1 90 100] := by
    have h : (1 : ℚ) ≤ 1 := le_refl 1
    simp only [Bootstrapper.sort_bonds_by_maturity, List.insertionSort, List.orderedInsert, h,
      if_true]
  have hloop := zero_coupon_loop libm_unused
    [BondData.mk (1 : ℚ) 0 1 95 100, BondData.mk (1 : ℚ) 0 1 90 100]
    (YieldCurve.init CompoundingType.CONTINUOUS InterpolationType.LINEAR)
    (by
      intro b hb
      simp only [List.mem_cons, List.mem_singleton, List.not_mem_nil, or_false] at hb
      rcases hb with rfl | rfl
      · exact ⟨by norm_num [bond_defect], rfl, by norm_num, by norm_num, by rw [hc1]⟩
      · exact ⟨by norm_num [bond_defect], rfl, by norm_num, by norm_num, by rw [hc2]⟩)
    rfl rfl
    (Or.inr (by
      intro b hb
      simp only [List.head?_cons, Option.some.injEq] at hb
      rw [← hb, hc1]))
  refine ⟨?_, by simp [List.Sorted]⟩
  unfold Bootstrapper.bootstrap
  rw [hv, hsort]
  simp only [Bool.not_true, Bool.false_eq_true, if_false]
  rw [hloop]
  rfl

/-- C6 (as stated, refuted): the bond (maturity 1, no coupon, one payment a year, price
1e-9, face 100) passes validation and its solved `DF_final` is `1e-11`, inside
`(0, 1]`; yet no knot is appended: `add_point` rejects the value and the bootstrap
stops with the invalid-argument error "Invalid discount factor". -/
theorem C6_counterexample :
    Bootstrapper.validate_bonds [BondData.mk (1 : ℚ) 0 1 (1 / 10 ^ 9) 100] = true ∧
    Bootstrapper.solve_for_discount_factor libm_unused (BondData.mk (1 : ℚ) 0 1 (1 / 10 ^ 9) 100)
      (YieldCurve.init CompoundingType.CONTINUOUS InterpolationType.LINEAR)
      = Except.ok (1 / 10 ^ 9 / 100) ∧
    (0 : ℚ) < 1 / 10 ^ 9 / 100 ∧ (1 / 10 ^ 9 / 100 : ℚ) ≤ 1 ∧
    (Bootstrapper.mk CompoundingType.CONTINUOUS InterpolationType.LINEAR).bootstrap libm_unused
      [BondData.mk (1 : ℚ) 0 1 (1 / 10 ^ 9) 100]
      = Except.error (Exn.invalid_argument "Invalid discount factor") := by
  have hc1 : payment_count (BondData.mk (1 : ℚ) 0 1 (1 / 10 ^ 9) 100) = 1 :=
    payment_count_eval _ 1 (by norm_num) (by norm_num)
  have hv : Bootstrapper.validate_bonds [BondData.mk (1 : ℚ) 0 1 (1 / 10 ^ 9) 100] = true := by
    rw [validate_bonds_iff]
    refine ⟨by simp, ?_⟩
    intro b hb
    rw [List.mem_singleton] at hb
    subst hb
    norm_num [bond_defect]
  have hfin := df_final_zero_coupon libm_unused (BondData.mk (1 : ℚ) 0 1 (1 / 10 ^ 9) 100)
    (YieldCurve.init CompoundingType.CONTINUOUS InterpolationType.LINEAR)
    (by norm_num) rfl (by rw [hc1]) (Or.inl hc1)
  have hsolve := (solve_ok_iff libm_unused (BondData.mk (1 : ℚ) 0 1 (1 / 10 ^ 9) 100)
    (YieldCurve.init CompoundingType.CONTINUOUS InterpolationType.LINEAR) _).mpr
    ⟨hfin, by norm_num, by norm_num⟩
  refine ⟨hv, hsolve, by norm_num, by norm_num, ?_⟩
  unfold Bootstrapper.bootstrap
  rw [hv]
  simp only [Bool.not_true, Bool.false_eq_true, if_false, Bootstrapper.sort_bonds_by_maturity,
    List.insertionSort, List.orderedInsert, List.foldlM_cons, List.foldlM_nil,
    Bootstrapper.bootstrap_step, hsolve, bind, Except.bind, YieldCurve.add_point]
  norm_num [DiscountFactor.is_valid, DiscountFactor.MIN_DF, DiscountFactor.MAX_DF]

/-- C6 (amended): for a validated bond whose `DF_final` has been solved on the current
curve, the bond is refused with the runtime error "Calculated discount factor out of
valid range" exactly when `DF_final ≤ 0` or `DF_final > 1`, which aborts the loop;
when `DF_final` lies in `(1e-10, 1]` the knot `(maturity, DF_final)` is appended and the
loop continues with the next bond on the extended curve; when `DF_final` lies in
`(0, 1e-10]` the solver returns it but `add_point` refuses it with the
invalid-argument error "Invalid discount factor". -/
theorem C6_infeasibility_boundary (m : Libm α) (b : BondData α) (c : YieldCurve α) (dff : α)
    (rest : List (BondData α)) (hb : ¬ bond_defect b)
    (hfin : Bootstrapper.df_final m b c = Except.ok dff) :
    (Bootstrapper.solve_for_discount_factor m b c = Except.error (Exn.runtime_error
        "Calculated discount factor out of valid range - possible arbitrage")
      ↔ (dff ≤ 0 ∨ dff > 1)) ∧
    ((dff ≤ 0 ∨ dff > 1) →
      (b :: rest).foldlM (Bootstrapper.bootstrap_step m) c = Except.error (Exn.runtime_error
        "Calculated discount factor out of valid range - possible arbitrage")) ∧
    ((1e-10 < dff ∧ dff ≤ 1) →
      Bootstrapper.bootstrap_step m c b = Except.ok { c with
        times_ := c.times_ ++ [b.maturity],
        discount_factors_ := c.discount_factors_ ++ [dff],
        use_spline_ := false } ∧
      (b :: rest).foldlM (Bootstrapper.bootstrap_step m) c =
        rest.foldlM (Bootstrapper.bootstrap_step m) { c with
          times_ := c.times_ ++ [b.maturity],
          discount_factors_ := c.discount_factors_ ++ [dff],
          use_spline_ := false }) ∧
    ((0 < dff ∧ dff ≤ 1e-10) →
      Bootstrapper.solve_for_discount_factor m b c = Except.ok dff ∧
      Bootstrapper.bootstrap_step m c b =
        Except.error (Exn.invalid_argument "Invalid discount factor")) := by
  have hmat : 0 ≤ b.maturity := by
    unfold bond_defect at hb
    push_neg at hb
    exact hb.1.le
  have hsolve := solve_eq_of_df_final m b c dff hfin
  refine ⟨?_, ?_, ?_, ?_⟩
  · rw [hsolve]
    by_cases hr : dff ≤ 0 ∨ dff > 1
    · simp [hr]
    · simp [hr]
  · intro hr
    rw [List.foldlM_cons]
    simp only [Bootstrapper.bootstrap_step, hsolve, hr, if_true, bind, Except.bind]
  · rintro ⟨hlo, hhi⟩
    have hstep := bootstrap_step_eval m c b dff hfin hlo hhi hmat
    refine ⟨hstep, ?_⟩
    rw [List.foldlM_cons, hstep]
    rfl
  · rintro ⟨h0, hle⟩
    have h1 : dff ≤ 1 := le_trans hle (by norm_num)
    have hs : Bootstrapper.solve_for_discount_factor m b c = Except.ok dff :=
      (solve_ok_iff m b c dff).mpr ⟨hfin, h0, h1⟩
    refine ⟨hs, ?_⟩
    simp only [Bootstrapper.bootstrap_step, hs, bind, Except.bind, YieldCurve.add_point,
      not_lt.mpr hmat, if_false]
    simp [DiscountFactor.is_valid, DiscountFactor.MIN_DF, not_lt.mpr hle]

/-- C6 witness: the first demonstration bond on the empty curve, `DF_final = 0.985`. -/
theorem C6_infeasibility_boundary_witness :
    Bootstrapper.bootstrap_step libm_unused
      (YieldCurve.init CompoundingType.CONTINUOUS InterpolationType.LINEAR)
      (BondData.mk (1 / 2 : ℚ) 0 2 (197 / 2) 100)
    = Except.ok { times_ := [] ++ [1 / 2], discount_factors_ := [] ++ [197 / 200],
                  compounding_type_ := CompoundingType.CONTINUOUS,
                  interpolator_ := InterpolationType.LINEAR,
                  spline_ := none, use_spline_ := false } :=
  ((C6_infeasibility_boundary libm_unused (BondData.mk (1 / 2 : ℚ) 0 2 (197 / 2) 100)
    (YieldCurve.init CompoundingType.CONTINUOUS InterpolationType.LINEAR) (197 / 200) []
    (by norm_num [bond_defect])
    (demo_df_final_1 _ _ _)).2.2.1 ⟨by norm_num, by norm_num⟩).1

omit [FloorRing α] in
theorem getD_last_of_getLast? (cfs : List α) (last : α) (n : Nat) (hlen : cfs.length = n)
    (hl : cfs.getLast? = some last) : cfs.getD (n - 1) 0 = last := by
  rw [List.getLast?_eq_getElem?, hlen] at hl
  rw [List.getD_eq_getElem?_getD, hl]
  rfl

/-- C3 (as stated, refuted): the bonds (maturity 1, no coupon, price 95) and (maturity 3,
5% coupon, one payment a year, price 100) bootstrap, under linear interpolation, to the
knots `(1, 95/100)` and `(3, 181/210)`; the second bond pays `5, 5, 105` at times
`1, 2, 3`, and its total present value on the returned curve is not its price 100:
the year-2 coupon was discounted at `95/100` during the bootstrap but the returned
curve gives `761/840` there. -/
theorem C3_counterexample :
    (Bootstrapper.mk CompoundingType.CONTINUOUS InterpolationType.LINEAR).bootstrap libm_unused
      [BondData.mk (1 : ℚ) 0 1 95 100, BondData.mk (3 : ℚ) (1 / 20) 1 100 100]
    = Except.ok { times_ := [1, 3], discount_factors_ := [95 / 100, 181 / 210],
                  compounding_type_ := CompoundingType.CONTINUOUS,
                  interpolator_ := InterpolationType.LINEAR,
                  spline_ := none, use_spline_ := false } ∧
    (BondData.mk (3 : ℚ) (1 / 20) 1 100 100).get_payment_times = some [1, 2, 3] ∧
    (BondData.mk (3 : ℚ) (1 / 20) 1 100 100).get_cash_flows = some [5, 5, 105] ∧
    present_value libm_unused
      { times_ := [1, 3], discount_factors_ := [95 / 100, 181 / 210],
        compounding_type_ := CompoundingType.CONTINUOUS,
        interpolator_ := InterpolationType.LINEAR,
        spline_ := none, use_spline_ := false } [1, 2, 3] [5, 5, 105]
      ≠ (BondData.mk (3 : ℚ) (1 / 20) 1 100 100).market_price := by
  have hc1 : payment_count (BondData.mk (1 : ℚ) 0 1 95 100) = 1 :=
    payment_count_eval _ 1 (by norm_num) (by norm_num)
  have hc2 : payment_count (BondData.mk (3 : ℚ) (1 / 20) 1 100 100) = 3 :=
    payment_count_eval _ 3 (by norm_num) (by norm_num)
  have hp : (BondData.mk (3 : ℚ) (1 / 20) 1 100 100).get_payment_times = some [1, 2, 3] := by
    rw [get_payment_times_eq _ (by norm_num)]
    norm_num [payment_schedule, hc2, List.range_succ]
  have hcf : (BondData.mk (3 : ℚ) (1 / 20) 1 100 100).get_cash_flows = some [5, 5, 105] := by
    rw [get_cash_flows_eq _ (by norm_num)]
    norm_num [hc2, List.range_succ]
  have hv : Bootstrapper.validate_bonds
      [BondData.mk (1 : ℚ) 0 1 95 100, BondData.mk (3 : ℚ) (1 / 20) 1 100 100] = true := by
    rw [validate_bonds_iff]
    refine ⟨by simp, ?_⟩
    intro b hb
    simp only [List.mem_cons, List.mem_singleton, List.not_mem_nil, or_false] at hb
    rcases hb with rfl | rfl <;> norm_num [bond_defect]
  have hsort : Bootstrapper.sort_bonds_by_maturity
      [BondData.mk (1 : ℚ) 0 1 95 100, BondData.mk (3 : ℚ) (1 / 20) 1 100 100]
      = [BondData.mk (1 : ℚ) 0 1 95 100, BondData.mk (3 : ℚ) (1 / 20) 1 100 100] := by
    have h : (1 : ℚ) ≤ 3 := by norm_num
    simp only [Bootstrapper.sort_bonds_by_maturity, List.insertionSort, List.orderedInsert, h,
      if_true]
  have hfin1 := df_final_zero_coupon libm_unused (BondData.mk (1 : ℚ) 0 1 95 100)
    (YieldCurve.init CompoundingType.CONTINUOUS InterpolationType.LINEAR)
    (by norm_num) rfl (by rw [hc1]) (Or.inl hc1)
  have hstep1 := bootstrap_step_eval libm_unused _ _ _ hfin1 (by norm_num) (by norm_num)
    (by norm_num)
  have hg1 : ∀ t : ℚ, 1 ≤ t → YieldCurve.get_discount_factor libm_unused
      { times_ := [1], discount_factors_ := [95 / 100],
        compounding_type_ := CompoundingType.CONTINUOUS,
        interpolator_ := InterpolationType.LINEAR, spline_ := none, use_spline_ := false }
      t = Except.ok (95 / 100) := by
    intro t ht
    have h1 : ¬ (t < 0) := by linarith
    have h2 : ¬ (t < 1e-10) := by
      have : (1e-10 : ℚ) < 1 := by norm_num
      linarith
    simp only [YieldCurve.get_discount_factor, Interpolator.interpolate,
      LinearInterpolator.interpolate, vec_at, h1, h2, List.isEmpty_cons,
      Bool.false_eq_true, if_false, List.length_singleton, ne_eq, not_true_eq_false,
      if_true, List.getElem?_cons_zero]
  have hfin2 : Bootstrapper.df_final libm_unused (BondData.mk (3 : ℚ) (1 / 20) 1 100 100)
      { times_ := [1], discount_factors_ := [95 / 100],
        compounding_type_ := CompoundingType.CONTINUOUS,
        interpolator_ := InterpolationType.LINEAR, spline_ := none, use_spline_ := false }
      = Except.ok (181 / 210) := by
    unfold Bootstrapper.df_final
    rw [hp, hcf]
    simp only [Bootstrapper.pv_known, List.length_cons, List.length_singleton, List.length_nil,
      Nat.add_one_sub_one, zero_add, List.range_succ, List.range_zero, List.nil_append,
      List.cons_append, List.foldlM_cons, List.foldlM_nil, Bootstrapper.pv_known_step, vec_at,
      List.getElem?_cons_zero, List.getElem?_cons_succ, bind, Except.bind,
      hg1 1 (le_refl 1), hg1 2 (by norm_num), pure, Except.pure, vec_back,
      List.isEmpty_cons, Bool.false_eq_true, if_false]
    norm_num
  have hstep2 := bootstrap_step_eval libm_unused _ _ _ hfin2 (by norm_num) (by norm_num)
    (by norm_num)
  refine ⟨?_, hp, hcf, ?_⟩
  · unfold Bootstrapper.bootstrap
    rw [hv, hsort]
    simp only [Bool.not_true, Bool.false_eq_true, if_false, List.foldlM_cons, List.foldlM_nil,
      bind, Except.bind]
    rw [hstep1]
    simp only [YieldCurve.init, List.nil_append]
    rw [hstep2]
    rfl
  · norm_num [present_value, Finset.sum_range_succ, YieldCurve.D,
      YieldCurve.get_discount_factor, Interpolator.interpolate,
      LinearInterpolator.interpolate, Interpolator.find_interval, lower_bound, vec_front,
      vec_back, vec_at, bind, Except.bind, pure, Except.pure, List.takeWhile]

/-- C3 (amended): when `bootstrap` succeeds, every bond `B_k` (in the order used by
`bootstrap`) is repriced by its own bootstrap step: the sum of its earlier cash flows
discounted on the curve holding only the first `k-1` knots, plus its last cash flow
times its own knot `DF_k`, equals its market price; hence the total present value on
the returned curve equals the market price whenever the returned curve gives the same
discount factors as that partial curve at the earlier payment times and gives `DF_k`
at the last payment time. -/
theorem C3_repricing (self : Bootstrapper) (m : Libm α) (bonds : List (BondData α))
    (c : YieldCurve α) (h : self.bootstrap m bonds = Except.ok c) :
    ∀ k b, (Bootstrapper.sort_bonds_by_maturity bonds)[k]? = some b →
      ∃ pts cfs last dfk, b.get_payment_times = some pts ∧ b.get_cash_flows = some cfs ∧
        pts ≠ [] ∧ cfs.length = pts.length ∧ cfs.getLast? = some last ∧
        c.discount_factors_[k]? = some dfk ∧
        (∑ i ∈ Finset.range (pts.length - 1),
          cfs.getD i 0 * (c.first_knots k).D m (pts.getD i 0)) + last * dfk
          = b.market_price ∧
        ((∀ i, i < pts.length - 1 →
            c.D m (pts.getD i 0) = (c.first_knots k).D m (pts.getD i 0)) →
          c.D m (pts.getD (pts.length - 1) 0) = dfk →
          present_value m c pts cfs = b.market_price) := by
  obtain ⟨hv, hloop⟩ := bootstrap_ok self m bonds c h
  obtain ⟨_, hnd⟩ := (validate_bonds_iff bonds).mp hv
  obtain ⟨_, _, _, _, _, _, hk⟩ := bootstrap_loop_spec m _ _ _ c hloop
  intro k b hb
  have hbm : b ∈ bonds := (sort_bonds_perm bonds).mem_iff.mp (List.getElem?_mem hb)
  have hbnd := hnd b hbm
  have hf : 0 < b.payment_frequency := by
    unfold bond_defect at hbnd
    push_neg at hbnd
    exact hbnd.2.2.1
  obtain ⟨df, hsolve, _, hdf⟩ := hk k b hb
  obtain ⟨hfin, _, _⟩ := (solve_ok_iff m b _ df).mp hsolve
  obtain ⟨pts, cfs, last, hp, hc, hne, hlast, _, hval⟩ := (df_final_ok_iff m b _ df).mp hfin
  have hlastv := cash_flows_last b hf cfs last hc hlast
  have hlpos : 0 < last := by
    rw [hlastv]
    exact last_cash_flow_pos b hbnd
  have hlen : cfs.length = pts.length := by
    have h1 := get_payment_times_eq b hf
    have h2 := get_cash_flows_eq b hf
    rw [hp] at h1
    rw [hc] at h2
    rw [Option.some.inj h1, Option.some.inj h2]
    simp [payment_schedule]
  have hrep : (∑ i ∈ Finset.range (pts.length - 1),
      cfs.getD i 0 * (c.first_knots k).D m (pts.getD i 0)) + last * df = b.market_price := by
    rw [hval]
    field_simp
  refine ⟨pts, cfs, last, df, hp, hc, hne, hlen, hlast, hdf, hrep, ?_⟩
  intro hsame hlastdf
  have hpos : 0 < pts.length := List.length_pos.mpr hne
  obtain ⟨n, hn⟩ : ∃ n, pts.length = n + 1 := ⟨pts.length - 1, by omega⟩
  have hcl := getD_last_of_getLast? cfs last pts.length hlen hlast
  unfold present_value
  simp only [hn, Nat.add_sub_cancel] at hsame hlastdf hrep hcl ⊢
  rw [Finset.sum_range_succ, hcl, hlastdf, ← hrep]
  congr 1
  apply Finset.sum_congr rfl
  intro i hi
  rw [hsame i (Finset.mem_range.mp hi)]

/-- C3 witness: the two demonstration bonds; the one-year bond is repriced by its step. -/
theorem C3_repricing_witness :
    ∃ (pts cfs : List ℚ) (last dfk : ℚ),
      (BondData.mk (1 : ℚ) (1 / 50) 2 99 100).get_payment_times = some pts ∧
      (BondData.mk (1 : ℚ) (1 / 50) 2 99 100).get_cash_flows = some cfs ∧
      (∑ i ∈ Finset.range (pts.length - 1),
        cfs.getD i 0 * (YieldCurve.first_knots
          ({ times_ := [1 / 2, 1], discount_factors_ := [197 / 200, 19603 / 20200],
             compounding_type_ := CompoundingType.CONTINUOUS,
             interpolator_ := InterpolationType.LINEAR,
             spline_ := none, use_spline_ := false } : YieldCurve ℚ) 1).D libm_unused
               (pts.getD i 0))
        + last * dfk = 99 := by
  obtain ⟨pts, cfs, last, dfk, h1, h2, _, _, _, _, h7, _⟩ :=
    C3_repricing (Bootstrapper.mk CompoundingType.CONTINUOUS InterpolationType.LINEAR)
      libm_unused
      [BondData.mk (1 / 2 : ℚ) 0 2 (197 / 2) 100, BondData.mk (1 : ℚ) (1 / 50) 2 99 100]
      _ (demo_bootstrap _ _ _) 1 (BondData.mk (1 : ℚ) (1 / 50) 2 99 100)
      (by rw [demo_sort]; rfl)
  exact ⟨pts, cfs, last, dfk, h1, h2, h7⟩

end bootstrap_claims

/-! ## The end-to-end scenario over the reals -/

section end_to_end

theorem real_exp_log_laws : (Libm.mk Real.exp Real.log Real.rpow).exp_log_laws :=
  ⟨Real.exp_zero, fun _ hx => Real.exp_log hx⟩

/-- C4: bootstrapping the bonds (0.5, 0%, freq 2, 98.50) and (1.0, 2%, freq 2, 99.00)
with continuous compounding and log-linear interpolation, `exp` and `log` being the
real functions, returns the curve with exactly the two knots `(0.5, 0.985)` and
`(1.0, 98.015/101)`; on it `get_discount_factor(0.5) = 0.985`, `get_zero_rate(0.5)`
is positive and `has_arbitrage()` is false. -/
theorem C4_end_to_end :
    (Bootstrapper.mk CompoundingType.CONTINUOUS InterpolationType.LOG_LINEAR).bootstrap
      (Libm.mk Real.exp Real.log Real.rpow)
      [BondData.mk (0.5 : ℝ) 0 2 98.50 100, BondData.mk (1.0 : ℝ) 0.02 2 99.00 100]
    = Except.ok { times_ := [0.5, 1.0], discount_factors_ := [0.985, 98.015 / 101],
                  compounding_type_ := CompoundingType.CONTINUOUS,
                  interpolator_ := InterpolationType.LOG_LINEAR,
                  spline_ := none, use_spline_ := false } ∧
    YieldCurve.size
      ({ times_ := [0.5, 1.0], discount_factors_ := [0.985, 98.015 / 101],
         compounding_type_ := CompoundingType.CONTINUOUS,
         interpolator_ := InterpolationType.LOG_LINEAR,
         spline_ := none, use_spline_ := false } : YieldCurve ℝ) = 2 ∧
    YieldCurve.get_discount_factor (Libm.mk Real.exp Real.log Real.rpow)
      { times_ := [0.5, 1.0], discount_factors_ := [0.985, 98.015 / 101],
        compounding_type_ := CompoundingType.CONTINUOUS,
        interpolator_ := InterpolationType.LOG_LINEAR,
        spline_ := none, use_spline_ := false } 0.5 = Except.ok 0.985 ∧
    (∃ r : ℝ, YieldCurve.get_zero_rate (Libm.mk Real.exp Real.log Real.rpow)
      { times_ := [0.5, 1.0], discount_factors_ := [0.985, 98.015 / 101],
        compounding_type_ := CompoundingType.CONTINUOUS,
        interpolator_ := InterpolationType.LOG_LINEAR,
        spline_ := none, use_spline_ := false } 0.5 = Except.ok r ∧ 0 < r) ∧
    YieldCurve.has_arbitrage (Libm.mk Real.exp Real.log Real.rpow)
      { times_ := [0.5, 1.0], discount_factors_ := [0.985, 98.015 / 101],
        compounding_type_ := CompoundingType.CONTINUOUS,
        interpolator_ := InterpolationType.LOG_LINEAR,
        spline_ := none, use_spline_ := false } = Except.ok false := by
  have e1 : (0.5 : ℝ) = 1 / 2 := by norm_num
  have e2 : (98.50 : ℝ) = 197 / 2 := by norm_num
  have e3 : (1.0 : ℝ) = 1 := by norm_num
  have e4 : (0.02 : ℝ) = 1 / 50 := by norm_num
  have e5 : (99.00 : ℝ) = 99 := by norm_num
  have e6 : (0.985 : ℝ) = 197 / 200 := by norm_num
  have e7 : (98.015 / 101 : ℝ) = 19603 / 20200 := by norm_num
  rw [e1, e2, e3, e4, e5, e6, e7]
  have hg : ∀ (j : Nat) (t d : ℝ), ([1 / 2, 1] : List ℝ)[j]? = some t →
      ([197 / 200, 19603 / 20200] : List ℝ)[j]? = some d →
      YieldCurve.get_discount_factor (Libm.mk Real.exp Real.log Real.rpow)
        { times_ := [1 / 2, 1], discount_factors_ := [197 / 200, 19603 / 20200],
          compounding_type_ := CompoundingType.CONTINUOUS,
          interpolator_ := InterpolationType.LOG_LINEAR,
          spline_ := none, use_spline_ := false } t = Except.ok d := by
    intro j t d ht hd
    apply get_discount_factor_at_knot _ _ _ rfl _ rfl (Or.inr real_exp_log_laws) j t d ht hd
    · have hm := List.getElem?_mem ht
      simp only [List.mem_cons, List.mem_singleton, List.not_mem_nil, or_false] at hm
      rcases hm with rfl | rfl <;> norm_num
    · simp [List.Sorted]
      norm_num
    · intro d hdm
      simp only [List.mem_cons, List.mem_singleton, List.not_mem_nil, or_false] at hdm
      rcases hdm with rfl | rfl <;> norm_num
  have hg1 := hg 0 (1 / 2) (197 / 200) rfl rfl
  have hg2 := hg 1 1 (19603 / 20200) rfl rfl
  have hlog1 : Real.log (197 / 200) < 0 := Real.log_neg (by norm_num) (by norm_num)
  have hlog2 : Real.log (19603 / 20200 / (197 / 200)) < 0 :=
    Real.log_neg (by norm_num) (by norm_num)
  refine ⟨demo_bootstrap _ _ _, rfl, hg1, ⟨-Real.log (197 / 200) / (1 / 2), ?_, ?_⟩, ?_⟩
  · have h1 : ¬ ((1 / 2 : ℝ) < 1e-10) := by norm_num
    have h2 : ¬ ((197 / 200 : ℝ) ≤ 0 ∨ (197 / 200 : ℝ) > 1) := by norm_num
    simp only [YieldCurve.get_zero_rate, hg1, bind, Except.bind,
      DiscountFactor.to_zero_rate, h1, h2, if_false]
  · apply div_pos (neg_pos.mpr hlog1)
    norm_num
  · have h1 : ¬ ((1 / 2 : ℝ) ≥ 1) := by norm_num
    have h2 : ¬ (-Real.log (19603 / 20200 / (197 / 200)) / (1 - 1 / 2) < -1e-6) := by
      have h3 : 0 < -Real.log (19603 / 20200 / (197 / 200)) / (1 - 1 / 2) :=
        div_pos (neg_pos.mpr hlog2) (by norm_num)
      have h4 : (-1e-6 : ℝ) < 0 := by norm_num
      linarith
    simp only [YieldCurve.has_arbitrage, List.isEmpty_cons, Bool.false_eq_true, if_false,
      List.length_cons, List.length_singleton, List.length_nil, Nat.add_one_sub_one, zero_add,
      List.range_succ, List.range_zero, List.nil_append, YieldCurve.has_arbitrage_loop, vec_at,
      List.getElem?_cons_zero, List.getElem?_cons_succ, bind, Except.bind,
      YieldCurve.get_forward_rate, h1, hg1, hg2, pure, Except.pure, h2]

end end_to_end

/-! ## Claims about the rate / discount-factor converter -/

section converter_claims

variable {α : Type} [LinearOrderedField α]

/-- C13 (as stated, refuted): at the negative time `-1`, which is below `1e-10`,
`from_zero_rate` does not return `1.0` but fails with "Time must be non-negative". -/
theorem C13_counterexample :
    (-1 : ℚ) < 1e-10 ∧
    DiscountFactor.from_zero_rate libm_unused (-1 : ℚ) 0 CompoundingType.CONTINUOUS
      = Except.error (Exn.invalid_argument "Time must be non-negative") := by
  refine ⟨by norm_num, ?_⟩
  have h : (-1 : ℚ) < 0 := by norm_num
  simp only [DiscountFactor.from_zero_rate, h, if_true]

/-- C13 (amended): for every time `0 ≤ t < 1e-10`, every rate and every compounding
convention, `from_zero_rate(t, rate, conv)` returns exactly `1.0`. -/
theorem C13_time_now (m : Libm α) (t rate : α) (conv : CompoundingType)
    (h0 : 0 ≤ t) (h1 : t < 1e-10) :
    DiscountFactor.from_zero_rate m t rate conv = Except.ok 1 := by
  simp only [DiscountFactor.from_zero_rate, not_lt.mpr h0, h1, if_false, if_true]

/-- C13 witness: time 0 at rate 5%, as in the test `DiscountFactorTest.ZeroTime`. -/
theorem C13_time_now_witness :
    DiscountFactor.from_zero_rate libm_unused (0 : ℚ) (1 / 20) CompoundingType.CONTINUOUS
      = Except.ok 1 :=
  C13_time_now libm_unused 0 (1 / 20) CompoundingType.CONTINUOUS (le_refl 0) (by norm_num)

/-- C14: `to_zero_rate(t, df, conv)` fails exactly when `t < 1e-10` or `df ≤ 0` or
`df > 1`, and every failure is an invalid-argument error; in every other case it
returns `-ln(df)/t` (continuous), `df^(-1/t) - 1` (annual), `2*(df^(-1/(2t)) - 1)`
(semi-annual) or `4*(df^(-1/(4t)) - 1)` (quarterly). -/
theorem C14_to_zero_rate (m : Libm α) (t df : α) (conv : CompoundingType) :
    ((∃ e, DiscountFactor.to_zero_rate m t df conv = Except.error e) ↔
      (t < 1e-10 ∨ df ≤ 0 ∨ df > 1)) ∧
    (∀ e, DiscountFactor.to_zero_rate m t df conv = Except.error e →
      ∃ what, e = Exn.invalid_argument what) ∧
    (¬ (t < 1e-10 ∨ df ≤ 0 ∨ df > 1) →
      DiscountFactor.to_zero_rate m t df conv = Except.ok
        (match conv with
         | CompoundingType.CONTINUOUS => -m.log df / t
         | CompoundingType.ANNUAL => m.pow df (-1 / t) - 1
         | CompoundingType.SEMI_ANNUAL => 2 * (m.pow df (-1 / (2 * t)) - 1)
         | CompoundingType.QUARTERLY => 4 * (m.pow df (-1 / (4 * t)) - 1))) := by
  by_cases ht : t < 1e-10
  · simp [DiscountFactor.to_zero_rate, ht]
  · by_cases hd : df ≤ 0 ∨ df > 1
    · simp [DiscountFactor.to_zero_rate, ht, hd]
    · have hd' : ¬ (df ≤ 0 ∨ 1 < df) := hd
      cases conv <;> simp [DiscountFactor.to_zero_rate, ht, hd']

/-- C14 witness: one year, discount factor 0.95, continuous compounding. -/
theorem C14_to_zero_rate_witness :
    DiscountFactor.to_zero_rate libm_unused (1 : ℚ) (19 / 20) CompoundingType.CONTINUOUS
      = Except.ok (-libm_unused.log (19 / 20) / 1) :=
  (C14_to_zero_rate libm_unused (1 : ℚ) (19 / 20) CompoundingType.CONTINUOUS).2.2
    (by norm_num)

end converter_claims

section rate_round_trip

variable {α : Type} [LinearOrderedField α]

/-- From `t ≥ 1e-10` on, `to_zero_rate` returns the rate `v` exactly when the discount
factor lies in `(0, 1]` and the formula of the convention gives `v`. -/
theorem to_zero_rate_eq_ok_iff (m : Libm α) (t d v : α) (conv : CompoundingType)
    (ht : 1e-10 ≤ t) :
    DiscountFactor.to_zero_rate m t d conv = Except.ok v ↔
      0 < d ∧ d ≤ 1 ∧
      (match conv with
        | CompoundingType.CONTINUOUS => -m.log d / t
        | CompoundingType.ANNUAL => m.pow d (-1 / t) - 1
        | CompoundingType.SEMI_ANNUAL => 2 * (m.pow d (-1 / (2 * t)) - 1)
        | CompoundingType.QUARTERLY => 4 * (m.pow d (-1 / (4 * t)) - 1)) = v := by
  unfold DiscountFactor.to_zero_rate
  rw [if_neg (not_lt.mpr ht)]
  by_cases hd : d ≤ 0 ∨ d > 1
  · rw [if_pos hd]
    constructor
    · intro h
      cases h
    · rintro ⟨h0, h1, -⟩
      rcases hd with h | h
      · exact absurd h0 (not_lt.mpr h)
      · exact absurd h (not_lt.mpr h1)
  · rw [if_neg hd]
    push_neg at hd
    cases conv <;> simp only [Except.ok.injEq] <;>
      exact ⟨fun h => ⟨hd.1, hd.2, h⟩, fun h => h.2.2⟩

end rate_round_trip

section converter_real

theorem rpow_round_trip (a t : ℝ) (ha : 0 < a) (ht : t ≠ 0) :
    (1 / a ^ t) ^ (-1 / t) = a := by
  rw [one_div, ← Real.rpow_neg ha.le, ← Real.rpow_mul ha.le]
  have : -t * (-1 / t) = 1 := by field_simp
  rw [this, Real.rpow_one]

theorem rpow_df_bounds (a t : ℝ) (ha : 1 ≤ a) (ht : 0 ≤ t) :
    ¬ (1 / a ^ t ≤ 0 ∨ 1 / a ^ t > 1) := by
  have h1 : 1 ≤ a ^ t := Real.one_le_rpow ha ht
  have h2 : 0 < 1 / a ^ t := one_div_pos.mpr (lt_of_lt_of_le one_pos h1)
  have h3 : 1 / a ^ t ≤ 1 := by
    rw [div_le_one (lt_of_lt_of_le one_pos h1)]
    exact h1
  intro h
  rcases h with h | h
  · exact absurd h2 (not_lt.mpr h)
  · exact absurd h3 (not_le.mpr h)

/-- C12: for every time `t ≥ 1e-10` and every rate `r`, with `exp` and `pow` the real
functions, `from_zero_rate(t, r, conv)` returns `e^(-r*t)` for continuous compounding
and, when the base is positive, `(1+r)^(-t)` for annual, `(1+r/2)^(-2t)` for
semi-annual and `(1+r/4)^(-4t)` for quarterly compounding. -/
theorem C12_discount_factor_formulas (t r : ℝ) (ht : 1e-10 ≤ t) :
    DiscountFactor.from_zero_rate (Libm.mk Real.exp Real.log Real.rpow) t r
      CompoundingType.CONTINUOUS = Except.ok (Real.exp (-(r * t))) ∧
    (0 < 1 + r →
      DiscountFactor.from_zero_rate (Libm.mk Real.exp Real.log Real.rpow) t r
        CompoundingType.ANNUAL = Except.ok ((1 + r) ^ (-t))) ∧
    (0 < 1 + r / 2 →
      DiscountFactor.from_zero_rate (Libm.mk Real.exp Real.log Real.rpow) t r
        CompoundingType.SEMI_ANNUAL = Except.ok ((1 + r / 2) ^ (-(2 * t)))) ∧
    (0 < 1 + r / 4 →
      DiscountFactor.from_zero_rate (Libm.mk Real.exp Real.log Real.rpow) t r
        CompoundingType.QUARTERLY = Except.ok ((1 + r / 4) ^ (-(4 * t)))) := by
  have hpos : (0 : ℝ) < t := lt_of_lt_of_le (by norm_num) ht
  have h0 : ¬ (t < 0) := not_lt.mpr hpos.le
  have h1 : ¬ (t < 1e-10) := not_lt.mpr ht
  refine ⟨?_, ?_, ?_, ?_⟩
  · simp only [DiscountFactor.from_zero_rate, h0, h1, if_false, neg_mul]
  · intro ha
    simp only [DiscountFactor.from_zero_rate, h0, h1, if_false, Real.rpow_eq_pow,
      Except.ok.injEq]
    rw [one_div, Real.rpow_neg ha.le]
  · intro ha
    simp only [DiscountFactor.from_zero_rate, h0, h1, if_false, Real.rpow_eq_pow,
      Except.ok.injEq]
    rw [one_div, Real.rpow_neg ha.le]
  · intro ha
    simp only [DiscountFactor.from_zero_rate, h0, h1, if_false, Real.rpow_eq_pow,
      Except.ok.injEq]
    rw [one_div, Real.rpow_neg ha.le]

/-- C12 witness: one year at 5%, continuous compounding, as in the test
`DiscountFactorTest.ContinuousCompounding`. -/
theorem C12_discount_factor_formulas_witness :
    DiscountFactor.from_zero_rate (Libm.mk Real.exp Real.log Real.rpow) 1 (1 / 20)
      CompoundingType.CONTINUOUS = Except.ok (Real.exp (-(1 / 20 * 1))) :=
  (C12_discount_factor_formulas 1 (1 / 20) (by norm_num)).1

end converter_real

/-! ## Interpolation inside the knot range -/

section interpolation_range

variable {α : Type} [LinearOrderedField α]

theorem lower_bound_between :
    ∀ (v : List α) (i : Nat) (a b t : α), v.Sorted (· < ·) → v[i]? = some a →
      v[i + 1]? = some b → a < t → t ≤ b → lower_bound v t = i + 1 := by
  intro v
  induction v with
  | nil => intro i a b t _ h; simp at h
  | cons x rest ih =>
    intro i a b t hs ha hb hat htb
    obtain ⟨hall, hrest⟩ := List.sorted_cons.mp hs
    cases i with
    | zero =>
      have hx : x = a := by simpa using ha
      subst hx
      have hb' : rest[0]? = some b := by simpa using hb
      cases rest with
      | nil => simp at hb'
      | cons y rest' =>
        have hy : y = b := by simpa using hb'
        subst hy
        simp [lower_bound, List.takeWhile_cons, hat, not_lt.mpr htb]
    | succ i' =>
      have ha' : rest[i']? = some a := by simpa using ha
      have hb' : rest[i' + 1]? = some b := by simpa using hb
      have hxa : x < a := hall a (List.getElem?_mem ha')
      have hxt : x < t := lt_trans hxa hat
      have := ih i' a b t hrest ha' hb' hat htb
      simp only [lower_bound] at this ⊢
      simp [List.takeWhile_cons, hxt, this]

theorem sorted_front_le {v : List α} (hs : v.Sorted (· < ·)) {i : Nat} {a x : α}
    (hfront : v.head? = some a) (hi : v[i]? = some x) : a ≤ x := by
  rw [List.head?_eq_getElem?] at hfront
  rcases Nat.eq_zero_or_pos i with h0 | hpos
  · subst h0
    rw [hfront] at hi
    exact le_of_eq (Option.some.inj hi)
  · exact (sorted_getElem?_lt hs hfront hi hpos).le

theorem sorted_le_back {v : List α} (hs : v.Sorted (· < ·)) {i : Nat} {b x : α}
    (hback : v.getLast? = some b) (hi : v[i]? = some x) : x ≤ b := by
  rw [List.getLast?_eq_getElem?] at hback
  obtain ⟨hlt, _⟩ := List.getElem?_eq_some.mp hi
  rcases Nat.lt_or_ge i (v.length - 1) with h | h
  · exact (sorted_getElem?_lt hs hi hback h).le
  · have : i = v.length - 1 := by omega
    subst this
    rw [hback] at hi
    exact le_of_eq (Option.some.inj hi).symm

/-- The common part of the three `interpolate` functions once `t` lies strictly
between the first and the last knot time: the interval found and the four values read. -/
theorem interior_reads {t : α} {times dfs : List α} (hlen : times.length = dfs.length)
    {front back : α} (hfront : times.head? = some front) (hback : times.getLast? = some back)
    (h1 : ¬ t ≤ front) (h2 : ¬ t ≥ back) :
    ∃ j a b da db, lower_bound times t = j + 1 ∧
      Interpolator.find_interval t times = Except.ok j ∧
      times[j]? = some a ∧ times[j + 1]? = some b ∧ dfs[j]? = some da ∧
      dfs[j + 1]? = some db ∧ ¬ dfs.length = 1 := by
  obtain ⟨hfi, hlb0, hlb1⟩ := find_interval_interior hfront hback h1 h2
  obtain ⟨j, hj⟩ : ∃ j, lower_bound times t = j + 1 := ⟨lower_bound times t - 1, by omega⟩
  rw [hj] at hfi hlb1
  have i1 : j < times.length := by omega
  have i3 : j < dfs.length := by omega
  have i4 : j + 1 < dfs.length := by omega
  refine ⟨j, times.get ⟨j, i1⟩, times.get ⟨j + 1, hlb1⟩, dfs.get ⟨j, i3⟩, dfs.get ⟨j + 1, i4⟩,
    hj, by simpa using hfi, ?_, ?_, ?_, ?_, by omega⟩ <;>
  simp [List.getElem?_eq_getElem, i1, hlb1, i3, i4]

theorem linear_interior {t : α} {times dfs : List α} (hlen : times.length = dfs.length)
    {front back : α} (hfront : times.head? = some front) (hback : times.getLast? = some back)
    (h1 : ¬ t ≤ front) (h2 : ¬ t ≥ back) {j : Nat} {a b da db : α}
    (hfi : Interpolator.find_interval t times = Except.ok j)
    (ha : times[j]? = some a) (hb : times[j + 1]? = some b)
    (hda : dfs[j]? = some da) (hdb : dfs[j + 1]? = some db) :
    LinearInterpolator.interpolate t times dfs =
      Except.ok (da + (t - a) / (b - a) * (db - da)) := by
  have hone : ¬ dfs.length = 1 := by
    have := (List.getElem?_eq_some.mp hdb).1
    omega
  simp only [LinearInterpolator.interpolate, hlen, hone, vec_front_eq_ok.mpr hfront,
    vec_back_eq_ok.mpr hback, bind, Except.bind, h1, h2, hfi, vec_at_of_getElem? ha,
    vec_at_of_getElem? hb, vec_at_of_getElem? hda, vec_at_of_getElem? hdb, pure, Except.pure,
    ne_eq, not_true_eq_false, if_false]

theorem log_linear_interior (m : Libm α) {t : α} {times dfs : List α}
    (hlen : times.length = dfs.length)
    {front back : α} (hfront : times.head? = some front) (hback : times.getLast? = some back)
    (h1 : ¬ t ≤ front) (h2 : ¬ t ≥ back) {j : Nat} {a b da db : α}
    (hfi : Interpolator.find_interval t times = Except.ok j)
    (ha : times[j]? = some a) (hb : times[j + 1]? = some b)
    (hda : dfs[j]? = some da) (hdb : dfs[j + 1]? = some db) :
    LogLinearInterpolator.interpolate m t times dfs =
      Except.ok (m.exp (m.log da + (t - a) / (b - a) * (m.log db - m.log da))) := by
  have hone : ¬ dfs.length = 1 := by
    have := (List.getElem?_eq_some.mp hdb).1
    omega
  simp only [LogLinearInterpolator.interpolate, hlen, hone, vec_front_eq_ok.mpr hfront,
    vec_back_eq_ok.mpr hback, bind, Except.bind, h1, h2, hfi, vec_at_of_getElem? ha,
    vec_at_of_getElem? hb, vec_at_of_getElem? hda, vec_at_of_getElem? hdb, pure, Except.pure,
    ne_eq, not_true_eq_false, if_false]

theorem flat_forward_interior (m : Libm α) {t : α} {times dfs : List α}
    (hlen : times.length = dfs.length)
    {front back : α} (hfront : times.head? = some front) (hback : times.getLast? = some back)
    (h1 : ¬ t ≤ front) (h2 : ¬ t ≥ back) {j : Nat} {a b da db : α}
    (hfi : Interpolator.find_interval t times = Except.ok j)
    (ha : times[j]? = some a) (hb : times[j + 1]? = some b)
    (hda : dfs[j]? = some da) (hdb : dfs[j + 1]? = some db) :
    FlatForwardInterpolator.interpolate m t times dfs =
      Except.ok (da * m.exp (-(-m.log (db / da) / (b - a)) * (t - a))) := by
  have hone : ¬ dfs.length = 1 := by
    have := (List.getElem?_eq_some.mp hdb).1
    omega
  simp only [FlatForwardInterpolator.interpolate, hlen, hone, vec_front_eq_ok.mpr hfront,
    vec_back_eq_ok.mpr hback, bind, Except.bind, h1, h2, hfi, vec_at_of_getElem? ha,
    vec_at_of_getElem? hb, vec_at_of_getElem? hda, vec_at_of_getElem? hdb, pure, Except.pure,
    ne_eq, not_true_eq_false, if_false]

end interpolation_range

section boundary_lemmas

variable {α : Type} [LinearOrderedField α]

theorem interpolate_single (m : Libm α) (type : InterpolationType) (t time d : α) :
    Interpolator.interpolate m type t [time] [d] = Except.ok d := by
  cases type <;>
    simp [Interpolator.interpolate, LinearInterpolator.interpolate,
      LogLinearInterpolator.interpolate, FlatForwardInterpolator.interpolate, vec_at]

theorem interpolate_front (m : Libm α) (type : InterpolationType) {t front d : α}
    {times dfs : List α} (hlen : times.length = dfs.length)
    (hfront : times.head? = some front) (hd : dfs.head? = some d) (ht : t ≤ front) :
    Interpolator.interpolate m type t times dfs = Except.ok d := by
  have hd0 : dfs[0]? = some d := by rw [← List.head?_eq_getElem?, hd]
  by_cases hone : dfs.length = 1
  · cases type <;>
      simp [Interpolator.interpolate, LinearInterpolator.interpolate,
        LogLinearInterpolator.interpolate, FlatForwardInterpolator.interpolate, hlen, hone,
        vec_at_of_getElem? hd0]
  · cases type <;>
      simp [Interpolator.interpolate, LinearInterpolator.interpolate,
        LogLinearInterpolator.interpolate, FlatForwardInterpolator.interpolate, hlen, hone,
        vec_front_eq_ok.mpr hfront, vec_front_eq_ok.mpr hd, bind, Except.bind, ht]

theorem sorted_front_lt_back {v : List α} (hs : v.Sorted (· < ·)) (h2 : 2 ≤ v.length)
    {front back : α} (hfront : v.head? = some front) (hback : v.getLast? = some back) :
    front < back := by
  rw [List.head?_eq_getElem?] at hfront
  rw [List.getLast?_eq_getElem?] at hback
  exact sorted_getElem?_lt hs hfront hback (by omega)

theorem interpolate_back (m : Libm α) (type : InterpolationType)
    (hty : type ≠ InterpolationType.FLAT_FORWARD) {t back d : α}
    {times dfs : List α} (hlen : times.length = dfs.length) (hs : times.Sorted (· < ·))
    (hback : times.getLast? = some back) (hd : dfs.getLast? = some d) (ht : back ≤ t) :
    Interpolator.interpolate m type t times dfs = Except.ok d := by
  have hne : times ≠ [] := by
    intro h
    rw [h] at hback
    simp at hback
  have hfront : times.head? = some (times.head hne) := List.head?_eq_head hne
  have hpos : 0 < times.length := List.length_pos.mpr hne
  by_cases hone : dfs.length = 1
  · have hd0 : dfs[0]? = some d := by
      rw [List.getLast?_eq_getElem?, hone] at hd
      exact hd
    cases type <;>
      simp [Interpolator.interpolate, LinearInterpolator.interpolate,
        LogLinearInterpolator.interpolate, FlatForwardInterpolator.interpolate, hlen, hone,
        vec_at_of_getElem? hd0]
  · have hlt := sorted_front_lt_back hs (by omega) hfront hback
    have h1 : ¬ t ≤ times.head hne := not_le.mpr (lt_of_lt_of_le hlt ht)
    cases type
    · simp [Interpolator.interpolate, LinearInterpolator.interpolate, hlen, hone,
        vec_front_eq_ok.mpr hfront, vec_back_eq_ok.mpr hback, vec_back_eq_ok.mpr hd, bind,
        Except.bind, h1, ht]
    · simp [Interpolator.interpolate, LogLinearInterpolator.interpolate, hlen, hone,
        vec_front_eq_ok.mpr hfront, vec_back_eq_ok.mpr hback, vec_back_eq_ok.mpr hd, bind,
        Except.bind, h1, ht]
    · exact absurd rfl hty

theorem flat_forward_back (m : Libm α) {t t1 t2 d1 d2 : α} {times dfs : List α}
    (hlen : times.length = dfs.length) (hs : times.Sorted (· < ·)) (h2 : 2 ≤ dfs.length)
    (ht1 : times[dfs.length - 2]? = some t1) (ht2 : times[dfs.length - 1]? = some t2)
    (hd1 : dfs[dfs.length - 2]? = some d1) (hd2 : dfs[dfs.length - 1]? = some d2)
    (ht : t2 ≤ t) :
    FlatForwardInterpolator.interpolate m t times dfs =
      Except.ok (d2 * m.exp (-(-m.log (d2 / d1) / (t2 - t1)) * (t - t2))) := by
  have hne : times ≠ [] := by
    intro h
    rw [h] at hlen
    simp at hlen
    omega
  have hfront : times.head? = some (times.head hne) := List.head?_eq_head hne
  have hback : times.getLast? = some t2 := by
    rw [List.getLast?_eq_getElem?, hlen]
    exact ht2
  have hone : ¬ dfs.length = 1 := by omega
  have hlt := sorted_front_lt_back hs (by omega) hfront hback
  have h1 : ¬ t ≤ times.head hne := not_le.mpr (lt_of_lt_of_le hlt ht)
  simp only [FlatForwardInterpolator.interpolate, hlen, hone, vec_front_eq_ok.mpr hfront,
    vec_back_eq_ok.mpr hback, bind, Except.bind, h1, ht, ge_iff_le, vec_at_of_getElem? ht1,
    vec_at_of_getElem? ht2, vec_at_of_getElem? hd1, vec_at_of_getElem? hd2, pure, Except.pure,
    ne_eq, not_true_eq_false, if_false, if_true]

end boundary_lemmas

section bracket_lemmas

variable {α : Type} [LinearOrderedField α]

/-- Where `interpolate` goes for a `t` inside the interval `[t_i, t_{i+1}]` of strictly
increasing knot times: the flat branch at the first knot, the branch for the last knot,
the interval `i` itself, or (at `t = t_i`) the interval `i - 1`. -/
theorem bracket_cases {t ti ti1 : α} {times : List α} {i : Nat}
    (hs : times.Sorted (· < ·)) (hti : times[i]? = some ti) (hti1 : times[i + 1]? = some ti1)
    (hlo : ti ≤ t) (hhi : t ≤ ti1) :
    ∃ front back, times.head? = some front ∧ times.getLast? = some back ∧
      ((t ≤ front ∧ i = 0 ∧ t = ti) ∨
       (¬ t ≤ front ∧ t ≥ back ∧ i + 2 = times.length ∧ t = ti1) ∨
       (¬ t ≤ front ∧ ¬ t ≥ back ∧ ti < t ∧ Interpolator.find_interval t times = Except.ok i) ∨
       (¬ t ≤ front ∧ ¬ t ≥ back ∧ t = ti ∧ 1 ≤ i ∧
         Interpolator.find_interval t times = Except.ok (i - 1))) := by
  obtain ⟨hi1, _⟩ := List.getElem?_eq_some.mp hti1
  have hne : times ≠ [] := by
    intro h
    rw [h] at hi1
    simp at hi1
  have hfront : times.head? = some (times.head hne) := List.head?_eq_head hne
  have hback : times.getLast? = some (times.getLast hne) := List.getLast?_eq_getLast _ hne
  have hfront0 : times[0]? = some (times.head hne) := by rw [← List.head?_eq_getElem?, hfront]
  have hbackn : times[times.length - 1]? = some (times.getLast hne) := by
    rw [← List.getLast?_eq_getElem?, hback]
  refine ⟨_, _, hfront, hback, ?_⟩
  by_cases h1 : t ≤ times.head hne
  · left
    have hfl := sorted_front_le hs hfront hti
    have hte : t = ti := le_antisymm (le_trans h1 hfl) hlo
    have hfe : times[0]? = some ti := by
      rw [hfront0]
      congr 1
      exact le_antisymm hfl (hte ▸ h1)
    exact ⟨h1, sorted_getElem?_inj hs hti hfe, hte⟩
  by_cases h2 : t ≥ times.getLast hne
  · right; left
    have hbl := sorted_le_back hs hback hti1
    have hte : t = ti1 := le_antisymm hhi (le_trans hbl h2)
    have hbe : times[times.length - 1]? = some ti1 := by
      rw [hbackn]
      congr 1
      exact le_antisymm (hte ▸ h2) hbl
    have := sorted_getElem?_inj hs hti1 hbe
    exact ⟨h1, h2, by omega, hte⟩
  obtain ⟨hfi, hlb0, hlb1⟩ := find_interval_interior hfront hback h1 h2
  rcases lt_or_eq_of_le hlo with hlt | heq
  · right; right; left
    have hlb := lower_bound_between times i ti ti1 t hs hti hti1 hlt hhi
    rw [hlb] at hfi
    exact ⟨h1, h2, hlt, by simpa using hfi⟩
  · right; right; right
    subst heq
    have hlb := lower_bound_knot times i ti hs hti
    rw [hlb] at hfi hlb0
    exact ⟨h1, h2, rfl, hlb0, hfi⟩

theorem linear_bracket {t ti ti1 di di1 : α} {times dfs : List α} {i : Nat}
    (hlen : times.length = dfs.length) (hs : times.Sorted (· < ·))
    (hti : times[i]? = some ti) (hti1 : times[i + 1]? = some ti1)
    (hdi : dfs[i]? = some di) (hdi1 : dfs[i + 1]? = some di1)
    (hlo : ti ≤ t) (hhi : t ≤ ti1) :
    LinearInterpolator.interpolate t times dfs =
      Except.ok (di + (t - ti) / (ti1 - ti) * (di1 - di)) := by
  have hlt : ti < ti1 := sorted_getElem?_lt hs hti hti1 (by omega)
  have hsub : ti1 - ti ≠ 0 := ne_of_gt (sub_pos.mpr hlt)
  have hlin : ∀ (m : Libm α) (t : α) (times dfs : List α),
      Interpolator.interpolate m InterpolationType.LINEAR t times dfs =
        LinearInterpolator.interpolate t times dfs := fun _ _ _ _ => rfl
  obtain ⟨front, back, hfront, hback, hcase⟩ := bracket_cases hs hti hti1 hlo hhi
  rcases hcase with ⟨h1, hi0, hte⟩ | ⟨h1, h2, hin, hte⟩ | ⟨h1, h2, hlt', hfi⟩ |
    ⟨h1, h2, hte, hi1, hfi⟩
  · subst hi0
    have hd : dfs.head? = some di := by rw [List.head?_eq_getElem?, hdi]
    rw [← hlin ⟨id, id, fun x _ => x⟩,
      interpolate_front _ InterpolationType.LINEAR hlen hfront hd h1, hte]
    simp
  · have hd : dfs.getLast? = some di1 := by
      rw [List.getLast?_eq_getElem?, ← hlen, ← hin]
      exact hdi1
    rw [← hlin ⟨id, id, fun x _ => x⟩,
      interpolate_back _ InterpolationType.LINEAR (by decide) hlen hs hback hd h2, hte,
      div_self hsub]
    congr 1
    ring
  · exact linear_interior hlen hfront hback h1 h2 hfi hti hti1 hdi hdi1
  · obtain ⟨j, rfl⟩ : ∃ j, i = j + 1 := ⟨i - 1, by omega⟩
    simp only [Nat.add_sub_cancel] at hfi
    have hj : j < times.length := by
      have := (List.getElem?_eq_some.mp hti).1
      omega
    have hjd : j < dfs.length := by omega
    have htj : times[j]? = some (times.get ⟨j, hj⟩) := by simp [List.getElem?_eq_getElem hj]
    have hdj : dfs[j]? = some (dfs.get ⟨j, hjd⟩) := by simp [List.getElem?_eq_getElem hjd]
    have hltj : times.get ⟨j, hj⟩ < ti := sorted_getElem?_lt hs htj hti (by omega)
    have hsubj : ti - times.get ⟨j, hj⟩ ≠ 0 := ne_of_gt (sub_pos.mpr hltj)
    rw [linear_interior hlen hfront hback h1 h2 hfi htj hti hdj hdi, hte, div_self hsubj]
    congr 1
    simp

end bracket_lemmas


section bracket_lemmas_2

variable {α : Type} [LinearOrderedField α]

theorem log_linear_bracket (m : Libm α) (hm : m.exp_log_laws)
    {t ti ti1 di di1 : α} {times dfs : List α} {i : Nat}
    (hlen : times.length = dfs.length) (hs : times.Sorted (· < ·))
    (hpos : ∀ d ∈ dfs, 0 < d)
    (hti : times[i]? = some ti) (hti1 : times[i + 1]? = some ti1)
    (hdi : dfs[i]? = some di) (hdi1 : dfs[i + 1]? = some di1)
    (hlo : ti ≤ t) (hhi : t ≤ ti1) :
    LogLinearInterpolator.interpolate m t times dfs =
      Except.ok (m.exp (m.log di + (t - ti) / (ti1 - ti) * (m.log di1 - m.log di))) := by
  have hlt : ti < ti1 := sorted_getElem?_lt hs hti hti1 (by omega)
  have hsub : ti1 - ti ≠ 0 := ne_of_gt (sub_pos.mpr hlt)
  have hdipos : 0 < di := hpos di (List.getElem?_mem hdi)
  have hdi1pos : 0 < di1 := hpos di1 (List.getElem?_mem hdi1)
  have hll : ∀ (t : α) (times dfs : List α),
      Interpolator.interpolate m InterpolationType.LOG_LINEAR t times dfs =
        LogLinearInterpolator.interpolate m t times dfs := fun _ _ _ => rfl
  obtain ⟨front, back, hfront, hback, hcase⟩ := bracket_cases hs hti hti1 hlo hhi
  rcases hcase with ⟨h1, hi0, hte⟩ | ⟨h1, h2, hin, hte⟩ | ⟨h1, h2, hlt', hfi⟩ |
    ⟨h1, h2, hte, hi1, hfi⟩
  · subst hi0
    have hd : dfs.head? = some di := by rw [List.head?_eq_getElem?, hdi]
    rw [← hll, interpolate_front _ InterpolationType.LOG_LINEAR hlen hfront hd h1, hte]
    simp [hm.2 di hdipos]
  · have hd : dfs.getLast? = some di1 := by
      rw [List.getLast?_eq_getElem?, ← hlen, ← hin]
      exact hdi1
    rw [← hll, interpolate_back _ InterpolationType.LOG_LINEAR (by decide) hlen hs hback hd h2,
      hte, div_self hsub]
    congr 1
    have : m.log di + 1 * (m.log di1 - m.log di) = m.log di1 := by ring
    rw [this, hm.2 di1 hdi1pos]
  · exact log_linear_interior m hlen hfront hback h1 h2 hfi hti hti1 hdi hdi1
  · obtain ⟨j, rfl⟩ : ∃ j, i = j + 1 := ⟨i - 1, by omega⟩
    simp only [Nat.add_sub_cancel] at hfi
    have hj : j < times.length := by
      have := (List.getElem?_eq_some.mp hti).1
      omega
    have hjd : j < dfs.length := by omega
    have htj : times[j]? = some (times.get ⟨j, hj⟩) := by simp [List.getElem?_eq_getElem hj]
    have hdj : dfs[j]? = some (dfs.get ⟨j, hjd⟩) := by simp [List.getElem?_eq_getElem hjd]
    have hltj : times.get ⟨j, hj⟩ < ti := sorted_getElem?_lt hs htj hti (by omega)
    have hsubj : ti - times.get ⟨j, hj⟩ ≠ 0 := ne_of_gt (sub_pos.mpr hltj)
    rw [log_linear_interior m hlen hfront hback h1 h2 hfi htj hti hdj hdi, hte, div_self hsubj]
    congr 1
    have e1 : m.log (dfs.get ⟨j, hjd⟩) + 1 * (m.log di - m.log (dfs.get ⟨j, hjd⟩))
        = m.log di := by ring
    rw [e1]
    simp

theorem flat_forward_bracket (m : Libm α) (hm : m.exp_log_laws)
    {t ti ti1 di di1 : α} {times dfs : List α} {i : Nat}
    (hlen : times.length = dfs.length) (hs : times.Sorted (· < ·))
    (hpos : ∀ d ∈ dfs, 0 < d)
    (hti : times[i]? = some ti) (hti1 : times[i + 1]? = some ti1)
    (hdi : dfs[i]? = some di) (hdi1 : dfs[i + 1]? = some di1)
    (hlo : ti ≤ t) (hhi : t ≤ ti1) :
    FlatForwardInterpolator.interpolate m t times dfs =
      Except.ok (di * m.exp (-(-m.log (di1 / di) / (ti1 - ti)) * (t - ti))) := by
  have hlt : ti < ti1 := sorted_getElem?_lt hs hti hti1 (by omega)
  have hsub : ti1 - ti ≠ 0 := ne_of_gt (sub_pos.mpr hlt)
  have hdipos : 0 < di := hpos di (List.getElem?_mem hdi)
  have hdi1pos : 0 < di1 := hpos di1 (List.getElem?_mem hdi1)
  have hff : ∀ (t : α) (times dfs : List α),
      Interpolator.interpolate m InterpolationType.FLAT_FORWARD t times dfs =
        FlatForwardInterpolator.interpolate m t times dfs := fun _ _ _ => rfl
  obtain ⟨front, back, hfront, hback, hcase⟩ := bracket_cases hs hti hti1 hlo hhi
  rcases hcase with ⟨h1, hi0, hte⟩ | ⟨h1, h2, hin, hte⟩ | ⟨h1, h2, hlt', hfi⟩ |
    ⟨h1, h2, hte, hi1, hfi⟩
  · subst hi0
    have hd : dfs.head? = some di := by rw [List.head?_eq_getElem?, hdi]
    rw [← hff, interpolate_front _ InterpolationType.FLAT_FORWARD hlen hfront hd h1, hte]
    simp [hm.1]
  · have hn : 2 ≤ dfs.length := by omega
    have e1 : dfs.length - 2 = i := by omega
    have e2 : dfs.length - 1 = i + 1 := by omega
    rw [flat_forward_back m hlen hs hn (e1 ▸ hti) (e2 ▸ hti1) (e1 ▸ hdi) (e2 ▸ hdi1)
      (le_of_eq hte.symm), hte, flat_forward_algebra _ _ hsub,
      hm.2 _ (div_pos hdi1pos hdipos), ratio_algebra _ _ (ne_of_gt hdipos)]
    simp [hm.1]
  · exact flat_forward_interior m hlen hfront hback h1 h2 hfi hti hti1 hdi hdi1
  · obtain ⟨j, rfl⟩ : ∃ j, i = j + 1 := ⟨i - 1, by omega⟩
    simp only [Nat.add_sub_cancel] at hfi
    have hj : j < times.length := by
      have := (List.getElem?_eq_some.mp hti).1
      omega
    have hjd : j < dfs.length := by omega
    have htj : times[j]? = some (times.get ⟨j, hj⟩) := by simp [List.getElem?_eq_getElem hj]
    have hdj : dfs[j]? = some (dfs.get ⟨j, hjd⟩) := by simp [List.getElem?_eq_getElem hjd]
    have hltj : times.get ⟨j, hj⟩ < ti := sorted_getElem?_lt hs htj hti (by omega)
    have hsubj : ti - times.get ⟨j, hj⟩ ≠ 0 := ne_of_gt (sub_pos.mpr hltj)
    have hdjpos : 0 < dfs.get ⟨j, hjd⟩ := hpos _ (List.getElem?_mem hdj)
    rw [flat_forward_interior m hlen hfront hback h1 h2 hfi htj hti hdj hdi, hte,
      flat_forward_algebra _ _ hsubj, hm.2 _ (div_pos hdipos hdjpos),
      ratio_algebra _ _ (ne_of_gt hdjpos)]
    simp [hm.1]

theorem interpolate_bracket (m : Libm α) (hm : m.exp_log_laws) (type : InterpolationType)
    {t ti ti1 di di1 : α} {times dfs : List α} {i : Nat}
    (hlen : times.length = dfs.length) (hs : times.Sorted (· < ·))
    (hpos : ∀ d ∈ dfs, 0 < d)
    (hti : times[i]? = some ti) (hti1 : times[i + 1]? = some ti1)
    (hdi : dfs[i]? = some di) (hdi1 : dfs[i + 1]? = some di1)
    (hlo : ti ≤ t) (hhi : t ≤ ti1) :
    Interpolator.interpolate m type t times dfs =
      Except.ok (interval_value m type ti ti1 di di1 t) := by
  cases type
  · exact linear_bracket hlen hs hti hti1 hdi hdi1 hlo hhi
  · exact log_linear_bracket m hm hlen hs hpos hti hti1 hdi hdi1 hlo hhi
  · exact flat_forward_bracket m hm hlen hs hpos hti hti1 hdi hdi1 hlo hhi

end bracket_lemmas_2

section monotone_lemmas

variable {α : Type} [LinearOrderedField α]

theorem exists_bracket :
    ∀ (v : List α) (front back s : α), v.Sorted (· < ·) → v.head? = some front →
      v.getLast? = some back → front ≤ s → s < back →
      ∃ (i : Nat) (a b : α), v[i]? = some a ∧ v[i + 1]? = some b ∧ a ≤ s ∧ s < b := by
  intro v
  induction v with
  | nil => intro front back s _ h; simp at h
  | cons x rest ih =>
    intro front back s hs hfront hback h1 h2
    have hx : x = front := by simpa using hfront
    subst hx
    cases rest with
    | nil =>
      have : x = back := by simpa using hback
      subst this
      exact absurd (lt_of_le_of_lt h1 h2) (lt_irrefl x)
    | cons y rest' =>
      by_cases hy : s < y
      · exact ⟨0, x, y, by simp, by simp, h1, hy⟩
      · have hback' : (y :: rest').getLast? = some back := by
          rw [List.getLast?_cons_cons] at hback
          exact hback
        obtain ⟨i, a, b, ha, hb, hle, hlt⟩ :=
          ih y back s (List.sorted_cons.mp hs).2 rfl hback' (not_lt.mp hy) h2
        exact ⟨i + 1, a, b, by simpa using ha, by simpa using hb, hle, hlt⟩

end monotone_lemmas

section monotone_real

theorem interval_value_left (type : InterpolationType) (ti ti1 di di1 : ℝ) (hdi : 0 < di) :
    interval_value (Libm.mk Real.exp Real.log Real.rpow) type ti ti1 di di1 ti = di := by
  cases type
  · simp [interval_value]
  · simp [interval_value, Real.exp_log hdi]
  · simp [interval_value]

theorem interval_value_right (type : InterpolationType) (ti ti1 di di1 : ℝ) (hlt : ti < ti1)
    (hdi : 0 < di) (hdi1 : 0 < di1) :
    interval_value (Libm.mk Real.exp Real.log Real.rpow) type ti ti1 di di1 ti1 = di1 := by
  have hsub : ti1 - ti ≠ 0 := ne_of_gt (sub_pos.mpr hlt)
  cases type
  · simp only [interval_value, div_self hsub]
    ring
  · simp only [interval_value, div_self hsub]
    have : Real.log di + 1 * (Real.log di1 - Real.log di) = Real.log di1 := by ring
    rw [this, Real.exp_log hdi1]
  · simp only [interval_value, interval_forward_rate]
    rw [flat_forward_algebra _ _ hsub, Real.exp_log (div_pos hdi1 hdi)]
    exact ratio_algebra _ _ (ne_of_gt hdi)

theorem interval_value_strict_anti (type : InterpolationType) (ti ti1 di di1 s t : ℝ)
    (hlt : ti < ti1) (hdi1 : 0 < di1) (hdec : di1 < di) (hst : s < t) :
    interval_value (Libm.mk Real.exp Real.log Real.rpow) type ti ti1 di di1 t <
      interval_value (Libm.mk Real.exp Real.log Real.rpow) type ti ti1 di di1 s := by
  have hsub : 0 < ti1 - ti := sub_pos.mpr hlt
  have hdi : 0 < di := lt_trans hdi1 hdec
  have hw : (s - ti) / (ti1 - ti) < (t - ti) / (ti1 - ti) :=
    div_lt_div_of_pos_right (by linarith) hsub
  cases type
  · simp only [interval_value]
    have hneg : di1 - di < 0 := by linarith
    nlinarith [mul_lt_mul_of_neg_right hw hneg]
  · simp only [interval_value]
    apply Real.exp_lt_exp.mpr
    have hneg : Real.log di1 - Real.log di < 0 := by
      have := Real.log_lt_log hdi1 hdec
      linarith
    nlinarith [mul_lt_mul_of_neg_right hw hneg]
  · simp only [interval_value, interval_forward_rate]
    apply mul_lt_mul_of_pos_left _ hdi
    apply Real.exp_lt_exp.mpr
    have hlog : Real.log (di1 / di) < 0 :=
      Real.log_neg (div_pos hdi1 hdi) ((div_lt_one hdi).mpr hdec)
    have hf : 0 < -Real.log (di1 / di) / (ti1 - ti) := div_pos (neg_pos.mpr hlog) hsub
    nlinarith

end monotone_real

section monotone_real_2

theorem sorted_gt_getElem? {v : List ℝ} (hs : v.Sorted (· > ·)) {i j : Nat} {x y : ℝ}
    (hi : v[i]? = some x) (hj : v[j]? = some y) (hij : i < j) : y < x := by
  obtain ⟨h1, rfl⟩ := List.getElem?_eq_some.mp hi
  obtain ⟨h2, rfl⟩ := List.getElem?_eq_some.mp hj
  exact List.pairwise_iff_getElem.mp hs i j h1 h2 hij

theorem sorted_gt_getElem?_le {v : List ℝ} (hs : v.Sorted (· > ·)) {i j : Nat} {x y : ℝ}
    (hi : v[i]? = some x) (hj : v[j]? = some y) (hij : i ≤ j) : y ≤ x := by
  rcases Nat.lt_or_ge i j with h | h
  · exact (sorted_gt_getElem? hs hi hj h).le
  · have : i = j := by omega
    subst this
    rw [hi] at hj
    exact le_of_eq (Option.some.inj hj).symm

/-- Inside a bracket the interpolated value lies between the two knot values. -/
theorem interpolate_in_bracket (type : InterpolationType) {times dfs : List ℝ}
    (hlen : times.length = dfs.length) (hs : times.Sorted (· < ·))
    (hd : dfs.Sorted (· > ·)) (hpos : ∀ d ∈ dfs, 0 < d)
    {i : Nat} {ti ti1 di di1 t : ℝ}
    (hti : times[i]? = some ti) (hti1 : times[i + 1]? = some ti1)
    (hdi : dfs[i]? = some di) (hdi1 : dfs[i + 1]? = some di1)
    (hlo : ti ≤ t) (hhi : t ≤ ti1) :
    Interpolator.interpolate (Libm.mk Real.exp Real.log Real.rpow) type t times dfs =
      Except.ok (interval_value (Libm.mk Real.exp Real.log Real.rpow) type ti ti1 di di1 t) ∧
    di1 ≤ interval_value (Libm.mk Real.exp Real.log Real.rpow) type ti ti1 di di1 t ∧
    interval_value (Libm.mk Real.exp Real.log Real.rpow) type ti ti1 di di1 t ≤ di ∧
    (t < ti1 → di1 < interval_value (Libm.mk Real.exp Real.log Real.rpow) type ti ti1 di di1 t) ∧
    (ti < t → interval_value (Libm.mk Real.exp Real.log Real.rpow) type ti ti1 di di1 t < di) := by
  have hlt : ti < ti1 := sorted_getElem?_lt hs hti hti1 (by omega)
  have hdipos : 0 < di := hpos di (List.getElem?_mem hdi)
  have hdi1pos : 0 < di1 := hpos di1 (List.getElem?_mem hdi1)
  have hdec : di1 < di := sorted_gt_getElem? hd hdi hdi1 (by omega)
  have hL := interval_value_left type ti ti1 di di1 hdipos
  have hR := interval_value_right type ti ti1 di di1 hlt hdipos hdi1pos
  have hup : t < ti1 →
      di1 < interval_value (Libm.mk Real.exp Real.log Real.rpow) type ti ti1 di di1 t := by
    intro h
    have := interval_value_strict_anti type ti ti1 di di1 t ti1 hlt hdi1pos hdec h
    rwa [hR] at this
  have hdn : ti < t →
      interval_value (Libm.mk Real.exp Real.log Real.rpow) type ti ti1 di di1 t < di := by
    intro h
    have := interval_value_strict_anti type ti ti1 di di1 ti t hlt hdi1pos hdec h
    rwa [hL] at this
  refine ⟨interpolate_bracket _ real_exp_log_laws type hlen hs hpos hti hti1 hdi hdi1 hlo hhi,
    ?_, ?_, hup, hdn⟩
  · rcases lt_or_eq_of_le hhi with h | h
    · exact (hup h).le
    · rw [h, hR]
  · rcases lt_or_eq_of_le hlo with h | h
    · exact (hdn h).le
    · rw [← h, hL]

/-- At or after a knot (and up to the last knot) the interpolated value is at most
that knot's discount factor. -/
theorem interpolate_le_knot (type : InterpolationType) {times dfs : List ℝ}
    (hlen : times.length = dfs.length) (hs : times.Sorted (· < ·))
    (hd : dfs.Sorted (· > ·)) (hpos : ∀ d ∈ dfs, 0 < d)
    {k : Nat} {tk dk t last : ℝ} (htk : times[k]? = some tk) (hdk : dfs[k]? = some dk)
    (hlast : times.getLast? = some last) (h1 : tk ≤ t) (h2 : t ≤ last) :
    ∃ v, Interpolator.interpolate (Libm.mk Real.exp Real.log Real.rpow) type t times dfs =
      Except.ok v ∧ v ≤ dk ∧ 0 < v := by
  have hlastn : times[times.length - 1]? = some last := by
    rw [← List.getLast?_eq_getElem?, hlast]
  obtain ⟨hk, _⟩ := List.getElem?_eq_some.mp htk
  rcases lt_or_eq_of_le h2 with hlt | heq
  · have hne : times ≠ [] := by
      intro h
      rw [h] at hk
      simp at hk
    have hfront : times.head? = some (times.head hne) := List.head?_eq_head hne
    have hfl : times.head hne ≤ t := le_trans (sorted_front_le hs hfront htk) h1
    obtain ⟨j, a, b, ha, hb, hat, htb⟩ := exists_bracket times _ last t hs hfront hlast hfl hlt
    obtain ⟨hj1, _⟩ := List.getElem?_eq_some.mp hb
    have hjd : j < dfs.length := by omega
    have hjd1 : j + 1 < dfs.length := by omega
    have hda : dfs[j]? = some (dfs.get ⟨j, hjd⟩) := by simp [List.getElem?_eq_getElem hjd]
    have hdb : dfs[j + 1]? = some (dfs.get ⟨j + 1, hjd1⟩) := by
      simp [List.getElem?_eq_getElem hjd1]
    obtain ⟨hval, hge, hle, _, _⟩ :=
      interpolate_in_bracket type hlen hs hd hpos ha hb hda hdb hat htb.le
    have hkj : k ≤ j := by
      by_contra hcon
      have hlt' : j + 1 ≤ k := by omega
      have : b ≤ tk := by
        rcases Nat.lt_or_ge (j + 1) k with h | h
        · exact (sorted_getElem?_lt hs hb htk h).le
        · have : j + 1 = k := by omega
          subst this
          rw [hb] at htk
          exact le_of_eq (Option.some.inj htk)
      linarith
    refine ⟨_, hval, le_trans hle (sorted_gt_getElem?_le hd hdk hda hkj), ?_⟩
    exact lt_of_lt_of_le (hpos _ (List.getElem?_mem hdb)) hge
  · have hnd : times.length - 1 < dfs.length := by omega
    have hdl : dfs[times.length - 1]? = some (dfs.get ⟨times.length - 1, hnd⟩) := by
      simp [List.getElem?_eq_getElem hnd]
    refine ⟨_, interpolate_at_knot _ type times dfs hs hlen hpos (Or.inr real_exp_log_laws)
      (times.length - 1) t _ (heq ▸ hlastn) hdl, ?_, hpos _ (List.getElem?_mem hdl)⟩
    exact sorted_gt_getElem?_le hd hdk hdl (by omega)

end monotone_real_2


/-! ## Claims about the interpolation strategies -/

section interpolation_claims

variable {α : Type} [LinearOrderedField α]

/-- C15: for each of the three strategies and equal-length non-empty sequences with
strictly increasing times, `interpolate` returns the single knot's DF for every `t`
when there is exactly one knot, returns the first DF for every `t ≤ times[0]`, and,
for the linear and log-linear strategies, returns the last DF for every `t` at or
after the last time. -/
theorem C15_boundary_policy (m : Libm α) (type : InterpolationType) (times dfs : List α)
    (hne : times ≠ []) (hlen : times.length = dfs.length) (hs : times.Sorted (· < ·)) :
    (∀ time d t, times = [time] → dfs = [d] →
      Interpolator.interpolate m type t times dfs = Except.ok d) ∧
    (∀ first d t, times.head? = some first → dfs.head? = some d → t ≤ first →
      Interpolator.interpolate m type t times dfs = Except.ok d) ∧
    (type ≠ InterpolationType.FLAT_FORWARD →
      ∀ last d t, times.getLast? = some last → dfs.getLast? = some d → last ≤ t →
        Interpolator.interpolate m type t times dfs = Except.ok d) ∧
    (∃ first last dfirst dlast, times.head? = some first ∧ times.getLast? = some last ∧
      dfs.head? = some dfirst ∧ dfs.getLast? = some dlast) := by
  have hne' : dfs ≠ [] := by
    intro h
    rw [h] at hlen
    exact hne (List.length_eq_zero.mp hlen)
  refine ⟨?_, ?_, ?_, ?_⟩
  · intro time d t h1 h2
    rw [h1, h2]
    exact interpolate_single m type t time d
  · intro first d t hf hd ht
    exact interpolate_front m type hlen hf hd ht
  · intro hty last d t hl hd ht
    exact interpolate_back m type hty hlen hs hl hd ht
  · exact ⟨_, _, _, _, List.head?_eq_head hne, List.getLast?_eq_getLast _ hne,
      List.head?_eq_head hne', List.getLast?_eq_getLast _ hne'⟩

/-- C15 witness: the three knots of the test `InterpolationTest.ExtrapolationBounds`. -/
theorem C15_boundary_policy_witness :
    Interpolator.interpolate libm_unused InterpolationType.LINEAR (1 / 2 : ℚ)
      [1, 2, 3] [19 / 20, 9 / 10, 17 / 20] = Except.ok (19 / 20) :=
  (C15_boundary_policy libm_unused InterpolationType.LINEAR ([1, 2, 3] : List ℚ)
    [19 / 20, 9 / 10, 17 / 20] (by simp) rfl (by norm_num [List.Sorted])).2.1
    1 (19 / 20) (1 / 2) rfl rfl (by norm_num)

/-- C17: for equal-length sequences with strictly increasing times, every index `i` and
every `t` with `t_i ≤ t ≤ t_{i+1}`, `LinearInterpolator::interpolate` returns
`DF_i + w*(DF_{i+1} - DF_i)` with `w = (t - t_i)/(t_{i+1} - t_i)`; and it returns `DF_j`
at every knot time `t_j`. -/
theorem C17_linear_formula (times dfs : List α) (hlen : times.length = dfs.length)
    (hs : times.Sorted (· < ·)) :
    (∀ (i : Nat) (ti ti1 di di1 t : α), times[i]? = some ti → times[i + 1]? = some ti1 →
      dfs[i]? = some di → dfs[i + 1]? = some di1 → ti ≤ t → t ≤ ti1 →
      LinearInterpolator.interpolate t times dfs =
        Except.ok (di + (t - ti) / (ti1 - ti) * (di1 - di))) ∧
    (∀ (j : Nat) (tj dj : α), times[j]? = some tj → dfs[j]? = some dj →
      LinearInterpolator.interpolate tj times dfs = Except.ok dj) := by
  refine ⟨?_, ?_⟩
  · intro i ti ti1 di di1 t hti hti1 hdi hdi1 hlo hhi
    exact linear_bracket hlen hs hti hti1 hdi hdi1 hlo hhi
  · intro j tj dj htj hdj
    obtain ⟨hj, _⟩ := List.getElem?_eq_some.mp htj
    by_cases hnext : j + 1 < times.length
    · have hjd : j + 1 < dfs.length := by omega
      have ht1 : times[j + 1]? = some (times.get ⟨j + 1, hnext⟩) := by
        simp [List.getElem?_eq_getElem hnext]
      have hd1 : dfs[j + 1]? = some (dfs.get ⟨j + 1, hjd⟩) := by
        simp [List.getElem?_eq_getElem hjd]
      have hlt : tj < times.get ⟨j + 1, hnext⟩ := sorted_getElem?_lt hs htj ht1 (by omega)
      rw [linear_bracket hlen hs htj ht1 hdj hd1 (le_refl tj) hlt.le]
      simp
    · by_cases hj0 : j = 0
      · subst hj0
        have hf : times.head? = some tj := by rw [List.head?_eq_getElem?, htj]
        have hd : dfs.head? = some dj := by rw [List.head?_eq_getElem?, hdj]
        exact interpolate_front ⟨id, id, fun x _ => x⟩ InterpolationType.LINEAR hlen hf hd
          (le_refl tj)
      · obtain ⟨k, rfl⟩ : ∃ k, j = k + 1 := ⟨j - 1, by omega⟩
        have hk : k < times.length := by omega
        have hkd : k < dfs.length := by omega
        have ht0 : times[k]? = some (times.get ⟨k, hk⟩) := by
          simp [List.getElem?_eq_getElem hk]
        have hd0 : dfs[k]? = some (dfs.get ⟨k, hkd⟩) := by
          simp [List.getElem?_eq_getElem hkd]
        have hlt : times.get ⟨k, hk⟩ < tj := sorted_getElem?_lt hs ht0 htj (by omega)
        have hsub : tj - times.get ⟨k, hk⟩ ≠ 0 := ne_of_gt (sub_pos.mpr hlt)
        rw [linear_bracket hlen hs ht0 htj hd0 hdj hlt.le (le_refl tj), div_self hsub]
        congr 1
        simp

/-- C17 witness: the test `InterpolationTest.LinearInterpolation`, `t = 1.5` between
the knots `(1, 0.95)` and `(2, 0.90)`. -/
theorem C17_linear_formula_witness :
    LinearInterpolator.interpolate (3 / 2 : ℚ) [1, 2, 3] [19 / 20, 9 / 10, 17 / 20]
      = Except.ok (19 / 20 + (3 / 2 - 1) / (2 - 1) * (9 / 10 - 19 / 20)) :=
  (C17_linear_formula ([1, 2, 3] : List ℚ) [19 / 20, 9 / 10, 17 / 20] rfl
    (by norm_num [List.Sorted])).1 0 1 2 (19 / 20) (9 / 10) (3 / 2) rfl rfl rfl rfl
    (by norm_num) (by norm_num)

end interpolation_claims

section interpolation_real_claims

/-- C19: for each of the three strategies (with `exp` and `log` the real functions),
given at least two knots with strictly increasing times and strictly decreasing
positive DFs, `interpolate` is strictly decreasing in `t` on `[t_first, t_last]` (a non-degenerate
range), its values there are positive and the forward rate between any two such times is
positive; and for `t` strictly inside an interval `(t_i, t_{i+1})` the result lies strictly
between `DF_{i+1}` and `DF_i`. -/
theorem C19_monotone_interpolation (type : InterpolationType) (times dfs : List ℝ)
    (hlen : times.length = dfs.length) (h2 : 2 ≤ times.length)
    (hs : times.Sorted (· < ·)) (hd : dfs.Sorted (· > ·)) (hpos : ∀ d ∈ dfs, 0 < d) :
    (∀ (first last s t : ℝ), times.head? = some first → times.getLast? = some last →
      first ≤ s → s < t → t ≤ last →
      ∃ vs vt,
        Interpolator.interpolate (Libm.mk Real.exp Real.log Real.rpow) type s times dfs
          = Except.ok vs ∧
        Interpolator.interpolate (Libm.mk Real.exp Real.log Real.rpow) type t times dfs
          = Except.ok vt ∧
        vt < vs ∧ 0 < vt ∧ 0 < -Real.log (vt / vs) / (t - s)) ∧
    (∀ (i : Nat) (ti ti1 di di1 t : ℝ), times[i]? = some ti → times[i + 1]? = some ti1 →
      dfs[i]? = some di → dfs[i + 1]? = some di1 → ti < t → t < ti1 →
      ∃ v, Interpolator.interpolate (Libm.mk Real.exp Real.log Real.rpow) type t times dfs
          = Except.ok v ∧ di1 < v ∧ v < di) ∧
    (∃ first last : ℝ, times.head? = some first ∧ times.getLast? = some last ∧
      first < last) := by
  refine ⟨?_, ?_, ?_⟩
  · intro first last s t hfront hlast h1 hst h3
    obtain ⟨i, a, b, ha, hb, has, hsb⟩ :=
      exists_bracket times first last s hs hfront hlast h1 (lt_of_lt_of_le hst h3)
    obtain ⟨hi1, _⟩ := List.getElem?_eq_some.mp hb
    have hid : i < dfs.length := by omega
    have hid1 : i + 1 < dfs.length := by omega
    have hda : dfs[i]? = some (dfs.get ⟨i, hid⟩) := by simp [List.getElem?_eq_getElem hid]
    have hdb : dfs[i + 1]? = some (dfs.get ⟨i + 1, hid1⟩) := by
      simp [List.getElem?_eq_getElem hid1]
    have hab : a < b := sorted_getElem?_lt hs ha hb (by omega)
    have hdbpos := hpos _ (List.getElem?_mem hdb)
    have hdec := sorted_gt_getElem? hd hda hdb (by omega)
    obtain ⟨hvs, _, _, hsup, _⟩ :=
      interpolate_in_bracket type hlen hs hd hpos ha hb hda hdb has hsb.le
    have key : ∃ vt, Interpolator.interpolate (Libm.mk Real.exp Real.log Real.rpow) type t
        times dfs = Except.ok vt ∧
        vt < interval_value (Libm.mk Real.exp Real.log Real.rpow) type a b
          (dfs.get ⟨i, hid⟩) (dfs.get ⟨i + 1, hid1⟩) s ∧ 0 < vt := by
      by_cases htb : t ≤ b
      · obtain ⟨hvt, hge, _, _, _⟩ :=
          interpolate_in_bracket type hlen hs hd hpos ha hb hda hdb (le_trans has hst.le) htb
        exact ⟨_, hvt, interval_value_strict_anti type a b _ _ s t hab hdbpos hdec hst,
          lt_of_lt_of_le hdbpos hge⟩
      · obtain ⟨vt, hvt, hle, hvpos⟩ :=
          interpolate_le_knot type hlen hs hd hpos hb hdb hlast (not_le.mp htb).le h3
        exact ⟨vt, hvt, lt_of_le_of_lt hle (hsup hsb), hvpos⟩
    obtain ⟨vt, hvt, hlt, hvpos⟩ := key
    refine ⟨_, vt, hvs, hvt, hlt, hvpos, ?_⟩
    have hvspos := lt_trans hvpos hlt
    have hlog : Real.log (vt / interval_value (Libm.mk Real.exp Real.log Real.rpow) type a b
        (dfs.get ⟨i, hid⟩) (dfs.get ⟨i + 1, hid1⟩) s) < 0 :=
      Real.log_neg (div_pos hvpos hvspos) ((div_lt_one hvspos).mpr hlt)
    exact div_pos (neg_pos.mpr hlog) (sub_pos.mpr hst)
  · intro i ti ti1 di di1 t hti hti1 hdi hdi1 hlo hhi
    obtain ⟨hv, _, _, hup, hdn⟩ :=
      interpolate_in_bracket type hlen hs hd hpos hti hti1 hdi hdi1 hlo.le hhi.le
    exact ⟨_, hv, hup hhi, hdn hlo⟩
  · have hne : times ≠ [] := by
      intro h
      rw [h] at h2
      simp at h2
    exact ⟨_, _, List.head?_eq_head hne, List.getLast?_eq_getLast _ hne,
      sorted_front_lt_back hs h2 (List.head?_eq_head hne) (List.getLast?_eq_getLast _ hne)⟩

/-- C19 witness: the test `InterpolationTest.FlatForwardInterpolation`, `t = 1.5`
between the knots `(1, 0.95)` and `(2, 0.90)`. -/
theorem C19_monotone_interpolation_witness :
    ∃ v : ℝ, Interpolator.interpolate (Libm.mk Real.exp Real.log Real.rpow)
        InterpolationType.FLAT_FORWARD (3 / 2) [1, 2] [19 / 20, 9 / 10] = Except.ok v ∧
      9 / 10 < v ∧ v < 19 / 20 :=
  (C19_monotone_interpolation InterpolationType.FLAT_FORWARD [1, 2] [19 / 20, 9 / 10] rfl
    (by simp) (by norm_num [List.Sorted]) (by norm_num [List.Sorted])
    (by
      intro d hd
      simp only [List.mem_cons, List.mem_singleton, List.not_mem_nil, or_false] at hd
      rcases hd with rfl | rfl <;> norm_num)).2.1
    0 1 2 (19 / 20) (9 / 10) (3 / 2) rfl rfl rfl rfl (by norm_num) (by norm_num)

end interpolation_real_claims

section interpolation_real_claims_2

/-- C18: for equal-length sequences with strictly increasing times and positive DFs
(with `exp` and `log` the real functions), every index `i` and every `t` with
`t_i ≤ t ≤ t_{i+1}`, `LogLinearInterpolator::interpolate` returns
`exp(ln(DF_i) + w*(ln(DF_{i+1}) - ln(DF_i)))` with `w = (t - t_i)/(t_{i+1} - t_i)`,
which is `DF_i^(1-w) * DF_{i+1}^w`; and it returns `DF_j` at every knot time `t_j`. -/
theorem C18_log_linear_formula (times dfs : List ℝ) (hlen : times.length = dfs.length)
    (hs : times.Sorted (· < ·)) (hpos : ∀ d ∈ dfs, 0 < d) :
    (∀ (i : Nat) (ti ti1 di di1 t : ℝ), times[i]? = some ti → times[i + 1]? = some ti1 →
      dfs[i]? = some di → dfs[i + 1]? = some di1 → ti ≤ t → t ≤ ti1 →
      LogLinearInterpolator.interpolate (Libm.mk Real.exp Real.log Real.rpow) t times dfs =
        Except.ok (Real.exp (Real.log di +
          (t - ti) / (ti1 - ti) * (Real.log di1 - Real.log di))) ∧
      Real.exp (Real.log di + (t - ti) / (ti1 - ti) * (Real.log di1 - Real.log di)) =
        di ^ (1 - (t - ti) / (ti1 - ti)) * di1 ^ ((t - ti) / (ti1 - ti))) ∧
    (∀ (j : Nat) (tj dj : ℝ), times[j]? = some tj → dfs[j]? = some dj →
      LogLinearInterpolator.interpolate (Libm.mk Real.exp Real.log Real.rpow) tj times dfs =
        Except.ok dj) := by
  refine ⟨?_, ?_⟩
  · intro i ti ti1 di di1 t hti hti1 hdi hdi1 hlo hhi
    refine ⟨log_linear_bracket _ real_exp_log_laws hlen hs hpos hti hti1 hdi hdi1 hlo hhi, ?_⟩
    have hdipos : 0 < di := hpos di (List.getElem?_mem hdi)
    have hdi1pos : 0 < di1 := hpos di1 (List.getElem?_mem hdi1)
    rw [Real.rpow_def_of_pos hdipos, Real.rpow_def_of_pos hdi1pos, ← Real.exp_add]
    congr 1
    ring
  · intro j tj dj htj hdj
    exact interpolate_at_knot _ InterpolationType.LOG_LINEAR times dfs hs hlen hpos
      (Or.inr real_exp_log_laws) j tj dj htj hdj

/-- C18 witness: the test `InterpolationTest.LogLinearInterpolation`, `t = 1.5` between
the knots `(1, 0.95)` and `(2, 0.90)`. -/
theorem C18_log_linear_formula_witness :
    LogLinearInterpolator.interpolate (Libm.mk Real.exp Real.log Real.rpow) (3 / 2 : ℝ)
      [1, 2] [19 / 20, 9 / 10] =
      Except.ok (Real.exp (Real.log (19 / 20) +
        (3 / 2 - 1) / (2 - 1) * (Real.log (9 / 10) - Real.log (19 / 20)))) :=
  ((C18_log_linear_formula [1, 2] [19 / 20, 9 / 10] rfl (by norm_num [List.Sorted])
    (by
      intro d hd
      simp only [List.mem_cons, List.mem_singleton, List.not_mem_nil, or_false] at hd
      rcases hd with rfl | rfl <;> norm_num)).1
    0 1 2 (19 / 20) (9 / 10) (3 / 2) rfl rfl rfl rfl (by norm_num) (by norm_num)).1

end interpolation_real_claims_2

/-! ## The spline fit -/

section spline_fit_lemmas

variable {α : Type} [LinearOrderedField α]

theorem vec_get_set_eq (v : List α) (i : Nat) (a : α) (h : i < v.length) :
    vec_get (v.set i a) i = a := by
  simp [vec_get, List.getElem?_set, h]

theorem vec_get_set_ne (v : List α) {i j : Nat} (a : α) (h : i ≠ j) :
    vec_get (v.set i a) j = vec_get v j := by
  simp [vec_get, List.getElem?_set_ne h]

theorem vec_get_replicate (n i : Nat) : vec_get (List.replicate n (0 : α)) i = 0 := by
  simp only [vec_get, List.getD_eq_getElem?_getD, List.getElem?_replicate]
  split <;> rfl

theorem vec_get_fit_h (x : List α) (n i : Nat) (hi : i < n) :
    vec_get (CubicSpline.fit_h x n) i = vec_get x (i + 1) - vec_get x i := by
  simp [vec_get, CubicSpline.fit_h, List.getElem?_map, List.getElem?_range hi]

theorem fit_h_length (x : List α) (n : Nat) : (CubicSpline.fit_h x n).length = n := by
  simp [CubicSpline.fit_h]

theorem chain_iff_steps : ∀ (x : List α),
    x.Chain' (· < ·) ↔ ∀ i, i + 1 < x.length → vec_get x i < vec_get x (i + 1) := by
  intro x
  induction x with
  | nil => simp
  | cons a rest ih =>
    cases rest with
    | nil => simp
    | cons b rest' =>
      rw [List.chain'_cons, ih]
      constructor
      · rintro ⟨hab, hrest⟩ i hi
        cases i with
        | zero => simpa [vec_get] using hab
        | succ i' =>
          have := hrest i' (by simpa using hi)
          simpa [vec_get] using this
      · intro hall
        refine ⟨by simpa [vec_get] using hall 0 (by simp), ?_⟩
        intro i hi
        have := hall (i + 1) (by simpa using hi)
        simpa [vec_get] using this

theorem sorted_iff_steps (x : List α) :
    x.Sorted (· < ·) ↔ ∀ i, i + 1 < x.length → vec_get x i < vec_get x (i + 1) := by
  rw [← chain_iff_steps]
  exact List.chain'_iff_pairwise.symm

theorem fit_h_any_iff (x : List α) :
    (CubicSpline.fit_h x (x.length - 1)).any (fun hi => decide (hi ≤ 0)) = true ↔
      ¬ x.Sorted (· < ·) := by
  rw [sorted_iff_steps, List.any_eq_true]
  simp only [CubicSpline.fit_h, List.mem_map, List.mem_range, decide_eq_true_eq]
  constructor
  · rintro ⟨v, ⟨i, hi, rfl⟩, hle⟩ hall
    exact absurd (hall i (by omega)) (not_lt.mpr (sub_nonpos.mp hle))
  · intro hnot
    rw [not_forall] at hnot
    obtain ⟨i, hi⟩ := hnot
    rw [Classical.not_imp] at hi
    exact ⟨_, ⟨i, by omega, rfl⟩, sub_nonpos.mpr (not_lt.mp hi.2)⟩

theorem fit_forward_inv (x h alpha : List α) (n : Nat)
    (hpos : ∀ i, i < n → 0 < vec_get h i)
    (hx : ∀ i, i < n → vec_get h i = vec_get x (i + 1) - vec_get x i) :
    ∀ k, k + 1 ≤ n →
      ((List.range' 1 k).foldl (CubicSpline.fit_forward_step x h alpha)
        ((List.replicate (n + 1) 0).set 0 1, List.replicate (n + 1) 0,
          List.replicate (n + 1) 0)).1.length = n + 1 ∧
      ((List.range' 1 k).foldl (CubicSpline.fit_forward_step x h alpha)
        ((List.replicate (n + 1) 0).set 0 1, List.replicate (n + 1) 0,
          List.replicate (n + 1) 0)).2.1.length = n + 1 ∧
      ((List.range' 1 k).foldl (CubicSpline.fit_forward_step x h alpha)
        ((List.replicate (n + 1) 0).set 0 1, List.replicate (n + 1) 0,
          List.replicate (n + 1) 0)).2.2.length = n + 1 ∧
      (∀ j, j ≤ k → 0 ≤ vec_get ((List.range' 1 k).foldl
        (CubicSpline.fit_forward_step x h alpha)
        ((List.replicate (n + 1) 0).set 0 1, List.replicate (n + 1) 0,
          List.replicate (n + 1) 0)).2.1 j ∧
        vec_get ((List.range' 1 k).foldl (CubicSpline.fit_forward_step x h alpha)
        ((List.replicate (n + 1) 0).set 0 1, List.replicate (n + 1) 0,
          List.replicate (n + 1) 0)).2.1 j < 1) ∧
      (∀ j, 1 ≤ j → j ≤ k → 0 < vec_get ((List.range' 1 k).foldl
        (CubicSpline.fit_forward_step x h alpha)
        ((List.replicate (n + 1) 0).set 0 1, List.replicate (n + 1) 0,
          List.replicate (n + 1) 0)).1 j) := by
  intro k
  induction k with
  | zero =>
    intro _
    refine ⟨by simp, by simp, by simp, ?_, ?_⟩
    · intro j hj
      have : j = 0 := by omega
      subst this
      simp [vec_get_replicate]
    · intro j h1 h2
      omega
  | succ k ih =>
    intro hk
    obtain ⟨hl, hmu, hz, hmuB, hlpos⟩ := ih (by omega)
    rw [List.range'_1_concat, List.foldl_append]
    generalize (List.range' 1 k).foldl (CubicSpline.fit_forward_step x h alpha)
        ((List.replicate (n + 1) 0).set 0 1, List.replicate (n + 1) 0,
          List.replicate (n + 1) 0) = st at hl hmu hz hmuB hlpos
    simp only [List.foldl_cons, List.foldl_nil, CubicSpline.fit_forward_step,
      Nat.add_sub_cancel_left, List.length_set]
    have hi : 1 + k < st.1.length := by omega
    have hli : vec_get (st.1.set (1 + k) (2 * (vec_get x (1 + k + 1) - vec_get x k) -
        vec_get h k * vec_get st.2.1 k)) (1 + k) =
        2 * (vec_get x (1 + k + 1) - vec_get x k) - vec_get h k * vec_get st.2.1 k :=
      vec_get_set_eq _ _ _ hi
    have hhk := hpos k (by omega)
    have hhk1 := hpos (1 + k) (by omega)
    have hxk := hx k (by omega)
    have hxk1 := hx (1 + k) (by omega)
    have e : 1 + k = k + 1 := by omega
    rw [e] at hxk1
    obtain ⟨hm0, hm1⟩ := hmuB k (le_refl k)
    have hlipos : vec_get h (1 + k) < 2 * (vec_get x (1 + k + 1) - vec_get x k) -
        vec_get h k * vec_get st.2.1 k := by
      rw [e]
      have h3 : vec_get h k * vec_get st.2.1 k ≤ vec_get h k := by
        calc vec_get h k * vec_get st.2.1 k ≤ vec_get h k * 1 :=
              mul_le_mul_of_nonneg_left hm1.le hhk.le
          _ = vec_get h k := mul_one _
      rw [e] at hhk1
      linarith
    have hlipos' := lt_trans hhk1 hlipos
    rw [hli]
    refine ⟨hl, hmu, hz, ?_, ?_⟩
    · intro j hj
      by_cases hje : j = 1 + k
      · subst hje
        rw [vec_get_set_eq _ _ _ (by omega)]
        exact ⟨(div_pos hhk1 hlipos').le, (div_lt_one hlipos').mpr hlipos⟩
      · rw [vec_get_set_ne _ _ (Ne.symm hje)]
        exact hmuB j (by omega)
    · intro j h1 hj
      by_cases hje : j = 1 + k
      · subst hje
        rw [hli]
        exact hlipos'
      · rw [vec_get_set_ne _ _ (Ne.symm hje)]
        exact hlpos j h1 (by omega)

end spline_fit_lemmas

section spline_fit_claims

variable {α : Type} [LinearOrderedField α]

/-- C20: `CubicSpline::fit(x, y)` fails exactly when `x` and `y` differ in length, or
have fewer than 2 elements, or `x` is not strictly increasing, and every failure is an
invalid-argument error; in every other case it succeeds, `is_fitted()` is true
afterwards, and every divisor of the sweep (the step sizes `h[i]` and the pivots
`l[i]`, `1 ≤ i < n`) is positive. -/
theorem C20_fit_preconditions (s : CubicSpline α) (x y : List α) :
    ((∃ e, (s.fit x y).1 = Except.error e) ↔
      (x.length ≠ y.length ∨ x.length < 2 ∨ ¬ x.Sorted (· < ·))) ∧
    (∀ e, (s.fit x y).1 = Except.error e → ∃ what, e = Exn.invalid_argument what) ∧
    (x.length = y.length → 2 ≤ x.length → x.Sorted (· < ·) →
      (s.fit x y).1 = Except.ok () ∧ (s.fit x y).2.is_fitted = true ∧
      (∀ i, i < x.length - 1 → 0 < vec_get (CubicSpline.fit_h x (x.length - 1)) i) ∧
      (∀ i, 1 ≤ i → i < x.length - 1 →
        0 < vec_get (CubicSpline.fit_forward x (CubicSpline.fit_h x (x.length - 1))
          (CubicSpline.fit_alpha y (CubicSpline.fit_h x (x.length - 1)) (x.length - 1))
          (x.length - 1)).1 i)) := by
  by_cases h1 : x.length ≠ y.length
  · simp [CubicSpline.fit, h1]
  by_cases h2 : x.length < 2
  · simp [CubicSpline.fit, h1, h2]
  by_cases h3 : x.Sorted (· < ·)
  · have hany : ¬ (CubicSpline.fit_h x (x.length - 1)).any (fun hi => decide (hi ≤ 0)) = true :=
      fun h => (fit_h_any_iff x).mp h h3
    have hok : (s.fit x y).1 = Except.ok () := by
      simp [CubicSpline.fit, h1, h2, hany]
    have hfit : (s.fit x y).2.is_fitted = true := by
      simp [CubicSpline.fit, h1, h2, hany, CubicSpline.is_fitted]
    have hpos : ∀ i, i < x.length - 1 →
        0 < vec_get (CubicSpline.fit_h x (x.length - 1)) i := by
      intro i hi
      rw [vec_get_fit_h x _ i hi]
      exact sub_pos.mpr ((sorted_iff_steps x).mp h3 i (by omega))
    refine ⟨?_, ?_, ?_⟩
    · rw [hok]
      simp [h1, h2, h3]
    · intro e he
      rw [hok] at he
      cases he
    · intro _ _ _
      refine ⟨hok, hfit, hpos, ?_⟩
      intro i hi1 hi2
      obtain ⟨k, hk⟩ : ∃ k, x.length - 1 - 1 = k := ⟨_, rfl⟩
      have hinv := fit_forward_inv x (CubicSpline.fit_h x (x.length - 1))
        (CubicSpline.fit_alpha y (CubicSpline.fit_h x (x.length - 1)) (x.length - 1))
        (x.length - 1) hpos (fun i hi => vec_get_fit_h x _ i hi) (x.length - 1 - 1) (by omega)
      exact hinv.2.2.2.2 i hi1 (by omega)
  · have hany : (CubicSpline.fit_h x (x.length - 1)).any (fun hi => decide (hi ≤ 0)) = true :=
      (fit_h_any_iff x).mpr h3
    have herr : (s.fit x y).1 =
        Except.error (Exn.invalid_argument "x values must be strictly increasing") := by
      simp [CubicSpline.fit, h1, h2, hany]
    refine ⟨?_, ?_, ?_⟩
    · rw [herr]
      simp [h3]
    · intro e he
      rw [herr] at he
      exact ⟨_, (Except.error.inj he).symm⟩
    · intro _ _ hs
      exact absurd hs h3

/-- C20 witness: the four points of the test `CubicSplineTest.BasicFit`. -/
theorem C20_fit_preconditions_witness :
    ((CubicSpline.mk [] [] [] [] [] [] false : CubicSpline ℚ).fit
      [0, 1, 2, 3] [0, 1, 4, 9]).1 = Except.ok () :=
  ((C20_fit_preconditions (CubicSpline.mk [] [] [] [] [] [] false : CubicSpline ℚ)
    [0, 1, 2, 3] [0, 1, 4, 9]).2.2 rfl (by simp) (by norm_num [List.Sorted])).1

end spline_fit_claims

/-! ## The coefficients computed by the spline fit -/

section spline_coefficients

variable {α : Type} [LinearOrderedField α]

theorem vec_resize_length (v : List α) (k : Nat) : (vec_resize v k).length = k := by
  simp only [vec_resize, List.length_append, List.length_take, List.length_replicate]
  omega

theorem vec_get_eq_of_getElem? {v : List α} {i : Nat} {a : α} (h : v[i]? = some a) :
    vec_get v i = a := by
  simp [vec_get, h]

theorem getElem?_eq_vec_get {v : List α} {i : Nat} (h : i < v.length) :
    v[i]? = some (vec_get v i) := by
  simp [vec_get, List.getElem?_eq_getElem h]

/-- The forward sweep: the lengths stay `n + 1`, `mu[0] = z[0] = 0`, and every entry
`1 ≤ j ≤ k` written so far satisfies its defining equation. -/
theorem fit_forward_eqs (x h alpha : List α) (n : Nat) :
    ∀ k, k + 1 ≤ n →
      ((List.range' 1 k).foldl (CubicSpline.fit_forward_step x h alpha)
        ((List.replicate (n + 1) 0).set 0 1, List.replicate (n + 1) 0,
          List.replicate (n + 1) 0)).1.length = n + 1 ∧
      ((List.range' 1 k).foldl (CubicSpline.fit_forward_step x h alpha)
        ((List.replicate (n + 1) 0).set 0 1, List.replicate (n + 1) 0,
          List.replicate (n + 1) 0)).2.1.length = n + 1 ∧
      ((List.range' 1 k).foldl (CubicSpline.fit_forward_step x h alpha)
        ((List.replicate (n + 1) 0).set 0 1, List.replicate (n + 1) 0,
          List.replicate (n + 1) 0)).2.2.length = n + 1 ∧
      vec_get ((List.range' 1 k).foldl (CubicSpline.fit_forward_step x h alpha)
        ((List.replicate (n + 1) 0).set 0 1, List.replicate (n + 1) 0,
          List.replicate (n + 1) 0)).2.1 0 = 0 ∧
      vec_get ((List.range' 1 k).foldl (CubicSpline.fit_forward_step x h alpha)
        ((List.replicate (n + 1) 0).set 0 1, List.replicate (n + 1) 0,
          List.replicate (n + 1) 0)).2.2 0 = 0 ∧
      (∀ j, 1 ≤ j → j ≤ k →
        vec_get ((List.range' 1 k).foldl (CubicSpline.fit_forward_step x h alpha)
          ((List.replicate (n + 1) 0).set 0 1, List.replicate (n + 1) 0,
            List.replicate (n + 1) 0)).1 j =
          2 * (vec_get x (j + 1) - vec_get x (j - 1)) - vec_get h (j - 1) *
            vec_get ((List.range' 1 k).foldl (CubicSpline.fit_forward_step x h alpha)
              ((List.replicate (n + 1) 0).set 0 1, List.replicate (n + 1) 0,
                List.replicate (n + 1) 0)).2.1 (j - 1) ∧
        vec_get ((List.range' 1 k).foldl (CubicSpline.fit_forward_step x h alpha)
          ((List.replicate (n + 1) 0).set 0 1, List.replicate (n + 1) 0,
            List.replicate (n + 1) 0)).2.1 j =
          vec_get h j /
            vec_get ((List.range' 1 k).foldl (CubicSpline.fit_forward_step x h alpha)
              ((List.replicate (n + 1) 0).set 0 1, List.replicate (n + 1) 0,
                List.replicate (n + 1) 0)).1 j ∧
        vec_get ((List.range' 1 k).foldl (CubicSpline.fit_forward_step x h alpha)
          ((List.replicate (n + 1) 0).set 0 1, List.replicate (n + 1) 0,
            List.replicate (n + 1) 0)).2.2 j =
          (vec_get alpha j - vec_get h (j - 1) *
            vec_get ((List.range' 1 k).foldl (CubicSpline.fit_forward_step x h alpha)
              ((List.replicate (n + 1) 0).set 0 1, List.replicate (n + 1) 0,
                List.replicate (n + 1) 0)).2.2 (j - 1)) /
            vec_get ((List.range' 1 k).foldl (CubicSpline.fit_forward_step x h alpha)
              ((List.replicate (n + 1) 0).set 0 1, List.replicate (n + 1) 0,
                List.replicate (n + 1) 0)).1 j) := by
  intro k
  induction k with
  | zero =>
    intro _
    refine ⟨by simp, by simp, by simp, ?_, ?_, ?_⟩
    · simp [vec_get_replicate]
    · simp [vec_get_replicate]
    · intro j h1 h2
      omega
  | succ k ih =>
    intro hk
    obtain ⟨hl, hmu, hz, hmu0, hz0, heq⟩ := ih (by omega)
    rw [List.range'_1_concat, List.foldl_append]
    generalize (List.range' 1 k).foldl (CubicSpline.fit_forward_step x h alpha)
        ((List.replicate (n + 1) 0).set 0 1, List.replicate (n + 1) 0,
          List.replicate (n + 1) 0) = st at hl hmu hz hmu0 hz0 heq
    simp only [List.foldl_cons, List.foldl_nil, CubicSpline.fit_forward_step,
      Nat.add_sub_cancel_left, List.length_set]
    have hne0 : 1 + k ≠ 0 := by omega
    refine ⟨hl, hmu, hz, ?_, ?_, ?_⟩
    · rw [vec_get_set_ne _ _ hne0]
      exact hmu0
    · rw [vec_get_set_ne _ _ hne0]
      exact hz0
    · intro j h1 hj
      by_cases hje : j = 1 + k
      · subst hje
        have hk' : 1 + k - 1 = k := by omega
        have hne : 1 + k ≠ k := by omega
        rw [hk', vec_get_set_eq _ _ _ (by omega), vec_get_set_eq _ _ _ (by omega),
          vec_get_set_eq _ _ _ (by omega), vec_get_set_ne _ _ hne, vec_get_set_ne _ _ hne]
        exact ⟨rfl, rfl, rfl⟩
      · have hne : 1 + k ≠ j := Ne.symm hje
        have hne' : 1 + k ≠ j - 1 := by omega
        rw [vec_get_set_ne _ _ hne, vec_get_set_ne _ _ hne, vec_get_set_ne _ _ hne,
          vec_get_set_ne _ _ hne', vec_get_set_ne _ _ hne']
        exact heq j h1 (by omega)

/-- The backward loop: started from vectors of lengths `n + 1`, `n`, `n` whose entries
from `k` on already satisfy their defining equations, it leaves vectors of the same
lengths all of whose entries satisfy them. -/
theorem fit_backward_spec (y h mu z : List α) (n : Nat) :
    ∀ (k : Nat) (st : List α × List α × List α), k ≤ n →
      st.1.length = n + 1 → st.2.1.length = n → st.2.2.length = n →
      vec_get st.1 n = 0 →
      (∀ j, k ≤ j → j < n →
        vec_get st.1 j = vec_get z j - vec_get mu j * vec_get st.1 (j + 1) ∧
        vec_get st.2.1 j = (vec_get y (j + 1) - vec_get y j) / vec_get h j -
          vec_get h j * (vec_get st.1 (j + 1) + 2 * vec_get st.1 j) / 3 ∧
        vec_get st.2.2 j = (vec_get st.1 (j + 1) - vec_get st.1 j) / (3 * vec_get h j)) →
      ((List.range k).reverse.foldl (CubicSpline.fit_backward_step y h mu z) st).1.length
        = n + 1 ∧
      ((List.range k).reverse.foldl (CubicSpline.fit_backward_step y h mu z) st).2.1.length
        = n ∧
      ((List.range k).reverse.foldl (CubicSpline.fit_backward_step y h mu z) st).2.2.length
        = n ∧
      vec_get ((List.range k).reverse.foldl (CubicSpline.fit_backward_step y h mu z) st).1 n
        = 0 ∧
      (∀ j, j < n →
        vec_get ((List.range k).reverse.foldl (CubicSpline.fit_backward_step y h mu z) st).1 j
          = vec_get z j - vec_get mu j *
            vec_get ((List.range k).reverse.foldl
              (CubicSpline.fit_backward_step y h mu z) st).1 (j + 1) ∧
        vec_get ((List.range k).reverse.foldl
            (CubicSpline.fit_backward_step y h mu z) st).2.1 j
          = (vec_get y (j + 1) - vec_get y j) / vec_get h j -
            vec_get h j * (vec_get ((List.range k).reverse.foldl
              (CubicSpline.fit_backward_step y h mu z) st).1 (j + 1) +
              2 * vec_get ((List.range k).reverse.foldl
                (CubicSpline.fit_backward_step y h mu z) st).1 j) / 3 ∧
        vec_get ((List.range k).reverse.foldl
            (CubicSpline.fit_backward_step y h mu z) st).2.2 j
          = (vec_get ((List.range k).reverse.foldl
              (CubicSpline.fit_backward_step y h mu z) st).1 (j + 1) -
              vec_get ((List.range k).reverse.foldl
                (CubicSpline.fit_backward_step y h mu z) st).1 j) / (3 * vec_get h j)) := by
  intro k
  induction k with
  | zero =>
    intro st _ hc hb hd hn hrel
    simp only [List.range_zero, List.reverse_nil, List.foldl_nil]
    exact ⟨hc, hb, hd, hn, fun j hj => hrel j (Nat.zero_le j) hj⟩
  | succ k ih =>
    intro st hk hc hb hd hn hrel
    rw [List.range_succ, List.reverse_append, List.reverse_singleton, List.singleton_append,
      List.foldl_cons]
    apply ih _ (by omega)
    · simp [CubicSpline.fit_backward_step, hc]
    · simp [CubicSpline.fit_backward_step, hb]
    · simp [CubicSpline.fit_backward_step, hd]
    · simp only [CubicSpline.fit_backward_step]
      rw [vec_get_set_ne _ _ (by omega : k ≠ n)]
      exact hn
    · intro j hkj hjn
      simp only [CubicSpline.fit_backward_step]
      by_cases hje : j = k
      · subst hje
        have hne : j ≠ j + 1 := by omega
        rw [vec_get_set_eq _ _ _ (by omega), vec_get_set_eq _ _ _ (by omega),
          vec_get_set_eq _ _ _ (by omega), vec_get_set_ne _ _ hne]
        exact ⟨rfl, rfl, rfl⟩
      · have hne : k ≠ j := Ne.symm hje
        have hne' : k ≠ j + 1 := by omega
        rw [vec_get_set_ne _ _ hne, vec_get_set_ne _ _ hne, vec_get_set_ne _ _ hne,
          vec_get_set_ne _ _ hne']
        exact hrel j (by omega) hjn

end spline_coefficients
section spline_fit_spec

variable {α : Type} [LinearOrderedField α]

theorem vec_get_fit_alpha (y h : List α) (n i : Nat) (h1 : 1 ≤ i) (hi : i < n) :
    vec_get (CubicSpline.fit_alpha y h n) i =
      3 * ((vec_get y (i + 1) - vec_get y i) / vec_get h i -
        (vec_get y i - vec_get y (i - 1)) / vec_get h (i - 1)) := by
  simp [vec_get, CubicSpline.fit_alpha, List.getElem?_map, List.getElem?_range hi, h1]

/-- What a successful `fit` leaves in the object: the knots, `a_ = y`, the flag, the
lengths of the coefficient vectors, `c[0] = c[n] = 0`, the formulas of `b` and `d` in
terms of `c`, and the tridiagonal equations solved by `c`. -/
theorem fit_spec (s : CubicSpline α) (x y : List α) (hlen : x.length = y.length)
    (h2 : 2 ≤ x.length) (hs : x.Sorted (· < ·)) :
    (s.fit x y).1 = Except.ok () ∧
    (s.fit x y).2.x_ = x ∧ (s.fit x y).2.y_ = y ∧ (s.fit x y).2.a_ = y ∧
    (s.fit x y).2.fitted_ = true ∧
    (s.fit x y).2.c_.length = x.length ∧
    (s.fit x y).2.b_.length = x.length - 1 ∧
    (s.fit x y).2.d_.length = x.length - 1 ∧
    vec_get (s.fit x y).2.c_ 0 = 0 ∧
    vec_get (s.fit x y).2.c_ (x.length - 1) = 0 ∧
    (∀ j, j < x.length - 1 →
      vec_get (s.fit x y).2.b_ j =
        (vec_get y (j + 1) - vec_get y j) / (vec_get x (j + 1) - vec_get x j) -
          (vec_get x (j + 1) - vec_get x j) *
            (vec_get (s.fit x y).2.c_ (j + 1) + 2 * vec_get (s.fit x y).2.c_ j) / 3 ∧
      vec_get (s.fit x y).2.d_ j =
        (vec_get (s.fit x y).2.c_ (j + 1) - vec_get (s.fit x y).2.c_ j) /
          (3 * (vec_get x (j + 1) - vec_get x j))) ∧
    (∀ i, 1 ≤ i → i < x.length - 1 →
      (vec_get x i - vec_get x (i - 1)) * vec_get (s.fit x y).2.c_ (i - 1) +
        2 * (vec_get x (i + 1) - vec_get x (i - 1)) * vec_get (s.fit x y).2.c_ i +
        (vec_get x (i + 1) - vec_get x i) * vec_get (s.fit x y).2.c_ (i + 1) =
      3 * ((vec_get y (i + 1) - vec_get y i) / (vec_get x (i + 1) - vec_get x i) -
        (vec_get y i - vec_get y (i - 1)) / (vec_get x i - vec_get x (i - 1)))) := by
  have hany : ¬ (CubicSpline.fit_h x (x.length - 1)).any (fun hi => decide (hi ≤ 0)) = true :=
    fun h => (fit_h_any_iff x).mp h hs
  have hh : ∀ i, i < x.length - 1 →
      vec_get (CubicSpline.fit_h x (x.length - 1)) i = vec_get x (i + 1) - vec_get x i :=
    fun i hi => vec_get_fit_h x _ i hi
  have hpos : ∀ i, i < x.length - 1 →
      0 < vec_get (CubicSpline.fit_h x (x.length - 1)) i := by
    intro i hi
    rw [hh i hi]
    exact sub_pos.mpr ((sorted_iff_steps x).mp hs i (by omega))
  have hfwd := fit_forward_eqs x (CubicSpline.fit_h x (x.length - 1))
    (CubicSpline.fit_alpha y (CubicSpline.fit_h x (x.length - 1)) (x.length - 1))
    (x.length - 1) (x.length - 1 - 1) (by omega)
  have hinv := fit_forward_inv x (CubicSpline.fit_h x (x.length - 1))
    (CubicSpline.fit_alpha y (CubicSpline.fit_h x (x.length - 1)) (x.length - 1))
    (x.length - 1) hpos hh (x.length - 1 - 1) (by omega)
  obtain ⟨-, -, hzlen, hmu0, hz0, hfeq⟩ := hfwd
  have hlpos := hinv.2.2.2.2
  have hbwd := fit_backward_spec y (CubicSpline.fit_h x (x.length - 1))
    (CubicSpline.fit_forward x (CubicSpline.fit_h x (x.length - 1))
      (CubicSpline.fit_alpha y (CubicSpline.fit_h x (x.length - 1)) (x.length - 1))
      (x.length - 1)).2.1
    ((CubicSpline.fit_forward x (CubicSpline.fit_h x (x.length - 1))
      (CubicSpline.fit_alpha y (CubicSpline.fit_h x (x.length - 1)) (x.length - 1))
      (x.length - 1)).2.2.set (x.length - 1) 0)
    (x.length - 1) (x.length - 1)
    ((vec_resize s.c_ (x.length - 1 + 1)).set (x.length - 1) 0,
      vec_resize s.b_ (x.length - 1), vec_resize s.d_ (x.length - 1))
    (le_refl _) (by simp [vec_resize_length]) (vec_resize_length _ _) (vec_resize_length _ _)
    (vec_get_set_eq _ _ _ (by simp [vec_resize_length]))
    (fun j h1 h2 => absurd h2 (not_lt.mpr h1))
  obtain ⟨hcl, hbl, hdl, hcn, hrel⟩ := hbwd
  unfold CubicSpline.fit
  rw [if_neg (not_not.mpr hlen), if_neg (not_lt.mpr h2)]
  simp only [hany, Bool.false_eq_true, if_false]
  generalize (List.range (x.length - 1)).reverse.foldl
        (CubicSpline.fit_backward_step y (CubicSpline.fit_h x (x.length - 1))
          (CubicSpline.fit_forward x (CubicSpline.fit_h x (x.length - 1))
            (CubicSpline.fit_alpha y (CubicSpline.fit_h x (x.length - 1)) (x.length - 1))
            (x.length - 1)).2.1
          ((CubicSpline.fit_forward x (CubicSpline.fit_h x (x.length - 1))
            (CubicSpline.fit_alpha y (CubicSpline.fit_h x (x.length - 1)) (x.length - 1))
            (x.length - 1)).2.2.set (x.length - 1) 0))
        ((vec_resize s.c_ (x.length - 1 + 1)).set (x.length - 1) 0,
          vec_resize s.b_ (x.length - 1), vec_resize s.d_ (x.length - 1)) = R
    at hcl hbl hdl hcn hrel
  unfold CubicSpline.fit_forward at hrel
  generalize (List.range' 1 (x.length - 1 - 1)).foldl
      (CubicSpline.fit_forward_step x (CubicSpline.fit_h x (x.length - 1))
        (CubicSpline.fit_alpha y (CubicSpline.fit_h x (x.length - 1)) (x.length - 1)))
      ((List.replicate (x.length - 1 + 1) 0).set 0 1, List.replicate (x.length - 1 + 1) 0,
        List.replicate (x.length - 1 + 1) 0) = F at hrel hmu0 hz0 hfeq hlpos hzlen
  have hzset : ∀ j, j < x.length - 1 → vec_get (F.2.2.set (x.length - 1) 0) j = vec_get F.2.2 j :=
    fun j hj => vec_get_set_ne _ _ (by omega)
  refine ⟨trivial, trivial, trivial, trivial, trivial, by omega, hbl, hdl, ?_, hcn, ?_, ?_⟩
  · have := (hrel 0 (by omega)).1
    rw [hzset 0 (by omega), hz0, hmu0] at this
    rw [this]
    ring
  · intro j hj
    obtain ⟨-, hb, hd⟩ := hrel j hj
    rw [hh j hj] at hb hd
    exact ⟨hb, hd⟩
  · intro i h1 hi
    obtain ⟨e1, -, -⟩ := hrel (i - 1) (by omega)
    obtain ⟨e2, -, -⟩ := hrel i hi
    obtain ⟨e3, e4, e5⟩ := hfeq i h1 (by omega)
    have hL := hlpos i h1 (by omega)
    rw [hzset _ (by omega), show i - 1 + 1 = i from by omega] at e1
    rw [hzset _ hi] at e2
    rw [hh _ (by omega : i - 1 < x.length - 1)] at e3 e5
    rw [hh _ hi] at e4
    rw [vec_get_fit_alpha _ _ _ _ h1 hi, hh _ hi, hh _ (by omega : i - 1 < x.length - 1)] at e5
    rw [show i - 1 + 1 = i from by omega] at e3 e5
    have e4' : vec_get F.1 i * vec_get F.2.1 i = vec_get x (i + 1) - vec_get x i := by
      rw [e4]
      field_simp
    have e5' := (eq_div_iff hL.ne').mp e5
    linear_combination (vec_get x i - vec_get x (i - 1)) * e1 + vec_get F.1 i * e2 -
      vec_get R.1 i * e3 - vec_get R.1 (i + 1) * e4' + e5'

end spline_fit_spec
section spline_evaluate

variable {α : Type} [LinearOrderedField α]

/-- The interval chosen by `CubicSpline::find_interval` for `x_[j] < t ≤ x_[j + 1]`. -/
theorem spline_find_interval (s : CubicSpline α) (hs : s.x_.Sorted (· < ·))
    (hlen : s.x_.length < 2 ^ 64) (j : Nat) (a b t : α) (hj : s.x_[j]? = some a)
    (hj1 : s.x_[j + 1]? = some b) (h1 : a < t) (h2 : t ≤ b) :
    s.find_interval t = j := by
  have hlb := lower_bound_between s.x_ j a b t hs hj hj1 h1 h2
  have hjl : j + 1 < s.x_.length := by
    by_contra hcon
    rw [List.getElem?_eq_none (by omega)] at hj1
    cases hj1
  have hmod : (s.x_.length + 2 ^ 64 - 1) % 2 ^ 64 = s.x_.length - 1 := by
    have : s.x_.length + 2 ^ 64 - 1 = (s.x_.length - 1) + 2 ^ 64 := by omega
    rw [this, Nat.add_mod_right, Nat.mod_eq_of_lt (by omega)]
  unfold CubicSpline.find_interval
  have e : (if j + 1 > 0 then j + 1 - 1 else j + 1) = j := by simp
  simp only [hlb, hmod, e]
  rw [if_neg (by omega)]

/-- The cubic evaluated by `CubicSpline::evaluate` strictly between the first and the
last knot. -/
theorem evaluate_interior (s : CubicSpline α) (hf : s.fitted_ = true)
    (hs : s.x_.Sorted (· < ·)) (hlen : s.x_.length < 2 ^ 64) (j : Nat)
    (a b t back aj bj cj dj : α) (hj : s.x_[j]? = some a) (hj1 : s.x_[j + 1]? = some b)
    (h1 : a < t) (h2 : t ≤ b) (hback : s.x_.getLast? = some back) (h3 : t < back)
    (ha : s.a_[j]? = some aj) (hb : s.b_[j]? = some bj) (hc : s.c_[j]? = some cj)
    (hd : s.d_[j]? = some dj) :
    s.evaluate t = Except.ok (aj + bj * (t - a) + cj * (t - a) * (t - a) +
      dj * (t - a) * (t - a) * (t - a)) := by
  have hfi := spline_find_interval s hs hlen j a b t hj hj1 h1 h2
  obtain ⟨front, hfront⟩ : ∃ front, s.x_.head? = some front := by
    cases hx : s.x_ with
    | nil => rw [hx] at hj; simp at hj
    | cons c rest => exact ⟨c, rfl⟩
  have hfa : front ≤ a := sorted_front_le hs hfront hj
  unfold CubicSpline.evaluate
  simp only [hf, Bool.not_true, Bool.false_eq_true, if_false, bind, Except.bind, pure,
    Except.pure, vec_front_eq_ok.mpr hfront, vec_back_eq_ok.mpr hback, hfi,
    vec_at_eq_ok.mpr hj, vec_at_eq_ok.mpr ha, vec_at_eq_ok.mpr hb, vec_at_eq_ok.mpr hc,
    vec_at_eq_ok.mpr hd]
  rw [if_neg (not_le.mpr (lt_of_le_of_lt hfa h1)), if_neg (not_le.mpr h3)]

/-- At or before the first knot `CubicSpline::evaluate` returns `y_.front()`. -/
theorem evaluate_front (s : CubicSpline α) (hf : s.fitted_ = true) (front t : α)
    (hfront : s.x_.head? = some front) (h : t ≤ front) :
    s.evaluate t = vec_front s.y_ := by
  unfold CubicSpline.evaluate
  simp only [hf, Bool.not_true, Bool.false_eq_true, if_false, bind, Except.bind,
    vec_front_eq_ok.mpr hfront]
  rw [if_pos h]

/-- At or after the last knot (and after the first) `CubicSpline::evaluate` returns
`y_.back()`. -/
theorem evaluate_back (s : CubicSpline α) (hf : s.fitted_ = true) (front back t : α)
    (hfront : s.x_.head? = some front) (hback : s.x_.getLast? = some back)
    (h1 : front < t) (h2 : back ≤ t) :
    s.evaluate t = vec_back s.y_ := by
  unfold CubicSpline.evaluate
  simp only [hf, Bool.not_true, Bool.false_eq_true, if_false, bind, Except.bind,
    vec_front_eq_ok.mpr hfront, vec_back_eq_ok.mpr hback]
  rw [if_neg (not_le.mpr h1), if_pos h2]

omit [LinearOrderedField α] in
theorem getLast?_eq_getElem? (v : List α) : v.getLast? = v[v.length - 1]? := by
  rw [List.getLast?_eq_getElem?]

omit [LinearOrderedField α] in
theorem head?_eq_getElem?_zero (v : List α) : v.head? = v[0]? := by
  cases v <;> simp

/-- After a successful `fit`, `evaluate` returns `y_i` at the knot `x_i`. -/
theorem fit_evaluate_knot (s : CubicSpline α) (x y : List α) (hlen : x.length = y.length)
    (h2 : 2 ≤ x.length) (hs : x.Sorted (· < ·)) (h64 : x.length < 2 ^ 64)
    (i : Nat) (xi yi : α) (hxi : x[i]? = some xi) (hyi : y[i]? = some yi) :
    (s.fit x y).2.evaluate xi = Except.ok yi := by
  obtain ⟨-, hx, hy, ha, hf, hcl, hbl, hdl, -, -, hbd, -⟩ := fit_spec s x y hlen h2 hs
  have hil : i < x.length := by
    by_contra hcon
    rw [List.getElem?_eq_none (by omega)] at hxi
    cases hxi
  have hfront : (s.fit x y).2.x_.head? = some (vec_get x 0) := by
    rw [hx, head?_eq_getElem?_zero, getElem?_eq_vec_get (by omega)]
  have hback : (s.fit x y).2.x_.getLast? = some (vec_get x (x.length - 1)) := by
    rw [hx, getLast?_eq_getElem?, getElem?_eq_vec_get (by omega)]
  have hsx : (s.fit x y).2.x_.Sorted (· < ·) := by rw [hx]; exact hs
  have hxi' : (s.fit x y).2.x_[i]? = some xi := by rw [hx]; exact hxi
  by_cases h0 : i = 0
  · subst h0
    have hle : xi ≤ vec_get x 0 := by rw [vec_get_eq_of_getElem? hxi]
    rw [evaluate_front _ hf _ _ hfront hle, hy, vec_front_eq_ok, head?_eq_getElem?_zero]
    exact hyi
  have hfl : vec_get x 0 < xi :=
    sorted_getElem?_lt hs (getElem?_eq_vec_get (by omega)) hxi (by omega)
  by_cases hn : i = x.length - 1
  · have hle : vec_get x (x.length - 1) ≤ xi := by
      rw [← hn, vec_get_eq_of_getElem? hxi]
    rw [evaluate_back _ hf _ _ _ hfront hback hfl hle, hy, vec_back_eq_ok,
      getLast?_eq_getElem?, ← hlen, ← hn]
    exact hyi
  · have hj : (s.fit x y).2.x_[i - 1]? = some (vec_get x (i - 1)) := by
      rw [hx, getElem?_eq_vec_get (by omega)]
    have hj1 : (s.fit x y).2.x_[i - 1 + 1]? = some xi := by
      rw [show i - 1 + 1 = i from by omega]
      exact hxi'
    have hlt : vec_get x (i - 1) < xi :=
      sorted_getElem?_lt hs (getElem?_eq_vec_get (by omega)) hxi (by omega)
    have hlast : xi < vec_get x (x.length - 1) :=
      sorted_getElem?_lt hs hxi (getElem?_eq_vec_get (by omega)) (by omega)
    have hx64 : (s.fit x y).2.x_.length < 2 ^ 64 := by rw [hx]; exact h64
    rw [evaluate_interior _ hf hsx hx64 (i - 1) _ xi xi _ _ _ _ _ hj hj1 hlt (le_refl _)
      hback hlast (getElem?_eq_vec_get (by rw [ha]; omega))
      (getElem?_eq_vec_get (by rw [hbl]; omega))
      (getElem?_eq_vec_get (by rw [hcl]; omega))
      (getElem?_eq_vec_get (by rw [hdl]; omega))]
    obtain ⟨hb, hd⟩ := hbd (i - 1) (by omega)
    rw [show i - 1 + 1 = i from by omega] at hb hd
    rw [hb, hd, ha, vec_get_eq_of_getElem? hxi, vec_get_eq_of_getElem? hyi]
    have hne : xi - vec_get x (i - 1) ≠ 0 := (sub_pos.mpr hlt).ne'
    congr 1
    field_simp
    ring

end spline_evaluate
section spline_claims

variable {α : Type} [LinearOrderedField α]

/-- When `fit` returns normally. -/
theorem fit_ok_iff (s : CubicSpline α) (x y : List α) :
    (s.fit x y).1 = Except.ok () ↔
      (x.length = y.length ∧ 2 ≤ x.length ∧ x.Sorted (· < ·)) := by
  constructor
  · intro hok
    by_cases h1 : x.length ≠ y.length
    · simp [CubicSpline.fit, h1] at hok
    by_cases h2 : x.length < 2
    · simp [CubicSpline.fit, h1, h2] at hok
    by_cases h3 : x.Sorted (· < ·)
    · exact ⟨not_not.mp h1, not_lt.mp h2, h3⟩
    · have hany := (fit_h_any_iff x).mpr h3
      simp [CubicSpline.fit, h1, h2, hany] at hok
  · rintro ⟨h1, h2, h3⟩
    exact (fit_spec s x y h1 h2 h3).1

/-- C21: after every successful `fit(x, y)`, `evaluate(x_i) = y_i` at every knot `i`
(the first, every interior and the last one); the number of knots is below `2^64`, the
range of `size_t`. -/
theorem C21_spline_exactness (s : CubicSpline α) (x y : List α)
    (hok : (s.fit x y).1 = Except.ok ()) (h64 : x.length < 2 ^ 64) :
    ∀ (i : Nat) (xi yi : α), x[i]? = some xi → y[i]? = some yi →
      (s.fit x y).2.evaluate xi = Except.ok yi := by
  obtain ⟨hlen, h2, hs⟩ := (fit_ok_iff s x y).mp hok
  intro i xi yi hxi hyi
  exact fit_evaluate_knot s x y hlen h2 hs h64 i xi yi hxi hyi

/-- C21 witness: the test `CubicSplineTest.BasicFit`, evaluated at the interior knot
`x = 2`. -/
theorem C21_spline_exactness_witness :
    ((CubicSpline.init : CubicSpline ℚ).fit [0, 1, 2, 3] [0, 1, 4, 9]).2.evaluate 2
      = Except.ok 4 :=
  C21_spline_exactness (CubicSpline.init : CubicSpline ℚ) [0, 1, 2, 3] [0, 1, 4, 9]
    ((fit_ok_iff _ _ _).mpr ⟨rfl, by simp, by norm_num [List.Sorted]⟩) (by simp)
    2 2 4 (by simp) (by simp)

/-- C22: after every successful `fit` with `n` intervals the coefficient vectors have
lengths `n + 1`, `n`, `n + 1`, `n`, and at every interior knot `i` (`0 < i < n`), with
`h = x_i - x_{i-1}`, the pieces on the intervals `i - 1` and `i` agree in value, first
derivative and second derivative; and the `c` coefficients solve the tridiagonal
system of the natural spline. -/
theorem C22_spline_smoothness (s : CubicSpline α) (x y : List α)
    (hok : (s.fit x y).1 = Except.ok ()) :
    (s.fit x y).2.a_.length = x.length ∧ (s.fit x y).2.b_.length = x.length - 1 ∧
    (s.fit x y).2.c_.length = x.length ∧ (s.fit x y).2.d_.length = x.length - 1 ∧
    ∀ i, 0 < i → i < x.length - 1 →
      vec_get (s.fit x y).2.a_ (i - 1) +
          vec_get (s.fit x y).2.b_ (i - 1) * (vec_get x i - vec_get x (i - 1)) +
          vec_get (s.fit x y).2.c_ (i - 1) * (vec_get x i - vec_get x (i - 1)) ^ 2 +
          vec_get (s.fit x y).2.d_ (i - 1) * (vec_get x i - vec_get x (i - 1)) ^ 3 =
        vec_get (s.fit x y).2.a_ i ∧
      vec_get (s.fit x y).2.b_ (i - 1) +
          2 * vec_get (s.fit x y).2.c_ (i - 1) * (vec_get x i - vec_get x (i - 1)) +
          3 * vec_get (s.fit x y).2.d_ (i - 1) * (vec_get x i - vec_get x (i - 1)) ^ 2 =
        vec_get (s.fit x y).2.b_ i ∧
      vec_get (s.fit x y).2.c_ (i - 1) +
          3 * vec_get (s.fit x y).2.d_ (i - 1) * (vec_get x i - vec_get x (i - 1)) =
        vec_get (s.fit x y).2.c_ i ∧
      (vec_get x i - vec_get x (i - 1)) * vec_get (s.fit x y).2.c_ (i - 1) +
          2 * (vec_get x (i + 1) - vec_get x (i - 1)) * vec_get (s.fit x y).2.c_ i +
          (vec_get x (i + 1) - vec_get x i) * vec_get (s.fit x y).2.c_ (i + 1) =
        3 * ((vec_get y (i + 1) - vec_get y i) / (vec_get x (i + 1) - vec_get x i) -
          (vec_get y i - vec_get y (i - 1)) / (vec_get x i - vec_get x (i - 1))) := by
  obtain ⟨hlen, h2, hs⟩ := (fit_ok_iff s x y).mp hok
  obtain ⟨-, -, -, ha, -, hcl, hbl, hdl, -, -, hbd, htri⟩ := fit_spec s x y hlen h2 hs
  refine ⟨by rw [ha]; exact hlen.symm, hbl, hcl, hdl, ?_⟩
  intro i h0 hi
  obtain ⟨hb1, hd1⟩ := hbd (i - 1) (by omega)
  obtain ⟨hb2, -⟩ := hbd i hi
  have ht := htri i h0 hi
  rw [show i - 1 + 1 = i from by omega] at hb1 hd1
  have hp : 0 < vec_get x i - vec_get x (i - 1) := by
    have := (sorted_iff_steps x).mp hs (i - 1) (by omega)
    rw [show i - 1 + 1 = i from by omega] at this
    exact sub_pos.mpr this
  have hq : 0 < vec_get x (i + 1) - vec_get x i :=
    sub_pos.mpr ((sorted_iff_steps x).mp hs i (by omega))
  refine ⟨?_, ?_, ?_, ht⟩
  · rw [hb1, hd1, ha]
    field_simp
    ring
  · rw [hb1, hd1, hb2]
    have e : (vec_get y (i + 1) - vec_get y i) / (vec_get x (i + 1) - vec_get x i) =
        ((vec_get x i - vec_get x (i - 1)) * vec_get (s.fit x y).2.c_ (i - 1) +
          2 * (vec_get x (i + 1) - vec_get x (i - 1)) * vec_get (s.fit x y).2.c_ i +
          (vec_get x (i + 1) - vec_get x i) * vec_get (s.fit x y).2.c_ (i + 1)) / 3 +
          (vec_get y i - vec_get y (i - 1)) / (vec_get x i - vec_get x (i - 1)) := by
      rw [ht]
      ring
    rw [e]
    field_simp
    ring
  · rw [hd1]
    field_simp
    ring

/-- C22 witness: the data of the test `CubicSplineTest.Smoothness`; the second
derivative is continuous at the knot `x = 1`. -/
theorem C22_spline_smoothness_witness :
    vec_get ((CubicSpline.init : CubicSpline ℚ).fit [0, 1, 2, 3] [0, 1, 1 / 2, 2]).2.c_ (1 - 1) +
      3 * vec_get ((CubicSpline.init : CubicSpline ℚ).fit [0, 1, 2, 3] [0, 1, 1 / 2, 2]).2.d_
        (1 - 1) * (vec_get ([0, 1, 2, 3] : List ℚ) 1 - vec_get ([0, 1, 2, 3] : List ℚ) (1 - 1))
      = vec_get ((CubicSpline.init : CubicSpline ℚ).fit [0, 1, 2, 3] [0, 1, 1 / 2, 2]).2.c_ 1 :=
  ((C22_spline_smoothness (CubicSpline.init : CubicSpline ℚ) [0, 1, 2, 3] [0, 1, 1 / 2, 2]
    ((fit_ok_iff _ _ _).mpr ⟨rfl, by simp, by norm_num [List.Sorted]⟩)).2.2.2.2 1
    (by decide) (by decide)).2.2.1

/-- C23: after every successful `fit` with `n` intervals the second derivative of the
fitted piecewise cubic vanishes at both end knots: `c_0 = 0`, and
`2*c_{n-1} + 6*d_{n-1}*(x_n - x_{n-1}) = 0`. -/
theorem C23_natural_boundary (s : CubicSpline α) (x y : List α)
    (hok : (s.fit x y).1 = Except.ok ()) :
    vec_get (s.fit x y).2.c_ 0 = 0 ∧
    2 * vec_get (s.fit x y).2.c_ (x.length - 1 - 1) +
      6 * vec_get (s.fit x y).2.d_ (x.length - 1 - 1) *
        (vec_get x (x.length - 1) - vec_get x (x.length - 1 - 1)) = 0 ∧
    (s.fit x y).2.x_ = x ∧
    (s.fit x y).2.c_.length = x.length ∧ (s.fit x y).2.d_.length = x.length - 1 := by
  obtain ⟨hlen, h2, hs⟩ := (fit_ok_iff s x y).mp hok
  obtain ⟨-, hx, -, -, -, hcl, -, hdl, hc0, hcn, hbd, -⟩ := fit_spec s x y hlen h2 hs
  refine ⟨hc0, ?_, hx, hcl, hdl⟩
  obtain ⟨-, hd⟩ := hbd (x.length - 1 - 1) (by omega)
  rw [show x.length - 1 - 1 + 1 = x.length - 1 from by omega] at hd
  have hp : 0 < vec_get x (x.length - 1) - vec_get x (x.length - 1 - 1) := by
    have := (sorted_iff_steps x).mp hs (x.length - 1 - 1) (by omega)
    rw [show x.length - 1 - 1 + 1 = x.length - 1 from by omega] at this
    exact sub_pos.mpr this
  rw [hd, hcn]
  field_simp
  ring

/-- C23 witness: the data of the test `CubicSplineTest.BasicFit`. -/
theorem C23_natural_boundary_witness :
    vec_get ((CubicSpline.init : CubicSpline ℚ).fit [0, 1, 2, 3] [0, 1, 4, 9]).2.c_ 0 = 0 :=
  (C23_natural_boundary (CubicSpline.init : CubicSpline ℚ) [0, 1, 2, 3] [0, 1, 4, 9]
    ((fit_ok_iff _ _ _).mpr ⟨rfl, by simp, by norm_num [List.Sorted]⟩)).1

end spline_claims

section fit_failure

variable {α : Type} [LinearOrderedField α]

/-- A `fit` that fails on the step sizes has already stored the new knots. -/
theorem fit_not_increasing (s : CubicSpline α) (x y : List α) (hlen : x.length = y.length)
    (h2 : 2 ≤ x.length) (hns : ¬ x.Sorted (· < ·)) :
    s.fit x y = (Except.error (Exn.invalid_argument "x values must be strictly increasing"),
      { s with x_ := x, y_ := y }) := by
  have hany := (fit_h_any_iff x).mpr hns
  unfold CubicSpline.fit
  rw [if_neg (not_not.mpr hlen), if_neg (not_lt.mpr h2)]
  simp only [hany, if_true]

/-- C24 (the code at the failing input): a spline fitted to `(0,0), (1,1), (2,4), (3,9)`
returns `0` at `x = 0`; the call `fit({0, 1, 1}, {5, 5, 5})` then fails with
"x values must be strictly increasing", yet it has overwritten the stored knots, and
`evaluate(0)` returns `5` afterwards. -/
theorem C24_failed_fit_overwrites_knots :
    (((CubicSpline.init : CubicSpline ℚ).fit [0, 1, 2, 3] [0, 1, 4, 9]).2.fit
        [0, 1, 1] [5, 5, 5]).1 =
      Except.error (Exn.invalid_argument "x values must be strictly increasing") ∧
    ((CubicSpline.init : CubicSpline ℚ).fit [0, 1, 2, 3] [0, 1, 4, 9]).2.evaluate 0
      = Except.ok 0 ∧
    (((CubicSpline.init : CubicSpline ℚ).fit [0, 1, 2, 3] [0, 1, 4, 9]).2.fit
        [0, 1, 1] [5, 5, 5]).2.evaluate 0 = Except.ok 5 ∧
    ((CubicSpline.init : CubicSpline ℚ).fit [0, 1, 2, 3] [0, 1, 4, 9]).2.x_ = [0, 1, 2, 3] ∧
    (((CubicSpline.init : CubicSpline ℚ).fit [0, 1, 2, 3] [0, 1, 4, 9]).2.fit
        [0, 1, 1] [5, 5, 5]).2.x_ = [0, 1, 1] := by
  obtain ⟨-, hx, hy, -, hf, -⟩ := fit_spec (CubicSpline.init : CubicSpline ℚ)
    [0, 1, 2, 3] [0, 1, 4, 9] rfl (by simp) (by norm_num [List.Sorted])
  have hfail := fit_not_increasing
    ((CubicSpline.init : CubicSpline ℚ).fit [0, 1, 2, 3] [0, 1, 4, 9]).2
    [0, 1, 1] [5, 5, 5] rfl (by simp) (by norm_num [List.Sorted])
  refine ⟨by rw [hfail], ?_, ?_, hx, by rw [hfail]⟩
  · rw [evaluate_front _ hf 0 0 (by rw [hx]; rfl) (le_refl _), hy]
    rfl
  · rw [hfail]
    refine (evaluate_front _ ?_ 0 0 ?_ (le_refl _)).trans ?_
    · exact hf
    · rfl
    · rfl

end fit_failure

section add_point_claims

variable {α : Type} [LinearOrderedField α]

theorem is_valid_iff (d : α) : DiscountFactor.is_valid d = true ↔ 1e-10 < d ∧ d ≤ 1 := by
  simp [DiscountFactor.is_valid, DiscountFactor.MIN_DF, DiscountFactor.MAX_DF]

/-- The two embeddings of `add_point` agree. -/
theorem add_point_eq_state (c : YieldCurve α) (time d : α) :
    c.add_point time d =
      match (c.add_point_state time d).1 with
      | Except.error e => Except.error e
      | Except.ok _ => Except.ok (c.add_point_state time d).2 := by
  unfold YieldCurve.add_point YieldCurve.add_point_state
  by_cases h1 : time < 0
  · simp [h1]
  · by_cases h2 : DiscountFactor.is_valid d = true
    · simp [h1, h2]
    · simp [h1, h2]

/-- C25: `add_point(time, df)` fails exactly when `time < 0` or `df` is not in
`(1e-10, 1.0]`; every failure is an invalid-argument error and leaves the curve
unchanged; on success the knot sequence is the previous one with `(time, df)` appended
and no earlier knot modified. -/
theorem C25_add_point (c : YieldCurve α) (time d : α) :
    ((∃ e, (c.add_point_state time d).1 = Except.error e) ↔
      (time < 0 ∨ ¬ (1e-10 < d ∧ d ≤ 1))) ∧
    (∀ e, (c.add_point_state time d).1 = Except.error e →
      (∃ what, e = Exn.invalid_argument what) ∧ (c.add_point_state time d).2 = c ∧
      c.add_point time d = Except.error e) ∧
    ((c.add_point_state time d).1 = Except.ok () →
      c.add_point time d = Except.ok (c.add_point_state time d).2 ∧
      (c.add_point_state time d).2.times_ = c.times_ ++ [time] ∧
      (c.add_point_state time d).2.discount_factors_ = c.discount_factors_ ++ [d] ∧
      (∀ i, i < c.times_.length →
        (c.add_point_state time d).2.times_[i]? = c.times_[i]?) ∧
      (∀ i, i < c.discount_factors_.length →
        (c.add_point_state time d).2.discount_factors_[i]? = c.discount_factors_[i]?)) := by
  have heq := add_point_eq_state c time d
  by_cases h1 : time < 0
  · have hst : c.add_point_state time d =
        (Except.error (Exn.invalid_argument "Time must be non-negative"), c) := by
      simp [YieldCurve.add_point_state, h1]
    rw [hst] at heq ⊢
    refine ⟨by simp [h1], ?_, by simp⟩
    intro e he
    cases he
    exact ⟨⟨_, rfl⟩, rfl, heq⟩
  · by_cases h2 : DiscountFactor.is_valid d = true
    · have hst : c.add_point_state time d = (Except.ok (), { c with
          times_ := c.times_ ++ [time],
          discount_factors_ := c.discount_factors_ ++ [d],
          use_spline_ := false }) := by
        simp [YieldCurve.add_point_state, h1, h2]
      rw [hst] at heq ⊢
      refine ⟨?_, ?_, ?_⟩
      · simp [h1, (is_valid_iff d).mp h2]
      · intro e he
        cases he
      · intro _
        refine ⟨heq, rfl, rfl, ?_, ?_⟩
        · intro i hi
          exact List.getElem?_append_left hi
        · intro i hi
          exact List.getElem?_append_left hi
    · have hst : c.add_point_state time d =
          (Except.error (Exn.invalid_argument "Invalid discount factor"), c) := by
        simp [YieldCurve.add_point_state, h1, h2]
      rw [hst] at heq ⊢
      refine ⟨?_, ?_, by simp⟩
      · have := mt (is_valid_iff d).mpr h2
        simp [this]
      · intro e he
        cases he
        exact ⟨⟨_, rfl⟩, rfl, heq⟩

/-- C25 witness: appending the knot `(1, 0.95)` to an empty curve. -/
theorem C25_add_point_witness :
    ((YieldCurve.init CompoundingType.CONTINUOUS InterpolationType.LINEAR :
        YieldCurve ℚ).add_point_state 1 (19 / 20)).2.times_ = [] ++ [1] :=
  ((C25_add_point (YieldCurve.init CompoundingType.CONTINUOUS InterpolationType.LINEAR :
      YieldCurve ℚ) 1 (19 / 20)).2.2
    (by norm_num [YieldCurve.add_point_state, DiscountFactor.is_valid,
      DiscountFactor.MIN_DF, DiscountFactor.MAX_DF])).2.1

end add_point_claims

/-! ## The class invariant of the curve -/

section mapM_lemmas

variable {β γ : Type}

theorem mapM_except_total (f : β → Except Exn γ) :
    ∀ l : List β, (∀ a ∈ l, ∃ y, f a = Except.ok y) → ∃ ys, l.mapM f = Except.ok ys := by
  intro l
  induction l with
  | nil => intro _; exact ⟨[], rfl⟩
  | cons a rest ih =>
    intro h
    obtain ⟨y, hy⟩ := h a (List.mem_cons_self a rest)
    obtain ⟨ys, hys⟩ := ih (fun b hb => h b (List.mem_cons_of_mem a hb))
    refine ⟨y :: ys, ?_⟩
    rw [List.mapM_cons, hy, hys]
    rfl

theorem mapM_except_spec (f : β → Except Exn γ) :
    ∀ (l : List β) (ys : List γ), l.mapM f = Except.ok ys →
      ys.length = l.length ∧
      ∀ (i : Nat) (a : β), l[i]? = some a → ∃ y, ys[i]? = some y ∧ f a = Except.ok y := by
  intro l
  induction l with
  | nil =>
    intro ys h
    rw [List.mapM_nil] at h
    cases h
    exact ⟨rfl, fun i a hi => by simp at hi⟩
  | cons a rest ih =>
    intro ys h
    rw [List.mapM_cons] at h
    cases hfa : f a with
    | error e => rw [hfa] at h; cases h
    | ok y =>
      cases hrest : rest.mapM f with
      | error e => rw [hfa, hrest] at h; cases h
      | ok ys' =>
        rw [hfa, hrest] at h
        cases h
        obtain ⟨hl, hall⟩ := ih ys' hrest
        refine ⟨by simp [hl], ?_⟩
        intro i b hi
        cases i with
        | zero =>
          simp only [List.getElem?_cons_zero, Option.some.injEq] at hi
          subst hi
          exact ⟨y, by simp, hfa⟩
        | succ i' =>
          simp only [List.getElem?_cons_succ] at hi
          obtain ⟨y', hy', hf'⟩ := hall i' b hi
          exact ⟨y', by simpa using hy', hf'⟩

end mapM_lemmas

section curve_invariant

variable {α : Type} [LinearOrderedField α]

theorem to_zero_rate_total (m : Libm α) (t d : α) (conv : CompoundingType)
    (ht : 1e-10 ≤ t) (hd0 : 0 < d) (hd1 : d ≤ 1) :
    ∃ r, DiscountFactor.to_zero_rate m t d conv = Except.ok r := by
  unfold DiscountFactor.to_zero_rate
  rw [if_neg (not_lt.mpr ht), if_neg (by
    rintro (h | h)
    · exact absurd hd0 (not_lt.mpr h)
    · exact absurd h (not_lt.mpr hd1))]
  cases conv <;> exact ⟨_, rfl⟩

theorem from_zero_rate_total (m : Libm α) (t r : α) (conv : CompoundingType) (ht : 0 ≤ t) :
    ∃ v, DiscountFactor.from_zero_rate m t r conv = Except.ok v := by
  unfold DiscountFactor.from_zero_rate
  rw [if_neg (not_lt.mpr ht)]
  by_cases h : t < 1e-10
  · rw [if_pos h]
    exact ⟨_, rfl⟩
  · rw [if_neg h]
    cases conv <;> exact ⟨_, rfl⟩

/-- What a successful run of the loop filling `zero_rates` has computed. -/
theorem zero_rates_spec (m : Libm α) (c : YieldCurve α) (zr : List α)
    (h : c.zero_rates m = Except.ok zr) :
    zr.length = c.times_.length ∧
    ∀ (i : Nat) (ti : α), c.times_[i]? = some ti →
      ∃ di r, c.discount_factors_[i]? = some di ∧ zr[i]? = some r ∧
        DiscountFactor.to_zero_rate m ti di c.compounding_type_ = Except.ok r := by
  unfold YieldCurve.zero_rates at h
  obtain ⟨hl, hall⟩ := mapM_except_spec _ _ _ h
  refine ⟨by simpa using hl, ?_⟩
  intro i ti hti
  have hil : i < c.times_.length := by
    by_contra hcon
    rw [List.getElem?_eq_none (by omega)] at hti
    cases hti
  obtain ⟨r, hr, hf⟩ := hall i i (List.getElem?_range hil)
  simp only [bind, Except.bind, vec_at_eq_ok.mpr hti] at hf
  cases hd : vec_at c.discount_factors_ i with
  | error e => rw [hd] at hf; cases hf
  | ok di =>
    rw [hd] at hf
    exact ⟨di, r, vec_at_eq_ok.mp hd, hr, hf⟩

/-- The loop filling `zero_rates` returns when every knot time is at least `1e-10`. -/
theorem zero_rates_total (m : Libm α) (c : YieldCurve α)
    (hlen : c.times_.length = c.discount_factors_.length)
    (ht : ∀ t ∈ c.times_, 1e-10 ≤ t)
    (hd : ∀ d ∈ c.discount_factors_, 1e-10 < d ∧ d ≤ 1) :
    ∃ zr, c.zero_rates m = Except.ok zr := by
  unfold YieldCurve.zero_rates
  apply mapM_except_total
  intro i hi
  rw [List.mem_range] at hi
  have hi' : i < c.discount_factors_.length := by omega
  have h1 := ht _ (List.getElem_mem hi)
  have h2 := hd _ (List.getElem_mem hi')
  simp only [bind, Except.bind, vec_at_eq_ok.mpr (List.getElem?_eq_getElem hi),
    vec_at_eq_ok.mpr (List.getElem?_eq_getElem hi')]
  exact to_zero_rate_total m _ _ _ h1 (lt_trans (by norm_num) h2.1) h2.2

theorem zero_rates_congr (m : Libm α) (c c2 : YieldCurve α) (h1 : c2.times_ = c.times_)
    (h2 : c2.discount_factors_ = c.discount_factors_)
    (h3 : c2.compounding_type_ = c.compounding_type_) :
    c2.zero_rates m = c.zero_rates m := by
  unfold YieldCurve.zero_rates
  rw [h1, h2, h3]

/-- Every reachable curve satisfies the class invariant. -/
theorem reachable_invariant (m : Libm α) (c : YieldCurve α) (h : c.Reachable m) :
    c.invariant m := by
  induction h with
  | init type interp_type =>
    refine ⟨rfl, ?_, ?_, ?_⟩
    · intro t ht; simp [YieldCurve.init] at ht
    · intro d hd; simp [YieldCurve.init] at hd
    · intro hsp; simp [YieldCurve.init] at hsp
  | add_point c time d _ ih =>
    obtain ⟨hlen, ht, hd, hsp⟩ := ih
    unfold YieldCurve.add_point_state
    by_cases h1 : time < 0
    · rw [if_pos h1]
      exact ⟨hlen, ht, hd, hsp⟩
    · rw [if_neg h1]
      by_cases h2 : DiscountFactor.is_valid d = true
      · simp only [h2, Bool.not_true, Bool.false_eq_true, if_false]
        refine ⟨by simp [hlen], ?_, ?_, ?_⟩
        · intro t htm
          rcases List.mem_append.mp htm with h | h
          · exact ht t h
          · rw [List.mem_singleton] at h
            rw [h]
            exact not_lt.mp h1
        · intro d' hdm
          rcases List.mem_append.mp hdm with h | h
          · exact hd d' h
          · rw [List.mem_singleton] at h
            rw [h]
            exact (is_valid_iff d).mp h2
        · intro hsp'
          cases hsp'
      · simp only [h2, Bool.not_false, if_true]
        exact ⟨hlen, ht, hd, hsp⟩
  | smoothing c _ ih =>
    obtain ⟨hlen, ht, hd, hsp⟩ := ih
    unfold YieldCurve.apply_cubic_spline_smoothing
    by_cases h1 : c.times_.length < 2
    · rw [if_pos h1]
      exact ⟨hlen, ht, hd, hsp⟩
    · rw [if_neg h1]
      cases hzr : c.zero_rates m with
      | error e => exact ⟨hlen, ht, hd, hsp⟩
      | ok zr =>
        simp only
        cases hfit : ((CubicSpline.init : CubicSpline α).fit c.times_ zr).1 with
        | error e =>
          simp only
          refine ⟨hlen, ht, hd, ?_⟩
          intro hsp'
          obtain ⟨zr', hzr', hok, -⟩ := hsp hsp'
          rw [hzr] at hzr'
          cases hzr'
          rw [hfit] at hok
          cases hok
        | ok u =>
          simp only
          refine ⟨hlen, ht, hd, ?_⟩
          intro _
          exact ⟨zr, hzr, hfit, rfl⟩

end curve_invariant
section spline_mode

variable {α : Type} [LinearOrderedField α]

theorem exists_bracket_left_open (v : List α) (front back s : α) (hs : v.Sorted (· < ·))
    (hfront : v.head? = some front) (hback : v.getLast? = some back) (h1 : front < s)
    (h2 : s < back) :
    ∃ (i : Nat) (a b : α), v[i]? = some a ∧ v[i + 1]? = some b ∧ a < s ∧ s ≤ b := by
  obtain ⟨i, a, b, ha, hb, has, hsb⟩ := exists_bracket v front back s hs hfront hback h1.le h2
  by_cases hlt : a < s
  · exact ⟨i, a, b, ha, hb, hlt, hsb.le⟩
  · have heq : a = s := le_antisymm has (not_lt.mp hlt)
    subst heq
    cases i with
    | zero =>
      rw [head?_eq_getElem?_zero, ha] at hfront
      cases hfront
      exact absurd h1 (lt_irrefl _)
    | succ i' =>
      have hil : i' < v.length := by
        by_contra hcon
        rw [List.getElem?_eq_none (by omega)] at ha
        cases ha
      have ha' : v[i']? = some (v.get ⟨i', hil⟩) := List.getElem?_eq_getElem hil
      exact ⟨i', _, a, ha', ha, sorted_getElem?_lt hs ha' ha (by omega), le_refl _⟩

/-- After a successful `fit`, `evaluate` returns a value at every argument. -/
theorem fit_evaluate_total (s : CubicSpline α) (x y : List α) (hlen : x.length = y.length)
    (h2 : 2 ≤ x.length) (hs : x.Sorted (· < ·)) (h64 : x.length < 2 ^ 64) (t : α) :
    ∃ v, (s.fit x y).2.evaluate t = Except.ok v := by
  obtain ⟨-, hx, hy, ha, hf, hcl, hbl, hdl, -⟩ := fit_spec s x y hlen h2 hs
  have hfront : (s.fit x y).2.x_.head? = some (vec_get x 0) := by
    rw [hx, head?_eq_getElem?_zero, getElem?_eq_vec_get (by omega)]
  have hback : (s.fit x y).2.x_.getLast? = some (vec_get x (x.length - 1)) := by
    rw [hx, getLast?_eq_getElem?, getElem?_eq_vec_get (by omega)]
  by_cases h1 : t ≤ vec_get x 0
  · rw [evaluate_front _ hf _ _ hfront h1, hy]
    exact ⟨vec_get y 0, by
      rw [vec_front_eq_ok, head?_eq_getElem?_zero, getElem?_eq_vec_get (by omega)]⟩
  by_cases h3 : vec_get x (x.length - 1) ≤ t
  · rw [evaluate_back _ hf _ _ _ hfront hback (not_le.mp h1) h3, hy]
    exact ⟨vec_get y (y.length - 1), by
      rw [vec_back_eq_ok, getLast?_eq_getElem?, getElem?_eq_vec_get (by omega)]⟩
  · obtain ⟨j, a, b, hj, hj1, hat, htb⟩ := exists_bracket_left_open x _ _ t hs
      (by rw [head?_eq_getElem?_zero, getElem?_eq_vec_get (by omega)])
      (by rw [getLast?_eq_getElem?, getElem?_eq_vec_get (by omega)])
      (not_le.mp h1) (not_le.mp h3)
    have hjl : j + 1 < x.length := by
      by_contra hcon
      rw [List.getElem?_eq_none (by omega)] at hj1
      cases hj1
    exact ⟨_, evaluate_interior _ hf (by rw [hx]; exact hs) (by rw [hx]; exact h64) j a b t
      _ _ _ _ _ (by rw [hx]; exact hj) (by rw [hx]; exact hj1) hat htb hback (not_le.mp h3)
      (getElem?_eq_vec_get (by rw [ha]; omega)) (getElem?_eq_vec_get (by rw [hbl]; omega))
      (getElem?_eq_vec_get (by rw [hcl]; omega)) (getElem?_eq_vec_get (by rw [hdl]; omega))⟩

/-- The spline branch of `get_discount_factor`. -/
theorem get_discount_factor_spline_mode (m : Libm α) (c : YieldCurve α) (sp : CubicSpline α)
    (zr : List α) (hne : c.times_ ≠ []) (hu : c.use_spline_ = true)
    (hsp : c.spline_ = some sp) (hf : sp.is_fitted = true)
    (hzr : c.zero_rates m = Except.ok zr) (t : α) (ht : 1e-10 ≤ t) :
    c.get_discount_factor m t =
      (sp.evaluate t >>= fun rate =>
        DiscountFactor.from_zero_rate m t rate c.compounding_type_) := by
  have hemp : c.times_.isEmpty = false := by
    cases hc : c.times_ with
    | nil => exact absurd hc hne
    | cons a rest => rfl
  unfold YieldCurve.get_discount_factor
  rw [hemp, hu, hsp]
  simp only [Bool.false_eq_true, if_false, hf, if_true, hzr, bind, Except.bind]
  rw [if_neg (not_lt.mpr (le_trans (by norm_num) ht)), if_neg (not_lt.mpr ht)]

/-- The interpolation branch of `get_discount_factor`. -/
theorem get_discount_factor_interpolation_mode (m : Libm α) (c : YieldCurve α)
    (hne : c.times_ ≠ [])
    (hmode : ¬ (c.use_spline_ = true ∧ ∃ sp, c.spline_ = some sp ∧ sp.is_fitted = true))
    (t : α) (ht : 1e-10 ≤ t) :
    c.get_discount_factor m t =
      Interpolator.interpolate m c.interpolator_ t c.times_ c.discount_factors_ := by
  have hemp : c.times_.isEmpty = false := by
    cases hc : c.times_ with
    | nil => exact absurd hc hne
    | cons a rest => rfl
  unfold YieldCurve.get_discount_factor
  rw [hemp]
  simp only [Bool.false_eq_true, if_false]
  rw [if_neg (not_lt.mpr (le_trans (by norm_num) ht)), if_neg (not_lt.mpr ht)]
  cases hu : c.use_spline_ with
  | false => rfl
  | true =>
    cases hsp : c.spline_ with
    | none => rfl
    | some sp =>
      simp only
      by_cases hf : sp.is_fitted = true
      · exact absurd ⟨hu, sp, hsp, hf⟩ hmode
      · rw [if_neg hf]

/-- On a non-empty reachable curve with strictly increasing times `get_discount_factor`
returns a value at every non-negative time. -/
theorem get_discount_factor_ok (m : Libm α) (c : YieldCurve α) (hinv : c.invariant m)
    (hne : c.times_ ≠ []) (hs : c.times_.Sorted (· < ·)) (h64 : c.times_.length < 2 ^ 64)
    (t : α) (ht : 0 ≤ t) : ∃ v, c.get_discount_factor m t = Except.ok v := by
  obtain ⟨hlen, -, -, hsp⟩ := hinv
  cases hu : c.use_spline_ with
  | false => exact get_discount_factor_total m c hne hlen hu t ht
  | true =>
    by_cases h10 : t < 1e-10
    · have hemp : c.times_.isEmpty = false := by
        cases hc : c.times_ with
        | nil => exact absurd hc hne
        | cons a rest => rfl
      refine ⟨1, ?_⟩
      unfold YieldCurve.get_discount_factor
      rw [hemp]
      simp only [Bool.false_eq_true, if_false]
      rw [if_neg (not_lt.mpr ht), if_pos h10]
    · obtain ⟨zr, hzr, hok, hspl⟩ := hsp hu
      obtain ⟨hl, h2, -⟩ := (fit_ok_iff _ _ _).mp hok
      obtain ⟨-, -, -, -, hf, -⟩ := fit_spec (CubicSpline.init : CubicSpline α) c.times_ zr
        hl h2 hs
      rw [get_discount_factor_spline_mode m c _ zr hne hu hspl hf hzr t (not_lt.mp h10)]
      obtain ⟨rate, hrate⟩ := fit_evaluate_total (CubicSpline.init : CubicSpline α)
        c.times_ zr hl h2 hs h64 t
      rw [hrate]
      exact from_zero_rate_total m t rate _ ht

end spline_mode

section query_claims

variable {α : Type} [LinearOrderedField α]

/-- C26: on a reachable curve whose knot times are strictly increasing (fewer than
`2^64` of them), `get_discount_factor(time)` fails exactly when the curve has no knots
or `time < 0`; on a non-empty curve it returns exactly `1.0` for `0 ≤ time < 1e-10`;
and otherwise, when the spline is not in use, it returns the selected strategy's
`interpolate(time, times, discount_factors)`. -/
theorem C26_get_discount_factor (m : Libm α) (c : YieldCurve α) (hr : c.Reachable m)
    (hs : c.times_.Sorted (· < ·)) (h64 : c.times_.length < 2 ^ 64) :
    (∀ t, (∃ e, c.get_discount_factor m t = Except.error e) ↔ (c.times_ = [] ∨ t < 0)) ∧
    (∀ t, c.times_ ≠ [] → 0 ≤ t → t < 1e-10 → c.get_discount_factor m t = Except.ok 1) ∧
    (∀ t, c.times_ ≠ [] → 1e-10 ≤ t →
      ¬ (c.use_spline_ = true ∧ ∃ sp, c.spline_ = some sp ∧ sp.is_fitted = true) →
      c.get_discount_factor m t =
        Interpolator.interpolate m c.interpolator_ t c.times_ c.discount_factors_) := by
  have hinv := reachable_invariant m c hr
  refine ⟨?_, ?_, ?_⟩
  · intro t
    constructor
    · rintro ⟨e, he⟩
      by_contra hcon
      rw [not_or] at hcon
      obtain ⟨v, hv⟩ := get_discount_factor_ok m c hinv hcon.1 hs h64 t (not_lt.mp hcon.2)
      rw [hv] at he
      cases he
    · intro h
      by_cases hemp : c.times_ = []
      · exact ⟨Exn.runtime_error "Curve has no points", by
          simp [YieldCurve.get_discount_factor, hemp]⟩
      · have ht : t < 0 := h.resolve_left hemp
        have hemp' : c.times_.isEmpty = false := by
          cases hc : c.times_ with
          | nil => exact absurd hc hemp
          | cons a rest => rfl
        exact ⟨Exn.invalid_argument "Time must be non-negative", by
          simp [YieldCurve.get_discount_factor, hemp', ht]⟩
  · intro t hne h0 h1
    have hemp' : c.times_.isEmpty = false := by
      cases hc : c.times_ with
      | nil => exact absurd hc hne
      | cons a rest => rfl
    unfold YieldCurve.get_discount_factor
    rw [hemp']
    simp only [Bool.false_eq_true, if_false]
    rw [if_neg (not_lt.mpr h0), if_pos h1]
  · intro t hne ht hmode
    exact get_discount_factor_interpolation_mode m c hne hmode t ht

/-- C26 witness: the curve holding the single knot `(1, 0.95)`, queried at time `0`. -/
theorem C26_get_discount_factor_witness :
    ((YieldCurve.init CompoundingType.CONTINUOUS InterpolationType.LINEAR :
        YieldCurve ℚ).add_point_state 1 (19 / 20)).2.get_discount_factor libm_unused 0
      = Except.ok 1 :=
  (C26_get_discount_factor libm_unused
    ((YieldCurve.init CompoundingType.CONTINUOUS InterpolationType.LINEAR :
        YieldCurve ℚ).add_point_state 1 (19 / 20)).2
    (YieldCurve.Reachable.add_point _ 1 (19 / 20) (YieldCurve.Reachable.init _ _))
    (by norm_num [YieldCurve.add_point_state, YieldCurve.init, DiscountFactor.is_valid,
      DiscountFactor.MIN_DF, DiscountFactor.MAX_DF])
    (by norm_num [YieldCurve.add_point_state, YieldCurve.init, DiscountFactor.is_valid,
      DiscountFactor.MIN_DF, DiscountFactor.MAX_DF])).2.1 0
    (by norm_num [YieldCurve.add_point_state, YieldCurve.init, DiscountFactor.is_valid,
      DiscountFactor.MIN_DF, DiscountFactor.MAX_DF])
    (le_refl 0) (by norm_num)

end query_claims

/-! ## Spline smoothing of the curve -/

section smoothing_lemmas

variable {α : Type} [LinearOrderedField α]

/-- When `apply_cubic_spline_smoothing` returns normally, and what it leaves. -/
theorem smoothing_ok (m : Libm α) (c : YieldCurve α) (hinv : c.invariant m)
    (h2 : 2 ≤ c.times_.length) (hs : c.times_.Sorted (· < ·))
    (hge : ∀ t ∈ c.times_, 1e-10 ≤ t) :
    ∃ zr, c.zero_rates m = Except.ok zr ∧ zr.length = c.times_.length ∧
      ((CubicSpline.init : CubicSpline α).fit c.times_ zr).1 = Except.ok () ∧
      c.apply_cubic_spline_smoothing m = (Except.ok (), { c with
        spline_ := some ((CubicSpline.init : CubicSpline α).fit c.times_ zr).2,
        use_spline_ := true }) := by
  obtain ⟨hlen, -, hd, -⟩ := hinv
  obtain ⟨zr, hzr⟩ := zero_rates_total m c hlen hge hd
  have hzl := (zero_rates_spec m c zr hzr).1
  have hok := (fit_ok_iff (CubicSpline.init : CubicSpline α) c.times_ zr).mpr
    ⟨hzl.symm, h2, hs⟩
  refine ⟨zr, hzr, hzl, hok, ?_⟩
  unfold YieldCurve.apply_cubic_spline_smoothing
  rw [if_neg (not_lt.mpr h2), hzr]
  simp only [hok]

theorem smoothing_too_few (m : Libm α) (c : YieldCurve α) (h : c.times_.length < 2) :
    c.apply_cubic_spline_smoothing m =
      (Except.error (Exn.runtime_error "Need at least 2 points for spline smoothing"), c) := by
  unfold YieldCurve.apply_cubic_spline_smoothing
  rw [if_pos h]

/-- The loop filling `zero_rates` throws at once when the first knot time is below
`1e-10`. -/
theorem zero_rates_first_small (m : Libm α) (c : YieldCurve α) (t0 d0 : α)
    (rest rest2 : List α) (ht : c.times_ = t0 :: rest) (hd : c.discount_factors_ = d0 :: rest2)
    (hsmall : t0 < 1e-10) :
    c.zero_rates m =
      Except.error (Exn.invalid_argument "Time too small for rate calculation") := by
  unfold YieldCurve.zero_rates
  rw [ht, hd, List.length_cons, List.range_succ_eq_map, List.mapM_cons]
  simp only [bind, Except.bind, vec_at, List.getElem?_cons_zero,
    DiscountFactor.to_zero_rate, hsmall, if_true]

end smoothing_lemmas

section smoothing_claims

variable {α : Type} [LinearOrderedField α]

/-- C28 (as stated, refuted): the curve built by `add_point(0, 1.0)` and
`add_point(1, 0.95)` holds two knots with strictly increasing times, and
`apply_cubic_spline_smoothing` fails on it with "Time too small for rate calculation". -/
theorem C28_counterexample :
    (((YieldCurve.init CompoundingType.CONTINUOUS InterpolationType.LINEAR :
        YieldCurve ℚ).add_point_state 0 1).2.add_point_state 1 (19 / 20)).1 = Except.ok () ∧
    (((YieldCurve.init CompoundingType.CONTINUOUS InterpolationType.LINEAR :
        YieldCurve ℚ).add_point_state 0 1).2.add_point_state 1 (19 / 20)).2.times_ = [0, 1] ∧
    ((((YieldCurve.init CompoundingType.CONTINUOUS InterpolationType.LINEAR :
        YieldCurve ℚ).add_point_state 0 1).2.add_point_state 1
          (19 / 20)).2.apply_cubic_spline_smoothing libm_unused).1 =
      Except.error (Exn.invalid_argument "Time too small for rate calculation") := by
  have hst : ((YieldCurve.init CompoundingType.CONTINUOUS InterpolationType.LINEAR :
        YieldCurve ℚ).add_point_state 0 1).2.add_point_state 1 (19 / 20) =
      (Except.ok (), YieldCurve.mk [0, 1] [1, 19 / 20] CompoundingType.CONTINUOUS
        InterpolationType.LINEAR none false) := by
    norm_num [YieldCurve.add_point_state, YieldCurve.init, DiscountFactor.is_valid,
      DiscountFactor.MIN_DF, DiscountFactor.MAX_DF]
  rw [hst]
  refine ⟨rfl, rfl, ?_⟩
  unfold YieldCurve.apply_cubic_spline_smoothing
  rw [if_neg (by simp), zero_rates_first_small libm_unused _ 0 1 [1] [19 / 20] rfl rfl
    (by norm_num)]

/-- C28 (amended): `apply_cubic_spline_smoothing` fails (leaving the curve as it was)
when the curve holds fewer than 2 knots, and succeeds on every reachable curve that
holds at least 2 knots with strictly increasing times all of which are at least
`1e-10`; afterwards `use_spline_` is set, `spline_` is fitted and every query at a
time `≥ 1e-10` evaluates the spline. -/
theorem C28_smoothing_preconditions (m : Libm α) (c : YieldCurve α) (hr : c.Reachable m) :
    (c.times_.length < 2 →
      (c.apply_cubic_spline_smoothing m).1 =
        Except.error (Exn.runtime_error "Need at least 2 points for spline smoothing") ∧
      (c.apply_cubic_spline_smoothing m).2 = c) ∧
    (2 ≤ c.times_.length → c.times_.Sorted (· < ·) → (∀ t ∈ c.times_, 1e-10 ≤ t) →
      (c.apply_cubic_spline_smoothing m).1 = Except.ok () ∧
      (c.apply_cubic_spline_smoothing m).2.use_spline_ = true ∧
      ∃ sp, (c.apply_cubic_spline_smoothing m).2.spline_ = some sp ∧ sp.is_fitted = true ∧
        ∀ t, 1e-10 ≤ t →
          (c.apply_cubic_spline_smoothing m).2.get_discount_factor m t =
            (sp.evaluate t >>= fun rate =>
              DiscountFactor.from_zero_rate m t rate c.compounding_type_)) := by
  constructor
  · intro h
    rw [smoothing_too_few m c h]
    exact ⟨rfl, rfl⟩
  · intro h2 hs hge
    obtain ⟨zr, hzr, hzl, hok, heq⟩ := smoothing_ok m c (reachable_invariant m c hr) h2 hs hge
    obtain ⟨-, -, -, -, hf, -⟩ := fit_spec (CubicSpline.init : CubicSpline α) c.times_ zr
      hzl.symm h2 hs
    rw [heq]
    refine ⟨rfl, rfl, _, rfl, hf, ?_⟩
    intro t ht
    have hne : c.times_ ≠ [] := by
      intro h
      rw [h] at h2
      simp at h2
    refine get_discount_factor_spline_mode m _ _ zr ?_ ?_ ?_ hf ?_ t ht
    · exact hne
    · rfl
    · rfl
    · exact hzr

/-- C28 witness: the curve with the knots `(1, 0.95)` and `(2, 0.90)`. -/
theorem C28_smoothing_preconditions_witness :
    ((((YieldCurve.init CompoundingType.CONTINUOUS InterpolationType.LINEAR :
        YieldCurve ℚ).add_point_state 1 (19 / 20)).2.add_point_state 2
          (9 / 10)).2.apply_cubic_spline_smoothing libm_unused).1 = Except.ok () :=
  ((C28_smoothing_preconditions libm_unused
    (((YieldCurve.init CompoundingType.CONTINUOUS InterpolationType.LINEAR :
        YieldCurve ℚ).add_point_state 1 (19 / 20)).2.add_point_state 2 (9 / 10)).2
    (YieldCurve.Reachable.add_point _ 2 (9 / 10)
      (YieldCurve.Reachable.add_point _ 1 (19 / 20) (YieldCurve.Reachable.init _ _)))).2
    (by norm_num [YieldCurve.add_point_state, YieldCurve.init, DiscountFactor.is_valid,
      DiscountFactor.MIN_DF, DiscountFactor.MAX_DF])
    (by norm_num [YieldCurve.add_point_state, YieldCurve.init, DiscountFactor.is_valid,
      DiscountFactor.MIN_DF, DiscountFactor.MAX_DF])
    (by norm_num [YieldCurve.add_point_state, YieldCurve.init, DiscountFactor.is_valid,
      DiscountFactor.MIN_DF, DiscountFactor.MAX_DF])).1

end smoothing_claims
section smoothing_real

/-- Over the reals, converting a valid discount factor to a zero rate and back gives
the discount factor again. -/
theorem to_from_round_trip (t d r : ℝ) (conv : CompoundingType) (ht : 1e-10 ≤ t)
    (hd0 : 0 < d) (hd1 : d ≤ 1)
    (hr : DiscountFactor.to_zero_rate (Libm.mk Real.exp Real.log Real.rpow) t d conv
      = Except.ok r) :
    DiscountFactor.from_zero_rate (Libm.mk Real.exp Real.log Real.rpow) t r conv
      = Except.ok d := by
  have ht0 : (0 : ℝ) < t := lt_of_lt_of_le (by norm_num) ht
  have htne : t ≠ 0 := ht0.ne'
  unfold DiscountFactor.to_zero_rate at hr
  rw [if_neg (not_lt.mpr ht), if_neg (by
    rintro (h | h)
    · exact absurd hd0 (not_lt.mpr h)
    · exact absurd h (not_lt.mpr hd1))] at hr
  unfold DiscountFactor.from_zero_rate
  rw [if_neg (not_lt.mpr ht0.le), if_neg (not_lt.mpr ht)]
  have hpow : ∀ k : ℝ, 0 < k → 1 / (d ^ (-1 / (k * t))) ^ (k * t) = d := by
    intro k hk
    have hk' : k * t ≠ 0 := (mul_pos hk ht0).ne'
    rw [← Real.rpow_mul hd0.le, show -1 / (k * t) * (k * t) = -1 from by field_simp,
      Real.rpow_neg_one, one_div, inv_inv]
  cases conv with
  | CONTINUOUS =>
    simp only [Except.ok.injEq, Real.rpow_eq_pow] at hr ⊢
    rw [← hr, show -(-Real.log d / t) * t = Real.log d from by field_simp,
      Real.exp_log hd0]
  | ANNUAL =>
    simp only [Except.ok.injEq, Real.rpow_eq_pow] at hr ⊢
    rw [← hr, show 1 + (d ^ (-1 / t) - 1) = d ^ (-1 / (1 * t)) from by rw [one_mul]; ring]
    have := hpow 1 one_pos
    rw [one_mul] at this ⊢
    exact this
  | SEMI_ANNUAL =>
    simp only [Except.ok.injEq, Real.rpow_eq_pow] at hr ⊢
    rw [← hr, show 1 + 2 * (d ^ (-1 / (2 * t)) - 1) / 2 = d ^ (-1 / (2 * t)) from by ring]
    exact hpow 2 (by norm_num)
  | QUARTERLY =>
    simp only [Except.ok.injEq, Real.rpow_eq_pow] at hr ⊢
    rw [← hr, show 1 + 4 * (d ^ (-1 / (4 * t)) - 1) / 4 = d ^ (-1 / (4 * t)) from by ring]
    exact hpow 4 (by norm_num)

end smoothing_real

section bootstrap_reachable

variable {α : Type} [LinearOrderedField α] [FloorRing α]

theorem bootstrap_loop_reachable (m : Libm α) :
    ∀ (l : List (BondData α)) (c0 c : YieldCurve α), c0.Reachable m →
      l.foldlM (Bootstrapper.bootstrap_step m) c0 = Except.ok c → c.Reachable m := by
  intro l
  induction l with
  | nil =>
    intro c0 c h0 h
    simp only [List.foldlM_nil, pure, Except.pure, Except.ok.injEq] at h
    rw [← h]
    exact h0
  | cons b rest ih =>
    intro c0 c h0 h
    rw [List.foldlM_cons] at h
    cases hstep : Bootstrapper.bootstrap_step m c0 b with
    | error e =>
      rw [hstep] at h
      cases h
    | ok c1 =>
      rw [hstep] at h
      refine ih c1 c ?_ h
      unfold Bootstrapper.bootstrap_step at hstep
      cases hsolve : Bootstrapper.solve_for_discount_factor m b c0 with
      | error e =>
        rw [hsolve] at hstep
        cases hstep
      | ok df =>
        rw [hsolve] at hstep
        simp only [bind, Except.bind] at hstep
        rw [add_point_eq_state] at hstep
        cases hst : (c0.add_point_state b.maturity df).1 with
        | error e =>
          rw [hst] at hstep
          cases hstep
        | ok u =>
          rw [hst] at hstep
          simp only [Except.ok.injEq] at hstep
          rw [← hstep]
          exact YieldCurve.Reachable.add_point c0 b.maturity df h0

/-- The curve returned by `bootstrap` is reachable. -/
theorem bootstrap_reachable (self : Bootstrapper) (m : Libm α) (bonds : List (BondData α))
    (c : YieldCurve α) (h : self.bootstrap m bonds = Except.ok c) : c.Reachable m :=
  bootstrap_loop_reachable m _ _ c (YieldCurve.Reachable.init _ _)
    (bootstrap_ok self m bonds c h).2

end bootstrap_reachable
section smoothing_bootstrap

variable {α : Type} [LinearOrderedField α] [FloorRing α]

theorem bootstrap_with_spline_eq (self : Bootstrapper) (m : Libm α)
    (bonds : List (BondData α)) (c : YieldCurve α) (h : self.bootstrap m bonds = Except.ok c)
    (hok : (c.apply_cubic_spline_smoothing m).1 = Except.ok ()) :
    self.bootstrap_with_spline m bonds = Except.ok (c.apply_cubic_spline_smoothing m).2 := by
  unfold Bootstrapper.bootstrap_with_spline
  rw [h]
  simp only [bind, Except.bind]
  cases hx : c.apply_cubic_spline_smoothing m with
  | mk r c2 =>
    rw [hx] at hok
    simp only at hok
    subst hok
    rfl

end smoothing_bootstrap

/-! ## Lemmas on the model of `double` with infinities -/

section double_lemmas

variable {α : Type} [LinearOrderedField α] [FloorRing α]

omit [FloorRing α] in
theorem Double.num_lt_num (x y : α) : (Double.num x < Double.num y) ↔ x < y := by
  show Double.lt (Double.num x) (Double.num y) = true ↔ x < y
  simp [Double.lt]

omit [FloorRing α] in
theorem Double.num_le_num (x y : α) : (Double.num x ≤ Double.num y) ↔ x ≤ y := by
  show Double.le (Double.num x) (Double.num y) = true ↔ x ≤ y
  simp [Double.le]

omit [FloorRing α] in
theorem Double.zero_def : (0 : Double α) = Double.num 0 := rfl

omit [FloorRing α] in
theorem Double.one_def : (1 : Double α) = Double.num 1 := rfl

omit [FloorRing α] in
theorem Double.two_def : (2 : Double α) = Double.num 2 := rfl

omit [FloorRing α] in
theorem Double.four_def : (4 : Double α) = Double.num 4 := rfl

omit [FloorRing α] in
theorem Double.eps_def : (1e-10 : Double α) = Double.num 1e-10 := rfl

omit [FloorRing α] in
theorem Double.neg_num (x : α) : -Double.num x = Double.num (-x) := rfl

omit [FloorRing α] in
theorem Double.num_add_num (x y : α) : Double.num x + Double.num y = Double.of_exact (x + y) :=
  rfl

omit [FloorRing α] in
theorem Double.num_sub_num (x y : α) : Double.num x - Double.num y = Double.of_exact (x - y) := by
  show Double.add (Double.num x) (Double.neg (Double.num y)) = _
  simp only [Double.neg, Double.add, sub_eq_add_neg]

omit [FloorRing α] in
theorem Double.num_mul_num (x y : α) : Double.num x * Double.num y = Double.of_exact (x * y) :=
  rfl

omit [FloorRing α] in
theorem Double.num_div_num (x y : α) (hy : y ≠ 0) :
    Double.num x / Double.num y = Double.of_exact (x / y) := by
  show Double.div (Double.num x) (Double.num y) = _
  simp only [Double.div, hy, if_false]

omit [FloorRing α] in
theorem Double.DBL_MAX_ge : (2 : α) ^ 1023 ≤ Double.DBL_MAX := by
  unfold Double.DBL_MAX
  have h1 : (2 : α) ^ 1024 = 2 ^ 1023 + 2 ^ 1023 := by ring
  have h2 : (2 : α) ^ 971 ≤ 2 ^ 1023 := pow_le_pow_right₀ (by norm_num) (by norm_num)
  linarith

omit [FloorRing α] in
theorem Double.of_exact_eq (x : α) (h1 : -Double.DBL_MAX ≤ x) (h2 : x ≤ Double.DBL_MAX) :
    Double.of_exact x = Double.num x := by
  unfold Double.of_exact
  rw [if_neg (not_lt.mpr h2), if_neg (not_lt.mpr h1)]

omit [FloorRing α] in
theorem Double.of_exact_overflow (x : α) (h : Double.DBL_MAX < x) :
    Double.of_exact x = Double.inf false := by
  unfold Double.of_exact
  rw [if_pos h]

theorem Double.pow_num_num (m : Libm α) (a b : α) (ha : 0 < a) (ha1 : a ≠ 1) (hb : b ≠ 0) :
    (Double.libm m).pow (Double.num a) (Double.num b) = Double.of_exact (m.pow a b) := by
  show Double.pow m (Double.num a) (Double.num b) = _
  unfold Double.pow
  rw [if_neg (by simpa using hb), if_neg (by simpa using ha1)]
  simp only [ha, if_true]

theorem Double.pow_inf_num (m : Libm α) (b : α) (hb : 0 < b) :
    (Double.libm m).pow (Double.inf false) (Double.num b) = Double.inf false := by
  show Double.pow m (Double.inf false) (Double.num b) = _
  unfold Double.pow
  rw [if_neg (by simpa using hb.ne'), if_neg (by simp)]
  simp [not_lt.mpr hb.le]

theorem Double.exp_num (m : Libm α) (a : α) :
    (Double.libm m).exp (Double.num a) = Double.of_exact (m.exp a) := rfl

theorem Double.log_num (m : Libm α) (a : α) (ha : 0 < a) :
    (Double.libm m).log (Double.num a) = Double.of_exact (m.log a) := by
  show Double.log m (Double.num a) = _
  simp only [Double.log, not_lt.mpr ha.le, ha.ne', if_false]

omit [FloorRing α] in
theorem Double.DBL_MAX_pos : (0 : α) < Double.DBL_MAX :=
  lt_of_lt_of_le (by positivity) Double.DBL_MAX_ge

omit [FloorRing α] in
theorem Double.of_exact_eq_num (x r : α) (h : Double.of_exact x = Double.num r) :
    x = r ∧ -Double.DBL_MAX ≤ x ∧ x ≤ Double.DBL_MAX := by
  unfold Double.of_exact at h
  by_cases h1 : (Double.DBL_MAX : α) < x
  · rw [if_pos h1] at h
    cases h
  · rw [if_neg h1] at h
    by_cases h2 : x < -(Double.DBL_MAX : α)
    · rw [if_pos h2] at h
      cases h
    · rw [if_neg h2] at h
      cases h
      exact ⟨rfl, not_lt.mp h2, not_lt.mp h1⟩

omit [FloorRing α] in
theorem Double.of_exact_nonneg (x : α) (hx : 0 ≤ x) :
    (Double.of_exact x = Double.num x ∧ x ≤ Double.DBL_MAX) ∨
      Double.of_exact x = Double.inf false := by
  by_cases h1 : (Double.DBL_MAX : α) < x
  · exact Or.inr (Double.of_exact_overflow x h1)
  · refine Or.inl ⟨Double.of_exact_eq x ?_ (not_lt.mp h1), not_lt.mp h1⟩
    linarith [(Double.DBL_MAX_pos : (0 : α) < Double.DBL_MAX)]

end double_lemmas

/-! ## Smoothing and the knots -/

section smoothing_knots

variable {α : Type} [LinearOrderedField α]

/-- After a successful smoothing the curve returns, at every knot time, the discount factor
of the knot converted to a zero rate and back. -/
theorem smoothing_at_knots (m : Libm α) (c : YieldCurve α)
    (hinv : c.invariant m)
    (h2 : 2 ≤ c.times_.length) (hs : c.times_.Sorted (· < ·))
    (hge : ∀ t ∈ c.times_, 1e-10 ≤ t) (h64 : c.times_.length < 2 ^ 64) :
    (c.apply_cubic_spline_smoothing m).1 = Except.ok () ∧
    (c.apply_cubic_spline_smoothing m).2.times_ = c.times_ ∧
    (c.apply_cubic_spline_smoothing m).2.discount_factors_ = c.discount_factors_ ∧
    ∀ (i : Nat) (ti di : α), c.times_[i]? = some ti → c.discount_factors_[i]? = some di →
      (c.apply_cubic_spline_smoothing m).2.get_discount_factor m ti =
        (DiscountFactor.to_zero_rate m ti di c.compounding_type_ >>= fun r =>
          DiscountFactor.from_zero_rate m ti r c.compounding_type_) := by
  obtain ⟨zr, hzr, hzl, hok, heq⟩ := smoothing_ok _ c hinv h2 hs hge
  obtain ⟨-, -, -, -, hf, -⟩ := fit_spec (CubicSpline.init : CubicSpline α) c.times_ zr
    hzl.symm h2 hs
  rw [heq]
  refine ⟨rfl, rfl, rfl, ?_⟩
  intro i ti di hti hdi
  have hne : c.times_ ≠ [] := by
    intro h
    rw [h] at h2
    simp at h2
  have hti10 : 1e-10 ≤ ti := hge ti (List.getElem?_mem hti)
  obtain ⟨di', r, hdi', hri, hto⟩ := (zero_rates_spec _ c zr hzr).2 i ti hti
  rw [hdi] at hdi'
  cases hdi'
  have hmode := get_discount_factor_spline_mode m
    (YieldCurve.mk c.times_ c.discount_factors_ c.compounding_type_ c.interpolator_
      (some ((CubicSpline.init : CubicSpline α).fit c.times_ zr).2) true)
    _ zr hne rfl rfl hf hzr ti hti10
  rw [hmode, fit_evaluate_knot _ c.times_ zr hzl.symm h2 hs h64 i ti r hti hri, hto]

end smoothing_knots

section smoothing_knots_claims

variable {α : Type} [LinearOrderedField α] [FloorRing α]

end smoothing_knots_claims

section smoothing_knots_witness

/-- Over the reals, converting a discount factor in `(0, 1]` to a zero rate and back
gives the discount factor again. -/
theorem inverse_round_trip_real (t df : ℝ) (conv : CompoundingType) (ht : 1e-10 ≤ t)
    (h0 : 0 < df) (h1 : df ≤ 1) :
    (DiscountFactor.to_zero_rate (Libm.mk Real.exp Real.log Real.rpow) t df conv >>=
      fun r => DiscountFactor.from_zero_rate (Libm.mk Real.exp Real.log Real.rpow) t r conv)
      = Except.ok df := by
  obtain ⟨r, hr⟩ := to_zero_rate_total (Libm.mk Real.exp Real.log Real.rpow) t df conv
    ht h0 h1
  rw [hr]
  exact to_from_round_trip t df r conv ht h0 h1 hr

end smoothing_knots_witness

section smoothing_ieee

/-- On `double`, `fit` on two points with `x1 - x0 > 0` returns normally and stores the
points, whatever the values `y0`, `y1` are. -/
theorem ieee_fit_two (s : CubicSpline (Double ℝ)) (x0 x1 y0 y1 : Double ℝ)
    (h : ¬ (x1 - x0 ≤ 0)) :
    (ieee.CubicSpline.fit s [x0, x1] [y0, y1]).1 = Except.ok () ∧
    (ieee.CubicSpline.fit s [x0, x1] [y0, y1]).2.x_ = [x0, x1] ∧
    (ieee.CubicSpline.fit s [x0, x1] [y0, y1]).2.y_ = [y0, y1] ∧
    (ieee.CubicSpline.fit s [x0, x1] [y0, y1]).2.fitted_ = true := by
  have hh : ieee.CubicSpline.fit_h [x0, x1] 1 = [x1 - x0] := rfl
  unfold ieee.CubicSpline.fit
  simp only [List.length_cons, List.length_nil, ne_eq, not_true_eq_false, if_false,
    Nat.lt_irrefl, Nat.reduceAdd, Nat.add_one_sub_one, hh, List.any_cons, List.any_nil,
    Bool.or_false, decide_eq_true_eq, h]
  exact ⟨trivial, trivial, trivial, trivial⟩

/-- On `double`, `to_zero_rate(5e-4, 0.5)` with annual compounding is `+∞`:
`pow(0.5, -2000) = 2^2000` exceeds `DBL_MAX`. -/
theorem ieee_to_zero_rate_overflow :
    ieee.DiscountFactor.to_zero_rate (Double.libm (Libm.mk Real.exp Real.log Real.rpow))
      (Double.num (1 / 2000)) (Double.num (1 / 2)) CompoundingType.ANNUAL
        = Except.ok (Double.inf false) := by
  have hM : (2 : ℝ) ^ 1023 ≤ Double.DBL_MAX := Double.DBL_MAX_ge
  have h1 : ¬ ((1 / 2000 : ℝ) < 1e-10) := by norm_num
  have h2 : ¬ ((1 / 2 : ℝ) ≤ 0 ∨ (1 / 2 : ℝ) > 1) := by norm_num
  have hp : ((1 / 2 : ℝ)) ^ (-2000 : ℝ) = 2 ^ 2000 := by
    rw [Real.rpow_neg (by norm_num), show (2000 : ℝ) = ((2000 : ℕ) : ℝ) from by norm_num,
      Real.rpow_natCast]
    norm_num
  have hbig : (Double.DBL_MAX : ℝ) < 2 ^ 2000 := by
    unfold Double.DBL_MAX
    have : (2 : ℝ) ^ 1024 < 2 ^ 2000 := pow_lt_pow_right₀ (by norm_num) (by norm_num)
    have : (0 : ℝ) < 2 ^ 971 := by positivity
    linarith
  unfold ieee.DiscountFactor.to_zero_rate
  simp only [Double.eps_def, Double.zero_def, Double.one_def, Double.num_lt_num,
    Double.num_le_num, gt_iff_lt, h1, h2, if_false]
  rw [Double.neg_num, Double.num_div_num _ _ (by norm_num),
    show (-1 : ℝ) / (1 / 2000) = -2000 from by norm_num,
    Double.of_exact_eq _ (by linarith [show (2000 : ℝ) ≤ 2 ^ 1023 from by norm_num])
      (by linarith [show (0 : ℝ) ≤ 2 ^ 1023 from by positivity])]
  rw [Double.pow_num_num _ _ _ (by norm_num) (by norm_num) (by norm_num)]
  simp only [Real.rpow_eq_pow, hp]
  rw [Double.of_exact_overflow _ hbig]
  rfl

/-- On `double`, `from_zero_rate(5e-4, +∞)` with annual compounding is
`1 / pow(1 + ∞, 5e-4) = 1 / ∞ = 0`. -/
theorem ieee_from_zero_rate_inf :
    ieee.DiscountFactor.from_zero_rate (Double.libm (Libm.mk Real.exp Real.log Real.rpow))
      (Double.num (1 / 2000)) (Double.inf false) CompoundingType.ANNUAL
        = Except.ok (Double.num 0) := by
  have h0 : ¬ ((1 / 2000 : ℝ) < 0) := by norm_num
  have h1 : ¬ ((1 / 2000 : ℝ) < 1e-10) := by norm_num
  unfold ieee.DiscountFactor.from_zero_rate
  simp only [Double.eps_def, Double.zero_def, Double.one_def, Double.num_lt_num, h0, h1,
    if_false]
  rw [show Double.num (1 : ℝ) + Double.inf false = Double.inf false from rfl,
    Double.pow_inf_num _ _ (by norm_num)]
  rfl

/-- On `double`, `to_zero_rate(1, 0.4)` with annual compounding is `pow(0.4, -1) - 1 = 1.5`. -/
theorem ieee_to_zero_rate_second :
    ieee.DiscountFactor.to_zero_rate (Double.libm (Libm.mk Real.exp Real.log Real.rpow))
      (Double.num 1) (Double.num (2 / 5)) CompoundingType.ANNUAL
        = Except.ok (Double.num (3 / 2)) := by
  have hM : (2 : ℝ) ^ 1023 ≤ Double.DBL_MAX := Double.DBL_MAX_ge
  have hone : (1 : ℝ) ≤ 2 ^ 1023 := one_le_pow₀ (by norm_num)
  have h1 : ¬ ((1 : ℝ) < 1e-10) := by norm_num
  have h2 : ¬ ((2 / 5 : ℝ) ≤ 0 ∨ (2 / 5 : ℝ) > 1) := by norm_num
  unfold ieee.DiscountFactor.to_zero_rate
  simp only [Double.eps_def, Double.zero_def, Double.one_def, Double.num_lt_num,
    Double.num_le_num, gt_iff_lt, h1, h2, if_false]
  rw [Double.neg_num, Double.num_div_num _ _ (by norm_num), div_one,
    Double.of_exact_eq _ (by linarith) (by linarith),
    Double.pow_num_num _ _ _ (by norm_num) (by norm_num) (by norm_num)]
  simp only [Real.rpow_eq_pow, Real.rpow_neg_one]
  rw [Double.of_exact_eq _ (by norm_num; linarith) (by norm_num; linarith),
    Double.num_sub_num, Double.of_exact_eq _ (by norm_num; linarith) (by norm_num; linarith)]
  norm_num

/-- The zero rates of the curve with the knots `(5e-4, 0.5)` and `(1, 0.4)`, annual
compounding, on `double`. -/
theorem ieee_demo_zero_rates (sp : Option (CubicSpline (Double ℝ))) (u : Bool) :
    ieee.YieldCurve.zero_rates (Double.libm (Libm.mk Real.exp Real.log Real.rpow))
      (YieldCurve.mk [Double.num (1 / 2000), Double.num 1] [Double.num (1 / 2), Double.num (2 / 5)]
        CompoundingType.ANNUAL InterpolationType.LINEAR sp u)
      = Except.ok [Double.inf false, Double.num (3 / 2)] := by
  unfold ieee.YieldCurve.zero_rates
  simp only [List.length_cons, List.length_nil, Nat.reduceAdd,
    show List.range 2 = [0, 1] from rfl, List.mapM_cons, List.mapM_nil, vec_at,
    List.getElem?_cons_zero, List.getElem?_cons_succ, bind, Except.bind, pure, Except.pure,
    ieee_to_zero_rate_overflow, ieee_to_zero_rate_second]

/-- The rate round trip on `double` at 2000 years and a rate of 100% with annual
compounding: `pow(2, 2000)` overflows, `from_zero_rate` returns `1/∞ = 0`, and
`to_zero_rate` of it throws "Invalid discount factor". -/
theorem ieee_rate_round_trip_overflow :
    ieee.DiscountFactor.from_zero_rate (Double.libm (Libm.mk Real.exp Real.log Real.rpow))
      (Double.num 2000) (Double.num 1) CompoundingType.ANNUAL = Except.ok (Double.num 0) ∧
    ieee.DiscountFactor.to_zero_rate (Double.libm (Libm.mk Real.exp Real.log Real.rpow))
      (Double.num 2000) (Double.num 0) CompoundingType.ANNUAL =
        Except.error (Exn.invalid_argument "Invalid discount factor") := by
  have hM : (2 : ℝ) ^ 1023 ≤ Double.DBL_MAX := Double.DBL_MAX_ge
  have hsmall : (2 : ℝ) ≤ 2 ^ 1023 := by norm_num
  have hbig : (Double.DBL_MAX : ℝ) < 2 ^ 2000 := by
    unfold Double.DBL_MAX
    have : (2 : ℝ) ^ 1024 < 2 ^ 2000 := pow_lt_pow_right₀ (by norm_num) (by norm_num)
    have : (0 : ℝ) < 2 ^ 971 := by positivity
    linarith
  have hp : (2 : ℝ) ^ (2000 : ℝ) = 2 ^ 2000 := by
    rw [show (2000 : ℝ) = ((2000 : ℕ) : ℝ) from by norm_num, Real.rpow_natCast]
  have h0 : ¬ ((2000 : ℝ) < 0) := by norm_num
  have h1 : ¬ ((2000 : ℝ) < 1e-10) := by norm_num
  constructor
  · unfold ieee.DiscountFactor.from_zero_rate
    simp only [Double.eps_def, Double.zero_def, Double.one_def, Double.num_lt_num, h0, h1,
      if_false]
    rw [Double.num_add_num, show (1 : ℝ) + 1 = 2 from by norm_num,
      Double.of_exact_eq _ (by linarith) (by linarith),
      Double.pow_num_num _ _ _ (by norm_num) (by norm_num) (by norm_num)]
    simp only [Real.rpow_eq_pow, hp]
    rw [Double.of_exact_overflow _ hbig]
    rfl
  · unfold ieee.DiscountFactor.to_zero_rate
    simp only [Double.eps_def, Double.zero_def, Double.one_def, Double.num_lt_num,
      Double.num_le_num, gt_iff_lt, h1, if_false]
    rw [if_pos (Or.inl le_rfl)]

/-- On `double`, `add_point` with a time `≥ 0` and a discount factor in `(1e-10, 1]` appends
the knot. -/
theorem ieee_add_point_eval (c : YieldCurve (Double ℝ)) (t d : ℝ) (ht : 0 ≤ t)
    (hd : 1e-10 < d) (hd1 : d ≤ 1) :
    ieee.YieldCurve.add_point_state c (Double.num t) (Double.num d) =
      (Except.ok (), YieldCurve.mk (c.times_ ++ [Double.num t])
        (c.discount_factors_ ++ [Double.num d]) c.compounding_type_ c.interpolator_
        c.spline_ false) := by
  have h0 : ¬ (Double.num t < 0) := by
    rw [Double.zero_def, Double.num_lt_num]
    exact not_lt.mpr ht
  have h1 : ieee.DiscountFactor.is_valid (Double.num d) = true := by
    simp only [ieee.DiscountFactor.is_valid, ieee.DiscountFactor.MIN_DF,
      ieee.DiscountFactor.MAX_DF, Double.eps_def, Double.one_def, gt_iff_lt,
      Double.num_lt_num, Double.num_le_num, Bool.and_eq_true, decide_eq_true_eq]
    exact ⟨hd, hd1⟩
  unfold ieee.YieldCurve.add_point_state
  rw [if_neg h0, h1]
  rfl

end smoothing_ieee

section smoothing_permanence

variable {α : Type} [LinearOrderedField α]

/-- What a normal return of `apply_cubic_spline_smoothing` tells about the call. -/
theorem smoothing_ok_inv (m : Libm α) (c : YieldCurve α)
    (hok : (c.apply_cubic_spline_smoothing m).1 = Except.ok ()) :
    2 ≤ c.times_.length ∧ ∃ zr, c.zero_rates m = Except.ok zr ∧
      ((CubicSpline.init : CubicSpline α).fit c.times_ zr).1 = Except.ok () ∧
      c.apply_cubic_spline_smoothing m = (Except.ok (), { c with
        spline_ := some ((CubicSpline.init : CubicSpline α).fit c.times_ zr).2,
        use_spline_ := true }) := by
  unfold YieldCurve.apply_cubic_spline_smoothing at hok ⊢
  by_cases h2 : c.times_.length < 2
  · rw [if_pos h2] at hok
    cases hok
  · rw [if_neg h2] at hok ⊢
    refine ⟨not_lt.mp h2, ?_⟩
    cases hzr : c.zero_rates m with
    | error e =>
      rw [hzr] at hok
      cases hok
    | ok zr =>
      rw [hzr] at hok
      simp only at hok ⊢
      cases hfit : ((CubicSpline.init : CubicSpline α).fit c.times_ zr).1 with
      | error e =>
        rw [hfit] at hok
        cases hok
      | ok u => exact ⟨zr, rfl, hfit, rfl⟩

/-- C29 (amended): smoothing lasts until the next `add_point`.  Once
`apply_cubic_spline_smoothing` has succeeded, `use_spline_` is set, `spline_` is
fitted and `get_discount_factor` at every time `≥ 1e-10` is computed from the spline;
a repeated `apply_cubic_spline_smoothing` succeeds and leaves the curve as it is; a
later successful `add_point` clears `use_spline_`, after which `get_discount_factor` is
computed by the interpolation strategy on the raw knots. -/
theorem C29_smoothing_until_add_point (m : Libm α) (c : YieldCurve α)
    (hok : (c.apply_cubic_spline_smoothing m).1 = Except.ok ()) :
    (c.apply_cubic_spline_smoothing m).2.use_spline_ = true ∧
    (∃ sp, (c.apply_cubic_spline_smoothing m).2.spline_ = some sp ∧ sp.is_fitted = true ∧
      ∀ t, 1e-10 ≤ t →
        (c.apply_cubic_spline_smoothing m).2.get_discount_factor m t =
          (sp.evaluate t >>= fun rate =>
            DiscountFactor.from_zero_rate m t rate c.compounding_type_)) ∧
    (c.apply_cubic_spline_smoothing m).2.apply_cubic_spline_smoothing m =
      (Except.ok (), (c.apply_cubic_spline_smoothing m).2) ∧
    (∀ time d, ((c.apply_cubic_spline_smoothing m).2.add_point_state time d).1
        = Except.ok () →
      ((c.apply_cubic_spline_smoothing m).2.add_point_state time d).2.use_spline_ = false ∧
      ∀ t, 1e-10 ≤ t →
        ((c.apply_cubic_spline_smoothing m).2.add_point_state time d).2.get_discount_factor
            m t =
          Interpolator.interpolate m c.interpolator_ t (c.times_ ++ [time])
            (c.discount_factors_ ++ [d])) := by
  obtain ⟨h2, zr, hzr, hfit, heq⟩ := smoothing_ok_inv m c hok
  obtain ⟨hl, -, hs⟩ := (fit_ok_iff _ _ _).mp hfit
  obtain ⟨-, -, -, -, hf, -⟩ := fit_spec (CubicSpline.init : CubicSpline α) c.times_ zr
    hl h2 hs
  have hne : c.times_ ≠ [] := by
    intro h
    rw [h] at h2
    simp at h2
  rw [heq]
  refine ⟨rfl, ⟨_, rfl, hf, ?_⟩, ?_, ?_⟩
  · intro t ht
    refine get_discount_factor_spline_mode m _ _ zr ?_ ?_ ?_ hf ?_ t ht
    · exact hne
    · rfl
    · rfl
    · exact hzr
  · have hzr2 : YieldCurve.zero_rates m (YieldCurve.mk c.times_ c.discount_factors_
        c.compounding_type_ c.interpolator_
        (some ((CubicSpline.init : CubicSpline α).fit c.times_ zr).2) true) =
        Except.ok zr := hzr
    unfold YieldCurve.apply_cubic_spline_smoothing
    simp only
    rw [if_neg (not_lt.mpr h2), hzr2]
    simp only [hfit]
  · intro time d hadd
    unfold YieldCurve.add_point_state at hadd ⊢
    by_cases h1 : time < 0
    · rw [if_pos h1] at hadd
      cases hadd
    · rw [if_neg h1] at hadd ⊢
      by_cases hv : DiscountFactor.is_valid d = true
      · simp only [hv, Bool.not_true, Bool.false_eq_true, if_false]
        refine ⟨trivial, ?_⟩
        intro t ht
        refine (get_discount_factor_interpolation_mode m _ ?_ ?_ t ht).trans rfl
        · simp
        · rintro ⟨hu, -⟩
          cases hu
      · simp only [hv, Bool.not_false, if_true] at hadd
        cases hadd

/-- C29 witness: smoothing the curve with the knots `(1, 0.95)` and `(2, 0.90)`. -/
theorem C29_smoothing_until_add_point_witness :
    ((((YieldCurve.init CompoundingType.CONTINUOUS InterpolationType.LINEAR :
        YieldCurve ℚ).add_point_state 1 (19 / 20)).2.add_point_state 2
          (9 / 10)).2.apply_cubic_spline_smoothing libm_unused).2.use_spline_ = true :=
  (C29_smoothing_until_add_point libm_unused
    (((YieldCurve.init CompoundingType.CONTINUOUS InterpolationType.LINEAR :
        YieldCurve ℚ).add_point_state 1 (19 / 20)).2.add_point_state 2 (9 / 10)).2
    (by
      obtain ⟨zr, -, -, -, heq⟩ := smoothing_ok libm_unused
        (((YieldCurve.init CompoundingType.CONTINUOUS InterpolationType.LINEAR :
          YieldCurve ℚ).add_point_state 1 (19 / 20)).2.add_point_state 2 (9 / 10)).2
        (reachable_invariant _ _ (YieldCurve.Reachable.add_point _ 2 (9 / 10)
          (YieldCurve.Reachable.add_point _ 1 (19 / 20) (YieldCurve.Reachable.init _ _))))
        (by norm_num [YieldCurve.add_point_state, YieldCurve.init, DiscountFactor.is_valid,
          DiscountFactor.MIN_DF, DiscountFactor.MAX_DF])
        (by norm_num [YieldCurve.add_point_state, YieldCurve.init, DiscountFactor.is_valid,
          DiscountFactor.MIN_DF, DiscountFactor.MAX_DF])
        (by norm_num [YieldCurve.add_point_state, YieldCurve.init, DiscountFactor.is_valid,
          DiscountFactor.MIN_DF, DiscountFactor.MAX_DF])
      rw [heq])).1

end smoothing_permanence
section smoothing_permanence_real

/-- C29 (as stated, refuted): the curve with the knots `(1, 0.9)` and `(2, 0.8)` is
smoothed and then receives the knot `(3, 0.7)`.  Afterwards `use_spline_` is cleared
and `get_discount_factor(3)` is the interpolation strategy's value `0.7`, whereas the
fitted spline, still stored in the curve, gives a different value at `3`. -/
theorem C29_counterexample :
    ((YieldCurve.init CompoundingType.CONTINUOUS InterpolationType.LINEAR :
        YieldCurve ℝ).add_point_state 1 (9 / 10)).2.add_point_state 2 (4 / 5) =
      (Except.ok (), YieldCurve.mk [1, 2] [9 / 10, 4 / 5] CompoundingType.CONTINUOUS
        InterpolationType.LINEAR none false) ∧
    ((YieldCurve.mk [1, 2] [9 / 10, 4 / 5] CompoundingType.CONTINUOUS
        InterpolationType.LINEAR none false : YieldCurve ℝ).apply_cubic_spline_smoothing
          (Libm.mk Real.exp Real.log Real.rpow)).1 = Except.ok () ∧
    ((YieldCurve.mk [1, 2] [9 / 10, 4 / 5] CompoundingType.CONTINUOUS
        InterpolationType.LINEAR none false : YieldCurve ℝ).apply_cubic_spline_smoothing
          (Libm.mk Real.exp Real.log Real.rpow)).2.use_spline_ = true ∧
    (((YieldCurve.mk [1, 2] [9 / 10, 4 / 5] CompoundingType.CONTINUOUS
        InterpolationType.LINEAR none false : YieldCurve ℝ).apply_cubic_spline_smoothing
          (Libm.mk Real.exp Real.log Real.rpow)).2.add_point_state 3 (7 / 10)).1
      = Except.ok () ∧
    (((YieldCurve.mk [1, 2] [9 / 10, 4 / 5] CompoundingType.CONTINUOUS
        InterpolationType.LINEAR none false : YieldCurve ℝ).apply_cubic_spline_smoothing
          (Libm.mk Real.exp Real.log Real.rpow)).2.add_point_state 3 (7 / 10)).2.use_spline_
      = false ∧
    (((YieldCurve.mk [1, 2] [9 / 10, 4 / 5] CompoundingType.CONTINUOUS
        InterpolationType.LINEAR none false : YieldCurve ℝ).apply_cubic_spline_smoothing
          (Libm.mk Real.exp Real.log Real.rpow)).2.add_point_state 3
            (7 / 10)).2.get_discount_factor (Libm.mk Real.exp Real.log Real.rpow) 3
      = Except.ok (7 / 10) ∧
    ∃ sp v, (((YieldCurve.mk [1, 2] [9 / 10, 4 / 5] CompoundingType.CONTINUOUS
        InterpolationType.LINEAR none false : YieldCurve ℝ).apply_cubic_spline_smoothing
          (Libm.mk Real.exp Real.log Real.rpow)).2.add_point_state 3 (7 / 10)).2.spline_
        = some sp ∧ sp.is_fitted = true ∧
      (sp.evaluate 3 >>= fun rate =>
        DiscountFactor.from_zero_rate (Libm.mk Real.exp Real.log Real.rpow) 3 rate
          CompoundingType.CONTINUOUS) = Except.ok v ∧ v ≠ 7 / 10 := by
  have hinv : (YieldCurve.mk [1, 2] [9 / 10, 4 / 5] CompoundingType.CONTINUOUS
      InterpolationType.LINEAR none false : YieldCurve ℝ).invariant
        (Libm.mk Real.exp Real.log Real.rpow) := by
    refine ⟨rfl, ?_, ?_, ?_⟩
    · intro t ht
      simp only [List.mem_cons, List.mem_singleton, List.not_mem_nil, or_false] at ht
      rcases ht with rfl | rfl <;> norm_num
    · intro d hd
      simp only [List.mem_cons, List.mem_singleton, List.not_mem_nil, or_false] at hd
      rcases hd with rfl | rfl <;> norm_num
    · intro h
      cases h
  obtain ⟨zr, hzr, hzl, hok, heq⟩ := smoothing_ok _ _ hinv (by simp)
    (by norm_num [List.Sorted]) (by
      intro t ht
      simp only [List.mem_cons, List.mem_singleton, List.not_mem_nil, or_false] at ht
      rcases ht with rfl | rfl <;> norm_num)
  obtain ⟨-, hx, hy, -, hf, -⟩ := fit_spec (CubicSpline.init : CubicSpline ℝ) [1, 2] zr
    hzl.symm (by simp) (by norm_num [List.Sorted])
  have hadd : (YieldCurve.mk [1, 2] [9 / 10, 4 / 5] CompoundingType.CONTINUOUS
      InterpolationType.LINEAR (some ((CubicSpline.init : CubicSpline ℝ).fit [1, 2] zr).2)
      true : YieldCurve ℝ).add_point_state 3 (7 / 10) =
      (Except.ok (), YieldCurve.mk [1, 2, 3] [9 / 10, 4 / 5, 7 / 10]
        CompoundingType.CONTINUOUS InterpolationType.LINEAR
        (some ((CubicSpline.init : CubicSpline ℝ).fit [1, 2] zr).2) false) := by
    norm_num [YieldCurve.add_point_state, DiscountFactor.is_valid,
      DiscountFactor.MIN_DF, DiscountFactor.MAX_DF]
  obtain ⟨d1, r, hd1, hr1, hto⟩ := (zero_rates_spec _ _ zr hzr).2 1 2 rfl
  simp only [List.getElem?_cons_succ, List.getElem?_cons_zero, Option.some.injEq] at hd1
  subst hd1
  have hr : r = -Real.log (4 / 5) / 2 := by
    simp only [DiscountFactor.to_zero_rate] at hto
    rw [if_neg (by norm_num), if_neg (by norm_num)] at hto
    simp only [Except.ok.injEq] at hto
    exact hto.symm
  have hback : vec_back zr = Except.ok r := by
    rw [vec_back_eq_ok, getLast?_eq_getElem?, hzl]
    exact hr1
  refine ⟨?_, ?_, ?_, ?_, ?_, ?_, ?_⟩
  · norm_num [YieldCurve.add_point_state, YieldCurve.init, DiscountFactor.is_valid,
      DiscountFactor.MIN_DF, DiscountFactor.MAX_DF]
  · rw [heq]
  · rw [heq]
  · rw [heq]
    exact (congrArg Prod.fst hadd)
  · rw [heq]
    exact (congrArg (fun p => p.2.use_spline_) hadd)
  · rw [heq]
    refine (congrArg (fun p => p.2.get_discount_factor
      (Libm.mk Real.exp Real.log Real.rpow) 3) hadd).trans ?_
    refine (get_discount_factor_interpolation_mode _ _ (by simp) ?_ 3 (by norm_num)).trans ?_
    · rintro ⟨hu, -⟩
      cases hu
    · exact interpolate_back _ InterpolationType.LINEAR (by decide) rfl
        (by norm_num [List.Sorted]) (show ([1, 2, 3] : List ℝ).getLast? = some 3 from rfl)
        (show ([9 / 10, 4 / 5, 7 / 10] : List ℝ).getLast? = some (7 / 10) from rfl)
        (le_refl _)
  · refine ⟨((CubicSpline.init : CubicSpline ℝ).fit [1, 2] zr).2,
      Real.exp (3 / 2 * Real.log (4 / 5)), ?_, hf, ?_, ?_⟩
    · rw [heq]
      exact (congrArg (fun p => p.2.spline_) hadd)
    · rw [evaluate_back _ hf 1 2 3 (by rw [hx]; rfl) (by rw [hx]; rfl) (by norm_num)
        (by norm_num), hy, hback]
      simp only [bind, Except.bind, DiscountFactor.from_zero_rate]
      rw [if_neg (by norm_num), if_neg (by norm_num), hr]
      simp only [Except.ok.injEq]
      congr 1
      ring
    · intro hv
      have hsq : Real.exp (3 / 2 * Real.log (4 / 5)) * Real.exp (3 / 2 * Real.log (4 / 5)) =
          (4 / 5 : ℝ) ^ 3 := by
        rw [← Real.exp_add, show 3 / 2 * Real.log (4 / 5) + 3 / 2 * Real.log (4 / 5) =
          ((3 : ℕ) : ℝ) * Real.log (4 / 5) from by push_cast; ring, ← Real.log_pow,
          Real.exp_log (by norm_num)]
      rw [hv] at hsq
      norm_num at hsq

end smoothing_permanence_real

/-! ## The arbitrage check -/

section arbitrage

variable {α : Type} [LinearOrderedField α]

/-- The forward rate between two consecutive knots of a reachable curve. -/
theorem get_forward_rate_knots (m : Libm α) (c : YieldCurve α) (hinv : c.invariant m)
    (hs : c.times_.Sorted (· < ·)) (h64 : c.times_.length < 2 ^ 64) (i : Nat) (t1 t2 : α)
    (h1 : c.times_[i]? = some t1) (h2 : c.times_[i + 1]? = some t2) :
    ∃ d1 d2, c.get_discount_factor m t1 = Except.ok d1 ∧
      c.get_discount_factor m t2 = Except.ok d2 ∧
      c.get_forward_rate m t1 t2 = Except.ok (-m.log (d2 / d1) / (t2 - t1)) := by
  have hne : c.times_ ≠ [] := by
    intro h
    rw [h] at h1
    simp at h1
  have hlt : t1 < t2 := sorted_getElem?_lt hs h1 h2 (by omega)
  obtain ⟨d1, hd1⟩ := get_discount_factor_ok m c hinv hne hs h64 t1
    (hinv.2.1 t1 (List.getElem?_mem h1))
  obtain ⟨d2, hd2⟩ := get_discount_factor_ok m c hinv hne hs h64 t2
    (hinv.2.1 t2 (List.getElem?_mem h2))
  refine ⟨d1, d2, hd1, hd2, ?_⟩
  unfold YieldCurve.get_forward_rate
  rw [if_neg (not_le.mpr hlt), hd1, hd2]
  rfl

/-- The loop of `has_arbitrage` over indices at which the forward rate can be computed:
it returns whether one of these forward rates is below `-1e-6`. -/
theorem has_arbitrage_loop_spec (m : Libm α) (c : YieldCurve α) :
    ∀ l : List Nat,
      (∀ i ∈ l, ∃ t1 t2 f, c.times_[i]? = some t1 ∧ c.times_[i + 1]? = some t2 ∧
        c.get_forward_rate m t1 t2 = Except.ok f) →
      ∃ b, c.has_arbitrage_loop m l = Except.ok b ∧
        (b = true ↔ ∃ i ∈ l, ∃ t1 t2 f, c.times_[i]? = some t1 ∧
          c.times_[i + 1]? = some t2 ∧ c.get_forward_rate m t1 t2 = Except.ok f ∧
          f < -1e-6) := by
  intro l
  induction l with
  | nil =>
    intro _
    exact ⟨false, rfl, by simp⟩
  | cons i rest ih =>
    intro h
    obtain ⟨t1, t2, f, h1, h2, hf⟩ := h i (List.mem_cons_self i rest)
    obtain ⟨b, hb, hiff⟩ := ih (fun j hj => h j (List.mem_cons_of_mem i hj))
    by_cases hneg : f < -1e-6
    · refine ⟨true, ?_, ?_⟩
      · unfold YieldCurve.has_arbitrage_loop
        simp only [bind, Except.bind, vec_at_eq_ok.mpr h1, vec_at_eq_ok.mpr h2, hf]
        rw [if_pos hneg]
        rfl
      · constructor
        · intro _
          exact ⟨i, List.mem_cons_self i rest, t1, t2, f, h1, h2, hf, hneg⟩
        · intro _
          rfl
    · refine ⟨b, ?_, ?_⟩
      · unfold YieldCurve.has_arbitrage_loop
        simp only [bind, Except.bind, vec_at_eq_ok.mpr h1, vec_at_eq_ok.mpr h2, hf]
        rw [if_neg hneg]
        exact hb
      · rw [hiff]
        constructor
        · rintro ⟨j, hj, rest'⟩
          exact ⟨j, List.mem_cons_of_mem i hj, rest'⟩
        · rintro ⟨j, hj, s1, s2, g, hs1, hs2, hg, hgneg⟩
          rcases List.mem_cons.mp hj with hji | hjr
          · subst hji
            rw [h1] at hs1
            rw [h2] at hs2
            cases hs1
            cases hs2
            rw [hf] at hg
            cases hg
            exact absurd hgneg hneg
          · exact ⟨j, hjr, s1, s2, g, hs1, hs2, hg, hgneg⟩

/-- C30: on a reachable curve with at least one knot and strictly increasing knot
times (fewer than `2^64` of them) `has_arbitrage()` returns, and it returns true exactly
when `get_forward_rate(t_i, t_{i+1})` is below `-1e-6` for some pair of consecutive
knots; for every such pair `get_forward_rate(t_i, t_{i+1})` is
`-ln(DF(t_{i+1})/DF(t_i))/(t_{i+1} - t_i)` with `DF` the value of
`get_discount_factor`. -/
theorem C30_has_arbitrage (m : Libm α) (c : YieldCurve α) (hr : c.Reachable m)
    (hne : c.times_ ≠ []) (hs : c.times_.Sorted (· < ·)) (h64 : c.times_.length < 2 ^ 64) :
    (∃ b, c.has_arbitrage m = Except.ok b ∧
      (b = true ↔ ∃ (i : Nat) (t1 t2 f : α), c.times_[i]? = some t1 ∧
        c.times_[i + 1]? = some t2 ∧ c.get_forward_rate m t1 t2 = Except.ok f ∧
        f < -1e-6)) ∧
    (∀ (i : Nat) (t1 t2 : α), c.times_[i]? = some t1 → c.times_[i + 1]? = some t2 →
      ∃ d1 d2, c.get_discount_factor m t1 = Except.ok d1 ∧
        c.get_discount_factor m t2 = Except.ok d2 ∧
        c.get_forward_rate m t1 t2 = Except.ok (-m.log (d2 / d1) / (t2 - t1))) := by
  have hinv := reachable_invariant m c hr
  have hemp : c.times_.isEmpty = false := by
    cases hc : c.times_ with
    | nil => exact absurd hc hne
    | cons a rest => rfl
  have hall : ∀ i ∈ List.range (c.times_.length - 1), ∃ t1 t2 f,
      c.times_[i]? = some t1 ∧ c.times_[i + 1]? = some t2 ∧
      c.get_forward_rate m t1 t2 = Except.ok f := by
    intro i hi
    rw [List.mem_range] at hi
    have h1 : c.times_[i]? = some (c.times_.get ⟨i, by omega⟩) :=
      List.getElem?_eq_getElem (by omega)
    have h2 : c.times_[i + 1]? = some (c.times_.get ⟨i + 1, by omega⟩) :=
      List.getElem?_eq_getElem (by omega)
    obtain ⟨d1, d2, -, -, hf⟩ := get_forward_rate_knots m c hinv hs h64 i _ _ h1 h2
    exact ⟨_, _, _, h1, h2, hf⟩
  obtain ⟨b, hb, hiff⟩ := has_arbitrage_loop_spec m c _ hall
  refine ⟨⟨b, ?_, ?_⟩, ?_⟩
  · unfold YieldCurve.has_arbitrage
    rw [hemp]
    exact hb
  · rw [hiff]
    constructor
    · rintro ⟨i, -, rest⟩
      exact ⟨i, rest⟩
    · rintro ⟨i, t1, t2, f, h1, h2, hf, hneg⟩
      have hil : i + 1 < c.times_.length := by
        by_contra hcon
        rw [List.getElem?_eq_none (by omega)] at h2
        cases h2
      exact ⟨i, List.mem_range.mpr (by omega), t1, t2, f, h1, h2, hf, hneg⟩
  · intro i t1 t2 h1 h2
    exact get_forward_rate_knots m c hinv hs h64 i t1 t2 h1 h2

/-- C30 witness: the curve with the knots `(1, 0.9)` and `(2, 0.8)`, over the reals. -/
theorem C30_has_arbitrage_witness :
    ∃ b, (((YieldCurve.init CompoundingType.CONTINUOUS InterpolationType.LINEAR :
        YieldCurve ℝ).add_point_state 1 (9 / 10)).2.add_point_state 2
          (4 / 5)).2.has_arbitrage (Libm.mk Real.exp Real.log Real.rpow) = Except.ok b :=
  (C30_has_arbitrage (Libm.mk Real.exp Real.log Real.rpow)
    (((YieldCurve.init CompoundingType.CONTINUOUS InterpolationType.LINEAR :
        YieldCurve ℝ).add_point_state 1 (9 / 10)).2.add_point_state 2 (4 / 5)).2
    (YieldCurve.Reachable.add_point _ 2 (4 / 5)
      (YieldCurve.Reachable.add_point _ 1 (9 / 10) (YieldCurve.Reachable.init _ _)))
    (by
      norm_num [YieldCurve.add_point_state, YieldCurve.init, DiscountFactor.is_valid,
        DiscountFactor.MIN_DF, DiscountFactor.MAX_DF]
      exact List.cons_ne_nil _ _)
    (by norm_num [YieldCurve.add_point_state, YieldCurve.init, DiscountFactor.is_valid,
      DiscountFactor.MIN_DF, DiscountFactor.MAX_DF])
    (by norm_num [YieldCurve.add_point_state, YieldCurve.init, DiscountFactor.is_valid,
      DiscountFactor.MIN_DF, DiscountFactor.MAX_DF])).1.imp (fun _ h => h.1)

end arbitrage

/-! ## Further properties of the converters and the interpolators -/

section inverse_round_trip_ieee

/-- The logarithm of a discount factor between `1/DBL_MAX` and `1` lies in `[-1024, 0]`. -/
theorem real_log_discount_factor_bounds (d : ℝ) (h0 : 1 / Double.DBL_MAX ≤ d) (h1 : d ≤ 1) :
    -1024 ≤ Real.log d ∧ Real.log d ≤ 0 := by
  have hM : (0 : ℝ) < Double.DBL_MAX := Double.DBL_MAX_pos
  have hd : (0 : ℝ) < d := lt_of_lt_of_le (one_div_pos.mpr hM) h0
  refine ⟨?_, Real.log_nonpos hd.le h1⟩
  have h2 : Real.log (1 / Double.DBL_MAX) ≤ Real.log d :=
    Real.log_le_log (one_div_pos.mpr hM) h0
  rw [one_div, Real.log_inv] at h2
  have h3 : (Double.DBL_MAX : ℝ) ≤ 2 ^ 1024 := by
    unfold Double.DBL_MAX
    have : (0 : ℝ) < 2 ^ 971 := by positivity
    linarith
  have h4 : Real.log Double.DBL_MAX ≤ Real.log (2 ^ 1024) := Real.log_le_log hM h3
  have h5 : Real.log (2 ^ 1024 : ℝ) = 1024 * Real.log 2 := by
    rw [Real.log_pow]
    norm_num
  have h6 : Real.log 2 ≤ 1 := by
    have := Real.log_le_sub_one_of_pos (show (0 : ℝ) < 2 from by norm_num)
    linarith
  linarith

/-- The periodic round trip on `Double`: when the rate `k * (pow(df, -1/(k*t)) - 1)` is a
number, discounting with it returns `df`. -/
theorem ieee_periodic_round_trip (t d k e r : ℝ) (ht : 0 < t) (hk : 0 < k)
    (h0 : 1 / Double.DBL_MAX ≤ d) (h1 : d ≤ 1) (he : e = -1 / (k * t))
    (hr : Double.num k * ((Double.libm (Libm.mk Real.exp Real.log Real.rpow)).pow (Double.num d)
      (Double.num e) - Double.num 1) = Double.num r ∨
      (k = 1 ∧ (Double.libm (Libm.mk Real.exp Real.log Real.rpow)).pow (Double.num d)
        (Double.num e) - Double.num 1 = Double.num r)) :
    ∃ p : ℝ, 0 < p ∧ p - 1 = r / k ∧ p ≤ Double.DBL_MAX ∧
      Double.num 1 / (Double.libm (Libm.mk Real.exp Real.log Real.rpow)).pow (Double.num p)
        (Double.num (k * t)) = Double.num d := by
  have hM : (0 : ℝ) < Double.DBL_MAX := Double.DBL_MAX_pos
  have hM1 : (1 : ℝ) ≤ Double.DBL_MAX :=
    le_trans (one_le_pow₀ (by norm_num)) Double.DBL_MAX_ge
  have hd : (0 : ℝ) < d := lt_of_lt_of_le (one_div_pos.mpr hM) h0
  have hkt0 : 0 < k * t := mul_pos hk ht
  have he0 : e ≠ 0 := by
    rw [he]
    exact div_ne_zero (by norm_num) hkt0.ne'
  have hinv : 1 / d ≤ Double.DBL_MAX := by
    rw [div_le_iff₀ hd]
    have := (div_le_iff₀ hM).mp h0
    linarith
  have hpow : (d ^ e) ^ (k * t) = 1 / d := by
    rw [← Real.rpow_mul hd.le, he, show -1 / (k * t) * (k * t) = -1 from by field_simp,
      Real.rpow_neg_one, one_div]
  have hfin : Double.num 1 / Double.num (1 / d) = Double.num d := by
    rw [Double.num_div_num _ _ (one_div_pos.mpr hd).ne', one_div_one_div,
      Double.of_exact_eq _ (by linarith) (by linarith)]
  by_cases hd1 : d = 1
  · -- pow(1, y) is 1
    have hp1 : (Double.libm (Libm.mk Real.exp Real.log Real.rpow)).pow (Double.num d)
        (Double.num e) = Double.num 1 := by
      show Double.pow _ (Double.num d) (Double.num e) = _
      unfold Double.pow
      rw [if_neg (by simpa using he0), if_pos (by rw [hd1])]
    rw [hp1, Double.num_sub_num, sub_self, Double.of_exact_eq _ (by linarith) (by linarith),
      Double.num_mul_num, mul_zero, Double.of_exact_eq _ (by linarith) (by linarith)] at hr
    have hr0 : r = 0 := by
      rcases hr with h | ⟨-, h⟩
      · cases h
        rfl
      · cases h
        rfl
    refine ⟨1, one_pos, by rw [hr0]; simp, hM1, ?_⟩
    have : (Double.libm (Libm.mk Real.exp Real.log Real.rpow)).pow (Double.num 1)
        (Double.num (k * t)) = Double.num 1 := by
      show Double.pow _ (Double.num 1) (Double.num (k * t)) = _
      unfold Double.pow
      rw [if_neg (by simpa using hkt0.ne'), if_pos rfl]
    rw [this, Double.num_div_num _ _ one_ne_zero, div_one,
      Double.of_exact_eq _ (by linarith) (by linarith), hd1]
  · have hP : (0 : ℝ) < d ^ e := Real.rpow_pos_of_pos hd e
    rw [Double.pow_num_num _ _ _ hd hd1 he0] at hr
    simp only [Real.rpow_eq_pow] at hr
    rcases Double.of_exact_nonneg (d ^ e) hP.le with ⟨hnum, hPle⟩ | hinf
    · rw [hnum, Double.num_sub_num] at hr
      have hsub : Double.of_exact (d ^ e - 1) = Double.num (d ^ e - 1) :=
        Double.of_exact_eq _ (by linarith) (by linarith)
      rw [hsub] at hr
      have hrk : d ^ e - 1 = r / k := by
        rcases hr with h | ⟨hk1, h⟩
        · rw [Double.num_mul_num] at h
          have := (Double.of_exact_eq_num _ _ h).1
          rw [← this]
          field_simp
        · cases h
          rw [hk1, div_one]
      refine ⟨d ^ e, hP, hrk, hPle, ?_⟩
      by_cases hP1 : d ^ e = 1
      · exfalso
        rw [hP1, Real.one_rpow] at hpow
        apply hd1
        have := hpow.symm
        field_simp at this
        linarith
      · rw [Double.pow_num_num _ _ _ hP hP1 hkt0.ne']
        simp only [Real.rpow_eq_pow]
        rw [hpow, Double.of_exact_eq _ (by linarith [one_div_pos.mpr hd]) hinv]
        exact hfin
    · exfalso
      rw [hinf] at hr
      rcases hr with h | ⟨-, h⟩
      · have : Double.num k * (Double.inf false - Double.num (1 : ℝ)) = Double.inf false := by
          show Double.mul (Double.num k) (Double.inf false) = _
          simp [Double.mul, hk.ne', not_lt.mpr hk.le]
        rw [this] at h
        cases h
      · cases h

end inverse_round_trip_ieee

section inverse_round_trip_claims

end inverse_round_trip_claims

section bracketing_search

variable {α : Type} [LinearOrderedField α]

/-- C37 (as stated, refuted): for the times `1, 2, 3` and `t = 2`, strictly between the
first and the last time, the last index whose time is `≤ t` is `1`, and
`find_interval` returns `0`. -/
theorem C37_counterexample :
    ([1, 2, 3] : List ℚ).Sorted (· < ·) ∧ (1 : ℚ) < 2 ∧ (2 : ℚ) < 3 ∧
    ([1, 2, 3] : List ℚ)[1]? = some 2 ∧ (2 : ℚ) ≤ 2 ∧ ([1, 2, 3] : List ℚ)[2]? = some 3 ∧
    ¬ (3 : ℚ) ≤ 2 ∧
    Interpolator.find_interval (2 : ℚ) [1, 2, 3] = Except.ok 0 := by
  refine ⟨by norm_num [List.Sorted], by norm_num, by norm_num, rfl, le_refl _, rfl,
    by norm_num, ?_⟩
  have h := (@find_interval_interior ℚ _ 2 1 3 [1, 2, 3] rfl rfl (by norm_num)
    (by norm_num)).1
  rw [h, lower_bound_knot [1, 2, 3] 1 2 (by norm_num [List.Sorted]) rfl]

/-- C37 (amended): for strictly increasing times and every `t` strictly between the
first and the last time, `find_interval(t, times)` returns the last index `i` whose
time satisfies `times[i] < t`: `times[i] < t ≤ times[i+1]`, and `times[j] < t` holds
exactly for the indices `j ≤ i`. -/
theorem C37_bracketing_search (times : List α) (hs : times.Sorted (· < ·))
    (front back t : α) (hfront : times.head? = some front)
    (hback : times.getLast? = some back) (h1 : front < t) (h2 : t < back) :
    ∃ (i : Nat) (ti ti1 : α), Interpolator.find_interval t times = Except.ok i ∧
      times[i]? = some ti ∧ times[i + 1]? = some ti1 ∧ ti < t ∧ t ≤ ti1 ∧
      ∀ (j : Nat) (tj : α), times[j]? = some tj → (tj < t ↔ j ≤ i) := by
  obtain ⟨i, a, b, ha, hb, hat, htb⟩ :=
    exists_bracket_left_open times front back t hs hfront hback h1 h2
  obtain ⟨front', back', hf', hb', hcases⟩ := bracket_cases hs ha hb hat.le htb
  rw [hfront] at hf'
  rw [hback] at hb'
  cases hf'
  cases hb'
  have hfi : Interpolator.find_interval t times = Except.ok i := by
    rcases hcases with ⟨hc, -⟩ | ⟨-, hc, -⟩ | ⟨-, -, -, hc⟩ | ⟨-, -, hc, -⟩
    · exact absurd h1 (not_lt.mpr hc)
    · exact absurd h2 (not_lt.mpr hc)
    · exact hc
    · exact absurd hat (by rw [hc]; exact lt_irrefl _)
  refine ⟨i, a, b, hfi, ha, hb, hat, htb, ?_⟩
  intro j tj hj
  constructor
  · intro hlt
    by_contra hcon
    have hij : i + 1 ≤ j := by omega
    have hle : b ≤ tj := by
      rcases Nat.lt_or_ge (i + 1) j with h | h
      · exact (sorted_getElem?_lt hs hb hj h).le
      · have : j = i + 1 := by omega
        subst this
        rw [hb] at hj
        cases hj
        exact le_refl _
    exact absurd (lt_of_le_of_lt (le_trans htb hle) hlt) (lt_irrefl _)
  · intro hji
    rcases Nat.lt_or_ge j i with h | h
    · exact lt_trans (sorted_getElem?_lt hs hj ha h) hat
    · have : j = i := by omega
      subst this
      rw [ha] at hj
      cases hj
      exact hat

/-- C37 witness: `t = 1.5` in the times `1, 2, 3`. -/
theorem C37_bracketing_search_witness :
    ∃ (i : Nat) (ti ti1 : ℚ), Interpolator.find_interval (3 / 2 : ℚ) [1, 2, 3] = Except.ok i ∧
      ([1, 2, 3] : List ℚ)[i]? = some ti ∧ ([1, 2, 3] : List ℚ)[i + 1]? = some ti1 ∧
      ti < 3 / 2 ∧ 3 / 2 ≤ ti1 ∧
      ∀ (j : Nat) (tj : ℚ), ([1, 2, 3] : List ℚ)[j]? = some tj → (tj < 3 / 2 ↔ j ≤ i) :=
  C37_bracketing_search [1, 2, 3] (by norm_num [List.Sorted]) 1 3 (3 / 2) rfl rfl
    (by norm_num) (by norm_num)

end bracketing_search

section strategies_coincide

/-- The log-linear and the flat-forward value on an interval coincide (reals). -/
theorem interval_value_log_linear_eq_flat_forward (ti ti1 di di1 t : ℝ) (hdi : 0 < di)
    (hdi1 : 0 < di1) :
    interval_value (Libm.mk Real.exp Real.log Real.rpow) InterpolationType.LOG_LINEAR
      ti ti1 di di1 t =
    interval_value (Libm.mk Real.exp Real.log Real.rpow) InterpolationType.FLAT_FORWARD
      ti ti1 di di1 t := by
  simp only [interval_value, interval_forward_rate]
  rw [Real.exp_add, Real.exp_log hdi, Real.log_div hdi1.ne' hdi.ne']
  congr 2
  ring

/-- C38: for equal-length sequences with strictly increasing times and positive DFs
(over the reals, with the real `exp` and `log`) and every `t` at or before the last
knot time, `LogLinearInterpolator::interpolate` and
`FlatForwardInterpolator::interpolate` return the same discount factor. -/
theorem C38_log_linear_eq_flat_forward (times dfs : List ℝ)
    (hlen : times.length = dfs.length) (hs : times.Sorted (· < ·))
    (hpos : ∀ d ∈ dfs, 0 < d) (t last : ℝ) (hlast : times.getLast? = some last)
    (ht : t ≤ last) :
    ∃ v, LogLinearInterpolator.interpolate (Libm.mk Real.exp Real.log Real.rpow) t times dfs
        = Except.ok v ∧
      FlatForwardInterpolator.interpolate (Libm.mk Real.exp Real.log Real.rpow) t times dfs
        = Except.ok v := by
  have hne : times ≠ [] := by
    intro h
    rw [h] at hlast
    cases hlast
  have hl0 : 0 < times.length := List.length_pos.mpr hne
  have hfront : times.head? = some (times.get ⟨0, hl0⟩) := by
    rw [head?_eq_getElem?_zero]
    exact List.getElem?_eq_getElem hl0
  have hd0 : dfs.head? = some (dfs.get ⟨0, by omega⟩) := by
    rw [head?_eq_getElem?_zero]
    exact List.getElem?_eq_getElem (by omega)
  by_cases h1 : t ≤ times.get ⟨0, hl0⟩
  · exact ⟨_, interpolate_front _ InterpolationType.LOG_LINEAR hlen hfront hd0 h1,
      interpolate_front _ InterpolationType.FLAT_FORWARD hlen hfront hd0 h1⟩
  by_cases h2 : t = last
  · subst h2
    have htl : times[times.length - 1]? = some t := by
      rw [← getLast?_eq_getElem?]
      exact hlast
    have hdl : dfs[times.length - 1]? = some (dfs.get ⟨times.length - 1, by omega⟩) :=
      List.getElem?_eq_getElem (by omega)
    exact ⟨_, interpolate_at_knot _ InterpolationType.LOG_LINEAR times dfs hs hlen hpos
        (Or.inr real_exp_log_laws) _ t _ htl hdl,
      interpolate_at_knot _ InterpolationType.FLAT_FORWARD times dfs hs hlen hpos
        (Or.inr real_exp_log_laws) _ t _ htl hdl⟩
  · have h3 : t < last := lt_of_le_of_ne ht h2
    obtain ⟨i, a, b, ha, hb, hat, htb⟩ :=
      exists_bracket_left_open times _ last t hs hfront hlast (not_le.mp h1) h3
    have hil : i + 1 < times.length := by
      by_contra hcon
      rw [List.getElem?_eq_none (by omega)] at hb
      cases hb
    have hda : dfs[i]? = some (dfs.get ⟨i, by omega⟩) := List.getElem?_eq_getElem (by omega)
    have hdb : dfs[i + 1]? = some (dfs.get ⟨i + 1, by omega⟩) :=
      List.getElem?_eq_getElem (by omega)
    refine ⟨_, interpolate_bracket _ real_exp_log_laws InterpolationType.LOG_LINEAR hlen hs
      hpos ha hb hda hdb hat.le htb, ?_⟩
    rw [interval_value_log_linear_eq_flat_forward _ _ _ _ _
      (hpos _ (List.getElem?_mem hda)) (hpos _ (List.getElem?_mem hdb))]
    exact interpolate_bracket _ real_exp_log_laws InterpolationType.FLAT_FORWARD hlen hs
      hpos ha hb hda hdb hat.le htb

/-- C38 witness: `t = 1.5` between the knots `(1, 0.95)` and `(2, 0.90)`. -/
theorem C38_log_linear_eq_flat_forward_witness :
    ∃ v, LogLinearInterpolator.interpolate (Libm.mk Real.exp Real.log Real.rpow) (3 / 2)
        [1, 2] [19 / 20, 9 / 10] = Except.ok v ∧
      FlatForwardInterpolator.interpolate (Libm.mk Real.exp Real.log Real.rpow) (3 / 2)
        [1, 2] [19 / 20, 9 / 10] = Except.ok v :=
  C38_log_linear_eq_flat_forward [1, 2] [19 / 20, 9 / 10] rfl (by norm_num [List.Sorted])
    (by
      intro d hd
      simp only [List.mem_cons, List.mem_singleton, List.not_mem_nil, or_false] at hd
      rcases hd with rfl | rfl <;> norm_num)
    (3 / 2) 2 rfl (by norm_num)

end strategies_coincide

/-! ## Degenerate inputs -/

section degenerate_inputs

variable {α : Type} [LinearOrderedField α]

/-- C36 (the code at the failing input): on a curve with no knots the loop bound
`times_.size() - 1` wraps around and the first iteration reads `times_[0]` out of
range, so `has_arbitrage()` has undefined behaviour instead of returning false; on a
curve with exactly one knot the loop body is never entered and the result is false. -/
theorem C36_has_arbitrage_degenerate :
    (YieldCurve.init CompoundingType.CONTINUOUS InterpolationType.LINEAR :
      YieldCurve ℚ).times_ = [] ∧
    (YieldCurve.init CompoundingType.CONTINUOUS InterpolationType.LINEAR :
      YieldCurve ℚ).has_arbitrage libm_unused = Except.error Exn.undefined_behavior ∧
    ((YieldCurve.init CompoundingType.CONTINUOUS InterpolationType.LINEAR :
      YieldCurve ℚ).add_point_state 1 (19 / 20)).2.times_ = [1] ∧
    ((YieldCurve.init CompoundingType.CONTINUOUS InterpolationType.LINEAR :
      YieldCurve ℚ).add_point_state 1 (19 / 20)).2.has_arbitrage libm_unused
      = Except.ok false := by
  have hst : (YieldCurve.init CompoundingType.CONTINUOUS InterpolationType.LINEAR :
      YieldCurve ℚ).add_point_state 1 (19 / 20) =
      (Except.ok (), YieldCurve.mk [1] [19 / 20] CompoundingType.CONTINUOUS
        InterpolationType.LINEAR none false) := by
    norm_num [YieldCurve.add_point_state, YieldCurve.init, DiscountFactor.is_valid,
      DiscountFactor.MIN_DF, DiscountFactor.MAX_DF]
  rw [hst]
  exact ⟨rfl, rfl, rfl, rfl⟩

/-- C32 (the code at the failing input): for an empty tenor list the loop bound
`tenors.size() - 1` wraps around and the first iteration reads `tenors[0]` out of
range, so `get_forward_curve` has undefined behaviour instead of returning an empty
list; for a single-element tenor list the loop body is never entered and the result
is the empty list. -/
theorem C32_forward_curve_short_tenors :
    (ForwardCurve.mk (YieldCurve.mk [1, 2] [19 / 20, 9 / 10] CompoundingType.CONTINUOUS
      InterpolationType.LINEAR none false : YieldCurve ℚ)).get_forward_curve libm_unused []
      = Except.error Exn.undefined_behavior ∧
    (ForwardCurve.mk (YieldCurve.mk [1, 2] [19 / 20, 9 / 10] CompoundingType.CONTINUOUS
      InterpolationType.LINEAR none false : YieldCurve ℚ)).get_forward_curve libm_unused [1]
      = Except.ok [] :=
  ⟨rfl, rfl⟩

theorem get_discount_factor_empty (m : Libm α) (c : YieldCurve α) (h : c.times_ = [])
    (t : α) :
    c.get_discount_factor m t = Except.error (Exn.runtime_error "Curve has no points") := by
  unfold YieldCurve.get_discount_factor
  rw [h]
  rfl

end degenerate_inputs

section first_bond

variable {α : Type} [LinearOrderedField α] [FloorRing α]

omit [FloorRing α] in
/-- The first bond solved by `bootstrap` is the unique bond of shortest maturity. -/
theorem sort_bonds_head (bonds : List (BondData α)) (b : BondData α) (hb : b ∈ bonds)
    (hmin : ∀ b' ∈ bonds, b' ≠ b → b.maturity < b'.maturity) :
    ∃ rest, Bootstrapper.sort_bonds_by_maturity bonds = b :: rest := by
  have hperm := sort_bonds_perm bonds
  have hsorted := sort_bonds_sorted bonds
  cases hl : Bootstrapper.sort_bonds_by_maturity bonds with
  | nil =>
    rw [hl] at hperm
    have := hperm.symm.eq_nil
    rw [this] at hb
    cases hb
  | cons b0 rest =>
    rw [hl] at hperm hsorted
    by_cases h0 : b0 = b
    · exact ⟨rest, by rw [h0]⟩
    · have hb0 : b0 ∈ bonds := hperm.subset (List.mem_cons_self b0 rest)
      have hbl : b ∈ b0 :: rest := hperm.symm.subset hb
      have hbr : b ∈ rest := by
        rcases List.mem_cons.mp hbl with h | h
        · exact absurd h.symm h0
        · exact h
      have h1 := List.rel_of_sorted_cons hsorted b hbr
      have h2 := hmin b0 hb0 h0
      exact absurd h2 (not_lt.mpr h1)

/-- Solving a bond with two or more payment times on an empty curve fails with
"Curve has no points". -/
theorem df_final_empty_curve (m : Libm α) (b : BondData α) (c : YieldCurve α)
    (hc : c.times_ = []) (pts cfs : List α) (hp : b.get_payment_times = some pts)
    (hcf : b.get_cash_flows = some cfs) (h2 : 2 ≤ pts.length) :
    Bootstrapper.df_final m b c = Except.error (Exn.runtime_error "Curve has no points") := by
  obtain ⟨k, hk⟩ : ∃ k, pts.length - 1 = k + 1 := ⟨pts.length - 2, by omega⟩
  have hne : pts.isEmpty = false := by
    cases pts with
    | nil => simp at h2
    | cons a rest => rfl
  have h0 : vec_at pts 0 = Except.ok (pts.get ⟨0, by omega⟩) :=
    vec_at_eq_ok.mpr (List.getElem?_eq_getElem (by omega))
  unfold Bootstrapper.df_final
  rw [hp, hcf]
  simp only [hne, Bool.false_eq_true, if_false, Bootstrapper.pv_known, hk]
  rw [List.range_succ_eq_map, List.foldlM_cons]
  simp only [Bootstrapper.pv_known_step, h0, get_discount_factor_empty m c hc, bind,
    Except.bind]

/-- C35: if the (unique) shortest-maturity bond of a bond set that passes validation has
two or more payment times, `bootstrap` fails with the "Curve has no points" runtime
error: that bond is solved first, on the still empty curve, and its first coupon date
is looked up there; this holds whatever the prices, the compounding and the
interpolation strategy. -/
theorem C35_first_bond_limitation (self : Bootstrapper) (m : Libm α)
    (bonds : List (BondData α)) (b : BondData α) (pts : List α)
    (hv : Bootstrapper.validate_bonds bonds = true) (hb : b ∈ bonds)
    (hmin : ∀ b' ∈ bonds, b' ≠ b → b.maturity < b'.maturity)
    (hp : b.get_payment_times = some pts) (h2 : 2 ≤ pts.length) :
    (Bootstrapper.sort_bonds_by_maturity bonds).head? = some b ∧
    Bootstrapper.solve_for_discount_factor m b
      (YieldCurve.init self.compounding_type_ self.interpolation_type_)
      = Except.error (Exn.runtime_error "Curve has no points") ∧
    self.bootstrap m bonds = Except.error (Exn.runtime_error "Curve has no points") := by
  obtain ⟨rest, hsort⟩ := sort_bonds_head bonds b hb hmin
  have hnd : ¬ bond_defect b := ((validate_bonds_iff bonds).mp hv).2 b hb
  have hf : 0 < b.payment_frequency := by
    by_contra hcon
    exact hnd (Or.inr (Or.inr (Or.inl (not_lt.mp hcon))))
  have hdf := df_final_empty_curve m b
    (YieldCurve.init self.compounding_type_ self.interpolation_type_) rfl pts _ hp
    (get_cash_flows_eq b hf) h2
  have hsolve : Bootstrapper.solve_for_discount_factor m b
      (YieldCurve.init self.compounding_type_ self.interpolation_type_)
      = Except.error (Exn.runtime_error "Curve has no points") := by
    unfold Bootstrapper.solve_for_discount_factor
    rw [hdf]
    rfl
  refine ⟨by rw [hsort]; rfl, hsolve, ?_⟩
  unfold Bootstrapper.bootstrap
  rw [hv, hsort, List.foldlM_cons]
  simp only [Bool.not_true, Bool.false_eq_true, if_false, Bootstrapper.bootstrap_step, hsolve,
    bind, Except.bind]

/-- C35 witness: the single bond of maturity 2 paying annually. -/
theorem C35_first_bond_limitation_witness :
    (Bootstrapper.mk CompoundingType.CONTINUOUS InterpolationType.LINEAR).bootstrap libm_unused
      [BondData.mk (2 : ℚ) 0 1 95 100]
      = Except.error (Exn.runtime_error "Curve has no points") :=
  (C35_first_bond_limitation (Bootstrapper.mk CompoundingType.CONTINUOUS
      InterpolationType.LINEAR) libm_unused [BondData.mk (2 : ℚ) 0 1 95 100]
    (BondData.mk (2 : ℚ) 0 1 95 100) [1, 2]
    (by
      rw [validate_bonds_iff]
      refine ⟨by simp, ?_⟩
      intro b hb
      rw [List.mem_singleton] at hb
      subst hb
      norm_num [bond_defect])
    (List.mem_singleton.mpr rfl)
    (by
      intro b' hb' hne
      rw [List.mem_singleton] at hb'
      exact absurd hb' hne)
    (by
      rw [get_payment_times_eq _ (by norm_num)]
      norm_num [payment_schedule, payment_count_eval (BondData.mk (2 : ℚ) 0 1 95 100) 2
        (by norm_num) (by norm_num), List.range_succ])
    (by simp)).2.2

end first_bond
/-! ## Monotone discount factors and arbitrage -/

section monotone_no_arbitrage_lemmas

variable {α : Type} [LinearOrderedField α]

theorem get_discount_factor_now (m : Libm α) (c : YieldCurve α) (hne : c.times_ ≠ [])
    (t : α) (h0 : 0 ≤ t) (h1 : t < 1e-10) : c.get_discount_factor m t = Except.ok 1 := by
  have hemp : c.times_.isEmpty = false := by
    cases hc : c.times_ with
    | nil => exact absurd hc hne
    | cons a rest => rfl
  unfold YieldCurve.get_discount_factor
  rw [hemp]
  simp only [Bool.false_eq_true, if_false]
  rw [if_neg (not_lt.mpr h0), if_pos h1]

omit [LinearOrderedField α] in
theorem sorted_ge_getElem? {v : List α} [Preorder α] (hd : v.Sorted (· ≥ ·)) {i j : Nat}
    {a b : α} (hi : v[i]? = some a) (hj : v[j]? = some b) (hij : i < j) : b ≤ a := by
  have hjl : j < v.length := by
    by_contra hcon
    rw [List.getElem?_eq_none (by omega)] at hj
    cases hj
  have hil : i < v.length := by omega
  rw [List.getElem?_eq_getElem hil] at hi
  rw [List.getElem?_eq_getElem hjl] at hj
  cases hi
  cases hj
  exact List.pairwise_iff_getElem.mp hd i j hil hjl hij

end monotone_no_arbitrage_lemmas

section monotone_no_arbitrage

/-- The forward rate between two consecutive knots of a curve in interpolation mode
whose knot discount factors do not increase is non-negative (reals). -/
theorem forward_rate_nonneg (c : YieldCurve ℝ)
    (hinv : c.invariant (Libm.mk Real.exp Real.log Real.rpow))
    (hsp : c.use_spline_ = false) (hs : c.times_.Sorted (· < ·))
    (hd : c.discount_factors_.Sorted (· ≥ ·)) (i : Nat) (t1 t2 : ℝ)
    (h1 : c.times_[i]? = some t1) (h2 : c.times_[i + 1]? = some t2) :
    ∃ f, c.get_forward_rate (Libm.mk Real.exp Real.log Real.rpow) t1 t2 = Except.ok f ∧
      0 ≤ f := by
  obtain ⟨hlen, ht, hdv, -⟩ := hinv
  have hne : c.times_ ≠ [] := by
    intro h
    rw [h] at h1
    simp at h1
  have hlt : t1 < t2 := sorted_getElem?_lt hs h1 h2 (by omega)
  have hil : i + 1 < c.times_.length := by
    by_contra hcon
    rw [List.getElem?_eq_none (by omega)] at h2
    cases h2
  have hd1 : c.discount_factors_[i]? = some (c.discount_factors_.get ⟨i, by omega⟩) :=
    List.getElem?_eq_getElem (by omega)
  have hd2 : c.discount_factors_[i + 1]? = some (c.discount_factors_.get ⟨i + 1, by omega⟩) :=
    List.getElem?_eq_getElem (by omega)
  have hv1 := hdv _ (List.getElem?_mem hd1)
  have hv2 := hdv _ (List.getElem?_mem hd2)
  have hmono := sorted_ge_getElem? hd hd1 hd2 (by omega)
  have hpos : ∀ d ∈ c.discount_factors_, 0 < d :=
    fun d hd => lt_trans (by norm_num) (hdv d hd).1
  have key : ∃ v1 v2, c.get_discount_factor (Libm.mk Real.exp Real.log Real.rpow) t1
      = Except.ok v1 ∧ c.get_discount_factor (Libm.mk Real.exp Real.log Real.rpow) t2
      = Except.ok v2 ∧ 0 < v2 ∧ v2 ≤ v1 := by
    by_cases hs1 : t1 < 1e-10
    · have e1 := get_discount_factor_now (Libm.mk Real.exp Real.log Real.rpow) c hne t1
        (ht t1 (List.getElem?_mem h1)) hs1
      by_cases hs2 : t2 < 1e-10
      · exact ⟨1, 1, e1, get_discount_factor_now _ c hne t2 (ht t2 (List.getElem?_mem h2)) hs2,
          one_pos, le_refl _⟩
      · exact ⟨1, _, e1, get_discount_factor_at_knot _ c hs hlen hpos hsp
          (Or.inr real_exp_log_laws) (i + 1) t2 _ h2 hd2 (not_lt.mp hs2),
          lt_trans (by norm_num) hv2.1, hv2.2⟩
    · have hg1 : (1e-10 : ℝ) ≤ t1 := not_lt.mp hs1
      exact ⟨_, _, get_discount_factor_at_knot _ c hs hlen hpos hsp
          (Or.inr real_exp_log_laws) i t1 _ h1 hd1 hg1,
        get_discount_factor_at_knot _ c hs hlen hpos hsp
          (Or.inr real_exp_log_laws) (i + 1) t2 _ h2 hd2 (le_trans hg1 hlt.le),
        lt_trans (by norm_num) hv2.1, hmono⟩
  obtain ⟨v1, v2, e1, e2, hv2pos, hle⟩ := key
  have hv1pos : 0 < v1 := lt_of_lt_of_le hv2pos hle
  refine ⟨-Real.log (v2 / v1) / (t2 - t1), ?_, ?_⟩
  · unfold YieldCurve.get_forward_rate
    rw [if_neg (not_le.mpr hlt), e1, e2]
    rfl
  · apply div_nonneg _ (sub_pos.mpr hlt).le
    rw [neg_nonneg]
    exact Real.log_nonpos (div_pos hv2pos hv1pos).le ((div_le_one hv1pos).mpr hle)

/-- C31: for every bond set with strictly increasing maturities on which `bootstrap`
succeeds (over the reals, with the real `exp`, `log` and `pow`) and whose bootstrapped
knot discount factors are non-increasing in maturity, `has_arbitrage()` returns false
and the forward rate between every pair of consecutive knots is `≥ 0`, hence
`≥ -1e-6`. -/
theorem C31_monotone_no_arbitrage (self : Bootstrapper) (bonds : List (BondData ℝ))
    (c : YieldCurve ℝ)
    (hb : self.bootstrap (Libm.mk Real.exp Real.log Real.rpow) bonds = Except.ok c)
    (hm : (bonds.map (fun b => b.maturity)).Sorted (· < ·))
    (hd : c.discount_factors_.Sorted (· ≥ ·)) :
    c.has_arbitrage (Libm.mk Real.exp Real.log Real.rpow) = Except.ok false ∧
    ∀ (i : Nat) (t1 t2 : ℝ), c.times_[i]? = some t1 → c.times_[i + 1]? = some t2 →
      ∃ f, c.get_forward_rate (Libm.mk Real.exp Real.log Real.rpow) t1 t2 = Except.ok f ∧
        0 ≤ f ∧ -1e-6 ≤ f := by
  have hinv := reachable_invariant _ c (bootstrap_reachable self _ bonds c hb)
  obtain ⟨hv, hfold⟩ := bootstrap_ok self _ bonds c hb
  have hsp : c.use_spline_ = false := (bootstrap_loop_spec _ _ _ _ c hfold).2.2.2.2.2.1
  have hdist : bonds.Pairwise (fun a b => a.maturity ≠ b.maturity) := by
    have := List.pairwise_map.mp hm
    exact this.imp (fun h => ne_of_lt h)
  have hs : c.times_.Sorted (· < ·) := by
    rw [bootstrap_times self _ bonds c hb]
    exact List.pairwise_map.mpr (sort_bonds_strict bonds hdist)
  have hne : c.times_ ≠ [] := by
    rw [bootstrap_times self _ bonds c hb]
    intro h
    have h1 := List.map_eq_nil_iff.mp h
    have h2 := sort_bonds_perm bonds
    rw [h1] at h2
    exact ((validate_bonds_iff bonds).mp hv).1 h2.symm.eq_nil
  have hpairs : ∀ (i : Nat) (t1 t2 : ℝ), c.times_[i]? = some t1 → c.times_[i + 1]? = some t2 →
      ∃ f, c.get_forward_rate (Libm.mk Real.exp Real.log Real.rpow) t1 t2 = Except.ok f ∧
        0 ≤ f := fun i t1 t2 h1 h2 => forward_rate_nonneg c hinv hsp hs hd i t1 t2 h1 h2
  refine ⟨?_, ?_⟩
  · have hemp : c.times_.isEmpty = false := by
      cases hc : c.times_ with
      | nil => exact absurd hc hne
      | cons a rest => rfl
    have hall : ∀ i ∈ List.range (c.times_.length - 1), ∃ t1 t2 f,
        c.times_[i]? = some t1 ∧ c.times_[i + 1]? = some t2 ∧
        c.get_forward_rate (Libm.mk Real.exp Real.log Real.rpow) t1 t2 = Except.ok f := by
      intro i hi
      rw [List.mem_range] at hi
      have h1 : c.times_[i]? = some (c.times_.get ⟨i, by omega⟩) :=
        List.getElem?_eq_getElem (by omega)
      have h2 : c.times_[i + 1]? = some (c.times_.get ⟨i + 1, by omega⟩) :=
        List.getElem?_eq_getElem (by omega)
      obtain ⟨f, hf, -⟩ := hpairs i _ _ h1 h2
      exact ⟨_, _, f, h1, h2, hf⟩
    obtain ⟨b, hbv, hiff⟩ := has_arbitrage_loop_spec _ c _ hall
    unfold YieldCurve.has_arbitrage
    rw [hemp]
    simp only [Bool.false_eq_true, if_false]
    rw [hbv]
    cases b with
    | false => rfl
    | true =>
      obtain ⟨i, -, t1, t2, f, h1, h2, hf, hneg⟩ := hiff.mp rfl
      obtain ⟨f', hf', hpos⟩ := hpairs i t1 t2 h1 h2
      rw [hf] at hf'
      cases hf'
      exact absurd (lt_of_le_of_lt hpos hneg) (by norm_num)
  · intro i t1 t2 h1 h2
    obtain ⟨f, hf, hpos⟩ := hpairs i t1 t2 h1 h2
    exact ⟨f, hf, hpos, le_trans (by norm_num) hpos⟩

end monotone_no_arbitrage

section monotone_no_arbitrage_witness

/-- C31 witness: the two demonstration bonds, whose knots are `(0.5, 0.985)` and
`(1, 19603/20200)`. -/
theorem C31_monotone_no_arbitrage_witness :
    (YieldCurve.mk [1 / 2, 1] [197 / 200, 19603 / 20200] CompoundingType.CONTINUOUS
      InterpolationType.LOG_LINEAR none false : YieldCurve ℝ).has_arbitrage
        (Libm.mk Real.exp Real.log Real.rpow) = Except.ok false :=
  (C31_monotone_no_arbitrage
    (Bootstrapper.mk CompoundingType.CONTINUOUS InterpolationType.LOG_LINEAR)
    [BondData.mk (1 / 2 : ℝ) 0 2 (197 / 2) 100, BondData.mk (1 : ℝ) (1 / 50) 2 99 100]
    (YieldCurve.mk [1 / 2, 1] [197 / 200, 19603 / 20200] CompoundingType.CONTINUOUS
      InterpolationType.LOG_LINEAR none false)
    (demo_bootstrap CompoundingType.CONTINUOUS InterpolationType.LOG_LINEAR
      (Libm.mk Real.exp Real.log Real.rpow))
    (by norm_num [List.Sorted])
    (by norm_num [List.Sorted])).1

end monotone_no_arbitrage_witness

/-! ## The spline of collinear points -/

section spline_lines

variable {α : Type} [LinearOrderedField α]

/-- The recurrences behind the coefficients `c` of a successful `fit`: the vector `z` of
the forward sweep starts at `0` and follows `z_i = (rhs_i - h_{i-1} z_{i-1}) / l_i`, and
the backward loop sets `c_j = z_j - mu_j c_{j+1}`. -/
theorem fit_sweep_spec (s : CubicSpline α) (x y : List α) (hlen : x.length = y.length)
    (h2 : 2 ≤ x.length) (hs : x.Sorted (· < ·)) :
    ∃ MU Z : List α, vec_get Z 0 = 0 ∧
      (∀ i, 1 ≤ i → i < x.length - 1 → ∃ L : α, L ≠ 0 ∧
        vec_get Z i =
          (3 * ((vec_get y (i + 1) - vec_get y i) / (vec_get x (i + 1) - vec_get x i) -
            (vec_get y i - vec_get y (i - 1)) / (vec_get x i - vec_get x (i - 1))) -
            (vec_get x i - vec_get x (i - 1)) * vec_get Z (i - 1)) / L) ∧
      (∀ j, j < x.length - 1 →
        vec_get (s.fit x y).2.c_ j =
          vec_get Z j - vec_get MU j * vec_get (s.fit x y).2.c_ (j + 1)) := by
  have hany : ¬ (CubicSpline.fit_h x (x.length - 1)).any (fun hi => decide (hi ≤ 0)) = true :=
    fun h => (fit_h_any_iff x).mp h hs
  have hh : ∀ i, i < x.length - 1 →
      vec_get (CubicSpline.fit_h x (x.length - 1)) i = vec_get x (i + 1) - vec_get x i :=
    fun i hi => vec_get_fit_h x _ i hi
  have hpos : ∀ i, i < x.length - 1 →
      0 < vec_get (CubicSpline.fit_h x (x.length - 1)) i := by
    intro i hi
    rw [hh i hi]
    exact sub_pos.mpr ((sorted_iff_steps x).mp hs i (by omega))
  have hfwd := fit_forward_eqs x (CubicSpline.fit_h x (x.length - 1))
    (CubicSpline.fit_alpha y (CubicSpline.fit_h x (x.length - 1)) (x.length - 1))
    (x.length - 1) (x.length - 1 - 1) (by omega)
  have hinv := fit_forward_inv x (CubicSpline.fit_h x (x.length - 1))
    (CubicSpline.fit_alpha y (CubicSpline.fit_h x (x.length - 1)) (x.length - 1))
    (x.length - 1) hpos hh (x.length - 1 - 1) (by omega)
  obtain ⟨-, -, -, -, hz0, hfeq⟩ := hfwd
  have hlpos := hinv.2.2.2.2
  have hbwd := fit_backward_spec y (CubicSpline.fit_h x (x.length - 1))
    (CubicSpline.fit_forward x (CubicSpline.fit_h x (x.length - 1))
      (CubicSpline.fit_alpha y (CubicSpline.fit_h x (x.length - 1)) (x.length - 1))
      (x.length - 1)).2.1
    ((CubicSpline.fit_forward x (CubicSpline.fit_h x (x.length - 1))
      (CubicSpline.fit_alpha y (CubicSpline.fit_h x (x.length - 1)) (x.length - 1))
      (x.length - 1)).2.2.set (x.length - 1) 0)
    (x.length - 1) (x.length - 1)
    ((vec_resize s.c_ (x.length - 1 + 1)).set (x.length - 1) 0,
      vec_resize s.b_ (x.length - 1), vec_resize s.d_ (x.length - 1))
    (le_refl _) (by simp [vec_resize_length]) (vec_resize_length _ _) (vec_resize_length _ _)
    (vec_get_set_eq _ _ _ (by simp [vec_resize_length]))
    (fun j h1 h2 => absurd h2 (not_lt.mpr h1))
  obtain ⟨-, -, -, -, hrel⟩ := hbwd
  unfold CubicSpline.fit
  rw [if_neg (not_not.mpr hlen), if_neg (not_lt.mpr h2)]
  simp only [hany, Bool.false_eq_true, if_false]
  generalize (List.range (x.length - 1)).reverse.foldl
        (CubicSpline.fit_backward_step y (CubicSpline.fit_h x (x.length - 1))
          (CubicSpline.fit_forward x (CubicSpline.fit_h x (x.length - 1))
            (CubicSpline.fit_alpha y (CubicSpline.fit_h x (x.length - 1)) (x.length - 1))
            (x.length - 1)).2.1
          ((CubicSpline.fit_forward x (CubicSpline.fit_h x (x.length - 1))
            (CubicSpline.fit_alpha y (CubicSpline.fit_h x (x.length - 1)) (x.length - 1))
            (x.length - 1)).2.2.set (x.length - 1) 0))
        ((vec_resize s.c_ (x.length - 1 + 1)).set (x.length - 1) 0,
          vec_resize s.b_ (x.length - 1), vec_resize s.d_ (x.length - 1)) = R
    at hrel
  unfold CubicSpline.fit_forward at hrel
  generalize (List.range' 1 (x.length - 1 - 1)).foldl
      (CubicSpline.fit_forward_step x (CubicSpline.fit_h x (x.length - 1))
        (CubicSpline.fit_alpha y (CubicSpline.fit_h x (x.length - 1)) (x.length - 1)))
      ((List.replicate (x.length - 1 + 1) 0).set 0 1, List.replicate (x.length - 1 + 1) 0,
        List.replicate (x.length - 1 + 1) 0) = F at hrel hz0 hfeq hlpos
  have hzset : ∀ j, j < x.length - 1 → vec_get (F.2.2.set (x.length - 1) 0) j = vec_get F.2.2 j :=
    fun j hj => vec_get_set_ne _ _ (by omega)
  refine ⟨F.2.1, F.2.2, hz0, ?_, ?_⟩
  · intro i h1 hi
    obtain ⟨-, -, e5⟩ := hfeq i h1 (by omega)
    refine ⟨vec_get F.1 i, (hlpos i h1 (by omega)).ne', ?_⟩
    rw [vec_get_fit_alpha _ _ _ _ h1 hi, hh _ hi, hh _ (by omega : i - 1 < x.length - 1),
      show i - 1 + 1 = i from by omega] at e5
    exact e5
  · intro j hj
    have := (hrel j hj).1
    rw [hzset j hj] at this
    exact this

/-- C40: if the fitted points are collinear, `y_i = a + b*x_i` for all `i`, then after a
successful `fit` all `c` and `d` coefficients are zero, every `b` coefficient equals
`b`, and `evaluate(t) = a + b*t` for every `t` between the first and the last knot
(fewer than `2^64` knots); and two points are always collinear. -/
theorem C40_spline_reproduces_lines (s : CubicSpline α) (x y : List α)
    (hok : (s.fit x y).1 = Except.ok ()) (h64 : x.length < 2 ^ 64) :
    (∀ a b : α, (∀ i, i < x.length → vec_get y i = a + b * vec_get x i) →
      (s.fit x y).2.c_.length = x.length ∧ (s.fit x y).2.b_.length = x.length - 1 ∧
      (s.fit x y).2.d_.length = x.length - 1 ∧
      (∀ j, j < x.length → vec_get (s.fit x y).2.c_ j = 0) ∧
      (∀ j, j < x.length - 1 →
        vec_get (s.fit x y).2.d_ j = 0 ∧ vec_get (s.fit x y).2.b_ j = b) ∧
      ∀ front back t, x.head? = some front → x.getLast? = some back → front ≤ t → t ≤ back →
        (s.fit x y).2.evaluate t = Except.ok (a + b * t)) ∧
    (x.length = 2 → ∃ a b : α, ∀ i, i < x.length → vec_get y i = a + b * vec_get x i) := by
  obtain ⟨hlen, h2, hs⟩ := (fit_ok_iff s x y).mp hok
  obtain ⟨-, hx, hy, ha, hf, hcl, hbl, hdl, -, hcn, hbd, -⟩ := fit_spec s x y hlen h2 hs
  have hstep : ∀ i, i < x.length - 1 → 0 < vec_get x (i + 1) - vec_get x i :=
    fun i hi => sub_pos.mpr ((sorted_iff_steps x).mp hs i (by omega))
  constructor
  · intro a b hline
    obtain ⟨MU, Z, hz0, hz, hc⟩ := fit_sweep_spec s x y hlen h2 hs
    have hslope : ∀ i, i < x.length - 1 →
        (vec_get y (i + 1) - vec_get y i) / (vec_get x (i + 1) - vec_get x i) = b := by
      intro i hi
      rw [hline i (by omega), hline (i + 1) (by omega), div_eq_iff (hstep i hi).ne']
      ring
    have hZ : ∀ i, i < x.length - 1 → vec_get Z i = 0 := by
      intro i
      induction i with
      | zero => intro _; exact hz0
      | succ k ih =>
        intro hk
        obtain ⟨L, hL, e⟩ := hz (k + 1) (by omega) hk
        have e1 := hslope (k + 1) hk
        have e2 := hslope k (by omega)
        simp only [Nat.add_sub_cancel] at e
        rw [e, e1, e2, ih (by omega)]
        simp
    have hC : ∀ k, k ≤ x.length - 1 → vec_get (s.fit x y).2.c_ (x.length - 1 - k) = 0 := by
      intro k
      induction k with
      | zero => intro _; exact hcn
      | succ k ih =>
        intro hk
        have hj : x.length - 1 - (k + 1) < x.length - 1 := by omega
        rw [hc _ hj, hZ _ hj, show x.length - 1 - (k + 1) + 1 = x.length - 1 - k from by omega,
          ih (by omega)]
        ring
    have hc0 : ∀ j, j < x.length → vec_get (s.fit x y).2.c_ j = 0 := by
      intro j hj
      have := hC (x.length - 1 - j) (by omega)
      rw [show x.length - 1 - (x.length - 1 - j) = j from by omega] at this
      exact this
    have hdb : ∀ j, j < x.length - 1 →
        vec_get (s.fit x y).2.d_ j = 0 ∧ vec_get (s.fit x y).2.b_ j = b := by
      intro j hj
      obtain ⟨hb, hd⟩ := hbd j hj
      rw [hc0 j (by omega), hc0 (j + 1) (by omega)] at hb hd
      rw [hb, hd, hslope j hj]
      constructor
      · simp
      · ring
    refine ⟨hcl, hbl, hdl, hc0, hdb, ?_⟩
    intro front back t hfront hback h1 h3
    have hfront' : (s.fit x y).2.x_.head? = some front := by rw [hx]; exact hfront
    have hback' : (s.fit x y).2.x_.getLast? = some back := by rw [hx]; exact hback
    have hf0 : front = vec_get x 0 := by
      rw [head?_eq_getElem?_zero, getElem?_eq_vec_get (by omega)] at hfront
      exact (Option.some.inj hfront).symm
    have hbn : back = vec_get x (x.length - 1) := by
      rw [getLast?_eq_getElem?, getElem?_eq_vec_get (by omega)] at hback
      exact (Option.some.inj hback).symm
    by_cases ht0 : t ≤ front
    · have hteq : t = front := le_antisymm ht0 h1
      rw [evaluate_front _ hf _ _ hfront' ht0, hy]
      rw [vec_front_eq_ok, head?_eq_getElem?_zero, getElem?_eq_vec_get (by omega),
        hline 0 (by omega), hteq, hf0]
    by_cases htn : back ≤ t
    · have hteq : t = back := le_antisymm h3 htn
      rw [evaluate_back _ hf _ _ _ hfront' hback' (not_le.mp ht0) htn, hy]
      rw [vec_back_eq_ok, getLast?_eq_getElem?, getElem?_eq_vec_get (by omega),
        hline _ (by omega), hteq, hbn, hlen]
    · obtain ⟨j, p, q, hj, hj1, hpt, htq⟩ := exists_bracket_left_open x front back t hs
        hfront hback (not_le.mp ht0) (not_le.mp htn)
      have hjl : j + 1 < x.length := by
        by_contra hcon
        rw [List.getElem?_eq_none (by omega)] at hj1
        cases hj1
      rw [evaluate_interior _ hf (by rw [hx]; exact hs) (by rw [hx]; exact h64) j p q t
        back _ _ _ _ (by rw [hx]; exact hj) (by rw [hx]; exact hj1) hpt htq hback'
        (not_le.mp htn) (getElem?_eq_vec_get (by rw [ha]; omega))
        (getElem?_eq_vec_get (by rw [hbl]; omega))
        (getElem?_eq_vec_get (by rw [hcl]; omega))
        (getElem?_eq_vec_get (by rw [hdl]; omega))]
      rw [ha, hline j (by omega), (hdb j (by omega)).1, (hdb j (by omega)).2,
        hc0 j (by omega), vec_get_eq_of_getElem? hj]
      congr 1
      ring
  · intro hl2
    refine ⟨vec_get y 0 - (vec_get y 1 - vec_get y 0) / (vec_get x 1 - vec_get x 0) *
      vec_get x 0, (vec_get y 1 - vec_get y 0) / (vec_get x 1 - vec_get x 0), ?_⟩
    have hp := hstep 0 (by omega)
    intro i hi
    have hi01 : i = 0 ∨ i = 1 := by omega
    rcases hi01 with rfl | rfl
    · ring
    · field_simp
      ring

/-- C40 witness: the two points `(0, 1)` and `(2, 5)`, on the line `1 + 2*x`, evaluated
at `x = 1`. -/
theorem C40_spline_reproduces_lines_witness :
    ((CubicSpline.init : CubicSpline ℚ).fit [0, 2] [1, 5]).2.evaluate 1
      = Except.ok (1 + 2 * 1) :=
  ((C40_spline_reproduces_lines (CubicSpline.init : CubicSpline ℚ) [0, 2] [1, 5]
    ((fit_ok_iff _ _ _).mpr ⟨rfl, by simp, by norm_num [List.Sorted]⟩) (by simp)).1 1 2
    (by
      intro i hi
      have hi01 : i = 0 ∨ i = 1 := by
        simp only [List.length_cons, List.length_nil] at hi
        omega
      rcases hi01 with rfl | rfl <;> norm_num [vec_get])).2.2.2.2.2 0 2 1 rfl rfl
    (by norm_num) (by norm_num)

end spline_lines

/-! ## Repricing a ladder of bonds -/

section ladder_lemmas

variable {α : Type} [LinearOrderedField α] [FloorRing α]

/-- Each bond is repriced by the knots that were known when it was solved together with
its own knot; the returned curve reprices it when it agrees with these. -/
theorem bootstrap_repricing (self : Bootstrapper) (m : Libm α) (bonds : List (BondData α))
    (c : YieldCurve α) (h : self.bootstrap m bonds = Except.ok c) :
    ∀ k b, (Bootstrapper.sort_bonds_by_maturity bonds)[k]? = some b →
      ∃ pts cfs dfk, b.get_payment_times = some pts ∧ b.get_cash_flows = some cfs ∧
        pts ≠ [] ∧ cfs.length = pts.length ∧
        c.discount_factors_[k]? = some dfk ∧
        ((∀ i, i < pts.length - 1 →
            c.D m (pts.getD i 0) = (c.first_knots k).D m (pts.getD i 0)) →
          c.D m (pts.getD (pts.length - 1) 0) = dfk →
          present_value m c pts cfs = b.market_price) := by
  obtain ⟨hv, hloop⟩ := bootstrap_ok self m bonds c h
  obtain ⟨_, hnd⟩ := (validate_bonds_iff bonds).mp hv
  obtain ⟨_, _, _, _, _, _, hk⟩ := bootstrap_loop_spec m _ _ _ c hloop
  intro k b hb
  have hbm : b ∈ bonds := (sort_bonds_perm bonds).mem_iff.mp (List.getElem?_mem hb)
  have hbnd := hnd b hbm
  have hf : 0 < b.payment_frequency := by
    unfold bond_defect at hbnd
    push_neg at hbnd
    exact hbnd.2.2.1
  obtain ⟨df, hsolve, _, hdf⟩ := hk k b hb
  obtain ⟨hfin, _, _⟩ := (solve_ok_iff m b _ df).mp hsolve
  obtain ⟨pts, cfs, last, hp, hc, hne, hlast, _, hval⟩ := (df_final_ok_iff m b _ df).mp hfin
  have hlastv := cash_flows_last b hf cfs last hc hlast
  have hlpos : 0 < last := by
    rw [hlastv]
    exact last_cash_flow_pos b hbnd
  have hlen : cfs.length = pts.length := by
    have h1 := get_payment_times_eq b hf
    have h2 := get_cash_flows_eq b hf
    rw [hp] at h1
    rw [hc] at h2
    rw [Option.some.inj h1, Option.some.inj h2]
    simp [payment_schedule]
  have hrep : (∑ i ∈ Finset.range (pts.length - 1),
      cfs.getD i 0 * (c.first_knots k).D m (pts.getD i 0)) + last * df = b.market_price := by
    rw [hval]
    field_simp
  refine ⟨pts, cfs, df, hp, hc, hne, hlen, hdf, ?_⟩
  intro hsame hlastdf
  obtain ⟨n, hn⟩ : ∃ n, pts.length = n + 1 :=
    ⟨pts.length - 1, by have := List.length_pos.mpr hne; omega⟩
  have hcl := getD_last_of_getLast? cfs last pts.length hlen hlast
  unfold present_value
  simp only [hn, Nat.add_sub_cancel] at hsame hlastdf hrep hcl ⊢
  rw [Finset.sum_range_succ, hcl, hlastdf, ← hrep]
  congr 1
  apply Finset.sum_congr rfl
  intro i hi
  rw [hsame i (Finset.mem_range.mp hi)]

omit [FloorRing α] in
/-- The ladder of maturities `1/f, 2/f, ..., n/f` is strictly increasing. -/
theorem ladder_sorted (f : Int) (hf : 0 < f) (n : Nat) :
    ((List.range n).map (fun (k : Nat) => ((k : α) + 1) / (f : α))).Sorted (· < ·) := by
  have hfpos : (0 : α) < (f : α) := by exact_mod_cast hf
  apply List.pairwise_map.mpr
  apply (List.pairwise_lt_range n).imp
  intro a b hab
  apply div_lt_div_of_pos_right _ hfpos
  have : (a : α) < (b : α) := by exact_mod_cast hab
  linarith

omit [FloorRing α] in
/-- The knot times of a bootstrapped ladder. -/
theorem ladder_sort (bonds : List (BondData α)) (f : Int) (hf : 0 < f)
    (hlad : (bonds.map (fun b => b.maturity)).Perm
      ((List.range bonds.length).map (fun (k : Nat) => ((k : α) + 1) / (f : α)))) :
    (Bootstrapper.sort_bonds_by_maturity bonds).map (fun b => b.maturity) =
      (List.range bonds.length).map (fun (k : Nat) => ((k : α) + 1) / (f : α)) := by
  have h1 : ((Bootstrapper.sort_bonds_by_maturity bonds).map (fun b => b.maturity)).Sorted
      (· ≤ ·) := List.pairwise_map.mpr (sort_bonds_sorted bonds)
  have h2 : ((List.range bonds.length).map
      (fun (k : Nat) => ((k : α) + 1) / (f : α))).Sorted (· ≤ ·) :=
    (ladder_sorted f hf bonds.length).imp (fun h => le_of_lt h)
  exact List.eq_of_perm_of_sorted (((sort_bonds_perm bonds).map _).trans hlad) h1 h2

end ladder_lemmas
section ladder_repricing

/-- C34: for a bond set consisting of `n` bonds with a common payment frequency `f` (a
positive 32-bit `int`) and maturities `1/f, 2/f, ..., n/f`, if `bootstrap` succeeds (over
the reals, with the real `exp`, `log` and `pow`, under any of the three interpolation
strategies) then the returned curve reprices every bond exactly: every
`get_discount_factor(payment_time_i)` returns, and the sum over the bond's payments of
`cash_flow_i * get_discount_factor(payment_time_i)` equals its market price. -/
theorem C34_ladder_repricing (self : Bootstrapper) (bonds : List (BondData ℝ)) (f : Int)
    (c : YieldCurve ℝ) (hf : 0 < f) (hint : f < 2 ^ 31)
    (hfreq : ∀ b ∈ bonds, b.payment_frequency = f)
    (hlad : (bonds.map (fun b => b.maturity)).Perm
      ((List.range bonds.length).map (fun (k : Nat) => ((k : ℝ) + 1) / (f : ℝ))))
    (hb : self.bootstrap (Libm.mk Real.exp Real.log Real.rpow) bonds = Except.ok c) :
    ∀ b ∈ bonds, ∃ pts cfs, b.get_payment_times = some pts ∧ b.get_cash_flows = some cfs ∧
      cfs.length = pts.length ∧
      (∀ i, i < pts.length → ∃ d,
        c.get_discount_factor (Libm.mk Real.exp Real.log Real.rpow) (pts.getD i 0)
          = Except.ok d) ∧
      present_value (Libm.mk Real.exp Real.log Real.rpow) c pts cfs = b.market_price := by
  have hfpos : (0 : ℝ) < (f : ℝ) := by exact_mod_cast hf
  have hfle : (f : ℝ) ≤ 2 ^ 31 := by
    have : (f : ℝ) < ((2 ^ 31 : Int) : ℝ) := by exact_mod_cast hint
    have e : (((2 ^ 31 : Int)) : ℝ) = 2 ^ 31 := by norm_num
    rw [e] at this
    exact this.le
  have hinv := reachable_invariant _ c (bootstrap_reachable self _ bonds c hb)
  obtain ⟨hlen, -, hdv, -⟩ := hinv
  obtain ⟨hv, hfold⟩ := bootstrap_ok self _ bonds c hb
  have hsp : c.use_spline_ = false := (bootstrap_loop_spec _ _ _ _ c hfold).2.2.2.2.2.1
  have htimes : c.times_ =
      (List.range bonds.length).map (fun (k : Nat) => ((k : ℝ) + 1) / (f : ℝ)) := by
    rw [bootstrap_times self _ bonds c hb]
    exact ladder_sort bonds f hf hlad
  have hs : c.times_.Sorted (· < ·) := by
    rw [htimes]
    exact ladder_sorted f hf bonds.length
  have hpos : ∀ d ∈ c.discount_factors_, 0 < d :=
    fun d hd => lt_trans (by norm_num) (hdv d hd).1
  have hn : c.times_.length = bonds.length := by simp [htimes]
  have hknot : ∀ i, i < bonds.length → c.times_[i]? = some (((i : ℝ) + 1) / (f : ℝ)) := by
    intro i hi
    rw [htimes, List.getElem?_map, List.getElem?_range hi]
    rfl
  have hge : ∀ i : Nat, (1e-10 : ℝ) ≤ ((i : ℝ) + 1) / (f : ℝ) := by
    intro i
    rw [le_div_iff₀ hfpos]
    have hi0 : (0 : ℝ) ≤ (i : ℝ) := Nat.cast_nonneg i
    have : (1e-10 : ℝ) * (f : ℝ) ≤ 1e-10 * 2 ^ 31 :=
      mul_le_mul_of_nonneg_left hfle (by norm_num)
    have h2 : (1e-10 : ℝ) * 2 ^ 31 ≤ 1 := by norm_num
    linarith
  have hDc : ∀ i, i < bonds.length → ∃ d, c.discount_factors_[i]? = some d ∧
      c.get_discount_factor (Libm.mk Real.exp Real.log Real.rpow) (((i : ℝ) + 1) / (f : ℝ))
        = Except.ok d := by
    intro i hi
    have hd : c.discount_factors_[i]? = some (c.discount_factors_.get ⟨i, by omega⟩) :=
      List.getElem?_eq_getElem (by omega)
    exact ⟨_, hd, get_discount_factor_at_knot _ c hs hlen hpos hsp
      (Or.inr real_exp_log_laws) i _ _ (hknot i hi) hd (hge i)⟩
  intro b hbm
  have hbl : b ∈ Bootstrapper.sort_bonds_by_maturity bonds :=
    (sort_bonds_perm bonds).mem_iff.mpr hbm
  obtain ⟨k, hk⟩ := List.mem_iff_getElem?.mp hbl
  have hkn : k < bonds.length := by
    have hkl : k < (Bootstrapper.sort_bonds_by_maturity bonds).length := by
      by_contra hcon
      rw [List.getElem?_eq_none (by omega)] at hk
      cases hk
    rw [(sort_bonds_perm bonds).length_eq] at hkl
    exact hkl
  have hmat : b.maturity = ((k : ℝ) + 1) / (f : ℝ) := by
    have h1 : c.times_[k]? = some b.maturity := by
      rw [bootstrap_times self _ bonds c hb, List.getElem?_map, hk]
      rfl
    rw [hknot k hkn] at h1
    exact (Option.some.inj h1).symm
  have hbf : b.payment_frequency = f := hfreq b hbm
  have hfb : 0 < b.payment_frequency := by rw [hbf]; exact hf
  have hcount : payment_count b = k + 1 := by
    apply payment_count_on_grid b hfb (by rw [hbf]; exact hint) (k + 1)
    rw [hmat, hbf]
    push_cast
    ring
  obtain ⟨pts, cfs, dfk, hp, hc, hne, hlen', hdf, himp⟩ :=
    bootstrap_repricing self _ bonds c hb k b hk
  have hpts : pts = payment_schedule b := by
    have := get_payment_times_eq b hfb
    rw [hp] at this
    exact Option.some.inj this
  have hplen : pts.length = k + 1 := by
    rw [hpts, payment_schedule_length, hcount]
  have hpt : ∀ i, i < k + 1 → pts.getD i 0 = ((i : ℝ) + 1) / (f : ℝ) := by
    intro i hi
    rw [List.getD_eq_getElem?_getD, hpts,
      payment_schedule_getElem? b i (by rw [hcount]; exact hi), hbf]
    simp only [Option.getD_some]
    ring
  refine ⟨pts, cfs, hp, hc, hlen', ?_, ?_⟩
  · intro i hi
    rw [hpt i (by omega)]
    obtain ⟨d, -, hd⟩ := hDc i (by omega)
    exact ⟨d, hd⟩
  · apply himp
    · intro i hi
      rw [hplen, Nat.add_sub_cancel] at hi
      rw [hpt i (by omega)]
      obtain ⟨d, hdi, hd⟩ := hDc i (by omega)
      rw [D_of_ok hd]
      have hpart := get_discount_factor_at_knot (Libm.mk Real.exp Real.log Real.rpow)
        (c.first_knots k) (List.Pairwise.take hs)
        (by simp [YieldCurve.first_knots, hlen])
        (fun d hd => hpos d (List.mem_of_mem_take hd)) hsp (Or.inr real_exp_log_laws) i
        (((i : ℝ) + 1) / (f : ℝ)) d
        (by
          show (c.times_.take k)[i]? = _
          rw [List.getElem?_take_of_lt hi]
          exact hknot i (by omega))
        (by
          show (c.discount_factors_.take k)[i]? = _
          rw [List.getElem?_take_of_lt hi]
          exact hdi)
        (hge i)
      rw [D_of_ok hpart]
    · rw [hplen, Nat.add_sub_cancel, hpt k (by omega)]
      obtain ⟨d, hdk, hd⟩ := hDc k hkn
      rw [D_of_ok hd]
      rw [hdf] at hdk
      exact (Option.some.inj hdk).symm

/-- C34 witness: the two demonstration bonds, paying semi-annually and maturing after
`1/2` and `2/2` years. -/
theorem C34_ladder_repricing_witness :
    ∃ pts cfs, (BondData.mk (1 : ℝ) (1 / 50) 2 99 100).get_payment_times = some pts ∧
      (BondData.mk (1 : ℝ) (1 / 50) 2 99 100).get_cash_flows = some cfs ∧
      cfs.length = pts.length ∧
      (∀ i, i < pts.length → ∃ d,
        (YieldCurve.mk [1 / 2, 1] [197 / 200, 19603 / 20200] CompoundingType.CONTINUOUS
          InterpolationType.FLAT_FORWARD none false : YieldCurve ℝ).get_discount_factor
            (Libm.mk Real.exp Real.log Real.rpow) (pts.getD i 0) = Except.ok d) ∧
      present_value (Libm.mk Real.exp Real.log Real.rpow)
        (YieldCurve.mk [1 / 2, 1] [197 / 200, 19603 / 20200] CompoundingType.CONTINUOUS
          InterpolationType.FLAT_FORWARD none false : YieldCurve ℝ) pts cfs =
        (BondData.mk (1 : ℝ) (1 / 50) 2 99 100).market_price :=
  C34_ladder_repricing
    (Bootstrapper.mk CompoundingType.CONTINUOUS InterpolationType.FLAT_FORWARD)
    [BondData.mk (1 / 2 : ℝ) 0 2 (197 / 2) 100, BondData.mk (1 : ℝ) (1 / 50) 2 99 100] 2
    (YieldCurve.mk [1 / 2, 1] [197 / 200, 19603 / 20200] CompoundingType.CONTINUOUS
      InterpolationType.FLAT_FORWARD none false)
    (by decide) (by decide)
    (by
      intro b hb
      simp only [List.mem_cons, List.mem_singleton, List.not_mem_nil, or_false] at hb
      rcases hb with rfl | rfl <;> rfl)
    (List.Perm.of_eq (by norm_num [List.range_succ]))
    (demo_bootstrap CompoundingType.CONTINUOUS InterpolationType.FLAT_FORWARD
      (Libm.mk Real.exp Real.log Real.rpow))
    (BondData.mk (1 : ℝ) (1 / 50) 2 99 100) (by simp)

end ladder_repricing

end yield_curve

namespace implied_vol

/-! ## Put-call parity of the Black-Scholes engine -/

section put_call_parity

variable {α : Type} [LinearOrderedField α]

/-- Away from zero `erf_approx` is an odd function. -/
theorem erf_approx_neg (m : Cmath α) (x : α) (hx : x ≠ 0) :
    NormalDistribution.erf_approx m (-x) = -NormalDistribution.erf_approx m x := by
  simp only [NormalDistribution.erf_approx, abs_neg, ge_iff_le]
  rcases lt_or_gt_of_ne hx with h | h
  · rw [if_pos (by linarith : (0 : α) ≤ -x), if_neg (not_le.mpr h)]
    ring
  · rw [if_neg (by linarith : ¬ (0 : α) ≤ -x), if_pos h.le]
    ring

/-- At zero `erf_approx` returns `1 - (a1 + a2 + a3 + a4 + a5) = 1e-9`. -/
theorem erf_approx_zero (m : Cmath α) (hexp : m.exp 0 = 1) :
    NormalDistribution.erf_approx m 0 = 1e-9 := by
  simp only [NormalDistribution.erf_approx, abs_zero, ge_iff_le, le_refl, if_true, mul_zero,
    add_zero, neg_zero, hexp]
  norm_num

theorem cdf_add_cdf_neg (m : Cmath α) (x : α) (hx : x ≠ 0) :
    NormalDistribution.cdf m x + NormalDistribution.cdf m (-x) = 1 := by
  have h2 : (NormalDistribution.SQRT_2 : α) ≠ 0 := by
    unfold NormalDistribution.SQRT_2
    norm_num
  simp only [NormalDistribution.cdf]
  rw [neg_div, erf_approx_neg m _ (div_ne_zero hx h2)]
  ring

theorem cdf_zero_add_cdf_neg_zero (m : Cmath α) (hexp : m.exp 0 = 1) :
    NormalDistribution.cdf m 0 + NormalDistribution.cdf m (-0) = 1 + 1e-9 := by
  simp only [NormalDistribution.cdf, neg_zero, zero_div, erf_approx_zero m hexp]
  norm_num

/-- The amount by which the call and the put returned by `price` miss put-call parity. -/
theorem parity_gap (m : Cmath α) (S K T r sigma : α) :
    BlackScholesEngine.price m (OptionSpec.mk S K T r OptionType.CALL) sigma -
      BlackScholesEngine.price m (OptionSpec.mk S K T r OptionType.PUT) sigma -
      (S - K * m.exp (-r * T)) =
    S * (NormalDistribution.cdf m
          (BlackScholesEngine.calculate_d1_d2 m (OptionSpec.mk S K T r OptionType.CALL)
            sigma).1 +
        NormalDistribution.cdf m
          (-(BlackScholesEngine.calculate_d1_d2 m (OptionSpec.mk S K T r OptionType.CALL)
            sigma).1) - 1) -
      K * m.exp (-r * T) * (NormalDistribution.cdf m
          (BlackScholesEngine.calculate_d1_d2 m (OptionSpec.mk S K T r OptionType.CALL)
            sigma).2 +
        NormalDistribution.cdf m
          (-(BlackScholesEngine.calculate_d1_d2 m (OptionSpec.mk S K T r OptionType.CALL)
            sigma).2) - 1) := by
  simp only [BlackScholesEngine.price, BlackScholesEngine.calculate_d1_d2, if_true,
    reduceCtorEq, if_false]
  ring

end put_call_parity

section put_call_parity_real

/-- C33 (as stated, refuted): spot = strike = 1 000 000, one year to expiry, rate -12.5%
and volatility 50% give `d1 = 0`; there `cdf(d1) + cdf(-d1) = 1 + 1e-9`, the call and
the put miss parity by `spot * 1e-9 = 1e-3`, and `verify_put_call_parity` with the
default tolerance `1e-4` returns false. -/
theorem C33_counterexample :
    (0 : ℝ) < 1000000 ∧ (0 : ℝ) < 1 ∧ (0 : ℝ) < 1 / 2 ∧
    BlackScholesEngine.price (Cmath.mk Real.exp Real.log Real.sqrt)
        (OptionSpec.mk 1000000 1000000 1 (-1 / 8) OptionType.CALL) (1 / 2) -
      BlackScholesEngine.price (Cmath.mk Real.exp Real.log Real.sqrt)
        (OptionSpec.mk 1000000 1000000 1 (-1 / 8) OptionType.PUT) (1 / 2) -
      (1000000 - 1000000 * Real.exp (-(-1 / 8) * 1)) = 1 / 1000 ∧
    BlackScholesEngine.verify_put_call_parity (Cmath.mk Real.exp Real.log Real.sqrt)
      (BlackScholesEngine.price (Cmath.mk Real.exp Real.log Real.sqrt)
        (OptionSpec.mk 1000000 1000000 1 (-1 / 8) OptionType.CALL) (1 / 2))
      (BlackScholesEngine.price (Cmath.mk Real.exp Real.log Real.sqrt)
        (OptionSpec.mk 1000000 1000000 1 (-1 / 8) OptionType.PUT) (1 / 2))
      (OptionSpec.mk 1000000 1000000 1 (-1 / 8) OptionType.CALL) 1e-4 = false := by
  have hd : BlackScholesEngine.calculate_d1_d2 (Cmath.mk Real.exp Real.log Real.sqrt)
      (OptionSpec.mk 1000000 1000000 1 (-1 / 8) OptionType.CALL) (1 / 2) = (0, -(1 / 2)) := by
    simp only [BlackScholesEngine.calculate_d1_d2, Real.sqrt_one]
    norm_num
  have hgap := parity_gap (Cmath.mk Real.exp Real.log Real.sqrt) 1000000 1000000 1 (-1 / 8)
    (1 / 2)
  rw [hd] at hgap
  simp only [neg_neg] at hgap
  have h1 := cdf_zero_add_cdf_neg_zero (Cmath.mk Real.exp Real.log Real.sqrt) Real.exp_zero
  have h2 := cdf_add_cdf_neg (Cmath.mk Real.exp Real.log Real.sqrt) (1 / 2 : ℝ) (by norm_num)
  have h3 : NormalDistribution.cdf (Cmath.mk Real.exp Real.log Real.sqrt) (-(1 / 2 : ℝ)) +
      NormalDistribution.cdf (Cmath.mk Real.exp Real.log Real.sqrt) (1 / 2 : ℝ) = 1 := by
    rw [add_comm]
    exact h2
  rw [h1, h3] at hgap
  have hval : BlackScholesEngine.price (Cmath.mk Real.exp Real.log Real.sqrt)
        (OptionSpec.mk 1000000 1000000 1 (-1 / 8) OptionType.CALL) (1 / 2) -
      BlackScholesEngine.price (Cmath.mk Real.exp Real.log Real.sqrt)
        (OptionSpec.mk 1000000 1000000 1 (-1 / 8) OptionType.PUT) (1 / 2) -
      (1000000 - 1000000 * Real.exp (-(-1 / 8) * 1)) = 1 / 1000 := by
    rw [hgap]
    norm_num
  refine ⟨by norm_num, by norm_num, by norm_num, hval, ?_⟩
  simp only [BlackScholesEngine.verify_put_call_parity, hval, decide_eq_false_iff_not, not_lt]
  rw [abs_of_pos (by norm_num)]
  norm_num

/-- C33 (amended): for spot, strike and time to expiry `> 0` with the time to expiry at
most `100`, a rate with `|r| ≤ 1`, a volatility in `[0.001, 10]` (the range `VOL_MIN`,
`VOL_MAX` of the solver) and the spot and the discounted strike `strike * e^(-r*T)` at
most `5e4` (over the reals, with the real `exp`, `log` and `sqrt`): the divisor
`vol_sqrt_T = d1 - d2` lies in `(0, 100]` and the exponent `-r*T` in `[-100, 100]`, the
call and the put returned by `price` satisfy
`|(call - put) - (spot - strike * e^(-r*T))| < 1e-4`, and `verify_put_call_parity` with the
default tolerance `1e-4` returns true.  (The proof bounds the left-hand side by
`max(spot, strike * e^(-r*T)) * 1e-9`, at most half of the tolerance.) -/
theorem C33_put_call_parity (S K T r sigma : ℝ) (hS : 0 < S) (hK : 0 < K) (hT : 0 < T)
    (hTmax : T ≤ 100) (hr : |r| ≤ 1) (hsmin : 1e-3 ≤ sigma) (hsmax : sigma ≤ 10)
    (hSmax : S ≤ 5e4) (hKmax : K * Real.exp (-r * T) ≤ 5e4) :
    (0 < (BlackScholesEngine.calculate_d1_d2 (Cmath.mk Real.exp Real.log Real.sqrt)
        (OptionSpec.mk S K T r OptionType.CALL) sigma).1 -
      (BlackScholesEngine.calculate_d1_d2 (Cmath.mk Real.exp Real.log Real.sqrt)
        (OptionSpec.mk S K T r OptionType.CALL) sigma).2 ∧
    (BlackScholesEngine.calculate_d1_d2 (Cmath.mk Real.exp Real.log Real.sqrt)
        (OptionSpec.mk S K T r OptionType.CALL) sigma).1 -
      (BlackScholesEngine.calculate_d1_d2 (Cmath.mk Real.exp Real.log Real.sqrt)
        (OptionSpec.mk S K T r OptionType.CALL) sigma).2 ≤ 100 ∧
    |-r * T| ≤ 100) ∧
    |BlackScholesEngine.price (Cmath.mk Real.exp Real.log Real.sqrt)
          (OptionSpec.mk S K T r OptionType.CALL) sigma -
        BlackScholesEngine.price (Cmath.mk Real.exp Real.log Real.sqrt)
          (OptionSpec.mk S K T r OptionType.PUT) sigma -
        (S - K * Real.exp (-r * T))| < 1e-4 ∧
    BlackScholesEngine.verify_put_call_parity (Cmath.mk Real.exp Real.log Real.sqrt)
      (BlackScholesEngine.price (Cmath.mk Real.exp Real.log Real.sqrt)
        (OptionSpec.mk S K T r OptionType.CALL) sigma)
      (BlackScholesEngine.price (Cmath.mk Real.exp Real.log Real.sqrt)
        (OptionSpec.mk S K T r OptionType.PUT) sigma)
      (OptionSpec.mk S K T r OptionType.CALL) 1e-4 = true := by
  have hgap := parity_gap (Cmath.mk Real.exp Real.log Real.sqrt) S K T r sigma
  have hdf : 0 < Real.exp (-r * T) := Real.exp_pos _
  have hKdf : 0 < K * Real.exp (-r * T) := mul_pos hK hdf
  have hdiff : (BlackScholesEngine.calculate_d1_d2 (Cmath.mk Real.exp Real.log Real.sqrt)
      (OptionSpec.mk S K T r OptionType.CALL) sigma).2 =
      (BlackScholesEngine.calculate_d1_d2 (Cmath.mk Real.exp Real.log Real.sqrt)
        (OptionSpec.mk S K T r OptionType.CALL) sigma).1 - sigma * Real.sqrt T := rfl
  have hsigma : 0 < sigma := lt_of_lt_of_le (by norm_num) hsmin
  have hvs : 0 < sigma * Real.sqrt T := mul_pos hsigma (Real.sqrt_pos.mpr hT)
  have hsq : Real.sqrt T ≤ 10 := Real.sqrt_le_iff.mpr ⟨by norm_num, by linarith⟩
  have hvs2 : sigma * Real.sqrt T ≤ 100 := by
    have := mul_le_mul hsmax hsq (Real.sqrt_nonneg T) (by norm_num : (0 : ℝ) ≤ 10)
    linarith
  have hrT : |-r * T| ≤ 100 := by
    rw [abs_mul, abs_neg, abs_of_pos hT]
    have := mul_le_mul hr hTmax hT.le (by norm_num : (0 : ℝ) ≤ 1)
    linarith
  generalize (BlackScholesEngine.calculate_d1_d2 (Cmath.mk Real.exp Real.log Real.sqrt)
      (OptionSpec.mk S K T r OptionType.CALL) sigma).1 = d1 at hgap hdiff ⊢
  generalize (BlackScholesEngine.calculate_d1_d2 (Cmath.mk Real.exp Real.log Real.sqrt)
      (OptionSpec.mk S K T r OptionType.CALL) sigma).2 = d2 at hgap hdiff ⊢
  have hc : ∀ d : ℝ, 0 ≤ NormalDistribution.cdf (Cmath.mk Real.exp Real.log Real.sqrt) d +
      NormalDistribution.cdf (Cmath.mk Real.exp Real.log Real.sqrt) (-d) - 1 ∧
      NormalDistribution.cdf (Cmath.mk Real.exp Real.log Real.sqrt) d +
      NormalDistribution.cdf (Cmath.mk Real.exp Real.log Real.sqrt) (-d) - 1 ≤ 1e-9 := by
    intro d
    by_cases h : d = 0
    · rw [h, cdf_zero_add_cdf_neg_zero _ Real.exp_zero]
      norm_num
    · rw [cdf_add_cdf_neg _ d h]
      norm_num
  have hA : 0 ≤ S * (NormalDistribution.cdf (Cmath.mk Real.exp Real.log Real.sqrt) d1 +
        NormalDistribution.cdf (Cmath.mk Real.exp Real.log Real.sqrt) (-d1) - 1) ∧
      S * (NormalDistribution.cdf (Cmath.mk Real.exp Real.log Real.sqrt) d1 +
        NormalDistribution.cdf (Cmath.mk Real.exp Real.log Real.sqrt) (-d1) - 1) ≤ 5e-5 := by
    obtain ⟨h0, h9⟩ := hc d1
    constructor
    · exact mul_nonneg hS.le h0
    · have := mul_le_mul hSmax h9 h0 (by norm_num : (0 : ℝ) ≤ 5e4)
      norm_num at this ⊢
      linarith
  have hB : 0 ≤ K * Real.exp (-r * T) *
        (NormalDistribution.cdf (Cmath.mk Real.exp Real.log Real.sqrt) d2 +
        NormalDistribution.cdf (Cmath.mk Real.exp Real.log Real.sqrt) (-d2) - 1) ∧
      K * Real.exp (-r * T) *
        (NormalDistribution.cdf (Cmath.mk Real.exp Real.log Real.sqrt) d2 +
        NormalDistribution.cdf (Cmath.mk Real.exp Real.log Real.sqrt) (-d2) - 1) ≤ 5e-5 := by
    obtain ⟨h0, h9⟩ := hc d2
    constructor
    · exact mul_nonneg hKdf.le h0
    · have := mul_le_mul hKmax h9 h0 (by norm_num : (0 : ℝ) ≤ 5e4)
      norm_num at this ⊢
      linarith
  have habs : |BlackScholesEngine.price (Cmath.mk Real.exp Real.log Real.sqrt)
          (OptionSpec.mk S K T r OptionType.CALL) sigma -
        BlackScholesEngine.price (Cmath.mk Real.exp Real.log Real.sqrt)
          (OptionSpec.mk S K T r OptionType.PUT) sigma -
        (S - K * Real.exp (-r * T))| ≤ 5e-5 := by
    rw [hgap, abs_le]
    constructor <;> linarith [hA.1, hA.2, hB.1, hB.2]
  have hlt : |BlackScholesEngine.price (Cmath.mk Real.exp Real.log Real.sqrt)
          (OptionSpec.mk S K T r OptionType.CALL) sigma -
        BlackScholesEngine.price (Cmath.mk Real.exp Real.log Real.sqrt)
          (OptionSpec.mk S K T r OptionType.PUT) sigma -
        (S - K * Real.exp (-r * T))| < 1e-4 := lt_of_le_of_lt habs (by norm_num)
  refine ⟨⟨?_, ?_, hrT⟩, hlt, ?_⟩
  · rw [hdiff]
    linarith
  · rw [hdiff]
    linarith
  · simp only [BlackScholesEngine.verify_put_call_parity, decide_eq_true_eq]
    exact hlt

/-- C33 witness: the data of the test `BlackScholesTest.PutCallParity` (spot and strike
100, one year, rate 5%, volatility 20%). -/
theorem C33_put_call_parity_witness :
    BlackScholesEngine.verify_put_call_parity (Cmath.mk Real.exp Real.log Real.sqrt)
      (BlackScholesEngine.price (Cmath.mk Real.exp Real.log Real.sqrt)
        (OptionSpec.mk 100 100 1 (1 / 20) OptionType.CALL) (1 / 5))
      (BlackScholesEngine.price (Cmath.mk Real.exp Real.log Real.sqrt)
        (OptionSpec.mk 100 100 1 (1 / 20) OptionType.PUT) (1 / 5))
      (OptionSpec.mk 100 100 1 (1 / 20) OptionType.CALL) 1e-4 = true := by
  have h1 : Real.exp (-(1 / 20) * 1) ≤ 1 := Real.exp_le_one_iff.mpr (by norm_num)
  have h2 : (100 : ℝ) * Real.exp (-(1 / 20) * 1) ≤ 100 :=
    le_trans (mul_le_mul_of_nonneg_left h1 (by norm_num)) (by norm_num)
  exact (C33_put_call_parity 100 100 1 (1 / 20) (1 / 5) (by norm_num) (by norm_num)
    (by norm_num) (by norm_num) (by rw [abs_of_pos (by norm_num)]; norm_num) (by norm_num)
    (by norm_num) (by norm_num) (le_trans h2 (by norm_num))).2.2

end put_call_parity_real

end implied_vol
